import Mathlib

/-!
# VoxelPlugin: collision synthesis and chunk cooking

A shallow embedding of

* `FVoxelAsyncPhysicsCooker_PhysX` (`VoxelAsyncPhysicsCooker_PhysX.cpp`): the per-chunk
  triangle-mesh assembly `CreateTriMesh` and the convex decomposition of
  `CreateSimpleCollision`;
* `UVoxelCookingLibrary::CookVoxelDataImpl`, `FVoxelCookingTask::DoThreadedWork` and
  `FVoxelCookingTaskData::ChunkDone` (`VoxelCookingLibrary.cpp`): the chunk grid, the task
  fan-out, the chunk task and the completion counter;
* `FVoxelSerializationUtilities::CompressData` and `DecompressData`
  (`VoxelSerializationUtilities.cpp`): the chunked archive.

Conventions of the embedding.

* `TArray` contents are lists, `Num()` is the length of the list.
* Values of the machine integer types `int32`, `uint32`, `uint16`, `int64` are integers that are
  wrapped explicitly (`toInt32`, `toUInt32`, `toUInt16`, `toInt64`) wherever the source stores or
  computes them.
* `float` components are rational numbers and float arithmetic is exact.
* The PhysX cooking backend, the renderer and zlib are parameters, as are the constants of the
  serialization header, which is not among the sources.
-/

namespace VoxelPlugin

/-! ## Machine integers -/

/-- The value of an integer after conversion to `int32` (two's complement wrap-around). -/
def toInt32 (x : Int) : Int := (x + 2147483648) % 4294967296 - 2147483648

/-- The value of an integer after conversion to `uint32`. -/
def toUInt32 (x : Int) : Int := x % 4294967296

/-- The value of an integer after conversion to `uint16`. -/
def toUInt16 (x : Int) : Int := x % 65536

/-- The value of an integer after conversion to `int64` (two's complement wrap-around). -/
def toInt64 (x : Int) : Int := (x + 9223372036854775808) % 18446744073709551616 - 9223372036854775808

/-- The constant `MAX_int32`. -/
def MAX_int32 : Int := 2147483647

/-! ## Geometry types -/

/-- The engine type `FVector`: three float components. -/
structure FVector where
  X : ℚ
  Y : ℚ
  Z : ℚ
deriving DecidableEq

/-- The engine type `FIntVector`: three `int32` components. -/
structure FIntVector where
  X : Int
  Y : Int
  Z : Int
deriving DecidableEq

/-- The engine type `FBox`: an axis-aligned box with its validity flag. -/
structure FBox where
  Min : FVector
  Max : FVector
  IsValid : Bool
deriving DecidableEq

/-- The engine type `FTriIndices`: the three `int32` vertex indices of one triangle. -/
structure FTriIndices where
  v0 : Int
  v1 : Int
  v2 : Int
deriving DecidableEq

/-- The index buffer of a section: its elements are `uint16` or `uint32` (`Is32Bit()`). The stored
numbers are read through `GetData_16` and `GetData_32`, which reduce them to the element width. -/
structure FVoxelProcMeshIndexBuffer where
  Is32Bit : Bool
  Data : List Nat
deriving DecidableEq

/-- Number of indices of an index buffer, `GetNumIndices()`. -/
def FVoxelProcMeshIndexBuffer.GetNumIndices (IndexBuffer : FVoxelProcMeshIndexBuffer) : Nat :=
  IndexBuffer.Data.length

/-- Element `Index` of the array returned by `GetData_16()`. -/
def FVoxelProcMeshIndexBuffer.GetData_16 (IndexBuffer : FVoxelProcMeshIndexBuffer) (Index : Nat) : Int :=
  toUInt16 (IndexBuffer.Data.getD Index 0)

/-- Element `Index` of the array returned by `GetData_32()`. -/
def FVoxelProcMeshIndexBuffer.GetData_32 (IndexBuffer : FVoxelProcMeshIndexBuffer) (Index : Nat) : Int :=
  toUInt32 (IndexBuffer.Data.getD Index 0)

/-- The index values of a buffer as the code reads them, in buffer order. -/
def FVoxelProcMeshIndexBuffer.values (IndexBuffer : FVoxelProcMeshIndexBuffer) : List Int :=
  (List.range IndexBuffer.GetNumIndices).map fun Index =>
    if IndexBuffer.Is32Bit then IndexBuffer.GetData_32 Index else IndexBuffer.GetData_16 Index

/-- One geometry buffer (`FVoxelProcMeshBuffers`): the positions of the position vertex buffer, the
index buffer and the collision cubes. -/
structure FVoxelProcMeshBuffers where
  PositionVertexBuffer : List FVector
  IndexBuffer : FVoxelProcMeshIndexBuffer
  CollisionCubes : List FBox
deriving DecidableEq

/-- Number of vertices of a buffer, `GetNumVertices()`. -/
def FVoxelProcMeshBuffers.GetNumVertices (Buffer : FVoxelProcMeshBuffers) : Nat :=
  Buffer.PositionVertexBuffer.length

/-- Number of indices of a buffer, `GetNumIndices()`. -/
def FVoxelProcMeshBuffers.GetNumIndices (Buffer : FVoxelProcMeshBuffers) : Nat :=
  Buffer.IndexBuffer.GetNumIndices

/-! ## CreateTriMesh: copy data from buffers -/

/-- The three arrays filled by `CreateTriMesh`, with the running `VertexOffset`, the capacities
obtained from `Reserve` and a flag telling that every `check` on the slack held so far. -/
structure FTriMeshArrays where
  Vertices : List FVector
  Indices : List FTriIndices
  MaterialIndices : List Int
  VertexOffset : Int
  VerticesMax : Nat
  IndicesMax : Nat
  MaterialIndicesMax : Nat
  ChecksHeld : Bool
deriving DecidableEq

/-- The sum `NumVertices` of the `Reserve` block, accumulated in an `int32`. -/
def reserveNumVertices (Buffers : List FVoxelProcMeshBuffers) : Int :=
  Buffers.foldl (fun NumVertices Buffer => toInt32 (NumVertices + Buffer.GetNumVertices)) 0

/-- The sum `NumIndices` of the `Reserve` block, accumulated in an `int32`. -/
def reserveNumIndices (Buffers : List FVoxelProcMeshBuffers) : Int :=
  Buffers.foldl (fun NumIndices Buffer => toInt32 (NumIndices + Buffer.GetNumIndices)) 0

/-- The arrays after the `Reserve` block: empty, `VertexOffset = 0`; `Reserve(Number)` gives room
for `Number` elements, and for none when `Number` is negative. -/
def reserveArrays (Buffers : List FVoxelProcMeshBuffers) : FTriMeshArrays where
  Vertices := []
  Indices := []
  MaterialIndices := []
  VertexOffset := 0
  VerticesMax := (reserveNumVertices Buffers).toNat
  IndicesMax := (reserveNumIndices Buffers).toNat
  MaterialIndicesMax := (reserveNumIndices Buffers).toNat
  ChecksHeld := true

/-- The expression `Data[k] + VertexOffset` as stored in an `int32` field of `FTriIndices`. For
`uint16` data the operands are promoted to `int`; for `uint32` data the sum is formed in `uint32`
and then converted. -/
def offsetIndex (Is32Bit : Bool) (Value VertexOffset : Int) : Int :=
  if Is32Bit then toInt32 (toUInt32 (Value + toUInt32 VertexOffset))
  else toInt32 (Value + VertexOffset)

/-- The body of `Lambda` in "Copy triangles" for one `Index`. -/
def copyTriangle (IndexBuffer : FVoxelProcMeshIndexBuffer) (VertexOffset : Int) (Index : Nat) :
    FTriIndices :=
  if IndexBuffer.Is32Bit then
    { v0 := offsetIndex true (IndexBuffer.GetData_32 (3 * Index + 0)) VertexOffset
      v1 := offsetIndex true (IndexBuffer.GetData_32 (3 * Index + 1)) VertexOffset
      v2 := offsetIndex true (IndexBuffer.GetData_32 (3 * Index + 2)) VertexOffset }
  else
    { v0 := offsetIndex false (IndexBuffer.GetData_16 (3 * Index + 0)) VertexOffset
      v1 := offsetIndex false (IndexBuffer.GetData_16 (3 * Index + 1)) VertexOffset
      v2 := offsetIndex false (IndexBuffer.GetData_16 (3 * Index + 2)) VertexOffset }

/-- The triangles appended for one buffer: `Index` runs from `0` to `NumTriangles - 1`. -/
def copyTriangles (IndexBuffer : FVoxelProcMeshIndexBuffer) (VertexOffset : Int) : List FTriIndices :=
  (List.range (IndexBuffer.GetNumIndices / 3)).map (copyTriangle IndexBuffer VertexOffset)

/-- One iteration of the loop over `SectionIndex` in `CreateTriMesh`. -/
def copyBuffer (Arrays : FTriMeshArrays) (SectionIndex : Nat) (Buffer : FVoxelProcMeshBuffers) :
    FTriMeshArrays :=
  let NumTriangles := Buffer.IndexBuffer.GetNumIndices / 3
  let Vertices := Arrays.Vertices ++ Buffer.PositionVertexBuffer
  { Vertices := Vertices
    Indices := Arrays.Indices ++ copyTriangles Buffer.IndexBuffer Arrays.VertexOffset
    MaterialIndices := Arrays.MaterialIndices ++ List.replicate NumTriangles (toUInt16 SectionIndex)
    VertexOffset := Vertices.length
    VerticesMax := max Arrays.VerticesMax Vertices.length
    IndicesMax := max Arrays.IndicesMax (Arrays.Indices.length + NumTriangles)
    MaterialIndicesMax := max Arrays.MaterialIndicesMax (Arrays.MaterialIndices.length + NumTriangles)
    ChecksHeld := Arrays.ChecksHeld
      && decide (Buffer.PositionVertexBuffer.length ≤ Arrays.VerticesMax - Arrays.Vertices.length)
      && decide (NumTriangles ≤ Arrays.IndicesMax - Arrays.Indices.length)
      && decide (NumTriangles ≤ Arrays.MaterialIndicesMax - Arrays.MaterialIndices.length) }

/-- The loop `for (SectionIndex = ...; SectionIndex < Buffers.Num(); SectionIndex++)`, started at
`SectionIndex` on the buffers still to be visited. -/
def copyLoop : List FVoxelProcMeshBuffers → Nat → FTriMeshArrays → FTriMeshArrays
  | [], _, Arrays => Arrays
  | Buffer :: Rest, SectionIndex, Arrays =>
      copyLoop Rest (SectionIndex + 1) (copyBuffer Arrays SectionIndex Buffer)

/-- The block "Copy data from buffers" of `CreateTriMesh`: the arrays handed to the backend. -/
def copyDataFromBuffers (Buffers : List FVoxelProcMeshBuffers) : FTriMeshArrays :=
  copyLoop Buffers 0 (reserveArrays Buffers)

/-- Number of triangles of a buffer, `IndexBuffer.GetNumIndices() / 3`. -/
def FVoxelProcMeshBuffers.NumTriangles (Buffer : FVoxelProcMeshBuffers) : Nat :=
  Buffer.IndexBuffer.GetNumIndices / 3

/-- Total number of vertices of the first `i` buffers. -/
def verticesBefore (Buffers : List FVoxelProcMeshBuffers) (i : Nat) : Nat :=
  ((Buffers.take i).map FVoxelProcMeshBuffers.GetNumVertices).sum

/-- Total number of triangles of the first `i` buffers. -/
def trianglesBefore (Buffers : List FVoxelProcMeshBuffers) (i : Nat) : Nat :=
  ((Buffers.take i).map FVoxelProcMeshBuffers.NumTriangles).sum

/-- Index triple number `k` of an index buffer, as stored in the buffer. -/
def storedTriple (IndexBuffer : FVoxelProcMeshIndexBuffer) (k : Nat) : FTriIndices where
  v0 := IndexBuffer.values.getD (3 * k + 0) 0
  v1 := IndexBuffer.values.getD (3 * k + 1) 0
  v2 := IndexBuffer.values.getD (3 * k + 2) 0

/-- An index triple with every index increased by `Offset`. -/
def FTriIndices.increasedBy (Triple : FTriIndices) (Offset : Int) : FTriIndices where
  v0 := Triple.v0 + Offset
  v1 := Triple.v1 + Offset
  v2 := Triple.v2 + Offset

/-- An index triple with every index increased by `Offset` in `int32` arithmetic. -/
def FTriIndices.increasedByInt32 (Triple : FTriIndices) (Offset : Int) : FTriIndices where
  v0 := toInt32 (Triple.v0 + Offset)
  v1 := toInt32 (Triple.v1 + Offset)
  v2 := toInt32 (Triple.v2 + Offset)

/-- The property of the material tags: the tag of triangle `k` of the buffer at position `i` is
`i`. -/
def MaterialTagsArePositions (Buffers : List FVoxelProcMeshBuffers) : Prop :=
  ∀ i k : Nat, ∀ Buffer, Buffers[i]? = some Buffer → k < Buffer.NumTriangles →
    (copyDataFromBuffers Buffers).MaterialIndices[trianglesBefore Buffers i + k]? = some (i : Int)

/-- The property of the merged triangles: triangle `k` of the buffer at position `i` is the stored
triple with every index increased by the number of vertices of the buffers before `i`. -/
def TrianglesAreOffsetTriples (Buffers : List FVoxelProcMeshBuffers) : Prop :=
  ∀ i k : Nat, ∀ Buffer, Buffers[i]? = some Buffer → k < Buffer.NumTriangles →
    (copyDataFromBuffers Buffers).Indices[trianglesBefore Buffers i + k]? =
      some ((storedTriple Buffer.IndexBuffer k).increasedBy (verticesBefore Buffers i))

/-! ## Engine types used by the cooker -/

/-- The part of `FTransform` used by the cooker: `TransformPosition` and `FBox::TransformBy`. -/
structure FTransform where
  TransformPosition : FVector → FVector
  TransformBox : FBox → FBox

/-- The engine enumeration `ECollisionTraceFlag`. -/
inductive ECollisionTraceFlag where
  | CTF_UseDefault
  | CTF_UseSimpleAndComplex
  | CTF_UseSimpleAsComplex
  | CTF_UseComplexAsSimple
deriving DecidableEq

/-- The engine enumeration `EPhysXCookingResult`. -/
inductive EPhysXCookingResult where
  | Failed
  | SucceededWithInflation
  | Succeeded
deriving DecidableEq

/-- The bits of `EPhysXMeshCookFlags` set by the cooker; `Default` has no bit set. -/
structure EPhysXMeshCookFlags where
  DeformableMesh : Bool
  FastCook : Bool
deriving DecidableEq

/-- The value `EPhysXMeshCookFlags::Default`. -/
def EPhysXMeshCookFlags.Default : EPhysXMeshCookFlags := { DeformableMesh := false, FastCook := false }

/-- A cooked triangle mesh: an opaque handle with the size that
`FVoxelPhysXHelpers::GetAllocatedSize` reports for it. -/
structure PxTriangleMesh where
  Handle : Nat
  AllocatedSize : Nat
deriving DecidableEq

/-- A cooked convex mesh: an opaque handle. -/
structure PxConvexMesh where
  Handle : Nat
deriving DecidableEq

/-- The cooking backend `IPhysXCooking`. `CreateTriMesh` receives the cook flags, the vertices, the
triangles, the material indices and `bFlipNormals`, and returns `bSuccess` with the mesh pointer;
`CreateConvex` receives the cook flags and the vertices and returns the result with the mesh
pointer; `CookTriMesh` receives the arguments of `CreateTriMesh` and returns the result with the
bytes written to the out buffer. A null pointer is `none`. -/
structure IPhysXCooking where
  CreateTriMesh : EPhysXMeshCookFlags → List FVector → List FTriIndices → List Int → Bool →
    Bool × Option PxTriangleMesh
  CreateConvex : EPhysXMeshCookFlags → List FVector → EPhysXCookingResult × Option PxConvexMesh
  CookTriMesh : EPhysXMeshCookFlags → List FVector → List FTriIndices → List Int → Bool →
    Bool × List Nat

/-- The engine type `FKBoxElem`, as far as the cooker sets it. -/
structure FKBoxElem where
  Center : FVector
  X : ℚ
  Y : ℚ
  Z : ℚ
deriving DecidableEq

/-- The engine type `FKConvexElem`, as far as the cooker uses it. -/
structure FKConvexElem where
  VertexData : List FVector
  ElemBox : FBox
deriving DecidableEq

/-- The type `FVoxelSimpleCollisionData`. -/
structure FVoxelSimpleCollisionData where
  Bounds : FBox
  BoxElems : List FKBoxElem
  ConvexElems : List FKConvexElem
  ConvexMeshes : List (Option PxConvexMesh)
deriving DecidableEq

/-- The member `FCookResult` of the cooker; a null `SimpleCollisionData` is `none`. -/
structure FCookResult where
  SimpleCollisionData : Option FVoxelSimpleCollisionData
  TriangleMeshes : List (Option PxTriangleMesh)
  TriangleMeshesMemoryUsage : Nat
deriving DecidableEq

/-- One step of the cooker that is visible from outside: `CookMesh` calling one of the two member
functions, or a member function calling the backend `PhysXCooking` with the given arguments. -/
inductive ECookerStep where
  | CreateSimpleCollision
  | CreateTriMesh
  | BackendCreateConvex (CookFlags : EPhysXMeshCookFlags) (VertexData : List FVector)
  | BackendCreateTriMesh (CookFlags : EPhysXMeshCookFlags) (Vertices : List FVector)
      (Indices : List FTriIndices) (MaterialIndices : List Int) (bFlipNormals : Bool)
deriving DecidableEq

/-- The cooker `FVoxelAsyncPhysicsCooker_PhysX` with the members of its base class read by the
code: the buffers, `LOD`, `NumConvexHullsPerAxis`, `bSimpleCubicCollision`, `bCleanCollisionMesh`,
`CollisionTraceFlag` and `LocalToRoot`. `Steps` is not a member of the class: it records, in
program order, the steps of `CookMesh` done so far. -/
structure FVoxelAsyncPhysicsCooker_PhysX where
  Buffers : List FVoxelProcMeshBuffers
  LOD : Nat
  NumConvexHullsPerAxis : Int
  bSimpleCubicCollision : Bool
  bCleanCollisionMesh : Bool
  CollisionTraceFlag : ECollisionTraceFlag
  LocalToRoot : FTransform
  ErrorCounter : Int
  CookResult : FCookResult
  Steps : List ECookerStep := []

/-- Modelled from the spec: the macro `MESHER_CHUNK_SIZE` is not defined under `src/`; the spec
fixes the chunk edge length to 32. -/
def MESHER_CHUNK_SIZE : Int := 32

/-- The float arithmetic of the engine used by the convex branch of `CreateSimpleCollision`: the
`FVector` operators (taken one component at a time), the conversion of an `int32` operand to
`float`, and the components of `FVoxelUtilities::CeilToInt` and `FVoxelUtilities::FloorToInt`.
None of them is defined under `src/`, so they are parameters of the model. A finite float is the
rational it denotes. Nothing is assumed about rounding, about overflow or about the result of the
two conversions to `int32`: whatever the engine computes is one choice of these functions. -/
structure FFloatMath where
  ofInt : Int → ℚ
  add : ℚ → ℚ → ℚ
  sub : ℚ → ℚ → ℚ
  mul : ℚ → ℚ → ℚ
  div : ℚ → ℚ → ℚ
  CeilToInt : ℚ → Int
  FloorToInt : ℚ → Int

/-! ## FVector and FBox operations -/

/-- The value `FBox(ForceInit)`: zero corners, not valid. -/
def FBox.ForceInit : FBox := { Min := ⟨0, 0, 0⟩, Max := ⟨0, 0, 0⟩, IsValid := false }

/-- The operation `Box += Point`. -/
def FBox.addPoint (Box : FBox) (Point : FVector) : FBox :=
  if Box.IsValid then
    { Min := ⟨min Box.Min.X Point.X, min Box.Min.Y Point.Y, min Box.Min.Z Point.Z⟩
      Max := ⟨max Box.Max.X Point.X, max Box.Max.Y Point.Y, max Box.Max.Z Point.Z⟩
      IsValid := true }
  else { Min := Point, Max := Point, IsValid := true }

/-- The operation `Box += Other` for two boxes. -/
def FBox.addBox (Box Other : FBox) : FBox :=
  if Box.IsValid && Other.IsValid then
    { Min := ⟨min Box.Min.X Other.Min.X, min Box.Min.Y Other.Min.Y, min Box.Min.Z Other.Min.Z⟩
      Max := ⟨max Box.Max.X Other.Max.X, max Box.Max.Y Other.Max.Y, max Box.Max.Z Other.Max.Z⟩
      IsValid := true }
  else if Other.IsValid then Other
  else Box

/-- The engine function `FBox::GetSize`: `Max - Min`, a float subtraction on every component. -/
def FBox.GetSize (Box : FBox) (F : FFloatMath) : FVector :=
  ⟨F.sub Box.Max.X Box.Min.X, F.sub Box.Max.Y Box.Min.Y, F.sub Box.Max.Z Box.Min.Z⟩

/-- The engine function `FBox::GetCenter`. -/
def FBox.GetCenter (Box : FBox) : FVector :=
  ⟨(Box.Min.X + Box.Max.X) / 2, (Box.Min.Y + Box.Max.Y) / 2, (Box.Min.Z + Box.Max.Z) / 2⟩

/-- The engine function `FBox::GetExtent`. -/
def FBox.GetExtent (Box : FBox) : FVector :=
  ⟨(Box.Max.X - Box.Min.X) / 2, (Box.Max.Y - Box.Min.Y) / 2, (Box.Max.Z - Box.Min.Z) / 2⟩

/-- The engine function `FKConvexElem::UpdateElemBox`: the box of the vertices. -/
def UpdateElemBox (VertexData : List FVector) : FKConvexElem :=
  { VertexData := VertexData, ElemBox := VertexData.foldl FBox.addPoint FBox.ForceInit }

/-- The function `FMath::Clamp` on integers. -/
def Clamp (x Min Max : Int) : Int := if x < Min then Min else if x < Max then x else Max

/-! ## CreateSimpleCollision: convex decomposition -/

/-- The function `GetCookFlags`. -/
def GetCookFlags (self : FVoxelAsyncPhysicsCooker_PhysX) : EPhysXMeshCookFlags :=
  let CookFlags := EPhysXMeshCookFlags.Default
  let CookFlags :=
    if !self.bCleanCollisionMesh then { CookFlags with DeformableMesh := true } else CookFlags
  { CookFlags with FastCook := true }

/-- The local `Box`: the box of the vertex positions of all buffers. -/
def verticesBox (Buffers : List FVoxelProcMeshBuffers) : FBox :=
  Buffers.foldl (fun Box Buffer => Buffer.PositionVertexBuffer.foldl FBox.addPoint Box)
    FBox.ForceInit

/-- The local `ChunkSize = MESHER_CHUNK_SIZE << LOD`. -/
def ChunkSize (LOD : Nat) : Int := toInt32 (MESHER_CHUNK_SIZE * 2 ^ LOD)

/-- The local `Size`: `ComponentMax(FIntVector(1), CeilToInt(Box.GetSize() / ChunkSize *
NumConvexHullsPerAxis))`; the two `int32` operands are converted to `float`. -/
def gridSize (F : FFloatMath) (Box : FBox) (LOD : Nat) (NumConvexHullsPerAxis : Int) :
    FIntVector :=
  { X := max 1 (F.CeilToInt
      (F.mul (F.div (Box.GetSize F).X (F.ofInt (ChunkSize LOD))) (F.ofInt NumConvexHullsPerAxis)))
    Y := max 1 (F.CeilToInt
      (F.mul (F.div (Box.GetSize F).Y (F.ofInt (ChunkSize LOD))) (F.ofInt NumConvexHullsPerAxis)))
    Z := max 1 (F.CeilToInt
      (F.mul (F.div (Box.GetSize F).Z (F.ofInt (ChunkSize LOD))) (F.ofInt NumConvexHullsPerAxis))) }

/-- The engine function `FIntVector::GetMax`. -/
def FIntVector.GetMax (V : FIntVector) : Int := max (max V.X V.Y) V.Z

/-- The local `Position` of `Lambda` after clamping, for the offsets `OffsetX`, `OffsetY`,
`OffsetZ`: `Offset = FVector(OffsetX, OffsetY, OffsetZ) * (1 << LOD)`, then
`FloorToInt((Vertex + Offset - Box.Min) / ChunkSize * NumConvexHullsPerAxis)` clamped to
`[FIntVector(0), Size - 1]`. -/
def bucketPosition (F : FFloatMath) (Box : FBox) (Size : FIntVector) (LOD : Nat)
    (NumConvexHullsPerAxis : Int) (Vertex : FVector) (OffsetX OffsetY OffsetZ : Int) : FIntVector :=
  let Scale : ℚ := F.ofInt (toInt32 (2 ^ LOD))
  let Offset : FVector :=
    ⟨F.mul (F.ofInt OffsetX) Scale, F.mul (F.ofInt OffsetY) Scale, F.mul (F.ofInt OffsetZ) Scale⟩
  { X := Clamp (F.FloorToInt (F.mul (F.div (F.sub (F.add Vertex.X Offset.X) Box.Min.X)
        (F.ofInt (ChunkSize LOD))) (F.ofInt NumConvexHullsPerAxis))) 0 (Size.X - 1)
    Y := Clamp (F.FloorToInt (F.mul (F.div (F.sub (F.add Vertex.Y Offset.Y) Box.Min.Y)
        (F.ofInt (ChunkSize LOD))) (F.ofInt NumConvexHullsPerAxis))) 0 (Size.Y - 1)
    Z := Clamp (F.FloorToInt (F.mul (F.div (F.sub (F.add Vertex.Z Offset.Z) Box.Min.Z)
        (F.ofInt (ChunkSize LOD))) (F.ofInt NumConvexHullsPerAxis))) 0 (Size.Z - 1) }

/-- The index `Position.X + Size.X * Position.Y + Size.X * Size.Y * Position.Z` into
`ConvexElems`. -/
def bucketIndex (Size Position : FIntVector) : Int :=
  Position.X + Size.X * Position.Y + Size.X * Size.Y * Position.Z

/-- The statement `ConvexElems[Index].VertexData.Add(Vertex)`. -/
def addToBucket : List (List FVector) → Nat → FVector → List (List FVector)
  | [], _, _ => []
  | Element :: Rest, 0, Vertex => (Element ++ [Vertex]) :: Rest
  | Element :: Rest, Index + 1, Vertex => Element :: addToBucket Rest Index Vertex

/-- One call of `Lambda(OffsetX, OffsetY, OffsetZ)` for `Vertex`; the state is `ConvexElems` with
the captured `MainPosition`. -/
def Lambda (F : FFloatMath) (Box : FBox) (Size : FIntVector) (LOD : Nat) (NumConvexHullsPerAxis : Int)
    (Vertex : FVector) (State : List (List FVector) × FIntVector) (OffsetX OffsetY OffsetZ : Int) :
    List (List FVector) × FIntVector :=
  let Position := bucketPosition F Box Size LOD NumConvexHullsPerAxis Vertex OffsetX OffsetY OffsetZ
  if OffsetX = 0 ∧ OffsetY = 0 ∧ OffsetZ = 0 then
    (addToBucket State.1 (bucketIndex Size Position).toNat Vertex, Position)
  else if Position = State.2 then State
  else (addToBucket State.1 (bucketIndex Size Position).toNat Vertex, State.2)

/-- The seven calls of `Lambda` for one vertex. -/
def assignVertex (F : FFloatMath) (Box : FBox) (Size : FIntVector) (LOD : Nat) (NumConvexHullsPerAxis : Int)
    (ConvexElems : List (List FVector)) (Vertex : FVector) : List (List FVector) :=
  let L := Lambda F Box Size LOD NumConvexHullsPerAxis Vertex
  let State := L (ConvexElems, ⟨0, 0, 0⟩) 0 0 0
  let State := L State 1 0 0
  let State := L State (-1) 0 0
  let State := L State 0 1 0
  let State := L State 0 (-1) 0
  let State := L State 0 0 1
  let State := L State 0 0 (-1)
  State.1

/-- The loops over the buffers and their vertices that fill `ConvexElems`. -/
def assignVertices (F : FFloatMath) (Box : FBox) (Size : FIntVector) (LOD : Nat) (NumConvexHullsPerAxis : Int)
    (Buffers : List FVoxelProcMeshBuffers) (ConvexElems : List (List FVector)) :
    List (List FVector) :=
  Buffers.foldl (fun Elems Buffer =>
    Buffer.PositionVertexBuffer.foldl (assignVertex F Box Size LOD NumConvexHullsPerAxis) Elems)
    ConvexElems

/-- The constant `Threshold`. -/
def Threshold : Nat := 8

/-- The body of the forward merge loop for one `Index`. -/
def mergeForwardStep (ConvexElems : List (List FVector)) (Index : Nat) : List (List FVector) :=
  let Element := ConvexElems.getD Index []
  if Element.length < Threshold then
    (ConvexElems.set (Index + 1) (ConvexElems.getD (Index + 1) [] ++ Element)).set Index []
  else ConvexElems

/-- The forward merge loop: `Index` runs from `0` to `ConvexElems.Num() - 2`. -/
def mergeForward (ConvexElems : List (List FVector)) : List (List FVector) :=
  (List.range (ConvexElems.length - 1)).foldl mergeForwardStep ConvexElems

/-- The statement `ConvexElems.RemoveAll(...)` that removes the empty hulls. -/
def removeEmpty (ConvexElems : List (List FVector)) : List (List FVector) :=
  ConvexElems.filter fun Element => Element.length != 0

/-- The condition of the backward merge loop. -/
def mergeBackwardCondition (ConvexElems : List (List FVector)) : Bool :=
  decide ((ConvexElems.getLastD []).length < Threshold) && decide (ConvexElems.length > 1)

/-- The body of the backward merge loop: append the last hull to the one before it and pop it. -/
def mergeBackwardStep (ConvexElems : List (List FVector)) : List (List FVector) :=
  (ConvexElems.set (ConvexElems.length - 2)
    (ConvexElems.getD (ConvexElems.length - 2) [] ++ ConvexElems.getLastD [])).dropLast

/-- The backward merge loop, run for at most `Fuel` iterations. -/
def mergeBackwardLoop : Nat → List (List FVector) → List (List FVector)
  | 0, ConvexElems => ConvexElems
  | Fuel + 1, ConvexElems =>
      if mergeBackwardCondition ConvexElems then mergeBackwardLoop Fuel (mergeBackwardStep ConvexElems)
      else ConvexElems

/-- The backward merge loop; every iteration pops one hull, so `ConvexElems.Num()` iterations are
enough. -/
def mergeBackward (ConvexElems : List (List FVector)) : List (List FVector) :=
  mergeBackwardLoop ConvexElems.length ConvexElems

/-- The convex branch of `CreateSimpleCollision` up to the end of hull merging: the vertex data of
the hulls that remain, or `none` when the branch returns at one of its two guards (`Size.GetMax()
<= 64`, `ConvexElems.Num() > 0`). -/
def mergedConvexElems (F : FFloatMath) (self : FVoxelAsyncPhysicsCooker_PhysX) : Option (List (List FVector)) :=
  let Box := verticesBox self.Buffers
  let Size := gridSize F Box self.LOD self.NumConvexHullsPerAxis
  if ¬ Size.GetMax ≤ 64 then none
  else
    let ConvexElems := List.replicate (Size.X * Size.Y * Size.Z).toNat ([] : List FVector)
    let ConvexElems := assignVertices F Box Size self.LOD self.NumConvexHullsPerAxis self.Buffers
      ConvexElems
    let ConvexElems := mergeForward ConvexElems
    let ConvexElems := removeEmpty ConvexElems
    if ¬ ConvexElems.length > 0 then none
    else some (mergeBackward ConvexElems)

/-- Whether `CreateSimpleCollision` returns at its first statement. -/
def returnsAtOnce (self : FVoxelAsyncPhysicsCooker_PhysX) : Bool :=
  match self.Buffers with
  | [Buffer] => decide (Buffer.GetNumVertices < 4)
  | _ => false

/-- The vertex arrays handed to `PhysXCooking->CreateConvex` by `CreateSimpleCollision`, in call
order: the merged hulls after the transform to root space. No call is made when the function
returns at once, in cubic mode, or when the convex branch returns at a guard. -/
def convexCookInputs (F : FFloatMath) (self : FVoxelAsyncPhysicsCooker_PhysX) : List (List FVector) :=
  if returnsAtOnce self then []
  else if self.bSimpleCubicCollision then []
  else
    match mergedConvexElems F self with
    | none => []
    | some ConvexElems => ConvexElems.map fun VertexData =>
        VertexData.map self.LocalToRoot.TransformPosition

/-- Whether `CreateSimpleCollision` reaches the loop that cooks the hulls. -/
def reachesHullCooking (F : FFloatMath) (self : FVoxelAsyncPhysicsCooker_PhysX) : Bool :=
  !returnsAtOnce self && !self.bSimpleCubicCollision && (mergedConvexElems F self).isSome

/-- The loop "Finally, create the physx data": one `CreateConvex` call per hull; a `Failed` result
increments the error counter; the mesh pointer is added to `ConvexMeshes` in every case. -/
def cookConvexElems (Cooking : IPhysXCooking) (CookFlags : EPhysXMeshCookFlags) :
    List FKConvexElem → Int × List (Option PxConvexMesh) → Int × List (Option PxConvexMesh)
  | [], State => State
  | Element :: Rest, (ErrorCounter, ConvexMeshes) =>
      let Result := Cooking.CreateConvex CookFlags Element.VertexData
      let ErrorCounter :=
        match Result.1 with
        | EPhysXCookingResult.Failed => toInt32 (ErrorCounter + 1)
        | EPhysXCookingResult.SucceededWithInflation => ErrorCounter
        | EPhysXCookingResult.Succeeded => ErrorCounter
      cookConvexElems Cooking CookFlags Rest (ErrorCounter, ConvexMeshes ++ [Result.2])

/-- The box elements of cubic mode with the bounds: one element per cube, in buffer order. -/
def cubicBoxElems (LocalToRoot : FTransform) (Buffers : List FVoxelProcMeshBuffers) :
    FBox × List FKBoxElem :=
  Buffers.foldl (fun State Buffer =>
    Buffer.CollisionCubes.foldl (fun State Cube =>
      let Cube := LocalToRoot.TransformBox Cube
      (State.1.addBox Cube,
        State.2 ++ [{ Center := Cube.GetCenter, X := Cube.GetExtent.X * 2, Y := Cube.GetExtent.Y * 2,
                      Z := Cube.GetExtent.Z * 2 }])) State)
    (FBox.ForceInit, [])

/-- The function `CreateSimpleCollision`. -/
def CreateSimpleCollision (F : FFloatMath) (Cooking : IPhysXCooking) (self : FVoxelAsyncPhysicsCooker_PhysX) :
    FVoxelAsyncPhysicsCooker_PhysX :=
  if returnsAtOnce self then self
  else
    let Empty : FVoxelSimpleCollisionData :=
      { Bounds := FBox.ForceInit, BoxElems := [], ConvexElems := [], ConvexMeshes := [] }
    if self.bSimpleCubicCollision then
      let Boxes := cubicBoxElems self.LocalToRoot self.Buffers
      { self with CookResult := { self.CookResult with
          SimpleCollisionData := some { Empty with Bounds := Boxes.1, BoxElems := Boxes.2 } } }
    else
      match mergedConvexElems F self with
      | none =>
          { self with CookResult := { self.CookResult with SimpleCollisionData := some Empty } }
      | some Merged =>
          let ConvexElems := Merged.map fun VertexData =>
            UpdateElemBox (VertexData.map self.LocalToRoot.TransformPosition)
          let Bounds := ConvexElems.foldl (fun Bounds Element => Bounds.addBox Element.ElemBox)
            FBox.ForceInit
          let Cooked := cookConvexElems Cooking (GetCookFlags self) ConvexElems (self.ErrorCounter, [])
          { self with
            ErrorCounter := Cooked.1
            CookResult := { self.CookResult with
              SimpleCollisionData := some
                { Bounds := Bounds, BoxElems := [], ConvexElems := ConvexElems,
                  ConvexMeshes := Cooked.2 } }
            Steps := self.Steps ++ ConvexElems.map fun Element =>
              ECookerStep.BackendCreateConvex (GetCookFlags self) Element.VertexData }

/-! ## CreateTriMesh, CookMesh and Finalize -/

/-- The value of an integer after conversion to `uint64`. -/
def toUInt64 (x : Int) : Int := x % 18446744073709551616

/-- The function `CreateTriMesh`: the arrays of `copyDataFromBuffers` are handed to the backend with
`bFlipNormals = true`; the mesh pointer is added to `TriangleMeshes`, its allocated size is added
to the memory usage when the pointer is not null, and the error counter is incremented when the
backend reports failure. -/
def CreateTriMesh (Cooking : IPhysXCooking) (self : FVoxelAsyncPhysicsCooker_PhysX) :
    FVoxelAsyncPhysicsCooker_PhysX :=
  let Arrays := copyDataFromBuffers self.Buffers
  let Result := Cooking.CreateTriMesh (GetCookFlags self) Arrays.Vertices Arrays.Indices
    Arrays.MaterialIndices true
  { self with
    ErrorCounter := if !Result.1 then toInt32 (self.ErrorCounter + 1) else self.ErrorCounter
    CookResult := { self.CookResult with
      TriangleMeshes := self.CookResult.TriangleMeshes ++ [Result.2]
      TriangleMeshesMemoryUsage :=
        match Result.2 with
        | some TriangleMesh =>
            (toUInt64 (self.CookResult.TriangleMeshesMemoryUsage + TriangleMesh.AllocatedSize)).toNat
        | none => self.CookResult.TriangleMeshesMemoryUsage }
    Steps := self.Steps ++ [ECookerStep.BackendCreateTriMesh (GetCookFlags self) Arrays.Vertices
      Arrays.Indices Arrays.MaterialIndices true] }

/-- The function `CookMesh`; each of its two calls is recorded in `Steps` when it is made. -/
def CookMesh (F : FFloatMath) (Cooking : IPhysXCooking) (self : FVoxelAsyncPhysicsCooker_PhysX) :
    FVoxelAsyncPhysicsCooker_PhysX :=
  let self :=
    if self.CollisionTraceFlag ≠ ECollisionTraceFlag.CTF_UseComplexAsSimple then
      CreateSimpleCollision F Cooking
        { self with Steps := self.Steps ++ [ECookerStep.CreateSimpleCollision] }
    else self
  if self.CollisionTraceFlag ≠ ECollisionTraceFlag.CTF_UseSimpleAsComplex then
    CreateTriMesh Cooking { self with Steps := self.Steps ++ [ECookerStep.CreateTriMesh] }
  else self

/-- The part of `UBodySetup` touched by `Finalize`: the `TriMeshes` arguments of the calls of
`FinishCreatingPhysicsMeshes_PhysX`, in call order (the two convex arguments are empty). -/
structure UBodySetup where
  FinishedTriMeshes : List (List (Option PxTriangleMesh))
deriving DecidableEq

/-- The part of `FVoxelProceduralMeshComponentMemoryUsage` written by `Finalize`. -/
structure FVoxelProceduralMeshComponentMemoryUsage where
  TriangleMeshes : Nat
deriving DecidableEq

/-- The return value of `Finalize` with its three reference parameters after the call. -/
structure FFinalizeCall where
  Return : Bool
  BodySetup : UBodySetup
  OutSimpleCollisionData : Option FVoxelSimpleCollisionData
  OutMemoryUsage : FVoxelProceduralMeshComponentMemoryUsage
deriving DecidableEq

/-- The function `Finalize`. -/
def Finalize (self : FVoxelAsyncPhysicsCooker_PhysX) (BodySetup : UBodySetup)
    (OutSimpleCollisionData : Option FVoxelSimpleCollisionData)
    (OutMemoryUsage : FVoxelProceduralMeshComponentMemoryUsage) : FFinalizeCall :=
  if self.ErrorCounter > 0 then
    { Return := false, BodySetup := BodySetup, OutSimpleCollisionData := OutSimpleCollisionData
      OutMemoryUsage := OutMemoryUsage }
  else
    { Return := true
      BodySetup :=
        { FinishedTriMeshes := BodySetup.FinishedTriMeshes ++ [self.CookResult.TriangleMeshes] }
      OutSimpleCollisionData := self.CookResult.SimpleCollisionData
      OutMemoryUsage := { OutMemoryUsage with
        TriangleMeshes := self.CookResult.TriangleMeshesMemoryUsage } }

/-- Number of `CreateConvex` calls of `CookMesh` that return `Failed`. -/
def failedConvexCooks (F : FFloatMath) (Cooking : IPhysXCooking) (self : FVoxelAsyncPhysicsCooker_PhysX) : Nat :=
  if self.CollisionTraceFlag ≠ ECollisionTraceFlag.CTF_UseComplexAsSimple then
    (convexCookInputs F self).countP fun VertexData =>
      decide ((Cooking.CreateConvex (GetCookFlags self) VertexData).1 = EPhysXCookingResult.Failed)
  else 0

/-- Whether `CookMesh` calls the backend's `CreateTriMesh` and the call reports failure. -/
def triMeshCookFailed (Cooking : IPhysXCooking) (self : FVoxelAsyncPhysicsCooker_PhysX) : Bool :=
  decide (self.CollisionTraceFlag ≠ ECollisionTraceFlag.CTF_UseSimpleAsComplex)
    && !(Cooking.CreateTriMesh (GetCookFlags self) (copyDataFromBuffers self.Buffers).Vertices
          (copyDataFromBuffers self.Buffers).Indices
          (copyDataFromBuffers self.Buffers).MaterialIndices true).1

/-- The property "a hull whose cook fails gets no entry in the convex-mesh list": the number of
convex meshes of the result is the number of hulls whose cook did not return `Failed`. -/
def FailedHullsOmitted (F : FFloatMath) (Cooking : IPhysXCooking) (self : FVoxelAsyncPhysicsCooker_PhysX) : Prop :=
  ∀ Data, (CreateSimpleCollision F Cooking self).CookResult.SimpleCollisionData = some Data →
    Data.ConvexMeshes.length = (convexCookInputs F self).countP fun VertexData =>
      decide ((Cooking.CreateConvex (GetCookFlags self) VertexData).1 ≠ EPhysXCookingResult.Failed)

/-- The forward merge loop by recursion on the hulls after the current one: `Current` is the
element at `Index`, with what the previous iteration appended to it. Shown equal to `mergeForward`
in `mergeForward_cons`. -/
def forwardFrom (Current : List FVector) : List (List FVector) → List (List FVector)
  | [] => [Current]
  | Next :: Rest =>
      if Current.length < Threshold then [] :: forwardFrom (Next ++ Current) Rest
      else Current :: forwardFrom Next Rest

/-! ## VoxelCookingLibrary: the cook state and ChunkDone -/

/-- The part of `FVoxelCookingSettings` read by the code. -/
structure FVoxelCookingSettings where
  GeneratorIsValid : Bool
  bLogProgress : Bool
  bCleanCollisionMesh : Bool
  bFastCollisionCook : Bool
  VoxelSize : ℚ
deriving DecidableEq

/-- The shared state `FVoxelCookingTaskData`: the total, the counter `NumChunksBuilt`, the `Data`
arrays of the chunks of `CookedData`, and the number of times `DoneEvent` was triggered. `Stopped`
is not a member of the class: it is set when a call indexes `CookedData` outside its chunks, where
the range check of the array stops the program; no call takes a step after that. -/
structure FVoxelCookingTaskData where
  NumChunksToBuild : Int
  NumChunksBuilt : Int
  Chunks : List (List Nat)
  DoneEventTriggers : Nat
  Stopped : Bool := false
deriving DecidableEq

/-- The constructor of `FVoxelCookingTaskData`: the counter is zero and
`CookedData.SetNumChunks(NumChunksToBuild)` sizes the output collection. -/
def FVoxelCookingTaskData.construct (NumChunksToBuild : Int) : FVoxelCookingTaskData where
  NumChunksToBuild := NumChunksToBuild
  NumChunksBuilt := 0
  Chunks := List.replicate NumChunksToBuild.toNat []
  DoneEventTriggers := 0
  Stopped := false

/-- The position of one `ChunkDone` call: before the increment, after the increment, after the
store into the chunk, after the comparison with `NumChunksToBuild`. -/
inductive EChunkDonePosition where
  | BeforeIncrement
  | AfterIncrement
  | AfterStore
  | Returned
deriving DecidableEq

/-- One `ChunkDone(Data)` call in progress, with its local `NumBuilt`. -/
structure FChunkDoneCall where
  Data : List Nat
  Position : EChunkDonePosition
  NumBuilt : Int
deriving DecidableEq

/-- The cook state with the `ChunkDone` calls of the worker threads. `Stores` lists, in the order
they happen, the indices `NumBuilt - 1` passed to `CookedData.GetChunk`. -/
structure FCookingRun where
  TaskData : FVoxelCookingTaskData
  Calls : List FChunkDoneCall
  Stores : List Int
deriving DecidableEq

/-- The start of a cook run: fresh task data and one pending `ChunkDone` call per blob. -/
def FCookingRun.start (NumChunksToBuild : Int) (Blobs : List (List Nat)) : FCookingRun where
  TaskData := FVoxelCookingTaskData.construct NumChunksToBuild
  Calls := Blobs.map fun Data => { Data := Data, Position := .BeforeIncrement, NumBuilt := 0 }
  Stores := []

/-- Modelled from the spec: `FVoxelCookedDataImpl::GetChunk` is not defined under `src/`; the spec
describes the output as a collection pre-sized to the chunk count whose slots are written by
index. The statement `CookedData.GetChunk(Index).Data = MoveTemp(Data)`: the chunks after the
store, or `none` when `Index` is not an index of the collection. -/
def storeChunk (Chunks : List (List Nat)) (Index : Int) (Data : List Nat) :
    Option (List (List Nat)) :=
  if 0 ≤ Index ∧ Index < Chunks.length then some (Chunks.set Index.toNat Data) else none

/-- One atomic step of the `ChunkDone` call number `i`:
`NumBuilt = NumChunksBuilt.Increment()`, then the store into chunk `NumBuilt - 1`, then
`if (NumBuilt == NumChunksToBuild) DoneEvent->Trigger()`. A store outside the collection stops
the program: the call does not get past it and no call takes a further step. -/
def ChunkDoneStep (Run : FCookingRun) (i : Nat) : FCookingRun :=
  if Run.TaskData.Stopped then Run
  else
    match Run.Calls[i]? with
    | none => Run
    | some Call =>
        match Call.Position with
        | .BeforeIncrement =>
            let NumBuilt := toInt32 (Run.TaskData.NumChunksBuilt + 1)
            { Run with
              TaskData := { Run.TaskData with NumChunksBuilt := NumBuilt }
              Calls := Run.Calls.set i
                { Call with Position := .AfterIncrement, NumBuilt := NumBuilt } }
        | .AfterIncrement =>
            match storeChunk Run.TaskData.Chunks (Call.NumBuilt - 1) Call.Data with
            | none => { Run with TaskData := { Run.TaskData with Stopped := true } }
            | some Chunks =>
                { Run with
                  TaskData := { Run.TaskData with Chunks := Chunks }
                  Calls := Run.Calls.set i { Call with Position := .AfterStore }
                  Stores := Run.Stores ++ [Call.NumBuilt - 1] }
        | .AfterStore =>
            { Run with
              TaskData := { Run.TaskData with
                DoneEventTriggers :=
                  if Call.NumBuilt = Run.TaskData.NumChunksToBuild then
                    Run.TaskData.DoneEventTriggers + 1
                  else Run.TaskData.DoneEventTriggers }
              Calls := Run.Calls.set i { Call with Position := .Returned } }
        | .Returned => Run

/-- A schedule names, step by step, the call that runs next. -/
def runSchedule (Run : FCookingRun) (Schedule : List Nat) : FCookingRun :=
  Schedule.foldl ChunkDoneStep Run

/-- The whole of `ChunkDone(Data)` run without interruption on the task data. A store outside
the collection stops the program after the increment. -/
def ChunkDone (TaskData : FVoxelCookingTaskData) (Data : List Nat) : FVoxelCookingTaskData :=
  if TaskData.Stopped then TaskData
  else
    let NumBuilt := toInt32 (TaskData.NumChunksBuilt + 1)
    match storeChunk TaskData.Chunks (NumBuilt - 1) Data with
    | none => { TaskData with NumChunksBuilt := NumBuilt, Stopped := true }
    | some Chunks =>
        { TaskData with
          NumChunksBuilt := NumBuilt
          Chunks := Chunks
          DoneEventTriggers :=
            if NumBuilt = TaskData.NumChunksToBuild then TaskData.DoneEventTriggers + 1
            else TaskData.DoneEventTriggers }

/-- Whether a call has done its increment. -/
def FChunkDoneCall.started (Call : FChunkDoneCall) : Bool :=
  Call.Position != .BeforeIncrement

/-- Whether a call has done its store. -/
def FChunkDoneCall.stored (Call : FChunkDoneCall) : Bool :=
  Call.Position == .AfterStore || Call.Position == .Returned

/-! ## VoxelCookingLibrary: CookVoxelDataImpl -/

/-- The type `FVoxelIntBox` of `Data->WorldBounds`. -/
structure FVoxelIntBox where
  Min : FIntVector
  Max : FIntVector
deriving DecidableEq

/-- The local `NumChunksPerAxis = (Max - Min) / MESHER_CHUNK_SIZE`, in `int32` arithmetic with the
truncating division of C++. -/
def NumChunksPerAxis (WorldBounds : FVoxelIntBox) : FIntVector where
  X := Int.tdiv (toInt32 (WorldBounds.Max.X - WorldBounds.Min.X)) MESHER_CHUNK_SIZE
  Y := Int.tdiv (toInt32 (WorldBounds.Max.Y - WorldBounds.Min.Y)) MESHER_CHUNK_SIZE
  Z := Int.tdiv (toInt32 (WorldBounds.Max.Z - WorldBounds.Min.Z)) MESHER_CHUNK_SIZE

/-- The local `TotalNumChunks = int64(X) * int64(Y) * int64(Z)`, in `int64` arithmetic. -/
def TotalNumChunks (WorldBounds : FVoxelIntBox) : Int :=
  toInt64 (toInt64 ((NumChunksPerAxis WorldBounds).X * (NumChunksPerAxis WorldBounds).Y)
    * (NumChunksPerAxis WorldBounds).Z)

/-- A bound on the iterations of a terminating loop `for (int32 V = ...; V < ...; V +=
MESHER_CHUNK_SIZE)`: the counter takes at most `2^27` values before it repeats. -/
def LoopFuel : Nat := 134217729

/-- The loop `for (int32 V = Start; V < End; V += MESHER_CHUNK_SIZE) Body(V)`; the result is the
list of the tasks queued by the body, or `none` when the loop does not end within `Fuel`
iterations. -/
def forChunks : Nat → Int → Int → (Int → Option (List FIntVector)) → Option (List FIntVector)
  | 0, _, _, _ => none
  | Fuel + 1, Start, End, Body =>
      if Start < End then
        match Body Start with
        | none => none
        | some Queued =>
            (forChunks Fuel (toInt32 (Start + MESHER_CHUNK_SIZE)) End Body).map fun Rest =>
              Queued ++ Rest
      else some []

/-- The three nested loops of `CookVoxelDataImpl`: the chunk positions of the queued tasks, in
queueing order. -/
def queueTasks (WorldBounds : FVoxelIntBox) : Option (List FIntVector) :=
  forChunks LoopFuel WorldBounds.Min.X WorldBounds.Max.X fun X =>
    forChunks LoopFuel WorldBounds.Min.Y WorldBounds.Max.Y fun Y =>
      forChunks LoopFuel WorldBounds.Min.Z WorldBounds.Max.Z fun Z =>
        some [{ X := X, Y := Y, Z := Z }]

/-- What one call of `CookVoxelDataImpl` does, in program order. -/
inductive ECookEvent where
  | ErrorInvalidGenerator
  | CreateRuntime
  | LoadFromSave
  | ErrorDepthTooHigh
  | ConstructTaskData (NumChunksToBuild : Int)
  | QueueTask (ChunkPosition : FIntVector)
  | WaitDoneEvent
  | RemoveEmptyChunks
  | DestructTaskData
  | DestroyRuntime
deriving DecidableEq

/-- The outcome of one call of `CookVoxelDataImpl`: its events and the chunks of the returned
`FVoxelCookedData`, or `none` when the call does not return. -/
structure FCookCall where
  Events : List ECookEvent
  Result : Option (List (List Nat))
deriving DecidableEq

/-- The function `CookVoxelDataImpl`. `WorldBounds` are the bounds of the data of the runtime;
`RunTasks` stands for the pool: it gives the task data at the moment the wait on `DoneEvent`
returns, or `none` when the event is never triggered. The destructor of the task data checks
`NumChunksBuilt.GetValue() == NumChunksToBuild`; a failed `check` stops the process, so the call
does not return and the scope-exit `Runtime->Destroy()` does not run. -/
def CookVoxelDataImpl (Settings : FVoxelCookingSettings) (bSave : Bool) (WorldBounds : FVoxelIntBox)
    (RunTasks : FVoxelCookingTaskData → List FIntVector → Option FVoxelCookingTaskData) :
    FCookCall :=
  if !Settings.GeneratorIsValid then
    { Events := [.ErrorInvalidGenerator], Result := some [] }
  else
    let Events := [ECookEvent.CreateRuntime] ++ (if bSave then [ECookEvent.LoadFromSave] else [])
    if TotalNumChunks WorldBounds > MAX_int32 then
      { Events := Events ++ [.ErrorDepthTooHigh, .DestroyRuntime], Result := some [] }
    else
      let TaskData := FVoxelCookingTaskData.construct (toInt32 (TotalNumChunks WorldBounds))
      let Events := Events ++ [.ConstructTaskData TaskData.NumChunksToBuild]
      match queueTasks WorldBounds with
      | none => { Events := Events, Result := none }
      | some Tasks =>
          let Events := Events ++ Tasks.map ECookEvent.QueueTask ++ [.WaitDoneEvent]
          match RunTasks TaskData Tasks with
          | none => { Events := Events, Result := none }
          | some Final =>
              if Final.NumChunksBuilt = TaskData.NumChunksToBuild then
                { Events := Events ++ [.RemoveEmptyChunks, .DestructTaskData, .DestroyRuntime]
                  Result := some (Final.Chunks.filter fun Data => Data.length != 0) }
              else
                { Events := Events ++ [.RemoveEmptyChunks, .DestructTaskData], Result := none }

/-- The units of work queued by a call: the chunk positions of its `QueueTask` events. -/
def FCookCall.queued (Call : FCookCall) : List FIntVector :=
  Call.Events.filterMap fun Event =>
    match Event with
    | .QueueTask ChunkPosition => some ChunkPosition
    | _ => none

/-! ## FVoxelCookingTask::DoThreadedWork -/

/-- The renderer `IVoxelRenderer`: `CreateGeometry_AnyThread` receives the LOD and the chunk
position and fills `Indices` (`uint32` elements) and `Vertices`. -/
structure IVoxelRenderer where
  CreateGeometry_AnyThread : Int → FIntVector → List Nat × List FVector

/-- The cook flags built by `DoThreadedWork`. -/
def taskCookFlags (CookingSettings : FVoxelCookingSettings) : EPhysXMeshCookFlags :=
  let CookFlags := EPhysXMeshCookFlags.Default
  let CookFlags :=
    if !CookingSettings.bCleanCollisionMesh then { CookFlags with DeformableMesh := true }
    else CookFlags
  if CookingSettings.bFastCollisionCook then { CookFlags with FastCook := true } else CookFlags

/-- The array `TriIndices` of `DoThreadedWork`: `Indices.Num() / 3` elements filled by the
`Memcpy` of the `uint32` indices, read as `int32`. -/
def memcpyTriIndices (Indices : List Nat) : List FTriIndices :=
  (List.range (Indices.length / 3)).map fun k =>
    { v0 := toInt32 (toUInt32 (Indices.getD (3 * k + 0) 0))
      v1 := toInt32 (toUInt32 (Indices.getD (3 * k + 1) 0))
      v2 := toInt32 (toUInt32 (Indices.getD (3 * k + 2) 0)) }

/-- The statement `Vertex = (Vertex + FVector(ChunkPosition)) * VoxelSize`. -/
def toGlobalSpace (ChunkPosition : FIntVector) (VoxelSize : ℚ) (Vertex : FVector) : FVector :=
  ⟨(Vertex.X + ChunkPosition.X) * VoxelSize, (Vertex.Y + ChunkPosition.Y) * VoxelSize,
    (Vertex.Z + ChunkPosition.Z) * VoxelSize⟩

/-- What one execution of `DoThreadedWork` does: the arguments of its `CookTriMesh` calls, the
blobs of its `ChunkDone` calls, and the task data after it. -/
structure FTaskRun where
  CookTriMeshCalls : List (EPhysXMeshCookFlags × List FVector × List FTriIndices)
  ChunkDoneCalls : List (List Nat)
  TaskData : FVoxelCookingTaskData
deriving DecidableEq

/-- The function `FVoxelCookingTask::DoThreadedWork`, with `ChunkDone` run without interruption.
The result is `none` when `check(Indices.Num() % 3 == 0)` fails: the check stops the process. -/
def DoThreadedWork (Renderer : IVoxelRenderer) (PhysXCooking : IPhysXCooking)
    (CookingSettings : FVoxelCookingSettings) (ChunkPosition : FIntVector)
    (TaskData : FVoxelCookingTaskData) : Option FTaskRun :=
  let Geometry := Renderer.CreateGeometry_AnyThread 0 ChunkPosition
  let Indices := Geometry.1
  let Vertices := Geometry.2
  if Indices.length > 0 then
    if Indices.length % 3 = 0 then
      let CookFlags := taskCookFlags CookingSettings
      let TriIndices := memcpyTriIndices Indices
      let Vertices := Vertices.map (toGlobalSpace ChunkPosition CookingSettings.VoxelSize)
      let Cooked := PhysXCooking.CookTriMesh CookFlags Vertices TriIndices [] true
      let Buffer := if !Cooked.1 then [] else Cooked.2
      some { CookTriMeshCalls := [(CookFlags, Vertices, TriIndices)]
             ChunkDoneCalls := [Buffer]
             TaskData := ChunkDone TaskData Buffer }
    else none
  else
    some { CookTriMeshCalls := [], ChunkDoneCalls := [[]], TaskData := ChunkDone TaskData [] }

/-- The values taken by the counter of a loop `for (V = Start; ...; V += MESHER_CHUNK_SIZE)` in
its first `n` iterations when the counter does not overflow. -/
def axisPositions : Int → Nat → List Int
  | _, 0 => []
  | Start, n + 1 => Start :: axisPositions (Start + MESHER_CHUNK_SIZE) n

/-- The property of the task fan-out: with a valid generator the number of queued units is the
total chunk count and no chunk position is queued twice. -/
def OneUnitPerChunk (WorldBounds : FVoxelIntBox) : Prop :=
  ∀ (Settings : FVoxelCookingSettings) (bSave : Bool)
    (RunTasks : FVoxelCookingTaskData → List FIntVector → Option FVoxelCookingTaskData),
    Settings.GeneratorIsValid = true →
    (((CookVoxelDataImpl Settings bSave WorldBounds RunTasks).queued.length : Nat) : Int)
        = TotalNumChunks WorldBounds
      ∧ (CookVoxelDataImpl Settings bSave WorldBounds RunTasks).queued.Nodup

/-- The invariant of a cook run with `N` chunks under interleaved `ChunkDone` calls: the counter
is the number of calls that have done their increment; the `NumBuilt` of such a call lies between
1 and the counter, and no two of them are equal; `Stores` has no duplicates and consists of the
indices `NumBuilt - 1` of the calls that have done their store, one entry per such call; the chunk at that index holds the
blob of the call. -/
structure RunInvariant (N : Nat) (Run : FCookingRun) : Prop where
  running : Run.TaskData.Stopped = false
  calls : Run.Calls.length = N
  chunks : Run.TaskData.Chunks.length = N
  counter : Run.TaskData.NumChunksBuilt = (Run.Calls.countP FChunkDoneCall.started : Nat)
  ticket : ∀ (i : Nat) (c : FChunkDoneCall), Run.Calls[i]? = some c → c.started = true →
    1 ≤ c.NumBuilt ∧ c.NumBuilt ≤ Run.TaskData.NumChunksBuilt
  distinct : ∀ (i j : Nat) (ci cj : FChunkDoneCall), Run.Calls[i]? = some ci →
    Run.Calls[j]? = some cj → ci.started = true → cj.started = true →
    ci.NumBuilt = cj.NumBuilt → i = j
  storesNodup : Run.Stores.Nodup
  storesLength : Run.Stores.length = Run.Calls.countP FChunkDoneCall.stored
  storesFrom : ∀ s ∈ Run.Stores, ∃ (i : Nat) (c : FChunkDoneCall), Run.Calls[i]? = some c
    ∧ c.stored = true ∧ s = c.NumBuilt - 1
  storesTo : ∀ (i : Nat) (c : FChunkDoneCall), Run.Calls[i]? = some c → c.stored = true →
    c.NumBuilt - 1 ∈ Run.Stores
  content : ∀ (i : Nat) (c : FChunkDoneCall), Run.Calls[i]? = some c → c.stored = true →
    Run.TaskData.Chunks[(c.NumBuilt - 1).toNat]? = some c.Data

/-- Whether a call has returned after triggering `DoneEvent`: it has passed the comparison and
its `NumBuilt` is the total `N`. -/
def FChunkDoneCall.triggered (N : Int) (Call : FChunkDoneCall) : Bool :=
  Call.Position == .Returned && decide (Call.NumBuilt = N)

/-- The invariant on the done event of a cook run with `N` chunks: `DoneEvent` was triggered once
for every call that has passed the comparison with `NumBuilt` equal to the total. -/
def TriggerInvariant (N : Nat) (Run : FCookingRun) : Prop :=
  Run.TaskData.NumChunksToBuild = N
  ∧ Run.TaskData.DoneEventTriggers = Run.Calls.countP (FChunkDoneCall.triggered N)

/-- Total number of vertex entries held by a list of hulls. -/
def totalEntries (ConvexElems : List (List FVector)) : Nat :=
  (ConvexElems.map List.length).sum

/-- The schedule that runs the calls one after the other, each through its three steps. -/
def sequentialSchedule (N : Nat) : List Nat :=
  (List.range N).flatMap fun i => [i, i, i]

/-! ## VoxelSerializationUtilities: CompressData and DecompressData -/

/-- The constants that `VoxelSerializationUtilities.cpp` takes from its header, which is not
among the sources: `MaxChunkSize`, `MaxNumChunks`, `sizeof(FHeader)`, the value of
`FHeader().Magic` and the enum value `EVoxelCompressionLevel::VoxelDefault`. -/
structure FCompressionConstants where
  MaxChunkSize : Int
  MaxNumChunks : Int
  sizeofFHeader : Int
  Magic : Int
  VoxelDefault : Int
deriving DecidableEq

/-- The constants are usable: a chunk holds at least one byte, the chunk count fits an `int32`,
the data of `MaxNumChunks` chunks fits an `int64`, and a header has at least one byte and at most
`MAX_int32`. -/
def FCompressionConstants.WellFormed (C : FCompressionConstants) : Prop :=
  0 < C.MaxChunkSize ∧ C.MaxNumChunks ≤ MAX_int32
    ∧ C.MaxChunkSize * C.MaxNumChunks ≤ 9223372036854775807
    ∧ 0 < C.sizeofFHeader ∧ C.sizeofFHeader ≤ MAX_int32

/-- The zlib functions called by the code. `compress2 Capacity Source Level` is the call with
`*destLen = Capacity` on entry: the bytes written (their number is `*destLen` on return) when the
result is `Z_OK`, `none` otherwise; `uncompress Capacity Source` likewise. -/
structure FZlib where
  compressBound : Nat → Nat
  compress2 : Nat → List Nat → Int → Option (List Nat)
  uncompress : Nat → List Nat → Option (List Nat)

/-- The contract of zlib used for the round trip: with a level between -1 and 9 and room for
`compressBound` bytes, `compress2` returns `Z_OK` and writes no more bytes than there is room, and
`uncompress` with room for the length of the source inverts it. -/
def FZlib.Inverts (Z : FZlib) : Prop :=
  ∀ (Source : List Nat) (Level : Int) (Capacity : Nat), -1 ≤ Level → Level ≤ 9 →
    Z.compressBound Source.length ≤ Capacity →
    ∃ Out, Z.compress2 Capacity Source Level = some Out ∧ Out.length ≤ Capacity
      ∧ Z.uncompress Source.length Out = some Source

/-- The struct `FHeader`, by the members the code reads and writes; `ChunksCompressedSize` holds
the entries written so far. -/
structure FHeader where
  LegacyFlag : Int
  Magic : Int
  CompressedSize : Int
  UncompressedSize : Int
  NumChunks : Int
  ChunksCompressedSize : List Int
deriving DecidableEq

/-- A `TArray<uint8>` that holds compressed data: the header whose bytes `Memcpy` put at the
front (`none` when there is none) and the bytes after it. -/
structure FArchiveBytes where
  Header : Option FHeader
  Bytes : List Nat
deriving DecidableEq

/-- The array after `Empty()`. -/
def FArchiveBytes.Empty : FArchiveBytes := { Header := none, Bytes := [] }

/-- The value of `CompressedData.Num()`. -/
def FArchiveBytes.Num (C : FCompressionConstants) (Archive : FArchiveBytes) : Int :=
  (match Archive.Header with
    | some _ => C.sizeofFHeader
    | none => 0) + Archive.Bytes.length

/-- Modelled from the spec: the function `FVoxelUtilities::DivideCeil64` is not defined under
`src/`; the claims on `CompressData` give the chunk count as the ceiling of
`N / MaxChunkSize`. -/
def DivideCeil64 (Dividend Divisor : Int) : Int := (Dividend + Divisor - 1) / Divisor

/-- The lambda `GetCompressionLevel`. -/
def GetCompressionLevel (C : FCompressionConstants) (DefaultCompressionLevel : Int)
    (InCompressionLevel : Int) : Int :=
  let CompressionLevel :=
    if InCompressionLevel = C.VoxelDefault then DefaultCompressionLevel else InCompressionLevel
  Clamp CompressionLevel (-1) 9

/-- The local struct `FChunk`. -/
structure FChunk where
  Start : Int
  Size : Int
  CompressedSize : Int
deriving DecidableEq

/-- The loop "Fill chunks". -/
def fillChunks (C : FCompressionConstants) (UncompressedDataNum NumChunks : Int) : List FChunk :=
  (List.range NumChunks.toNat).map fun (ChunkIndex : Nat) =>
    { Start := toInt64 ((ChunkIndex : Int) * C.MaxChunkSize)
      Size := min C.MaxChunkSize
        (toInt64 (UncompressedDataNum - toInt64 ((ChunkIndex : Int) * C.MaxChunkSize)))
      CompressedSize := 0 }

/-- The loop "Compute estimated compressed size": every chunk gets `compressBound(Chunk.Size)`. -/
def estimateChunks (Z : FZlib) (Chunks : List FChunk) : List FChunk :=
  Chunks.map fun Chunk =>
    { Chunk with CompressedSize := Z.compressBound (toUInt64 Chunk.Size).toNat }

/-- The bytes `UncompressedData + Chunk.Start` of length `Chunk.Size`. -/
def chunkSource (UncompressedData : List Nat) (Chunk : FChunk) : List Nat :=
  (UncompressedData.drop Chunk.Start.toNat).take Chunk.Size.toNat

/-- The loop "Compress chunks": the state is the part of `CompressedData` written so far, whose
length is `TotalCompressedSize`, with the entries of `Header.ChunksCompressedSize`; `none` when a
`compress2` call does not return `Z_OK`. -/
def compressChunks (Z : FZlib) (CompressionLevel : Int) (UncompressedData : List Nat) :
    List FChunk → List Nat × List Int → Option (List Nat × List Int)
  | [], State => some State
  | Chunk :: Rest, (CompressedData, ChunksCompressedSize) =>
      match Z.compress2 Chunk.CompressedSize.toNat (chunkSource UncompressedData Chunk)
          CompressionLevel with
      | none => none
      | some Out =>
          compressChunks Z CompressionLevel UncompressedData Rest
            (CompressedData ++ Out, ChunksCompressedSize ++ [toUInt32 Out.length])

/-- The chunks of `CompressData` for `UncompressedData`, after the two loops that fill them. -/
def compressionChunks (C : FCompressionConstants) (Z : FZlib) (UncompressedData : List Nat) :
    List FChunk :=
  estimateChunks Z (fillChunks C UncompressedData.length
    (toInt32 (DivideCeil64 UncompressedData.length C.MaxChunkSize)))

/-- The function `CompressData` on the bytes `UncompressedData`: the content of
`OutCompressedData` after the call, or `none` when a `check` fails. When `compress2` fails the
function returns with `OutCompressedData` as it was. -/
def CompressData (C : FCompressionConstants) (Z : FZlib) (DefaultCompressionLevel : Int)
    (UncompressedData : List Nat) (OutCompressedData : FArchiveBytes)
    (InCompressionLevel : Int) : Option FArchiveBytes :=
  let UncompressedDataNum : Int := UncompressedData.length
  if UncompressedDataNum = 0 then some FArchiveBytes.Empty
  else
    let CompressionLevel := GetCompressionLevel C DefaultCompressionLevel InCompressionLevel
    let NumChunks := toInt32 (DivideCeil64 UncompressedDataNum C.MaxChunkSize)
    if ¬ (0 < NumChunks ∧ NumChunks < C.MaxNumChunks) then none
    else
      let Chunks := compressionChunks C Z UncompressedData
      if ¬ ((Chunks.getLast?.map fun Chunk => Chunk.Start + Chunk.Size) = some UncompressedDataNum)
      then none
      else
        let TotalCompressedSizeBound : Int := (Chunks.map fun Chunk => Chunk.CompressedSize).sum
        match compressChunks Z CompressionLevel UncompressedData Chunks ([], []) with
        | none => some OutCompressedData
        | some (CompressedData, ChunksCompressedSize) =>
            let TotalCompressedSize : Int := CompressedData.length
            if ¬ TotalCompressedSize ≤ TotalCompressedSizeBound then none
            else if ¬ toUInt64 TotalCompressedSize < toUInt64 (MAX_int32 - C.sizeofFHeader) then none
            else
              some
                { Header := some
                    { LegacyFlag := -1
                      Magic := C.Magic
                      CompressedSize := TotalCompressedSize
                      UncompressedSize := UncompressedDataNum
                      NumChunks := toUInt32 NumChunks
                      ChunksCompressedSize := ChunksCompressedSize }
                  Bytes := CompressedData }

/-- The loop "Decompress all chunks": the state is `TotalCompressedSize`,
`TotalUncompressedSize` and the part of `UncompressedData` written so far; `none` when an
`ensure` of the loop fails. -/
def decompressChunks (C : FCompressionConstants) (Z : FZlib) (Header : FHeader)
    (Bytes : List Nat) : List Nat → Int × Int × List Nat → Option (Int × Int × List Nat)
  | [], State => some State
  | ChunkIndex :: Rest, (TotalCompressedSize, TotalUncompressedSize, UncompressedData) =>
      let ChunkCompressedSize := Header.ChunksCompressedSize.getD ChunkIndex 0
      if ¬ TotalCompressedSize + ChunkCompressedSize ≤ Header.CompressedSize then none
      else
        let UncompressedSize :=
          toUInt64 (min C.MaxChunkSize (Header.UncompressedSize - TotalUncompressedSize))
        match Z.uncompress UncompressedSize.toNat
            ((Bytes.drop TotalCompressedSize.toNat).take ChunkCompressedSize.toNat) with
        | none => none
        | some Out =>
            decompressChunks C Z Header Bytes Rest
              (TotalCompressedSize + ChunkCompressedSize, TotalUncompressedSize + Out.length,
                UncompressedData ++ Out)

/-- The function `DecompressData`: the return value with `UncompressedData` after the call. The
result is `none` on the paths outside this model: an array without a header at its front, and
the legacy archives, whose first `int32` is not -1. -/
def DecompressData (C : FCompressionConstants) (Z : FZlib) (CompressedData : FArchiveBytes) :
    Option (Bool × List Nat) :=
  if CompressedData.Num C = 0 then some (false, [])
  else
    match CompressedData.Header with
    | none => none
    | some Header =>
        if Header.LegacyFlag = -1 then
          if ¬ CompressedData.Num C ≥ C.sizeofFHeader then some (false, [])
          else if ¬ Header.Magic = C.Magic then some (false, [])
          else if ¬ Header.CompressedSize = CompressedData.Num C - C.sizeofFHeader then
            some (false, [])
          else if ¬ Header.NumChunks ≤ C.MaxNumChunks then some (false, [])
          else
            match decompressChunks C Z Header CompressedData.Bytes
                (List.range Header.NumChunks.toNat) (0, 0, []) with
            | none => some (false, [])
            | some (TotalCompressedSize, TotalUncompressedSize, UncompressedData) =>
                if ¬ TotalCompressedSize = Header.CompressedSize then some (false, [])
                else if ¬ TotalUncompressedSize = Header.UncompressedSize then some (false, [])
                else some (true, UncompressedData)
        else none

/-- The bytes of chunk number `ChunkIndex` when the chunks hold `MaxChunkSize` bytes. -/
def chunkBytes (MaxChunkSize : Nat) (UncompressedData : List Nat) (ChunkIndex : Nat) : List Nat :=
  (UncompressedData.drop (ChunkIndex * MaxChunkSize)).take MaxChunkSize

/-- The bytes that `compress2` writes for `Source` when it has room for `compressBound` bytes. -/
def chunkOutput (Z : FZlib) (CompressionLevel : Int) (Source : List Nat) : List Nat :=
  (Z.compress2 (Z.compressBound Source.length) Source CompressionLevel).getD []

/-- The chunk number `ChunkIndex` after the loops that fill the chunks, without overflow. -/
def estimatedChunk (Z : FZlib) (MaxChunkSize : Nat) (UncompressedData : List Nat)
    (ChunkIndex : Nat) : FChunk :=
  { Start := (ChunkIndex * MaxChunkSize : Nat)
    Size := (chunkBytes MaxChunkSize UncompressedData ChunkIndex).length
    CompressedSize := Z.compressBound (chunkBytes MaxChunkSize UncompressedData ChunkIndex).length }

/-- The chunk number `ChunkIndex` made by the loop "Fill chunks" when nothing overflows. -/
def filledChunk (MaxChunkSize UncompressedDataNum ChunkIndex : Nat) : FChunk :=
  { Start := ((ChunkIndex * MaxChunkSize : Nat) : Int)
    Size := ((min MaxChunkSize (UncompressedDataNum - ChunkIndex * MaxChunkSize) : Nat) : Int)
    CompressedSize := 0 }

/-- The property "the round trip holds for every byte array within the chunk limit": for every
array whose chunk count is below `MaxNumChunks`, `CompressData` returns and `DecompressData` gives
back the array, with return value true when the array is not empty. -/
def RoundTripWithinChunkLimit (C : FCompressionConstants) (Z : FZlib) : Prop :=
  ∀ (DefaultCompressionLevel InCompressionLevel : Int) (UncompressedData : List Nat)
    (OutCompressedData : FArchiveBytes),
    DivideCeil64 UncompressedData.length C.MaxChunkSize < C.MaxNumChunks →
    ∃ Archive, CompressData C Z DefaultCompressionLevel UncompressedData OutCompressedData
          InCompressionLevel = some Archive
      ∧ DecompressData C Z Archive = some (decide (UncompressedData ≠ []), UncompressedData)

/-- The property "cubic mode emits exactly one box per collision cube": the result holds as many
boxes as the buffers hold collision cubes. -/
def OneBoxPerCube (F : FFloatMath) (Cooking : IPhysXCooking) (self : FVoxelAsyncPhysicsCooker_PhysX) : Prop :=
  ∃ Data, (CreateSimpleCollision F Cooking self).CookResult.SimpleCollisionData = some Data
    ∧ Data.BoxElems.length = (self.Buffers.map fun Buffer => Buffer.CollisionCubes.length).sum

/-- The property "the reserved capacity is never exceeded": every `check` on the slack of the
three arrays holds at every buffer. -/
def CapacityChecksHold (Buffers : List FVoxelProcMeshBuffers) : Prop :=
  (copyDataFromBuffers Buffers).ChecksHeld = true

/-- The order properties of the float operations used for the claim on the buckets of one vertex:
the conversion of an `int32` is monotone, adding to a fixed value and subtracting a fixed value are
monotone, multiplying by and dividing by a fixed value are each monotone or antitone, and
`FloorToInt` is monotone. Float arithmetic with correct rounding has these properties as long as
no operation overflows. -/
structure FFloatMath.Ordered (F : FFloatMath) : Prop where
  ofInt : Monotone F.ofInt
  add : ∀ A : ℚ, Monotone fun B => F.add A B
  sub : ∀ B : ℚ, Monotone fun A => F.sub A B
  mul : ∀ B : ℚ, (Monotone fun A => F.mul A B) ∨ (Antitone fun A => F.mul A B)
  div : ∀ B : ℚ, (Monotone fun A => F.div A B) ∨ (Antitone fun A => F.div A B)
  FloorToInt : Monotone F.FloorToInt

/-- The six non-zero offsets passed to `Lambda`, in call order. -/
def neighborOffsets : List (Int × Int × Int) :=
  [(1, 0, 0), (-1, 0, 0), (0, 1, 0), (0, -1, 0), (0, 0, 1), (0, 0, -1)]

/-- The bucket the copy of `Vertex` with offset `Offset` falls into: the index used by `Lambda`
for that offset. -/
def copyBucket (F : FFloatMath) (Box : FBox) (Size : FIntVector) (LOD : Nat)
    (NumConvexHullsPerAxis : Int) (Vertex : FVector) (Offset : Int × Int × Int) : Nat :=
  (bucketIndex Size
    (bucketPosition F Box Size LOD NumConvexHullsPerAxis Vertex
      Offset.1 Offset.2.1 Offset.2.2)).toNat

/-- The buckets of a vertex: its primary bucket, then the buckets of its six axis-offset
copies. -/
def vertexBuckets (F : FFloatMath) (Box : FBox) (Size : FIntVector) (LOD : Nat)
    (NumConvexHullsPerAxis : Int) (Vertex : FVector) : List Nat :=
  ((0, 0, 0) :: neighborOffsets).map (copyBucket F Box Size LOD NumConvexHullsPerAxis Vertex)

/-- The indices at which the seven calls of `Lambda` add `Vertex`, in call order: the primary
bucket, then the bucket of every copy whose position differs from `MainPosition`. -/
def writtenBuckets (F : FFloatMath) (Box : FBox) (Size : FIntVector) (LOD : Nat)
    (NumConvexHullsPerAxis : Int) (Vertex : FVector) : List Nat :=
  copyBucket F Box Size LOD NumConvexHullsPerAxis Vertex (0, 0, 0)
    :: ((neighborOffsets.filter fun Offset =>
          decide (bucketPosition F Box Size LOD NumConvexHullsPerAxis Vertex
              Offset.1 Offset.2.1 Offset.2.2
            ≠ bucketPosition F Box Size LOD NumConvexHullsPerAxis Vertex 0 0 0)).map
        (copyBucket F Box Size LOD NumConvexHullsPerAxis Vertex))

/-- The local `ConvexElems` of the convex branch at the moment hull merging starts. -/
def filledConvexElems (F : FFloatMath) (self : FVoxelAsyncPhysicsCooker_PhysX) :
    List (List FVector) :=
  assignVertices F (verticesBox self.Buffers)
    (gridSize F (verticesBox self.Buffers) self.LOD self.NumConvexHullsPerAxis) self.LOD
    self.NumConvexHullsPerAxis self.Buffers
    (List.replicate
      ((gridSize F (verticesBox self.Buffers) self.LOD self.NumConvexHullsPerAxis).X
        * (gridSize F (verticesBox self.Buffers) self.LOD self.NumConvexHullsPerAxis).Y
        * (gridSize F (verticesBox self.Buffers) self.LOD self.NumConvexHullsPerAxis).Z).toNat [])

/-- The buckets of a vertex in the grid of the cooker. -/
def cookerBuckets (F : FFloatMath) (self : FVoxelAsyncPhysicsCooker_PhysX) (Vertex : FVector) :
    List Nat :=
  vertexBuckets F (verticesBox self.Buffers)
    (gridSize F (verticesBox self.Buffers) self.LOD self.NumConvexHullsPerAxis) self.LOD
    self.NumConvexHullsPerAxis Vertex

/-- The indices at which the cooker adds a vertex to `ConvexElems`, in call order. -/
def cookerWritten (F : FFloatMath) (self : FVoxelAsyncPhysicsCooker_PhysX) (Vertex : FVector) :
    List Nat :=
  writtenBuckets F (verticesBox self.Buffers)
    (gridSize F (verticesBox self.Buffers) self.LOD self.NumConvexHullsPerAxis) self.LOD
    self.NumConvexHullsPerAxis Vertex

/-! ## Example inputs -/

/-- Float arithmetic without rounding. In the example inputs below every value that enters these
operations is a small dyadic rational, on which the float operations of the engine are exact. -/
def exactMath : FFloatMath where
  ofInt := fun Value => (Value : ℚ)
  add := fun A B => A + B
  sub := fun A B => A - B
  mul := fun A B => A * B
  div := fun A B => A / B
  CeilToInt := fun Value => ⌈Value⌉
  FloorToInt := fun Value => ⌊Value⌋

/-- A buffer without vertices and without indices. -/
def emptyBuffer : FVoxelProcMeshBuffers where
  PositionVertexBuffer := []
  IndexBuffer := { Is32Bit := false, Data := [] }
  CollisionCubes := []

/-- A buffer with the three vertices of one triangle, 16-bit indices. -/
def triangleBuffer : FVoxelProcMeshBuffers where
  PositionVertexBuffer := [⟨0, 0, 0⟩, ⟨1, 0, 0⟩, ⟨0, 1, 0⟩]
  IndexBuffer := { Is32Bit := false, Data := [0, 1, 2] }
  CollisionCubes := []

/-- The eight corners and twelve triangles of a unit cube, 32-bit indices. -/
def cubeBuffer : FVoxelProcMeshBuffers where
  PositionVertexBuffer :=
    [⟨0, 0, 0⟩, ⟨1, 0, 0⟩, ⟨1, 1, 0⟩, ⟨0, 1, 0⟩, ⟨0, 0, 1⟩, ⟨1, 0, 1⟩, ⟨1, 1, 1⟩, ⟨0, 1, 1⟩]
  IndexBuffer :=
    { Is32Bit := true
      Data := [0, 1, 2, 0, 2, 3, 4, 6, 5, 4, 7, 6, 0, 4, 5, 0, 5, 1,
               1, 5, 6, 1, 6, 2, 2, 6, 7, 2, 7, 3, 3, 7, 4, 3, 4, 0] }
  CollisionCubes := []

/-- A 32-bit buffer without vertices whose first stored index is `2^31`. -/
def wideIndexBuffer : FVoxelProcMeshBuffers where
  PositionVertexBuffer := []
  IndexBuffer := { Is32Bit := true, Data := [2147483648, 0, 0] }
  CollisionCubes := []

/-- A list of 65537 buffers: 65536 empty buffers followed by one triangle. -/
def manySections : List FVoxelProcMeshBuffers :=
  List.replicate 65536 emptyBuffer ++ [triangleBuffer]

/-- A cooker in convex mode with two sections, the triangle buffer and the empty buffer, `LOD = 0`,
two hulls per axis and the identity as `LocalToRoot`. -/
def twoSectionCooker : FVoxelAsyncPhysicsCooker_PhysX where
  Buffers := [triangleBuffer, emptyBuffer]
  LOD := 0
  NumConvexHullsPerAxis := 2
  bSimpleCubicCollision := false
  bCleanCollisionMesh := false
  CollisionTraceFlag := ECollisionTraceFlag.CTF_UseDefault
  LocalToRoot := { TransformPosition := id, TransformBox := id }
  ErrorCounter := 0
  CookResult := { SimpleCollisionData := none, TriangleMeshes := [], TriangleMeshesMemoryUsage := 0 }

/-- Cooking settings with a valid generator. -/
def validSettings : FVoxelCookingSettings where
  GeneratorIsValid := true
  bLogProgress := false
  bCleanCollisionMesh := false
  bFastCollisionCook := false
  VoxelSize := 100

/-- A pool whose tasks never trigger the done event. -/
def stalledPool : FVoxelCookingTaskData → List FIntVector → Option FVoxelCookingTaskData :=
  fun _ _ => none

/-- World bounds `[0,0,0]` to `[512,512,512]`. -/
def bounds512 : FVoxelIntBox := { Min := ⟨0, 0, 0⟩, Max := ⟨512, 512, 512⟩ }

/-- World bounds `[0,0,0]` to `[48,32,32]`: the extent along X is not a multiple of 32. -/
def bounds48 : FVoxelIntBox := { Min := ⟨0, 0, 0⟩, Max := ⟨48, 32, 32⟩ }

/-- World bounds `[0,0,0]` to `[2^27,2^27,2^27]`: `2^22` chunks per axis. -/
def boundsDeep : FVoxelIntBox :=
  { Min := ⟨0, 0, 0⟩, Max := ⟨134217728, 134217728, 134217728⟩ }

/-- A cook run with three chunks and the blobs `[1]`, `[2]`, `[3]`. -/
def threeChunkRun : FCookingRun := FCookingRun.start 3 [[1], [2], [3]]

/-- An interleaving of the three `ChunkDone` calls of `threeChunkRun`: call 2 increments first,
call 0 increments and stores, call 1 increments, call 2 stores, call 1 stores, then all return. -/
def interleavedSchedule : List Nat := [2, 0, 0, 1, 2, 1, 0, 1, 2]

/-- Cooking settings with an invalid generator. -/
def invalidSettings : FVoxelCookingSettings where
  GeneratorIsValid := false
  bLogProgress := false
  bCleanCollisionMesh := false
  bFastCollisionCook := false
  VoxelSize := 100

/-- World bounds `[0,0,0]` to `[32,32,32]`: one chunk. -/
def bounds32 : FVoxelIntBox := { Min := ⟨0, 0, 0⟩, Max := ⟨32, 32, 32⟩ }

/-- World bounds `[0,0,0]` to `[2^21,2^21,2^21]`: `2^16` chunks per axis, `2^48` chunks. -/
def boundsWide : FVoxelIntBox := { Min := ⟨0, 0, 0⟩, Max := ⟨2097152, 2097152, 2097152⟩ }

/-- A pool that runs every queued task to its end, each reporting the blob `[7]`. -/
def completingPool : FVoxelCookingTaskData → List FIntVector → Option FVoxelCookingTaskData :=
  fun TaskData Tasks => some (Tasks.foldl (fun Data _ => ChunkDone Data [7]) TaskData)

/-- A backend whose every call fails: `CreateTriMesh` and `CreateConvex` return a null mesh,
`CookTriMesh` has written three bytes to the out buffer when it reports failure. -/
def failingCooking : IPhysXCooking where
  CreateTriMesh := fun _ _ _ _ _ => (false, none)
  CreateConvex := fun _ _ => (EPhysXCookingResult.Failed, none)
  CookTriMesh := fun _ _ _ _ _ => (false, [1, 2, 3])

/-- A backend whose every call succeeds, the convex cooks with inflation; the cooked bytes of
`CookTriMesh` are the number of vertices and the number of triangles. -/
def inflatingCooking : IPhysXCooking where
  CreateTriMesh := fun _ _ _ _ _ => (true, some { Handle := 1, AllocatedSize := 64 })
  CreateConvex := fun _ _ => (EPhysXCookingResult.SucceededWithInflation, some { Handle := 2 })
  CookTriMesh := fun _ Vertices Indices _ _ => (true, [Vertices.length, Indices.length])

/-- A renderer that returns one triangle for every chunk. -/
def triangleRenderer : IVoxelRenderer where
  CreateGeometry_AnyThread := fun _ _ => ([0, 1, 2], [⟨0, 0, 0⟩, ⟨1, 0, 0⟩, ⟨0, 1, 0⟩])

/-- A renderer that returns no geometry. -/
def emptyRenderer : IVoxelRenderer where
  CreateGeometry_AnyThread := fun _ _ => ([], [])

/-- A cooker after a cook with one error: one null triangle mesh accumulated. -/
def failedCooker : FVoxelAsyncPhysicsCooker_PhysX :=
  { twoSectionCooker with
    ErrorCounter := 1
    CookResult := { SimpleCollisionData := none, TriangleMeshes := [none]
                    TriangleMeshesMemoryUsage := 0 } }

/-- A cooker after a cook without error: one triangle mesh of 64 bytes accumulated. -/
def cookedCooker : FVoxelAsyncPhysicsCooker_PhysX :=
  { twoSectionCooker with
    ErrorCounter := 0
    CookResult :=
      { SimpleCollisionData := some
          { Bounds := FBox.ForceInit, BoxElems := [], ConvexElems := [], ConvexMeshes := [] }
        TriangleMeshes := [some { Handle := 1, AllocatedSize := 64 }]
        TriangleMeshesMemoryUsage := 64 } }

/-- A cooker in convex mode with one section, the cube buffer, `LOD = 0`, two hulls per axis and
the identity as `LocalToRoot`. -/
def cubeCooker : FVoxelAsyncPhysicsCooker_PhysX where
  Buffers := [cubeBuffer]
  LOD := 0
  NumConvexHullsPerAxis := 2
  bSimpleCubicCollision := false
  bCleanCollisionMesh := false
  CollisionTraceFlag := ECollisionTraceFlag.CTF_UseDefault
  LocalToRoot := { TransformPosition := id, TransformBox := id }
  ErrorCounter := 0
  CookResult := { SimpleCollisionData := none, TriangleMeshes := [], TriangleMeshesMemoryUsage := 0 }

/-- A codec that stores the bytes as they are: `compressBound` is the source length, and a call
succeeds when there is room for the source. -/
def storedZlib : FZlib where
  compressBound := fun sourceLen => sourceLen
  compress2 := fun Capacity Source _ => if Source.length ≤ Capacity then some Source else none
  uncompress := fun Capacity Source => if Source.length ≤ Capacity then some Source else none

/-- Small constants: chunks of 4 bytes, fewer than 4 chunks, a header of 24 bytes. -/
def smallConstants : FCompressionConstants where
  MaxChunkSize := 4
  MaxNumChunks := 4
  sizeofFHeader := 24
  Magic := 48879
  VoxelDefault := -2

/-- Constants with chunks of `2^29` bytes, fewer than 32 chunks, a header of 152 bytes. -/
def wideConstants : FCompressionConstants where
  MaxChunkSize := 536870912
  MaxNumChunks := 32
  sizeofFHeader := 152
  Magic := 48879
  VoxelDefault := -2

/-- A cooker in cubic mode with one section: the triangle buffer with one collision cube. -/
def smallCubicCooker : FVoxelAsyncPhysicsCooker_PhysX :=
  { twoSectionCooker with
    Buffers := [{ triangleBuffer with
      CollisionCubes := [{ Min := ⟨0, 0, 0⟩, Max := ⟨1, 1, 1⟩, IsValid := true }] }]
    bSimpleCubicCollision := true }

/-- A cooker in cubic mode with two sections: the cube buffer with two collision cubes and the
triangle buffer with one. -/
def cubicCooker : FVoxelAsyncPhysicsCooker_PhysX :=
  { twoSectionCooker with
    Buffers :=
      [{ cubeBuffer with
          CollisionCubes := [{ Min := ⟨0, 0, 0⟩, Max := ⟨1, 1, 1⟩, IsValid := true },
                             { Min := ⟨1, 0, 0⟩, Max := ⟨2, 1, 1⟩, IsValid := true }] },
       { triangleBuffer with
          CollisionCubes := [{ Min := ⟨0, 0, 1⟩, Max := ⟨1, 1, 3⟩, IsValid := true }] }]
    bSimpleCubicCollision := true }

/-- A buffer with four vertices that span 2080 units along X. -/
def longBuffer : FVoxelProcMeshBuffers where
  PositionVertexBuffer := [⟨0, 0, 0⟩, ⟨2080, 0, 0⟩, ⟨0, 1, 0⟩, ⟨0, 0, 1⟩]
  IndexBuffer := { Is32Bit := false, Data := [0, 1, 2, 0, 2, 3] }
  CollisionCubes := []

/-- A cooker in convex mode with the long buffer, `LOD = 0` and one hull per axis: the grid would
need 65 cells along X. -/
def longCooker : FVoxelAsyncPhysicsCooker_PhysX :=
  { twoSectionCooker with Buffers := [longBuffer], NumConvexHullsPerAxis := 1 }

/-- A buffer with `2^31` vertices and no index. -/
def hugeBuffer : FVoxelProcMeshBuffers where
  PositionVertexBuffer := List.replicate 2147483648 ⟨0, 0, 0⟩
  IndexBuffer := { Is32Bit := true, Data := [] }
  CollisionCubes := []

/-- A buffer whose vertices span 64 units along X, with one vertex half a unit before the middle. -/
def borderBuffer : FVoxelProcMeshBuffers where
  PositionVertexBuffer := [⟨0, 0, 0⟩, ⟨64, 0, 0⟩, ⟨63 / 2, 0, 0⟩, ⟨0, 1, 1⟩]
  IndexBuffer := { Is32Bit := false, Data := [0, 1, 2, 0, 2, 3] }
  CollisionCubes := []

/-- A cooker in convex mode with the border buffer, `LOD = 0` and one hull per axis: the grid has
two cells along X. -/
def borderCooker : FVoxelAsyncPhysicsCooker_PhysX :=
  { twoSectionCooker with Buffers := [borderBuffer], NumConvexHullsPerAxis := 1 }

/-- A buffer with eight vertices around `X = 0`, eight around `X = 64` and one vertex half a unit
before the middle. -/
def twoHullBuffer : FVoxelProcMeshBuffers where
  PositionVertexBuffer :=
    [⟨0, 0, 0⟩, ⟨1, 0, 0⟩, ⟨0, 1, 0⟩, ⟨1, 1, 0⟩, ⟨0, 0, 1⟩, ⟨1, 0, 1⟩, ⟨0, 1, 1⟩, ⟨1, 1, 1⟩,
      ⟨63, 0, 0⟩, ⟨64, 0, 0⟩, ⟨63, 1, 0⟩, ⟨64, 1, 0⟩, ⟨63, 0, 1⟩, ⟨64, 0, 1⟩, ⟨63, 1, 1⟩,
      ⟨64, 1, 1⟩, ⟨63 / 2, 0, 0⟩]
  IndexBuffer := { Is32Bit := false, Data := [0, 1, 2, 8, 9, 10] }
  CollisionCubes := []

/-- A cooker in convex mode with the two-hull buffer, `LOD = 0` and one hull per axis: the grid
has two cells along X and both hulls stay above the threshold. -/
def twoHullCooker : FVoxelAsyncPhysicsCooker_PhysX :=
  { twoSectionCooker with Buffers := [twoHullBuffer], NumConvexHullsPerAxis := 1 }

/-! ## Lemmas on machine integers -/

theorem toInt32_of_range {x : Int} (h0 : -2147483648 ≤ x) (h1 : x ≤ 2147483647) : toInt32 x = x := by
  unfold toInt32; omega

theorem toInt32_toUInt32_add (v o : Int) : toInt32 (toUInt32 (v + toUInt32 o)) = toInt32 (v + o) := by
  unfold toInt32 toUInt32; omega

theorem offsetIndex_eq (b : Bool) (v o : Int) : offsetIndex b v o = toInt32 (v + o) := by
  unfold offsetIndex
  cases b
  · simp
  · simp [toInt32_toUInt32_add]

/-! ## Lemmas on the copy loop -/

theorem values_length (IB : FVoxelProcMeshIndexBuffer) : IB.values.length = IB.GetNumIndices := by
  simp [FVoxelProcMeshIndexBuffer.values]

theorem values_getD (IB : FVoxelProcMeshIndexBuffer) (j : Nat) (hj : j < IB.GetNumIndices) :
    IB.values.getD j 0 = if IB.Is32Bit then IB.GetData_32 j else IB.GetData_16 j := by
  simp [FVoxelProcMeshIndexBuffer.values, List.getD_eq_getElem?_getD, List.getElem?_map,
    List.getElem?_range hj]

theorem copyTriangle_eq (IB : FVoxelProcMeshIndexBuffer) (o : Int) (k : Nat)
    (hk : k < IB.GetNumIndices / 3) :
    copyTriangle IB o k = (storedTriple IB k).increasedByInt32 o := by
  have h0 : 3 * k + 0 < IB.GetNumIndices := by omega
  have h1 : 3 * k + 1 < IB.GetNumIndices := by omega
  have h2 : 3 * k + 2 < IB.GetNumIndices := by omega
  unfold copyTriangle storedTriple FTriIndices.increasedByInt32
  rw [values_getD IB _ h0, values_getD IB _ h1, values_getD IB _ h2]
  cases hb : IB.Is32Bit <;> simp [offsetIndex_eq]

theorem verticesBefore_zero (Bs : List FVoxelProcMeshBuffers) : verticesBefore Bs 0 = 0 := by
  simp [verticesBefore]

theorem trianglesBefore_zero (Bs : List FVoxelProcMeshBuffers) : trianglesBefore Bs 0 = 0 := by
  simp [trianglesBefore]

theorem verticesBefore_cons (B : FVoxelProcMeshBuffers) (Bs : List FVoxelProcMeshBuffers) (i : Nat) :
    verticesBefore (B :: Bs) (i + 1) = B.PositionVertexBuffer.length + verticesBefore Bs i := by
  simp [verticesBefore, FVoxelProcMeshBuffers.GetNumVertices]

theorem trianglesBefore_cons (B : FVoxelProcMeshBuffers) (Bs : List FVoxelProcMeshBuffers) (i : Nat) :
    trianglesBefore (B :: Bs) (i + 1) = B.NumTriangles + trianglesBefore Bs i := by
  simp [trianglesBefore]

theorem copyLoop_vertices (Rest : List FVoxelProcMeshBuffers) (k : Nat) (A : FTriMeshArrays) :
    (copyLoop Rest k A).Vertices
      = A.Vertices ++ (Rest.map FVoxelProcMeshBuffers.PositionVertexBuffer).flatten := by
  induction Rest generalizing k A with
  | nil => simp [copyLoop]
  | cons B Rest ih => simp [copyLoop, ih, copyBuffer]

theorem copyLoop_material_length (Rest : List FVoxelProcMeshBuffers) (k : Nat) (A : FTriMeshArrays) :
    (copyLoop Rest k A).MaterialIndices.length
      = A.MaterialIndices.length + trianglesBefore Rest Rest.length := by
  induction Rest generalizing k A with
  | nil => simp [copyLoop, trianglesBefore]
  | cons B Rest ih =>
    simp only [copyLoop, ih, List.length_cons, trianglesBefore_cons]
    simp [copyBuffer, FVoxelProcMeshBuffers.NumTriangles]
    omega

theorem copyLoop_indices_length (Rest : List FVoxelProcMeshBuffers) (k : Nat) (A : FTriMeshArrays) :
    (copyLoop Rest k A).Indices.length = A.Indices.length + trianglesBefore Rest Rest.length := by
  induction Rest generalizing k A with
  | nil => simp [copyLoop, trianglesBefore]
  | cons B Rest ih =>
    simp only [copyLoop, ih, List.length_cons, trianglesBefore_cons]
    simp [copyBuffer, copyTriangles, FVoxelProcMeshBuffers.NumTriangles]
    omega

theorem copyLoop_material_front (Rest : List FVoxelProcMeshBuffers) (k : Nat) (A : FTriMeshArrays)
    (n : Nat) (hn : n < A.MaterialIndices.length) :
    (copyLoop Rest k A).MaterialIndices[n]? = A.MaterialIndices[n]? := by
  induction Rest generalizing k A with
  | nil => simp [copyLoop]
  | cons B Rest ih =>
    simp only [copyLoop]
    rw [ih]
    · simp [copyBuffer, List.getElem?_append_left hn]
    · simp [copyBuffer]; omega

theorem copyLoop_indices_front (Rest : List FVoxelProcMeshBuffers) (k : Nat) (A : FTriMeshArrays)
    (n : Nat) (hn : n < A.Indices.length) :
    (copyLoop Rest k A).Indices[n]? = A.Indices[n]? := by
  induction Rest generalizing k A with
  | nil => simp [copyLoop]
  | cons B Rest ih =>
    simp only [copyLoop]
    rw [ih]
    · simp [copyBuffer, List.getElem?_append_left hn]
    · simp [copyBuffer]; omega

theorem copyLoop_material_at (Rest : List FVoxelProcMeshBuffers) (k : Nat) (A : FTriMeshArrays)
    (i j : Nat) (B : FVoxelProcMeshBuffers) (hB : Rest[i]? = some B) (hj : j < B.NumTriangles) :
    (copyLoop Rest k A).MaterialIndices[A.MaterialIndices.length + trianglesBefore Rest i + j]?
      = some (toUInt16 ((k + i : Nat) : Int)) := by
  induction Rest generalizing k A i with
  | nil => simp at hB
  | cons B0 Rest ih =>
    cases i with
    | zero =>
      simp only [List.getElem?_cons_zero, Option.some.injEq] at hB
      subst hB
      simp only [copyLoop, trianglesBefore_zero, Nat.add_zero]
      rw [copyLoop_material_front]
      · simp only [copyBuffer]
        rw [List.getElem?_append_right (by omega)]
        simp [List.getElem?_replicate]
        exact hj
      · simp [copyBuffer]; exact hj
    | succ i =>
      simp only [List.getElem?_cons_succ] at hB
      have h := ih (k + 1) (copyBuffer A k B0) i hB
      simp only [copyLoop, trianglesBefore_cons]
      have e1 : (copyBuffer A k B0).MaterialIndices.length
          = A.MaterialIndices.length + B0.NumTriangles := by
        simp [copyBuffer, FVoxelProcMeshBuffers.NumTriangles]
      rw [e1] at h
      have e2 : A.MaterialIndices.length + (B0.NumTriangles + trianglesBefore Rest i) + j
          = A.MaterialIndices.length + B0.NumTriangles + trianglesBefore Rest i + j := by omega
      have e3 : k + (i + 1) = k + 1 + i := by omega
      rw [e2, e3]
      exact h

theorem copyLoop_indices_at (Rest : List FVoxelProcMeshBuffers) (k : Nat) (A : FTriMeshArrays)
    (hA : A.VertexOffset = A.Vertices.length)
    (i j : Nat) (B : FVoxelProcMeshBuffers) (hB : Rest[i]? = some B) (hj : j < B.NumTriangles) :
    (copyLoop Rest k A).Indices[A.Indices.length + trianglesBefore Rest i + j]?
      = some (copyTriangle B.IndexBuffer ((A.Vertices.length + verticesBefore Rest i : Nat) : Int) j) := by
  induction Rest generalizing k A i with
  | nil => simp at hB
  | cons B0 Rest ih =>
    cases i with
    | zero =>
      simp only [List.getElem?_cons_zero, Option.some.injEq] at hB
      subst hB
      simp only [copyLoop, trianglesBefore_zero, verticesBefore_zero, Nat.add_zero]
      rw [copyLoop_indices_front]
      · simp only [copyBuffer]
        rw [List.getElem?_append_right (by omega)]
        have hj2 : j < B0.IndexBuffer.GetNumIndices / 3 := hj
        simp [copyTriangles, List.getElem?_map, List.getElem?_range hj2, hA]
      · simp [copyBuffer, copyTriangles]; exact hj
    | succ i =>
      simp only [List.getElem?_cons_succ] at hB
      have hA2 : (copyBuffer A k B0).VertexOffset = (copyBuffer A k B0).Vertices.length := by
        simp [copyBuffer]
      have h := ih (k + 1) (copyBuffer A k B0) hA2 i hB
      simp only [copyLoop, trianglesBefore_cons, verticesBefore_cons]
      have e1 : (copyBuffer A k B0).Indices.length = A.Indices.length + B0.NumTriangles := by
        simp [copyBuffer, copyTriangles, FVoxelProcMeshBuffers.NumTriangles]
      have e4 : (copyBuffer A k B0).Vertices.length
          = A.Vertices.length + B0.PositionVertexBuffer.length := by
        simp [copyBuffer]
      rw [e1, e4] at h
      have e2 : A.Indices.length + (B0.NumTriangles + trianglesBefore Rest i) + j
          = A.Indices.length + B0.NumTriangles + trianglesBefore Rest i + j := by omega
      have e3 : A.Vertices.length + (B0.PositionVertexBuffer.length + verticesBefore Rest i)
          = A.Vertices.length + B0.PositionVertexBuffer.length + verticesBefore Rest i := by omega
      rw [e2, e3]
      exact h

theorem copyLoop_indices_mem (Rest : List FVoxelProcMeshBuffers) (k : Nat) (A : FTriMeshArrays)
    (hA : A.VertexOffset = A.Vertices.length) (t : FTriIndices)
    (ht : t ∈ (copyLoop Rest k A).Indices) :
    t ∈ A.Indices ∨ ∃ i j B, Rest[i]? = some B ∧ j < B.NumTriangles ∧
      t = copyTriangle B.IndexBuffer ((A.Vertices.length + verticesBefore Rest i : Nat) : Int) j := by
  induction Rest generalizing k A with
  | nil => left; simpa [copyLoop] using ht
  | cons B0 Rest ih =>
    simp only [copyLoop] at ht
    have hA2 : (copyBuffer A k B0).VertexOffset = (copyBuffer A k B0).Vertices.length := by
      simp [copyBuffer]
    rcases ih (k + 1) (copyBuffer A k B0) hA2 ht with h | ⟨i, j, B, hB, hj, rfl⟩
    · simp only [copyBuffer, List.mem_append] at h
      rcases h with h | h
      · left; exact h
      · right
        simp only [copyTriangles, List.mem_map, List.mem_range] at h
        obtain ⟨j, hj, rfl⟩ := h
        refine ⟨0, j, B0, by simp, hj, ?_⟩
        simp [verticesBefore_zero, hA]
    · right
      refine ⟨i + 1, j, B, by simpa using hB, hj, ?_⟩
      have e4 : (copyBuffer A k B0).Vertices.length
          = A.Vertices.length + B0.PositionVertexBuffer.length := by
        simp [copyBuffer]
      rw [e4, verticesBefore_cons]
      congr 2
      omega

theorem copyDataFromBuffers_vertices (Buffers : List FVoxelProcMeshBuffers) :
    (copyDataFromBuffers Buffers).Vertices
      = (Buffers.map FVoxelProcMeshBuffers.PositionVertexBuffer).flatten := by
  simp [copyDataFromBuffers, copyLoop_vertices, reserveArrays]

theorem copyDataFromBuffers_vertices_length (Buffers : List FVoxelProcMeshBuffers) :
    (copyDataFromBuffers Buffers).Vertices.length
      = (Buffers.map FVoxelProcMeshBuffers.GetNumVertices).sum := by
  rw [copyDataFromBuffers_vertices, List.length_flatten, List.map_map]
  rfl

theorem verticesBefore_add_le (Bs : List FVoxelProcMeshBuffers) (i : Nat) (B : FVoxelProcMeshBuffers)
    (hB : Bs[i]? = some B) :
    verticesBefore Bs i + B.GetNumVertices ≤ (Bs.map FVoxelProcMeshBuffers.GetNumVertices).sum := by
  induction Bs generalizing i with
  | nil => simp at hB
  | cons B0 Bs ih =>
    cases i with
    | zero =>
      simp only [List.getElem?_cons_zero, Option.some.injEq] at hB
      subst hB
      simp [verticesBefore_zero]
    | succ i =>
      simp only [List.getElem?_cons_succ] at hB
      have := ih i hB
      simp only [verticesBefore_cons, List.map_cons, List.sum_cons]
      simp only [FVoxelProcMeshBuffers.GetNumVertices] at this ⊢
      omega

theorem storedTriple_mem (IB : FVoxelProcMeshIndexBuffer) (k : Nat) (hk : k < IB.GetNumIndices / 3) :
    (storedTriple IB k).v0 ∈ IB.values ∧ (storedTriple IB k).v1 ∈ IB.values
      ∧ (storedTriple IB k).v2 ∈ IB.values := by
  have key : ∀ j, j < IB.GetNumIndices → IB.values.getD j 0 ∈ IB.values := by
    intro j hj
    have hj2 : j < IB.values.length := by rw [values_length]; exact hj
    rw [List.getD_eq_getElem?_getD, List.getElem?_eq_getElem hj2]
    exact List.getElem_mem hj2
  exact ⟨key _ (by omega), key _ (by omega), key _ (by omega)⟩

theorem values_nonneg (IB : FVoxelProcMeshIndexBuffer) (d : Int) (hd : d ∈ IB.values) : 0 ≤ d := by
  simp only [FVoxelProcMeshIndexBuffer.values, List.mem_map, List.mem_range] at hd
  obtain ⟨j, _, rfl⟩ := hd
  split
  · unfold FVoxelProcMeshIndexBuffer.GetData_32 toUInt32; omega
  · unfold FVoxelProcMeshIndexBuffer.GetData_16 toUInt16; omega

theorem copyDataFromBuffers_material_at (Buffers : List FVoxelProcMeshBuffers) (i k : Nat)
    (B : FVoxelProcMeshBuffers) (hB : Buffers[i]? = some B) (hk : k < B.NumTriangles) :
    (copyDataFromBuffers Buffers).MaterialIndices[trianglesBefore Buffers i + k]?
      = some (toUInt16 (i : Int)) := by
  have h2 := copyLoop_material_at Buffers 0 (reserveArrays Buffers) i k B hB hk
  have e : (reserveArrays Buffers).MaterialIndices.length = 0 := rfl
  rw [e, Nat.zero_add, Nat.zero_add] at h2
  exact h2

/-! ## Triangle-mesh assembly (CreateTriMesh) -/

/-- C1: if every index of every buffer is smaller than the vertex count of its own buffer and the
total vertex count fits in an `int32`, then every index of every merged triangle built by
`CreateTriMesh` is non-negative and smaller than the merged vertex count. -/
theorem createTriMesh_indices_lt_vertex_count (Buffers : List FVoxelProcMeshBuffers)
    (hIdx : ∀ B ∈ Buffers, ∀ d ∈ B.IndexBuffer.values, d < (B.GetNumVertices : Int))
    (hFit : (((Buffers.map FVoxelProcMeshBuffers.GetNumVertices).sum : Nat) : Int) ≤ MAX_int32) :
    ∀ t ∈ (copyDataFromBuffers Buffers).Indices,
      (0 ≤ t.v0 ∧ t.v0 < ((copyDataFromBuffers Buffers).Vertices.length : Int))
      ∧ (0 ≤ t.v1 ∧ t.v1 < ((copyDataFromBuffers Buffers).Vertices.length : Int))
      ∧ (0 ≤ t.v2 ∧ t.v2 < ((copyDataFromBuffers Buffers).Vertices.length : Int)) := by
  intro t ht
  rw [copyDataFromBuffers_vertices_length]
  have hmem := copyLoop_indices_mem Buffers 0 (reserveArrays Buffers) (by simp [reserveArrays]) t ht
  rcases hmem with h | ⟨i, j, B, hB, hj, rfl⟩
  · simp [reserveArrays] at h
  · have hBmem : B ∈ Buffers := List.getElem?_mem hB
    have hle := verticesBefore_add_le Buffers i B hB
    obtain ⟨m0, m1, m2⟩ := storedTriple_mem B.IndexBuffer j hj
    have b0 := hIdx B hBmem _ m0
    have b1 := hIdx B hBmem _ m1
    have b2 := hIdx B hBmem _ m2
    have n0 := values_nonneg _ _ m0
    have n1 := values_nonneg _ _ m1
    have n2 := values_nonneg _ _ m2
    rw [copyTriangle_eq _ _ _ hj]
    simp only [FTriIndices.increasedByInt32, reserveArrays, List.length_nil, Nat.zero_add]
    unfold MAX_int32 at hFit
    have hle2 : ((verticesBefore Buffers i : Nat) : Int) + (B.GetNumVertices : Int)
        ≤ (((Buffers.map FVoxelProcMeshBuffers.GetNumVertices).sum : Nat) : Int) := by
      exact_mod_cast hle
    have hv : (0 : Int) ≤ (verticesBefore Buffers i : Nat) := Int.ofNat_nonneg _
    rw [toInt32_of_range (by omega) (by omega), toInt32_of_range (by omega) (by omega),
      toInt32_of_range (by omega) (by omega)]
    omega

/-- Witness for C1: the cube buffer followed by the triangle buffer, 11 vertices in total. -/
theorem createTriMesh_indices_lt_vertex_count_witness :
    ((([cubeBuffer, triangleBuffer].map FVoxelProcMeshBuffers.GetNumVertices).sum : Nat) : Int)
        ≤ MAX_int32
    ∧ ∀ t ∈ (copyDataFromBuffers [cubeBuffer, triangleBuffer]).Indices,
      (0 ≤ t.v0 ∧ t.v0 < ((copyDataFromBuffers [cubeBuffer, triangleBuffer]).Vertices.length : Int))
      ∧ (0 ≤ t.v1 ∧ t.v1 < ((copyDataFromBuffers [cubeBuffer, triangleBuffer]).Vertices.length : Int))
      ∧ (0 ≤ t.v2 ∧ t.v2 < ((copyDataFromBuffers [cubeBuffer, triangleBuffer]).Vertices.length : Int)) :=
  ⟨by decide,
   createTriMesh_indices_lt_vertex_count [cubeBuffer, triangleBuffer] (by decide) (by decide)⟩

/-- C2, counterexample: in a list of 65537 buffers the triangle of the buffer at position 65536
does not get the tag 65536 (the tag array holds `uint16` values, the stored tag is 0). -/
theorem materialTags_not_positions_manySections : ¬ MaterialTagsArePositions manySections := by
  intro h
  have hB : manySections[65536]? = some triangleBuffer := by
    unfold manySections
    rw [List.getElem?_append_right (by rw [List.length_replicate]), List.length_replicate]
    rfl
  have h1 := h 65536 0 triangleBuffer hB (by decide)
  rw [copyDataFromBuffers_material_at manySections 65536 0 triangleBuffer hB (by decide)] at h1
  revert h1
  decide

/-- C2, amended: the material-index array has exactly one tag per merged triangle; the tag of every
triangle taken from the buffer at position `i` is `i` reduced to 16 bits; for a list of at most
65536 buffers the tag is `i` itself. -/
theorem createTriMesh_material_tags (Buffers : List FVoxelProcMeshBuffers) :
    (copyDataFromBuffers Buffers).MaterialIndices.length
        = (copyDataFromBuffers Buffers).Indices.length
    ∧ (∀ i k : Nat, ∀ Buffer, Buffers[i]? = some Buffer → k < Buffer.NumTriangles →
        (copyDataFromBuffers Buffers).MaterialIndices[trianglesBefore Buffers i + k]?
          = some (toUInt16 (i : Int)))
    ∧ (Buffers.length ≤ 65536 → MaterialTagsArePositions Buffers) := by
  have key : ∀ i k : Nat, ∀ Buffer, Buffers[i]? = some Buffer → k < Buffer.NumTriangles →
      (copyDataFromBuffers Buffers).MaterialIndices[trianglesBefore Buffers i + k]?
        = some (toUInt16 (i : Int)) :=
    fun i k B hB hk => copyDataFromBuffers_material_at Buffers i k B hB hk
  refine ⟨?_, key, ?_⟩
  · simp [copyDataFromBuffers, copyLoop_material_length, copyLoop_indices_length, reserveArrays]
  · intro hlen i k B hB hk
    rw [key i k B hB hk]
    have hi : i < Buffers.length := (List.getElem?_eq_some.mp hB).1
    congr 1
    unfold toUInt16
    omega

/-- Witness for C2 (amended): the cube buffer followed by the triangle buffer. -/
theorem createTriMesh_material_tags_witness :
    MaterialTagsArePositions [cubeBuffer, triangleBuffer] :=
  (createTriMesh_material_tags [cubeBuffer, triangleBuffer]).2.2 (by decide)

/-- C3, counterexample: a 32-bit buffer whose first stored index is `2^31` yields the merged index
`-2^31`, not `2^31 + 0`. -/
theorem triangles_not_offset_triples_wideIndex : ¬ TrianglesAreOffsetTriples [wideIndexBuffer] := by
  intro h
  have h1 := h 0 0 wideIndexBuffer rfl (by decide)
  revert h1
  decide

/-- C3, amended: the merged triangle list has one triangle per stored triple, in input order, and
the triangle `k` of the buffer at position `i` is the stored triple with every index increased, in
`int32` arithmetic, by the number of vertices of the buffers before `i`; whenever no stored index
plus that number exceeds `MAX_int32` this is the exact sum; and the triangles of a buffer do not
depend on whether its index values are stored as 16-bit or as 32-bit integers. -/
theorem createTriMesh_triangles (Buffers : List FVoxelProcMeshBuffers) :
    (copyDataFromBuffers Buffers).Indices.length = trianglesBefore Buffers Buffers.length
    ∧ (∀ i k : Nat, ∀ Buffer, Buffers[i]? = some Buffer → k < Buffer.NumTriangles →
        (copyDataFromBuffers Buffers).Indices[trianglesBefore Buffers i + k]?
          = some ((storedTriple Buffer.IndexBuffer k).increasedByInt32 (verticesBefore Buffers i)))
    ∧ ((∀ i : Nat, ∀ Buffer, Buffers[i]? = some Buffer → ∀ d ∈ Buffer.IndexBuffer.values,
          d + (verticesBefore Buffers i : Int) ≤ MAX_int32) → TrianglesAreOffsetTriples Buffers)
    ∧ (∀ (Data : List Nat) (VertexOffset : Int), (∀ d ∈ Data, d < 65536) →
        copyTriangles { Is32Bit := false, Data := Data } VertexOffset
          = copyTriangles { Is32Bit := true, Data := Data } VertexOffset) := by
  have key : ∀ i k : Nat, ∀ Buffer, Buffers[i]? = some Buffer → k < Buffer.NumTriangles →
      (copyDataFromBuffers Buffers).Indices[trianglesBefore Buffers i + k]?
        = some ((storedTriple Buffer.IndexBuffer k).increasedByInt32 (verticesBefore Buffers i)) := by
    intro i k B hB hk
    have h2 := copyLoop_indices_at Buffers 0 (reserveArrays Buffers) (by simp [reserveArrays])
      i k B hB hk
    rw [copyTriangle_eq _ _ _ hk] at h2
    simpa [reserveArrays, copyDataFromBuffers] using h2
  refine ⟨?_, key, ?_, ?_⟩
  · simp [copyDataFromBuffers, copyLoop_indices_length, reserveArrays]
  · intro hfit i k B hB hk
    rw [key i k B hB hk]
    obtain ⟨m0, m1, m2⟩ := storedTriple_mem B.IndexBuffer k hk
    have b0 := hfit i B hB _ m0
    have b1 := hfit i B hB _ m1
    have b2 := hfit i B hB _ m2
    have n0 := values_nonneg _ _ m0
    have n1 := values_nonneg _ _ m1
    have n2 := values_nonneg _ _ m2
    have hv : (0 : Int) ≤ (verticesBefore Buffers i : Nat) := Int.ofNat_nonneg _
    unfold MAX_int32 at b0 b1 b2
    simp only [FTriIndices.increasedByInt32, FTriIndices.increasedBy]
    rw [toInt32_of_range (by omega) (by omega), toInt32_of_range (by omega) (by omega),
      toInt32_of_range (by omega) (by omega)]
  · intro Data VertexOffset hData
    unfold copyTriangles
    apply List.map_congr_left
    intro k _
    have hget : ∀ j, toUInt16 ((Data.getD j 0 : Nat) : Int) = toUInt32 ((Data.getD j 0 : Nat) : Int) := by
      intro j
      have hlt : Data.getD j 0 < 65536 := by
        rw [List.getD_eq_getElem?_getD]
        cases hj : Data[j]? with
        | none => simp
        | some d => simpa using hData d (List.getElem?_mem hj)
      unfold toUInt16 toUInt32
      omega
    simp only [copyTriangle, offsetIndex_eq, FVoxelProcMeshIndexBuffer.GetData_16,
      FVoxelProcMeshIndexBuffer.GetData_32, hget]
    simp

/-- Witness for C3 (amended): the cube buffer followed by the triangle buffer, and the index data
of the triangle buffer. -/
theorem createTriMesh_triangles_witness :
    TrianglesAreOffsetTriples [cubeBuffer, triangleBuffer]
    ∧ copyTriangles { Is32Bit := false, Data := [0, 1, 2] } 8
        = copyTriangles { Is32Bit := true, Data := [0, 1, 2] } 8 :=
  ⟨(createTriMesh_triangles [cubeBuffer, triangleBuffer]).2.2.1 (by
      intro i Buffer hB
      match i, hB with
      | 0, hB => cases hB; decide
      | 1, hB => cases hB; decide
      | (n + 2), hB => simp at hB),
   (createTriMesh_triangles [cubeBuffer, triangleBuffer]).2.2.2 [0, 1, 2] 8 (by decide)⟩

/-- C4: the merged vertex array built by `CreateTriMesh` is the concatenation, in input order, of
the position arrays of the buffers, its length is the sum of the vertex counts; and for one buffer
with 8 vertices and 36 indices the output has 8 vertices, 12 triangles and 12 material tags, all
equal to 0. -/
theorem createTriMesh_vertices (Buffers : List FVoxelProcMeshBuffers) :
    (copyDataFromBuffers Buffers).Vertices
        = (Buffers.map FVoxelProcMeshBuffers.PositionVertexBuffer).flatten
    ∧ (copyDataFromBuffers Buffers).Vertices.length
        = (Buffers.map FVoxelProcMeshBuffers.GetNumVertices).sum
    ∧ (∀ Buffer : FVoxelProcMeshBuffers, Buffer.GetNumVertices = 8 → Buffer.GetNumIndices = 36 →
        (copyDataFromBuffers [Buffer]).Vertices = Buffer.PositionVertexBuffer
        ∧ (copyDataFromBuffers [Buffer]).Vertices.length = 8
        ∧ (copyDataFromBuffers [Buffer]).Indices.length = 12
        ∧ 3 * (copyDataFromBuffers [Buffer]).Indices.length = 36
        ∧ (copyDataFromBuffers [Buffer]).MaterialIndices = List.replicate 12 0) := by
  refine ⟨copyDataFromBuffers_vertices Buffers, copyDataFromBuffers_vertices_length Buffers, ?_⟩
  intro B hV hI
  have hI2 : B.IndexBuffer.GetNumIndices = 36 := hI
  have hV2 : B.PositionVertexBuffer.length = 8 := hV
  simp [copyDataFromBuffers, copyLoop, copyBuffer, reserveArrays, copyTriangles, hI2, hV2, toUInt16]

/-- Witness for C4: the cube buffer. -/
theorem createTriMesh_vertices_witness :
    (copyDataFromBuffers [cubeBuffer]).Vertices = cubeBuffer.PositionVertexBuffer
    ∧ (copyDataFromBuffers [cubeBuffer]).Vertices.length = 8
    ∧ (copyDataFromBuffers [cubeBuffer]).Indices.length = 12
    ∧ 3 * (copyDataFromBuffers [cubeBuffer]).Indices.length = 36
    ∧ (copyDataFromBuffers [cubeBuffer]).MaterialIndices = List.replicate 12 0 :=
  (createTriMesh_vertices [cubeBuffer]).2.2 cubeBuffer (by decide) (by decide)

/-! ## Lemmas on hull merging -/

theorem getD_append_length {α : Type} (pre : List α) (a : α) (t : List α) (d : α) :
    (pre ++ a :: t).getD pre.length d = a := by
  induction pre with
  | nil => rfl
  | cons x pre ih => simpa using ih

theorem getD_append_length_succ {α : Type} (pre : List α) (a b : α) (t : List α) (d : α) :
    (pre ++ a :: b :: t).getD (pre.length + 1) d = b := by
  induction pre with
  | nil => rfl
  | cons x pre ih => simpa using ih

theorem set_append_length {α : Type} (pre : List α) (a x : α) (t : List α) :
    (pre ++ a :: t).set pre.length x = pre ++ x :: t := by
  induction pre with
  | nil => rfl
  | cons y pre ih => simp [ih]

theorem set_append_length_succ {α : Type} (pre : List α) (a b x : α) (t : List α) :
    (pre ++ a :: b :: t).set (pre.length + 1) x = pre ++ a :: x :: t := by
  induction pre with
  | nil => rfl
  | cons y pre ih => simp [ih]

theorem foldl_mergeForwardStep (rest : List (List FVector)) (pre : List (List FVector))
    (cur : List FVector) :
    (List.range' pre.length rest.length).foldl mergeForwardStep (pre ++ cur :: rest)
      = pre ++ forwardFrom cur rest := by
  induction rest generalizing pre cur with
  | nil => simp [forwardFrom]
  | cons next rest ih =>
    rw [List.length_cons, List.range'_succ, List.foldl_cons]
    by_cases h : cur.length < Threshold
    · have hstep : mergeForwardStep (pre ++ cur :: next :: rest) pre.length
          = pre ++ [] :: (next ++ cur) :: rest := by
        unfold mergeForwardStep
        rw [getD_append_length]
        simp only [h, if_true]
        rw [getD_append_length_succ, set_append_length_succ, set_append_length]
      rw [hstep]
      have := ih (pre ++ [[]]) (next ++ cur)
      simp only [List.length_append, List.length_singleton, List.append_assoc,
        List.singleton_append] at this
      rw [this]
      simp [forwardFrom, h]
    · have hstep : mergeForwardStep (pre ++ cur :: next :: rest) pre.length
          = pre ++ cur :: next :: rest := by
        unfold mergeForwardStep
        rw [getD_append_length]
        simp only [h, if_false]
      rw [hstep]
      have := ih (pre ++ [cur]) next
      simp only [List.length_append, List.length_singleton, List.append_assoc,
        List.singleton_append] at this
      rw [this]
      simp [forwardFrom, h]

theorem mergeForward_nil : mergeForward [] = [] := by
  simp [mergeForward]

theorem mergeForward_cons (cur : List FVector) (rest : List (List FVector)) :
    mergeForward (cur :: rest) = forwardFrom cur rest := by
  have := foldl_mergeForwardStep rest [] cur
  simpa [mergeForward, List.range_eq_range'] using this

theorem forwardFrom_shape (rest : List (List FVector)) (cur : List FVector) :
    ∃ init last, forwardFrom cur rest = init ++ [last]
      ∧ ∀ b ∈ init, b = [] ∨ Threshold ≤ b.length := by
  induction rest generalizing cur with
  | nil => exact ⟨[], cur, by simp [forwardFrom], by simp⟩
  | cons next rest ih =>
    unfold forwardFrom
    by_cases h : cur.length < Threshold
    · obtain ⟨init, last, e, hb⟩ := ih (next ++ cur)
      refine ⟨[] :: init, last, by simp [h, e], ?_⟩
      intro b hbm
      rcases List.mem_cons.mp hbm with rfl | hbm
      · left; rfl
      · exact hb b hbm
    · obtain ⟨init, last, e, hb⟩ := ih next
      refine ⟨cur :: init, last, by simp [h, e], ?_⟩
      intro b hbm
      rcases List.mem_cons.mp hbm with rfl | hbm
      · right; omega
      · exact hb b hbm

theorem forwardFrom_mem (rest : List (List FVector)) (cur : List FVector) (v : FVector) :
    (∃ b ∈ forwardFrom cur rest, v ∈ b) ↔ (v ∈ cur ∨ ∃ b ∈ rest, v ∈ b) := by
  induction rest generalizing cur with
  | nil => simp [forwardFrom]
  | cons next rest ih =>
    unfold forwardFrom
    by_cases h : cur.length < Threshold
    · simp only [h, if_true, List.mem_cons, exists_eq_or_imp, List.not_mem_nil, false_or]
      rw [ih (next ++ cur)]
      simp only [List.mem_append]
      tauto
    · simp only [h, if_false, List.mem_cons, exists_eq_or_imp]
      rw [ih next]

theorem mergeForward_mem (L : List (List FVector)) (v : FVector) :
    (∃ b ∈ mergeForward L, v ∈ b) ↔ (∃ b ∈ L, v ∈ b) := by
  cases L with
  | nil => simp [mergeForward_nil]
  | cons cur rest =>
    rw [mergeForward_cons, forwardFrom_mem]
    simp

theorem removeEmpty_mem (L : List (List FVector)) (v : FVector) :
    (∃ b ∈ removeEmpty L, v ∈ b) ↔ (∃ b ∈ L, v ∈ b) := by
  constructor
  · rintro ⟨b, hb, hv⟩
    exact ⟨b, (List.mem_filter.mp hb).1, hv⟩
  · rintro ⟨b, hb, hv⟩
    refine ⟨b, List.mem_filter.mpr ⟨hb, ?_⟩, hv⟩
    have : b.length ≠ 0 := by
      intro h0
      rw [List.length_eq_zero] at h0
      subst h0
      simp at hv
    simpa using this

theorem removeEmpty_shape (init : List (List FVector)) (last : List FVector)
    (h : ∀ b ∈ init, b = [] ∨ Threshold ≤ b.length) :
    removeEmpty (init ++ [last]) = [] ∨
      ∃ A x, removeEmpty (init ++ [last]) = A ++ [x] ∧ ∀ b ∈ A, Threshold ≤ b.length := by
  have hA : ∀ b ∈ removeEmpty init, Threshold ≤ b.length := by
    intro b hb
    obtain ⟨hb1, hb2⟩ := List.mem_filter.mp hb
    rcases h b hb1 with rfl | h8
    · simp at hb2
    · exact h8
  have e : removeEmpty (init ++ [last]) = removeEmpty init ++ removeEmpty [last] := by
    simp [removeEmpty]
  rw [e]
  by_cases hl : last.length = 0
  · have e2 : removeEmpty [last] = [] := by simp [removeEmpty, hl]
    rw [e2, List.append_nil]
    rcases List.eq_nil_or_concat (removeEmpty init) with h0 | ⟨A, x, hAx⟩
    · left; exact h0
    · right
      rw [List.concat_eq_append] at hAx
      refine ⟨A, x, hAx, ?_⟩
      intro b hb
      apply hA
      rw [hAx]
      exact List.mem_append_left _ hb
  · right
    have e2 : removeEmpty [last] = [last] := by simp [removeEmpty, hl]
    exact ⟨removeEmpty init, last, by rw [e2], hA⟩

theorem mergeBackwardCondition_concat (A : List (List FVector)) (x : List FVector) :
    mergeBackwardCondition (A ++ [x]) = (decide (x.length < Threshold) && decide (A ≠ [])) := by
  unfold mergeBackwardCondition
  rw [List.getLastD_concat]
  cases A with
  | nil => simp
  | cons a A => simp

theorem mergeBackwardStep_concat (A : List (List FVector)) (p x : List FVector) :
    mergeBackwardStep (A ++ [p, x]) = A ++ [p ++ x] := by
  unfold mergeBackwardStep
  have hl : (A ++ [p, x]).length - 2 = A.length := by simp
  rw [hl, getD_append_length, set_append_length]
  have hlast : (A ++ [p, x]).getLastD [] = x := by
    have : A ++ [p, x] = (A ++ [p]) ++ [x] := by simp
    rw [this, List.getLastD_concat]
  rw [hlast]
  have : A ++ [p ++ x, x] = (A ++ [p ++ x]) ++ [x] := by simp
  rw [this, List.dropLast_concat]

theorem mergeBackwardLoop_of_false (Fuel : Nat) (M : List (List FVector))
    (h : mergeBackwardCondition M = false) : mergeBackwardLoop Fuel M = M := by
  cases Fuel with
  | zero => rfl
  | succ n => simp [mergeBackwardLoop, h]

theorem mergeBackward_small (A : List (List FVector)) (p x : List FVector)
    (hx : x.length < Threshold) (hp : Threshold ≤ p.length) :
    mergeBackward (A ++ [p, x]) = A ++ [p ++ x] := by
  unfold mergeBackward
  have hlen : (A ++ [p, x]).length = (A.length + 1) + 1 := by simp
  rw [hlen, mergeBackwardLoop]
  have hc : mergeBackwardCondition (A ++ [p, x]) = true := by
    have : A ++ [p, x] = (A ++ [p]) ++ [x] := by simp
    rw [this, mergeBackwardCondition_concat]
    simp [hx]
  rw [hc, if_pos rfl, mergeBackwardStep_concat]
  apply mergeBackwardLoop_of_false
  rw [mergeBackwardCondition_concat]
  have : ¬ (p ++ x).length < Threshold := by
    rw [List.length_append]; omega
  rw [decide_eq_false this]
  rfl

theorem mergeBackward_of_false (M : List (List FVector))
    (h : mergeBackwardCondition M = false) : mergeBackward M = M :=
  mergeBackwardLoop_of_false _ M h

theorem mergeBackward_shape (A : List (List FVector)) (x : List FVector)
    (hA : ∀ b ∈ A, Threshold ≤ b.length) :
    mergeBackward (A ++ [x]) ≠ []
    ∧ (1 < (mergeBackward (A ++ [x])).length → ∀ b ∈ mergeBackward (A ++ [x]), Threshold ≤ b.length)
    ∧ (∀ v, (∃ b ∈ mergeBackward (A ++ [x]), v ∈ b) ↔ ∃ b ∈ A ++ [x], v ∈ b)
    ∧ mergeBackwardCondition (mergeBackward (A ++ [x])) = false := by
  by_cases hc : mergeBackwardCondition (A ++ [x]) = true
  · rw [mergeBackwardCondition_concat] at hc
    simp only [Bool.and_eq_true, decide_eq_true_eq] at hc
    obtain ⟨hx, hne⟩ := hc
    rcases List.eq_nil_or_concat A with h0 | ⟨A0, p, hAp⟩
    · exact absurd h0 hne
    · rw [List.concat_eq_append] at hAp
      subst hAp
      have hp : Threshold ≤ p.length := hA p (by simp)
      have e : A0 ++ [p] ++ [x] = A0 ++ [p, x] := by simp
      rw [e, mergeBackward_small A0 p x hx hp]
      have hpx : Threshold ≤ (p ++ x).length := by rw [List.length_append]; omega
      refine ⟨by simp, ?_, ?_, ?_⟩
      · intro _ b hb
        rcases List.mem_append.mp hb with hb | hb
        · exact hA b (List.mem_append_left _ hb)
        · rw [List.mem_singleton] at hb
          subst hb
          exact hpx
      · intro v
        simp only [List.mem_append, List.mem_singleton, List.mem_cons, List.not_mem_nil, or_false]
        constructor
        · rintro ⟨b, hb | rfl, hv⟩
          · exact ⟨b, Or.inl hb, hv⟩
          · rcases List.mem_append.mp hv with hv | hv
            · exact ⟨p, Or.inr (Or.inl rfl), hv⟩
            · exact ⟨x, Or.inr (Or.inr rfl), hv⟩
        · rintro ⟨b, hb | rfl | rfl, hv⟩
          · exact ⟨b, Or.inl hb, hv⟩
          · exact ⟨b ++ x, Or.inr rfl, List.mem_append_left _ hv⟩
          · exact ⟨p ++ b, Or.inr rfl, List.mem_append_right _ hv⟩
      · rw [mergeBackwardCondition_concat]
        have : ¬ (p ++ x).length < Threshold := by omega
        rw [decide_eq_false this]
        rfl
  · have hc2 : mergeBackwardCondition (A ++ [x]) = false := by
      cases h : mergeBackwardCondition (A ++ [x]) with
      | true => exact absurd h hc
      | false => rfl
    rw [mergeBackward_of_false _ hc2]
    refine ⟨by simp, ?_, fun v => Iff.rfl, hc2⟩
    intro hlen b hb
    rw [mergeBackwardCondition_concat] at hc2
    have hne : A ≠ [] := by
      intro h0
      subst h0
      simp at hlen
    have hx : ¬ x.length < Threshold := by
      intro hx
      simp [hx, hne] at hc2
    rcases List.mem_append.mp hb with hb | hb
    · exact hA b hb
    · rw [List.mem_singleton] at hb
      subst hb
      omega

theorem mergeHulls_spec (E : List (List FVector)) (hne : removeEmpty (mergeForward E) ≠ []) :
    mergeBackward (removeEmpty (mergeForward E)) ≠ []
    ∧ (1 < (mergeBackward (removeEmpty (mergeForward E))).length →
        ∀ b ∈ mergeBackward (removeEmpty (mergeForward E)), Threshold ≤ b.length)
    ∧ (∀ v, (∃ b ∈ mergeBackward (removeEmpty (mergeForward E)), v ∈ b) ↔ ∃ b ∈ E, v ∈ b)
    ∧ mergeBackwardCondition (mergeBackward (removeEmpty (mergeForward E))) = false := by
  cases E with
  | nil => simp [mergeForward_nil, removeEmpty] at hne
  | cons cur rest =>
    obtain ⟨init, last, e, hinit⟩ := forwardFrom_shape rest cur
    have hmem : ∀ v, (∃ b ∈ removeEmpty (mergeForward (cur :: rest)), v ∈ b)
        ↔ ∃ b ∈ cur :: rest, v ∈ b := by
      intro v
      rw [removeEmpty_mem, mergeForward_mem]
    rw [mergeForward_cons, e] at hne hmem ⊢
    rcases removeEmpty_shape init last hinit with h0 | ⟨A, x, hAx, hA⟩
    · exact absurd h0 hne
    · rw [hAx] at hmem ⊢
      obtain ⟨h1, h2, h3, h4⟩ := mergeBackward_shape A x hA
      exact ⟨h1, h2, fun v => (h3 v).trans (hmem v), h4⟩

/-! ## Lemmas on the assignment of vertices to hulls -/

theorem addToBucket_length (E : List (List FVector)) (i : Nat) (V : FVector) :
    (addToBucket E i V).length = E.length := by
  induction E generalizing i with
  | nil => rfl
  | cons b E ih =>
    cases i with
    | zero => rfl
    | succ i => simp [addToBucket, ih]

theorem addToBucket_mono (E : List (List FVector)) (i : Nat) (V v : FVector)
    (h : ∃ b ∈ E, v ∈ b) : ∃ b ∈ addToBucket E i V, v ∈ b := by
  induction E generalizing i with
  | nil => simp at h
  | cons b0 E ih =>
    obtain ⟨b, hb, hv⟩ := h
    cases i with
    | zero =>
      rcases List.mem_cons.mp hb with rfl | hb
      · exact ⟨b ++ [V], by simp [addToBucket], List.mem_append_left _ hv⟩
      · exact ⟨b, by simp [addToBucket, hb], hv⟩
    | succ i =>
      rcases List.mem_cons.mp hb with rfl | hb
      · exact ⟨b, by simp [addToBucket], hv⟩
      · obtain ⟨c, hc, hvc⟩ := ih i ⟨b, hb, hv⟩
        exact ⟨c, by simp [addToBucket, hc], hvc⟩

theorem addToBucket_new (E : List (List FVector)) (i : Nat) (V : FVector) (hi : i < E.length) :
    ∃ b ∈ addToBucket E i V, V ∈ b := by
  induction E generalizing i with
  | nil => simp at hi
  | cons b0 E ih =>
    cases i with
    | zero => exact ⟨b0 ++ [V], by simp [addToBucket], by simp⟩
    | succ i =>
      obtain ⟨c, hc, hvc⟩ := ih i (by simpa using hi)
      exact ⟨c, by simp [addToBucket, hc], hvc⟩

theorem Lambda_length {F : FFloatMath} (Box : FBox) (Size : FIntVector) (LOD : Nat) (N : Int) (V : FVector)
    (St : List (List FVector) × FIntVector) (ox oy oz : Int) :
    (Lambda F Box Size LOD N V St ox oy oz).1.length = St.1.length := by
  unfold Lambda
  simp only
  split
  · simp [addToBucket_length]
  · split
    · rfl
    · simp [addToBucket_length]

theorem Lambda_mono {F : FFloatMath} (Box : FBox) (Size : FIntVector) (LOD : Nat) (N : Int) (V : FVector)
    (St : List (List FVector) × FIntVector) (ox oy oz : Int) (v : FVector)
    (h : ∃ b ∈ St.1, v ∈ b) : ∃ b ∈ (Lambda F Box Size LOD N V St ox oy oz).1, v ∈ b := by
  unfold Lambda
  simp only
  split
  · exact addToBucket_mono _ _ _ _ h
  · split
    · exact h
    · exact addToBucket_mono _ _ _ _ h

theorem Clamp_range (x S : Int) (hS : 1 ≤ S) : 0 ≤ Clamp x 0 (S - 1) ∧ Clamp x 0 (S - 1) ≤ S - 1 := by
  unfold Clamp
  split
  · omega
  · split <;> omega

theorem bucketIndex_range (Size P : FIntVector) (hX : 1 ≤ Size.X) (hY : 1 ≤ Size.Y)
    (pX : 0 ≤ P.X ∧ P.X ≤ Size.X - 1) (pY : 0 ≤ P.Y ∧ P.Y ≤ Size.Y - 1)
    (pZ : 0 ≤ P.Z ∧ P.Z ≤ Size.Z - 1) :
    0 ≤ bucketIndex Size P ∧ bucketIndex Size P < Size.X * Size.Y * Size.Z := by
  unfold bucketIndex
  have hXY : 0 ≤ Size.X * Size.Y := by positivity
  have h1 : 0 ≤ Size.X * P.Y := by
    apply mul_nonneg <;> omega
  have h2 : 0 ≤ Size.X * Size.Y * P.Z := mul_nonneg hXY pZ.1
  have h3 : Size.X * P.Y ≤ Size.X * (Size.Y - 1) :=
    mul_le_mul_of_nonneg_left pY.2 (by omega)
  have h4 : Size.X * Size.Y * P.Z ≤ Size.X * Size.Y * (Size.Z - 1) :=
    mul_le_mul_of_nonneg_left pZ.2 hXY
  constructor
  · omega
  · have e1 : Size.X * (Size.Y - 1) = Size.X * Size.Y - Size.X := by ring
    have e2 : Size.X * Size.Y * (Size.Z - 1) = Size.X * Size.Y * Size.Z - Size.X * Size.Y := by ring
    omega

theorem bucketPosition_index_lt {F : FFloatMath} (Box : FBox) (Size : FIntVector) (LOD : Nat) (N : Int) (V : FVector)
    (ox oy oz : Int) (hX : 1 ≤ Size.X) (hY : 1 ≤ Size.Y) (hZ : 1 ≤ Size.Z) :
    (bucketIndex Size (bucketPosition F Box Size LOD N V ox oy oz)).toNat
      < (Size.X * Size.Y * Size.Z).toNat := by
  have h := bucketIndex_range Size (bucketPosition F Box Size LOD N V ox oy oz) hX hY
    (Clamp_range _ _ hX) (Clamp_range _ _ hY) (Clamp_range _ _ hZ)
  omega

theorem gridSize_pos {F : FFloatMath} (Box : FBox) (LOD : Nat) (N : Int) :
    1 ≤ (gridSize F Box LOD N).X ∧ 1 ≤ (gridSize F Box LOD N).Y ∧ 1 ≤ (gridSize F Box LOD N).Z := by
  unfold gridSize
  exact ⟨le_max_left _ _, le_max_left _ _, le_max_left _ _⟩

theorem assignVertex_length {F : FFloatMath} (Box : FBox) (Size : FIntVector) (LOD : Nat) (N : Int)
    (E : List (List FVector)) (V : FVector) :
    (assignVertex F Box Size LOD N E V).length = E.length := by
  unfold assignVertex
  simp only [Lambda_length]

theorem assignVertex_mono {F : FFloatMath} (Box : FBox) (Size : FIntVector) (LOD : Nat) (N : Int)
    (E : List (List FVector)) (V v : FVector) (h : ∃ b ∈ E, v ∈ b) :
    ∃ b ∈ assignVertex F Box Size LOD N E V, v ∈ b := by
  unfold assignVertex
  simp only
  exact Lambda_mono _ _ _ _ _ _ _ _ _ _ (Lambda_mono _ _ _ _ _ _ _ _ _ _ (Lambda_mono _ _ _ _ _ _ _ _ _ _
    (Lambda_mono _ _ _ _ _ _ _ _ _ _ (Lambda_mono _ _ _ _ _ _ _ _ _ _ (Lambda_mono _ _ _ _ _ _ _ _ _ _
    (Lambda_mono _ _ _ _ _ _ _ _ _ _ h))))))

theorem assignVertex_new {F : FFloatMath} (Box : FBox) (Size : FIntVector) (LOD : Nat) (N : Int)
    (E : List (List FVector)) (V : FVector)
    (hX : 1 ≤ Size.X) (hY : 1 ≤ Size.Y) (hZ : 1 ≤ Size.Z)
    (hE : E.length = (Size.X * Size.Y * Size.Z).toNat) :
    ∃ b ∈ assignVertex F Box Size LOD N E V, V ∈ b := by
  unfold assignVertex
  simp only
  have h0 : ∃ b ∈ (Lambda F Box Size LOD N V (E, ⟨0, 0, 0⟩) 0 0 0).1, V ∈ b := by
    unfold Lambda
    simp only [and_self, if_true]
    apply addToBucket_new
    rw [hE]
    exact bucketPosition_index_lt Box Size LOD N V 0 0 0 hX hY hZ
  exact Lambda_mono _ _ _ _ _ _ _ _ _ _ (Lambda_mono _ _ _ _ _ _ _ _ _ _ (Lambda_mono _ _ _ _ _ _ _ _ _ _
    (Lambda_mono _ _ _ _ _ _ _ _ _ _ (Lambda_mono _ _ _ _ _ _ _ _ _ _ (Lambda_mono _ _ _ _ _ _ _ _ _ _
    h0)))))

theorem foldl_assignVertex_length {F : FFloatMath} (Box : FBox) (Size : FIntVector) (LOD : Nat) (N : Int)
    (vs : List FVector) (E : List (List FVector)) :
    (vs.foldl (assignVertex F Box Size LOD N) E).length = E.length := by
  induction vs generalizing E with
  | nil => rfl
  | cons V vs ih => rw [List.foldl_cons, ih, assignVertex_length]

theorem foldl_assignVertex_mono {F : FFloatMath} (Box : FBox) (Size : FIntVector) (LOD : Nat) (N : Int)
    (vs : List FVector) (E : List (List FVector)) (v : FVector) (h : ∃ b ∈ E, v ∈ b) :
    ∃ b ∈ vs.foldl (assignVertex F Box Size LOD N) E, v ∈ b := by
  induction vs generalizing E with
  | nil => exact h
  | cons V vs ih =>
    rw [List.foldl_cons]
    exact ih _ (assignVertex_mono _ _ _ _ _ _ _ h)

theorem foldl_assignVertex_new {F : FFloatMath} (Box : FBox) (Size : FIntVector) (LOD : Nat) (N : Int)
    (hX : 1 ≤ Size.X) (hY : 1 ≤ Size.Y) (hZ : 1 ≤ Size.Z)
    (vs : List FVector) (E : List (List FVector))
    (hE : E.length = (Size.X * Size.Y * Size.Z).toNat) (v : FVector) (hv : v ∈ vs) :
    ∃ b ∈ vs.foldl (assignVertex F Box Size LOD N) E, v ∈ b := by
  induction vs generalizing E with
  | nil => simp at hv
  | cons V vs ih =>
    rw [List.foldl_cons]
    rcases List.mem_cons.mp hv with rfl | hv
    · exact foldl_assignVertex_mono _ _ _ _ _ _ _ (assignVertex_new _ _ _ _ _ _ hX hY hZ hE)
    · exact ih _ (by rw [assignVertex_length, hE]) hv

theorem assignVertices_length {F : FFloatMath} (Box : FBox) (Size : FIntVector) (LOD : Nat) (N : Int)
    (Buffers : List FVoxelProcMeshBuffers) (E : List (List FVector)) :
    (assignVertices F Box Size LOD N Buffers E).length = E.length := by
  unfold assignVertices
  induction Buffers generalizing E with
  | nil => rfl
  | cons B Bs ih => rw [List.foldl_cons, ih, foldl_assignVertex_length]

theorem assignVertices_mono {F : FFloatMath} (Box : FBox) (Size : FIntVector) (LOD : Nat) (N : Int)
    (Buffers : List FVoxelProcMeshBuffers) (E : List (List FVector)) (v : FVector)
    (h : ∃ b ∈ E, v ∈ b) : ∃ b ∈ assignVertices F Box Size LOD N Buffers E, v ∈ b := by
  unfold assignVertices
  induction Buffers generalizing E with
  | nil => exact h
  | cons B Bs ih =>
    rw [List.foldl_cons]
    exact ih _ (foldl_assignVertex_mono _ _ _ _ _ _ _ h)

theorem assignVertices_covers {F : FFloatMath} (Box : FBox) (Size : FIntVector) (LOD : Nat) (N : Int)
    (hX : 1 ≤ Size.X) (hY : 1 ≤ Size.Y) (hZ : 1 ≤ Size.Z)
    (Buffers : List FVoxelProcMeshBuffers) (E : List (List FVector))
    (hE : E.length = (Size.X * Size.Y * Size.Z).toNat)
    (B : FVoxelProcMeshBuffers) (hB : B ∈ Buffers) (v : FVector) (hv : v ∈ B.PositionVertexBuffer) :
    ∃ b ∈ assignVertices F Box Size LOD N Buffers E, v ∈ b := by
  induction Buffers generalizing E with
  | nil => simp at hB
  | cons B0 Bs ih =>
    have hstep : assignVertices F Box Size LOD N (B0 :: Bs) E
        = assignVertices F Box Size LOD N Bs
            (B0.PositionVertexBuffer.foldl (assignVertex F Box Size LOD N) E) := by
      simp [assignVertices]
    rw [hstep]
    rcases List.mem_cons.mp hB with rfl | hB
    · exact assignVertices_mono _ _ _ _ _ _ _
        (foldl_assignVertex_new _ _ _ _ hX hY hZ _ _ hE v hv)
    · exact ih _ (by rw [foldl_assignVertex_length, hE]) hB

theorem mergedConvexElems_eq {F : FFloatMath} (self : FVoxelAsyncPhysicsCooker_PhysX) (R : List (List FVector))
    (h : mergedConvexElems F self = some R) :
    removeEmpty (mergeForward (assignVertices F (verticesBox self.Buffers)
        (gridSize F (verticesBox self.Buffers) self.LOD self.NumConvexHullsPerAxis) self.LOD
        self.NumConvexHullsPerAxis self.Buffers
        (List.replicate ((gridSize F (verticesBox self.Buffers) self.LOD self.NumConvexHullsPerAxis).X
          * (gridSize F (verticesBox self.Buffers) self.LOD self.NumConvexHullsPerAxis).Y
          * (gridSize F (verticesBox self.Buffers) self.LOD self.NumConvexHullsPerAxis).Z).toNat [])))
      ≠ []
    ∧ R = mergeBackward (removeEmpty (mergeForward (assignVertices F (verticesBox self.Buffers)
        (gridSize F (verticesBox self.Buffers) self.LOD self.NumConvexHullsPerAxis) self.LOD
        self.NumConvexHullsPerAxis self.Buffers
        (List.replicate ((gridSize F (verticesBox self.Buffers) self.LOD self.NumConvexHullsPerAxis).X
          * (gridSize F (verticesBox self.Buffers) self.LOD self.NumConvexHullsPerAxis).Y
          * (gridSize F (verticesBox self.Buffers) self.LOD self.NumConvexHullsPerAxis).Z).toNat
          [])))) := by
  unfold mergedConvexElems at h
  simp only at h
  split at h
  · exact absurd h (by simp)
  · split at h
    · exact absurd h (by simp)
    · rename_i h1 h2
      refine ⟨?_, ?_⟩
      · intro h0
        apply h2
        rw [h0]
        simp
      · exact (Option.some.inj h).symm

theorem mergedConvexElems_spec {F : FFloatMath} (self : FVoxelAsyncPhysicsCooker_PhysX) (R : List (List FVector))
    (h : mergedConvexElems F self = some R) :
    R ≠ []
    ∧ (1 < R.length → ∀ b ∈ R, Threshold ≤ b.length)
    ∧ (∀ B ∈ self.Buffers, ∀ v ∈ B.PositionVertexBuffer, ∃ b ∈ R, v ∈ b)
    ∧ mergeBackwardCondition R = false := by
  obtain ⟨hne, hR⟩ := mergedConvexElems_eq self R h
  obtain ⟨h1, h2, h3, h4⟩ := mergeHulls_spec _ hne
  rw [← hR] at h1 h2 h3 h4
  refine ⟨h1, h2, ?_, h4⟩
  intro B hB v hv
  rw [h3 v]
  obtain ⟨gX, gY, gZ⟩ := gridSize_pos (verticesBox self.Buffers) self.LOD self.NumConvexHullsPerAxis
  exact assignVertices_covers _ _ _ _ gX gY gZ _ _ (by simp) B hB v hv

theorem convexCookInputs_of_some {F : FFloatMath} (self : FVoxelAsyncPhysicsCooker_PhysX) (R : List (List FVector))
    (h0 : returnsAtOnce self = false) (h1 : self.bSimpleCubicCollision = false)
    (h : mergedConvexElems F self = some R) :
    convexCookInputs F self = R.map fun VertexData =>
      VertexData.map self.LocalToRoot.TransformPosition := by
  unfold convexCookInputs
  simp [h0, h1, h]

theorem convexCookInputs_cases {F : FFloatMath} (self : FVoxelAsyncPhysicsCooker_PhysX) :
    convexCookInputs F self = [] ∨ ∃ R, mergedConvexElems F self = some R ∧
      convexCookInputs F self = R.map fun VertexData =>
        VertexData.map self.LocalToRoot.TransformPosition := by
  unfold convexCookInputs
  cases returnsAtOnce self
  · cases self.bSimpleCubicCollision
    · cases h : mergedConvexElems F self with
      | none => left; simp
      | some R => right; exact ⟨R, rfl, by simp⟩
    · left; simp
  · left; simp

/-! ## Lemmas on the number of vertex entries -/

theorem totalEntries_append (A B : List (List FVector)) :
    totalEntries (A ++ B) = totalEntries A + totalEntries B := by
  simp [totalEntries]

theorem addToBucket_entries_ge (E : List (List FVector)) (i : Nat) (V : FVector) :
    totalEntries E ≤ totalEntries (addToBucket E i V) := by
  induction E generalizing i with
  | nil => simp [addToBucket]
  | cons b E ih =>
    cases i with
    | zero => simp [addToBucket, totalEntries]
    | succ i =>
      have := ih i
      simp only [addToBucket, totalEntries, List.map_cons, List.sum_cons] at this ⊢
      omega

theorem addToBucket_entries (E : List (List FVector)) (i : Nat) (V : FVector) (hi : i < E.length) :
    totalEntries (addToBucket E i V) = totalEntries E + 1 := by
  induction E generalizing i with
  | nil => simp at hi
  | cons b E ih =>
    cases i with
    | zero =>
      simp only [addToBucket, totalEntries, List.map_cons, List.sum_cons, List.length_append,
        List.length_singleton]
      omega
    | succ i =>
      have := ih i (by simpa using hi)
      simp only [addToBucket, totalEntries, List.map_cons, List.sum_cons] at this ⊢
      omega

theorem Lambda_entries_ge (F : FFloatMath) (Box : FBox) (Size : FIntVector) (LOD : Nat) (N : Int) (V : FVector)
    (St : List (List FVector) × FIntVector) (ox oy oz : Int) :
    totalEntries St.1 ≤ totalEntries (Lambda F Box Size LOD N V St ox oy oz).1 := by
  unfold Lambda
  simp only
  split
  · exact addToBucket_entries_ge _ _ _
  · split
    · exact le_refl _
    · exact addToBucket_entries_ge _ _ _

theorem assignVertex_entries (F : FFloatMath) (Box : FBox) (Size : FIntVector) (LOD : Nat) (N : Int)
    (E : List (List FVector)) (V : FVector)
    (hX : 1 ≤ Size.X) (hY : 1 ≤ Size.Y) (hZ : 1 ≤ Size.Z)
    (hE : E.length = (Size.X * Size.Y * Size.Z).toNat) :
    totalEntries E + 1 ≤ totalEntries (assignVertex F Box Size LOD N E V) := by
  unfold assignVertex
  simp only
  have h0 : totalEntries E + 1
      ≤ totalEntries (Lambda F Box Size LOD N V (E, ⟨0, 0, 0⟩) 0 0 0).1 := by
    unfold Lambda
    simp only [and_self, if_true]
    rw [addToBucket_entries]
    rw [hE]
    exact bucketPosition_index_lt Box Size LOD N V 0 0 0 hX hY hZ
  have h1 := Lambda_entries_ge F Box Size LOD N V (Lambda F Box Size LOD N V (E, ⟨0, 0, 0⟩) 0 0 0) 1 0 0
  have h2 := Lambda_entries_ge F Box Size LOD N V
    (Lambda F Box Size LOD N V (Lambda F Box Size LOD N V (E, ⟨0, 0, 0⟩) 0 0 0) 1 0 0) (-1) 0 0
  have h3 := Lambda_entries_ge F Box Size LOD N V
    (Lambda F Box Size LOD N V
      (Lambda F Box Size LOD N V (Lambda F Box Size LOD N V (E, ⟨0, 0, 0⟩) 0 0 0) 1 0 0) (-1) 0 0)
    0 1 0
  have h4 := Lambda_entries_ge F Box Size LOD N V
    (Lambda F Box Size LOD N V (Lambda F Box Size LOD N V
      (Lambda F Box Size LOD N V (Lambda F Box Size LOD N V (E, ⟨0, 0, 0⟩) 0 0 0) 1 0 0) (-1) 0 0)
    0 1 0) 0 (-1) 0
  have h5 := Lambda_entries_ge F Box Size LOD N V
    (Lambda F Box Size LOD N V (Lambda F Box Size LOD N V (Lambda F Box Size LOD N V
      (Lambda F Box Size LOD N V (Lambda F Box Size LOD N V (E, ⟨0, 0, 0⟩) 0 0 0) 1 0 0) (-1) 0 0)
    0 1 0) 0 (-1) 0) 0 0 1
  have h6 := Lambda_entries_ge F Box Size LOD N V
    (Lambda F Box Size LOD N V (Lambda F Box Size LOD N V (Lambda F Box Size LOD N V (Lambda F Box Size LOD N V
      (Lambda F Box Size LOD N V (Lambda F Box Size LOD N V (E, ⟨0, 0, 0⟩) 0 0 0) 1 0 0) (-1) 0 0)
    0 1 0) 0 (-1) 0) 0 0 1) 0 0 (-1)
  omega

theorem foldl_assignVertex_entries (F : FFloatMath) (Box : FBox) (Size : FIntVector) (LOD : Nat) (N : Int)
    (hX : 1 ≤ Size.X) (hY : 1 ≤ Size.Y) (hZ : 1 ≤ Size.Z)
    (vs : List FVector) (E : List (List FVector))
    (hE : E.length = (Size.X * Size.Y * Size.Z).toNat) :
    totalEntries E + vs.length ≤ totalEntries (vs.foldl (assignVertex F Box Size LOD N) E) := by
  induction vs generalizing E with
  | nil => simp
  | cons V vs ih =>
    rw [List.foldl_cons, List.length_cons]
    have h1 := assignVertex_entries F Box Size LOD N E V hX hY hZ hE
    have h2 := ih (assignVertex F Box Size LOD N E V) (by rw [assignVertex_length, hE])
    omega

theorem assignVertices_entries (F : FFloatMath) (Box : FBox) (Size : FIntVector) (LOD : Nat) (N : Int)
    (hX : 1 ≤ Size.X) (hY : 1 ≤ Size.Y) (hZ : 1 ≤ Size.Z)
    (Buffers : List FVoxelProcMeshBuffers) (E : List (List FVector))
    (hE : E.length = (Size.X * Size.Y * Size.Z).toNat) :
    totalEntries E + (Buffers.map FVoxelProcMeshBuffers.GetNumVertices).sum
      ≤ totalEntries (assignVertices F Box Size LOD N Buffers E) := by
  induction Buffers generalizing E with
  | nil => simp [assignVertices]
  | cons B0 Bs ih =>
    have hstep : assignVertices F Box Size LOD N (B0 :: Bs) E
        = assignVertices F Box Size LOD N Bs
            (B0.PositionVertexBuffer.foldl (assignVertex F Box Size LOD N) E) := by
      simp [assignVertices]
    rw [hstep, List.map_cons, List.sum_cons]
    have h1 := foldl_assignVertex_entries F Box Size LOD N hX hY hZ B0.PositionVertexBuffer E hE
    have h2 := ih (B0.PositionVertexBuffer.foldl (assignVertex F Box Size LOD N) E)
      (by rw [foldl_assignVertex_length, hE])
    simp only [FVoxelProcMeshBuffers.GetNumVertices] at h2 ⊢
    omega

theorem forwardFrom_entries (rest : List (List FVector)) (cur : List FVector) :
    totalEntries (forwardFrom cur rest) = cur.length + totalEntries rest := by
  induction rest generalizing cur with
  | nil => simp [forwardFrom, totalEntries]
  | cons next rest ih =>
    unfold forwardFrom
    by_cases h : cur.length < Threshold
    · simp only [h, if_true]
      have := ih (next ++ cur)
      simp only [totalEntries, List.map_cons, List.sum_cons, List.length_nil,
        List.length_append] at this ⊢
      omega
    · simp only [h, if_false]
      have := ih next
      simp only [totalEntries, List.map_cons, List.sum_cons] at this ⊢
      omega

theorem mergeForward_entries (L : List (List FVector)) :
    totalEntries (mergeForward L) = totalEntries L := by
  cases L with
  | nil => simp [mergeForward_nil]
  | cons cur rest =>
    rw [mergeForward_cons, forwardFrom_entries]
    simp [totalEntries]

theorem removeEmpty_entries (L : List (List FVector)) :
    totalEntries (removeEmpty L) = totalEntries L := by
  induction L with
  | nil => rfl
  | cons b L ih =>
    unfold removeEmpty at ih ⊢
    by_cases hb : b.length = 0
    · simp only [totalEntries, List.map_cons, List.sum_cons] at ih ⊢
      rw [List.filter_cons_of_neg (by simp [hb])]
      omega
    · simp only [totalEntries, List.map_cons, List.sum_cons] at ih ⊢
      rw [List.filter_cons_of_pos (by simp [hb])]
      simp only [List.map_cons, List.sum_cons]
      omega

theorem mergeBackward_entries (A : List (List FVector)) (x : List FVector)
    (hA : ∀ b ∈ A, Threshold ≤ b.length) :
    totalEntries (mergeBackward (A ++ [x])) = totalEntries (A ++ [x]) := by
  by_cases hc : mergeBackwardCondition (A ++ [x]) = true
  · rw [mergeBackwardCondition_concat] at hc
    simp only [Bool.and_eq_true, decide_eq_true_eq] at hc
    obtain ⟨hx, hne⟩ := hc
    rcases List.eq_nil_or_concat A with h0 | ⟨A0, p, hAp⟩
    · exact absurd h0 hne
    · rw [List.concat_eq_append] at hAp
      subst hAp
      have hp : Threshold ≤ p.length := hA p (by simp)
      have e : A0 ++ [p] ++ [x] = A0 ++ [p, x] := by simp
      rw [e, mergeBackward_small A0 p x hx hp]
      simp [totalEntries]
  · have hc2 : mergeBackwardCondition (A ++ [x]) = false := by
      cases h : mergeBackwardCondition (A ++ [x]) with
      | true => exact absurd h hc
      | false => rfl
    rw [mergeBackward_of_false _ hc2]

theorem mergedConvexElems_entries {F : FFloatMath} (self : FVoxelAsyncPhysicsCooker_PhysX)
    (R : List (List FVector)) (h : mergedConvexElems F self = some R) :
    (self.Buffers.map FVoxelProcMeshBuffers.GetNumVertices).sum ≤ totalEntries R := by
  obtain ⟨hne, hR⟩ := mergedConvexElems_eq self R h
  obtain ⟨gX, gY, gZ⟩ := gridSize_pos (verticesBox self.Buffers) self.LOD self.NumConvexHullsPerAxis
  have hassign := assignVertices_entries F (verticesBox self.Buffers)
    (gridSize F (verticesBox self.Buffers) self.LOD self.NumConvexHullsPerAxis) self.LOD
    self.NumConvexHullsPerAxis gX gY gZ self.Buffers
    (List.replicate ((gridSize F (verticesBox self.Buffers) self.LOD self.NumConvexHullsPerAxis).X
      * (gridSize F (verticesBox self.Buffers) self.LOD self.NumConvexHullsPerAxis).Y
      * (gridSize F (verticesBox self.Buffers) self.LOD self.NumConvexHullsPerAxis).Z).toNat [])
    (by simp)
  generalize assignVertices F (verticesBox self.Buffers)
    (gridSize F (verticesBox self.Buffers) self.LOD self.NumConvexHullsPerAxis) self.LOD
    self.NumConvexHullsPerAxis self.Buffers
    (List.replicate ((gridSize F (verticesBox self.Buffers) self.LOD self.NumConvexHullsPerAxis).X
      * (gridSize F (verticesBox self.Buffers) self.LOD self.NumConvexHullsPerAxis).Y
      * (gridSize F (verticesBox self.Buffers) self.LOD self.NumConvexHullsPerAxis).Z).toNat [])
    = E at hne hR hassign
  have hsum : totalEntries R = totalEntries E := by
    rw [hR]
    cases E with
    | nil => simp [mergeForward_nil, removeEmpty] at hne
    | cons cur rest =>
      obtain ⟨init, last, e, hinit⟩ := forwardFrom_shape rest cur
      have hfe := mergeForward_entries (cur :: rest)
      have hre := removeEmpty_entries (mergeForward (cur :: rest))
      rw [mergeForward_cons, e] at hne hfe hre ⊢
      rcases removeEmpty_shape init last hinit with h0 | ⟨A, x, hAx, hA⟩
      · exact absurd h0 hne
      · rw [hAx] at hre ⊢
        rw [mergeBackward_entries A x hA, hre, hfe]
  rw [hsum]
  omega

/-! ## Convex decomposition (CreateSimpleCollision) -/

/-- C5, the code at the failing input: for the two sections "one triangle" and "empty" the convex
branch reaches hull cooking and hands one hull of 3 vertices to `CreateConvex`. -/
theorem convexCookInputs_twoSectionCooker :
    reachesHullCooking exactMath twoSectionCooker = true
    ∧ convexCookInputs exactMath twoSectionCooker = [[⟨0, 0, 0⟩, ⟨1, 0, 0⟩, ⟨0, 1, 0⟩]]
    ∧ ∃ b ∈ convexCookInputs exactMath twoSectionCooker, b.length < 4 := by
  decide!

/-- C6: whenever `CreateSimpleCollision` reaches hull cooking, every vertex of every buffer is in
one of the hulls that remain after hull merging, and its image under `LocalToRoot` is in one of the
vertex arrays handed to `CreateConvex`. -/
theorem convexDecomposition_covers_input (F : FFloatMath) (self : FVoxelAsyncPhysicsCooker_PhysX)
    (h : reachesHullCooking F self = true) :
    ∀ B ∈ self.Buffers, ∀ v ∈ B.PositionVertexBuffer,
      (∃ R, mergedConvexElems F self = some R ∧ ∃ b ∈ R, v ∈ b)
      ∧ ∃ b ∈ convexCookInputs F self, self.LocalToRoot.TransformPosition v ∈ b := by
  intro B hB v hv
  unfold reachesHullCooking at h
  simp only [Bool.and_eq_true, Bool.not_eq_true'] at h
  obtain ⟨⟨h0, h1⟩, h2⟩ := h
  obtain ⟨R, hR⟩ := Option.isSome_iff_exists.mp h2
  obtain ⟨_, _, hcov, _⟩ := mergedConvexElems_spec self R hR
  obtain ⟨b, hb, hvb⟩ := hcov B hB v hv
  refine ⟨⟨R, hR, b, hb, hvb⟩, ?_⟩
  rw [convexCookInputs_of_some self R h0 h1 hR]
  exact ⟨b.map self.LocalToRoot.TransformPosition, List.mem_map_of_mem _ hb,
    List.mem_map_of_mem _ hvb⟩

/-- Witness for C6: the two-hull cooker has a grid of two cells along X, reaches hull cooking with
two hulls of nine vertices each, the vertex `(31.5, 0, 0)` in both, and its vertices are
covered. -/
theorem convexDecomposition_covers_input_witness :
    reachesHullCooking exactMath twoHullCooker = true
    ∧ gridSize exactMath (verticesBox twoHullCooker.Buffers) twoHullCooker.LOD
        twoHullCooker.NumConvexHullsPerAxis = ⟨2, 1, 1⟩
    ∧ mergedConvexElems exactMath twoHullCooker
        = some [[⟨0, 0, 0⟩, ⟨1, 0, 0⟩, ⟨0, 1, 0⟩, ⟨1, 1, 0⟩, ⟨0, 0, 1⟩, ⟨1, 0, 1⟩, ⟨0, 1, 1⟩,
              ⟨1, 1, 1⟩, ⟨63 / 2, 0, 0⟩],
            [⟨63, 0, 0⟩, ⟨64, 0, 0⟩, ⟨63, 1, 0⟩, ⟨64, 1, 0⟩, ⟨63, 0, 1⟩, ⟨64, 0, 1⟩, ⟨63, 1, 1⟩,
              ⟨64, 1, 1⟩, ⟨63 / 2, 0, 0⟩]]
    ∧ ∀ B ∈ twoHullCooker.Buffers, ∀ v ∈ B.PositionVertexBuffer,
      (∃ R, mergedConvexElems exactMath twoHullCooker = some R ∧ ∃ b ∈ R, v ∈ b)
      ∧ ∃ b ∈ convexCookInputs exactMath twoHullCooker,
          twoHullCooker.LocalToRoot.TransformPosition v ∈ b :=
  ⟨by decide!, by decide!, by decide!,
    convexDecomposition_covers_input exactMath twoHullCooker (by decide!)⟩

/-- C7: the threshold is 8; in the forward merge a hull below the threshold that is not the last
one is emptied into the next hull; whenever more than one vertex array is handed to `CreateConvex`
each of them holds at least 8 vertices; and an array below 8 vertices is handed to `CreateConvex`
only as the single array, which then holds (the images of) all vertices of all buffers. -/
theorem hull_below_threshold_not_cooked_alone (F : FFloatMath) (self : FVoxelAsyncPhysicsCooker_PhysX) :
    Threshold = 8
    ∧ (∀ (Element Next : List FVector) (Rest : List (List FVector)), Element.length < 8 →
        mergeForward (Element :: Next :: Rest) = [] :: mergeForward ((Next ++ Element) :: Rest))
    ∧ (1 < (convexCookInputs F self).length → ∀ b ∈ convexCookInputs F self, 8 ≤ b.length)
    ∧ (∀ b ∈ convexCookInputs F self, b.length < 8 →
        convexCookInputs F self = [b]
        ∧ ∀ B ∈ self.Buffers, ∀ v ∈ B.PositionVertexBuffer,
            self.LocalToRoot.TransformPosition v ∈ b) := by
  refine ⟨rfl, ?_, ?_⟩
  · intro Element Next Rest hE
    have hE2 : Element.length < Threshold := hE
    rw [mergeForward_cons, mergeForward_cons]
    simp [forwardFrom, hE2]
  · rcases convexCookInputs_cases self with h0 | ⟨R, hR, hin⟩
    · rw [h0]
      simp
    · obtain ⟨hne, hbig, hcov, _⟩ := mergedConvexElems_spec self R hR
      have hbig2 : 1 < (convexCookInputs F self).length → ∀ b ∈ convexCookInputs F self, 8 ≤ b.length := by
        intro hlen b hb
        rw [hin] at hlen hb
        rw [List.length_map] at hlen
        obtain ⟨c, hc, rfl⟩ := List.mem_map.mp hb
        rw [List.length_map]
        exact hbig hlen c hc
      refine ⟨hbig2, ?_⟩
      intro b hb hlt
      have hlen : ¬ 1 < (convexCookInputs F self).length := by
        intro hl
        have := hbig2 hl b hb
        omega
      have hsingle : convexCookInputs F self = [b] := by
        cases hc : convexCookInputs F self with
        | nil => rw [hc] at hb; simp at hb
        | cons c rest =>
          cases rest with
          | nil => rw [hc] at hb; simp at hb; rw [hb]
          | cons d rest => rw [hc] at hlen; simp at hlen
      refine ⟨hsingle, ?_⟩
      intro B hB v hv
      obtain ⟨c, hc, hvc⟩ := hcov B hB v hv
      have hmem : c.map self.LocalToRoot.TransformPosition ∈ convexCookInputs F self := by
        rw [hin]
        exact List.mem_map_of_mem _ hc
      rw [hsingle, List.mem_singleton] at hmem
      rw [← hmem]
      exact List.mem_map_of_mem _ hvc

/-- Witness for C7: a hull of 3 vertices in front of the 8 cube corners is merged forward, and the
3-vertex hull of the two-section cooker is cooked as the single hull. -/
theorem hull_below_threshold_not_cooked_alone_witness :
    mergeForward [triangleBuffer.PositionVertexBuffer, cubeBuffer.PositionVertexBuffer]
        = [] :: mergeForward
            [cubeBuffer.PositionVertexBuffer ++ triangleBuffer.PositionVertexBuffer]
    ∧ (convexCookInputs exactMath twoSectionCooker = [[⟨0, 0, 0⟩, ⟨1, 0, 0⟩, ⟨0, 1, 0⟩]]
        ∧ ∀ B ∈ twoSectionCooker.Buffers, ∀ v ∈ B.PositionVertexBuffer,
            twoSectionCooker.LocalToRoot.TransformPosition v
              ∈ [(⟨0, 0, 0⟩ : FVector), ⟨1, 0, 0⟩, ⟨0, 1, 0⟩]) :=
  ⟨(hull_below_threshold_not_cooked_alone exactMath twoSectionCooker).2.1 _ _ [] (by decide),
   (hull_below_threshold_not_cooked_alone exactMath twoSectionCooker).2.2.2
     [⟨0, 0, 0⟩, ⟨1, 0, 0⟩, ⟨0, 1, 0⟩] (by decide!) (by decide)⟩

/-! ## Lemmas on the chunk grid -/

theorem axisPositions_length (Start : Int) (n : Nat) : (axisPositions Start n).length = n := by
  induction n generalizing Start with
  | zero => rfl
  | succ n ih => simp [axisPositions, ih]

theorem axisPositions_ge (Start : Int) (n : Nat) (x : Int) (hx : x ∈ axisPositions Start n) :
    Start ≤ x := by
  induction n generalizing Start with
  | zero => simp [axisPositions] at hx
  | succ n ih =>
    simp only [axisPositions, List.mem_cons] at hx
    rcases hx with rfl | hx
    · exact le_refl _
    · have := ih _ hx
      unfold MESHER_CHUNK_SIZE at this
      omega

theorem axisPositions_nodup (Start : Int) (n : Nat) : (axisPositions Start n).Nodup := by
  induction n generalizing Start with
  | zero => simp [axisPositions]
  | succ n ih =>
    simp only [axisPositions, List.nodup_cons]
    refine ⟨?_, ih _⟩
    intro hmem
    have := axisPositions_ge _ _ _ hmem
    unfold MESHER_CHUNK_SIZE at this
    omega

theorem forChunks_aligned (q : Int → List FIntVector) (n : Nat) (Start : Int) (Fuel : Nat)
    (hFuel : n < Fuel) (hLo : -2147483648 ≤ Start)
    (hHi : Start + MESHER_CHUNK_SIZE * n ≤ MAX_int32) :
    forChunks Fuel Start (Start + MESHER_CHUNK_SIZE * n) (fun X => some (q X))
      = some ((axisPositions Start n).flatMap q) := by
  induction n generalizing Start Fuel with
  | zero =>
    cases Fuel with
    | zero => omega
    | succ f => simp [forChunks, axisPositions]
  | succ n ih =>
    cases Fuel with
    | zero => omega
    | succ f =>
      unfold MESHER_CHUNK_SIZE MAX_int32 at hHi
      have hlt : Start < Start + MESHER_CHUNK_SIZE * ((n + 1 : Nat) : Int) := by
        unfold MESHER_CHUNK_SIZE; push_cast; omega
      have hwrap : toInt32 (Start + MESHER_CHUNK_SIZE) = Start + MESHER_CHUNK_SIZE := by
        unfold MESHER_CHUNK_SIZE
        apply toInt32_of_range <;> push_cast at hHi <;> omega
      have hend : Start + MESHER_CHUNK_SIZE * ((n + 1 : Nat) : Int)
          = (Start + MESHER_CHUNK_SIZE) + MESHER_CHUNK_SIZE * (n : Int) := by
        push_cast; ring
      rw [forChunks, if_pos hlt, hwrap, hend,
        ih (Start + MESHER_CHUNK_SIZE) f (by omega)
          (by unfold MESHER_CHUNK_SIZE; omega)
          (by unfold MESHER_CHUNK_SIZE MAX_int32; push_cast at hHi; omega)]
      simp [axisPositions]

theorem length_flatMap_const {α β : Type} (f : α → List β) (m : Nat) (l : List α)
    (h : ∀ x ∈ l, (f x).length = m) : (l.flatMap f).length = l.length * m := by
  induction l with
  | nil => simp
  | cons a l ih =>
    rw [List.flatMap_cons, List.length_append, h a (by simp),
      ih (fun x hx => h x (List.mem_cons_of_mem _ hx)), List.length_cons]
    ring

theorem nodup_flatMap_of_key {α β : Type} (g : β → α) (f : α → List β) (l : List α)
    (hl : l.Nodup) (hf : ∀ x ∈ l, (f x).Nodup) (hg : ∀ x, ∀ b ∈ f x, g b = x) :
    (l.flatMap f).Nodup := by
  rw [List.nodup_flatMap]
  refine ⟨hf, ?_⟩
  refine List.Pairwise.imp ?_ hl
  intro a b hne
  show List.Disjoint (f a) (f b)
  intro x hxa hxb
  exact hne ((hg a x hxa).symm.trans (hg b x hxb))

theorem queueTasks_aligned (W : FVoxelIntBox) (nx ny nz : Nat)
    (hX : W.Max.X = W.Min.X + MESHER_CHUNK_SIZE * nx)
    (hY : W.Max.Y = W.Min.Y + MESHER_CHUNK_SIZE * ny)
    (hZ : W.Max.Z = W.Min.Z + MESHER_CHUNK_SIZE * nz)
    (lX : -2147483648 ≤ W.Min.X) (lY : -2147483648 ≤ W.Min.Y) (lZ : -2147483648 ≤ W.Min.Z)
    (uX : W.Max.X ≤ MAX_int32) (uY : W.Max.Y ≤ MAX_int32) (uZ : W.Max.Z ≤ MAX_int32) :
    queueTasks W = some ((axisPositions W.Min.X nx).flatMap fun X =>
      (axisPositions W.Min.Y ny).flatMap fun Y =>
        (axisPositions W.Min.Z nz).flatMap fun Z => [{ X := X, Y := Y, Z := Z }]) := by
  have fX : nx < LoopFuel := by
    unfold LoopFuel; unfold MESHER_CHUNK_SIZE at hX; unfold MAX_int32 at uX; omega
  have fY : ny < LoopFuel := by
    unfold LoopFuel; unfold MESHER_CHUNK_SIZE at hY; unfold MAX_int32 at uY; omega
  have fZ : nz < LoopFuel := by
    unfold LoopFuel; unfold MESHER_CHUNK_SIZE at hZ; unfold MAX_int32 at uZ; omega
  unfold queueTasks
  rw [hX, hY, hZ] at *
  have eZ : ∀ X Y : Int,
      forChunks LoopFuel W.Min.Z (W.Min.Z + MESHER_CHUNK_SIZE * nz)
          (fun Z => some [({ X := X, Y := Y, Z := Z } : FIntVector)])
        = some ((axisPositions W.Min.Z nz).flatMap fun Z => [{ X := X, Y := Y, Z := Z }]) :=
    fun X Y => forChunks_aligned _ nz W.Min.Z LoopFuel fZ lZ uZ
  simp only [eZ]
  have eY : ∀ X : Int,
      forChunks LoopFuel W.Min.Y (W.Min.Y + MESHER_CHUNK_SIZE * ny)
          (fun Y => some ((axisPositions W.Min.Z nz).flatMap fun Z =>
            [({ X := X, Y := Y, Z := Z } : FIntVector)]))
        = some ((axisPositions W.Min.Y ny).flatMap fun Y =>
            (axisPositions W.Min.Z nz).flatMap fun Z => [{ X := X, Y := Y, Z := Z }]) :=
    fun X => forChunks_aligned _ ny W.Min.Y LoopFuel fY lY uY
  simp only [eY]
  exact forChunks_aligned _ nx W.Min.X LoopFuel fX lX uX

theorem gridTasks_length (lx ly lz : List Int) :
    (lx.flatMap fun X => ly.flatMap fun Y =>
      lz.flatMap fun Z => [({ X := X, Y := Y, Z := Z } : FIntVector)]).length
      = lx.length * (ly.length * lz.length) := by
  apply length_flatMap_const
  intro X _
  apply length_flatMap_const
  intro Y _
  rw [length_flatMap_const _ 1 lz (by simp)]
  simp

theorem gridTasks_nodup (lx ly lz : List Int) (hx : lx.Nodup) (hy : ly.Nodup) (hz : lz.Nodup) :
    (lx.flatMap fun X => ly.flatMap fun Y =>
      lz.flatMap fun Z => [({ X := X, Y := Y, Z := Z } : FIntVector)]).Nodup := by
  apply nodup_flatMap_of_key FIntVector.X _ _ hx
  · intro X _
    apply nodup_flatMap_of_key FIntVector.Y _ _ hy
    · intro Y _
      apply nodup_flatMap_of_key FIntVector.Z _ _ hz
      · intro Z _
        simp
      · intro Z b hb
        simp only [List.mem_singleton] at hb
        rw [hb]
    · intro Y b hb
      simp only [List.mem_flatMap, List.mem_singleton] at hb
      obtain ⟨Z, _, rfl⟩ := hb
      rfl
  · intro X b hb
    simp only [List.mem_flatMap, List.mem_singleton] at hb
    obtain ⟨Y, _, Z, _, rfl⟩ := hb
    rfl

theorem filterMap_queueTask (Tasks : List FIntVector) :
    List.filterMap (fun Event => match Event with
        | ECookEvent.QueueTask ChunkPosition => some ChunkPosition
        | _ => none) (Tasks.map ECookEvent.QueueTask) = Tasks := by
  induction Tasks with
  | nil => rfl
  | cons t ts ih =>
    rw [List.map_cons, List.filterMap_cons]
    simp only
    rw [ih]

theorem queued_of_tasks (Settings : FVoxelCookingSettings) (bSave : Bool) (W : FVoxelIntBox)
    (RunTasks : FVoxelCookingTaskData → List FIntVector → Option FVoxelCookingTaskData)
    (Tasks : List FIntVector) (hG : Settings.GeneratorIsValid = true)
    (hT : ¬ TotalNumChunks W > MAX_int32) (hQ : queueTasks W = some Tasks) :
    (CookVoxelDataImpl Settings bSave W RunTasks).queued = Tasks
    ∧ ECookEvent.ErrorDepthTooHigh ∉ (CookVoxelDataImpl Settings bSave W RunTasks).Events
    ∧ ECookEvent.ConstructTaskData (toInt32 (TotalNumChunks W))
        ∈ (CookVoxelDataImpl Settings bSave W RunTasks).Events := by
  have hfm := filterMap_queueTask Tasks
  unfold FCookCall.queued CookVoxelDataImpl
  simp only [hG, Bool.not_true, Bool.false_eq_true, if_false, hT, hQ]
  cases hR : RunTasks (FVoxelCookingTaskData.construct (toInt32 (TotalNumChunks W))) Tasks <;>
    cases bSave <;>
    simp only [] <;>
    (try split) <;>
    simp [List.filterMap_append, hfm, FVoxelCookingTaskData.construct]

theorem toInt64_of_range {x : Int} (h0 : -9223372036854775808 ≤ x) (h1 : x ≤ 9223372036854775807) :
    toInt64 x = x := by
  unfold toInt64; omega

theorem numChunks_aligned (Min Max : Int) (n : Nat) (h : Max = Min + MESHER_CHUNK_SIZE * n)
    (hfit : Max - Min ≤ MAX_int32) :
    Int.tdiv (toInt32 (Max - Min)) MESHER_CHUNK_SIZE = n := by
  have e : Max - Min = MESHER_CHUNK_SIZE * n := by rw [h]; ring
  rw [e] at hfit ⊢
  unfold MESHER_CHUNK_SIZE MAX_int32 at *
  rw [toInt32_of_range (by omega) (by omega)]
  exact Int.mul_tdiv_cancel_left _ (by decide)

/-! ## Chunk grid and task fan-out (CookVoxelDataImpl) -/

/-- C8, the code at the failing input: for the bounds `[0,0,0]` to `[48,32,32]` the total chunk
count is 1 (at most `MAX_int32`), so the task data is built for one chunk, but the loops queue the
two units `(0,0,0)` and `(32,0,0)`. When both units report through `ChunkDone`, the second call
raises the counter to 2 and indexes chunk 1 of a collection of one chunk, where the range check
stops the program; the counter no longer equals `NumChunksToBuild`, as the `check` in the
destructor of the task data requires. -/
theorem not_oneUnitPerChunk_bounds48 :
    TotalNumChunks bounds48 = 1
    ∧ (CookVoxelDataImpl validSettings false bounds48 stalledPool).queued
        = [⟨0, 0, 0⟩, ⟨32, 0, 0⟩]
    ∧ ChunkDone (ChunkDone
          (FVoxelCookingTaskData.construct (toInt32 (TotalNumChunks bounds48))) [7]) [7]
        = { NumChunksToBuild := 1, NumChunksBuilt := 2, Chunks := [[7]], DoneEventTriggers := 1,
            Stopped := true }
    ∧ ¬ OneUnitPerChunk bounds48 := by
  refine ⟨by decide, by decide, by decide, ?_⟩
  intro h
  have h1 := (h validSettings false stalledPool rfl).1
  revert h1
  decide

/-- C8, chunk-aligned bounds: for world bounds whose corners are `int32` values and whose extent
on every axis is a non-negative multiple of 32 that fits in an `int32`, with a product of the
per-axis counts of at most `MAX_int32`: the per-axis counts are the extents divided by 32, the total chunk count is
their product, and with a valid generator `CookVoxelDataImpl` queues exactly that many units, no
chunk position twice. -/
theorem cook_queues_one_unit_per_chunk (W : FVoxelIntBox) (nx ny nz : Nat)
    (hX : W.Max.X = W.Min.X + MESHER_CHUNK_SIZE * nx)
    (hY : W.Max.Y = W.Min.Y + MESHER_CHUNK_SIZE * ny)
    (hZ : W.Max.Z = W.Min.Z + MESHER_CHUNK_SIZE * nz)
    (lX : -2147483648 ≤ W.Min.X) (lY : -2147483648 ≤ W.Min.Y) (lZ : -2147483648 ≤ W.Min.Z)
    (uX : W.Max.X ≤ MAX_int32) (uY : W.Max.Y ≤ MAX_int32) (uZ : W.Max.Z ≤ MAX_int32)
    (eX : W.Max.X - W.Min.X ≤ MAX_int32) (eY : W.Max.Y - W.Min.Y ≤ MAX_int32)
    (eZ : W.Max.Z - W.Min.Z ≤ MAX_int32)
    (hTotal : ((nx * ny * nz : Nat) : Int) ≤ MAX_int32) :
    NumChunksPerAxis W = { X := nx, Y := ny, Z := nz }
    ∧ TotalNumChunks W = ((nx * ny * nz : Nat) : Int)
    ∧ OneUnitPerChunk W := by
  have hN : NumChunksPerAxis W = { X := nx, Y := ny, Z := nz } := by
    unfold NumChunksPerAxis
    rw [numChunks_aligned _ _ nx hX eX, numChunks_aligned _ _ ny hY eY,
      numChunks_aligned _ _ nz hZ eZ]
  have bx : nx ≤ 67108863 := by
    unfold MESHER_CHUNK_SIZE at hX; unfold MAX_int32 at eX; omega
  have by_ : ny ≤ 67108863 := by
    unfold MESHER_CHUNK_SIZE at hY; unfold MAX_int32 at eY; omega
  have hxy : nx * ny ≤ 67108863 * 67108863 := Nat.mul_le_mul bx by_
  have hT : TotalNumChunks W = ((nx * ny * nz : Nat) : Int) := by
    unfold TotalNumChunks
    rw [hN]
    simp only
    have hxy2 : ((nx : Int) * (ny : Int)) = ((nx * ny : Nat) : Int) := by push_cast; ring
    have h1 : toInt64 ((nx : Int) * (ny : Int)) = ((nx * ny : Nat) : Int) := by
      rw [hxy2]
      exact toInt64_of_range (by omega) (by omega)
    have hxyz : ((nx * ny : Nat) : Int) * (nz : Int) = ((nx * ny * nz : Nat) : Int) := by
      push_cast; ring
    unfold MAX_int32 at hTotal
    rw [h1, hxyz]
    exact toInt64_of_range (by omega) (by omega)
  refine ⟨hN, hT, ?_⟩
  intro Settings bSave RunTasks hG
  have hQ := queueTasks_aligned W nx ny nz hX hY hZ lX lY lZ uX uY uZ
  have hnot : ¬ TotalNumChunks W > MAX_int32 := by rw [hT]; omega
  obtain ⟨hq, _, _⟩ := queued_of_tasks Settings bSave W RunTasks _ hG hnot hQ
  rw [hq, hT]
  refine ⟨?_, gridTasks_nodup _ _ _ (axisPositions_nodup _ _) (axisPositions_nodup _ _)
    (axisPositions_nodup _ _)⟩
  rw [gridTasks_length, axisPositions_length, axisPositions_length, axisPositions_length]
  push_cast
  ring

/-- C8, chunk-aligned bounds at a concrete input: the bounds `[0,0,0]` to `[512,512,512]` give
16 chunks per axis, `16 * 16 * 16 = 4096` chunks and 4096 queued units. -/
theorem cook_queues_one_unit_per_chunk_witness :
    NumChunksPerAxis bounds512 = { X := 16, Y := 16, Z := 16 }
    ∧ TotalNumChunks bounds512 = 4096
    ∧ (CookVoxelDataImpl validSettings false bounds512 stalledPool).queued.length = 4096
    ∧ (CookVoxelDataImpl validSettings false bounds512 stalledPool).queued.Nodup :=
  have h := cook_queues_one_unit_per_chunk bounds512 16 16 16 (by decide) (by decide) (by decide)
    (by decide) (by decide) (by decide) (by decide) (by decide) (by decide) (by decide) (by decide)
    (by decide) (by decide)
  ⟨h.1, h.2.1,
   by
     have h1 := (h.2.2 validSettings false stalledPool rfl).1
     rw [h.2.1] at h1
     exact_mod_cast h1,
   (h.2.2 validSettings false stalledPool rfl).2⟩

/-- Where the `int64` product does not overflow and exceeds `MAX_int32`, a call with a valid
generator reports "Depth too high", destroys the runtime, returns the empty result and queues no
unit. -/
theorem depthTooHigh_reported (Settings : FVoxelCookingSettings) (bSave : Bool) (W : FVoxelIntBox)
    (RunTasks : FVoxelCookingTaskData → List FIntVector → Option FVoxelCookingTaskData)
    (hG : Settings.GeneratorIsValid = true) (hT : TotalNumChunks W > MAX_int32) :
    (CookVoxelDataImpl Settings bSave W RunTasks).Events
        = [ECookEvent.CreateRuntime] ++ (if bSave then [ECookEvent.LoadFromSave] else [])
            ++ [ECookEvent.ErrorDepthTooHigh, ECookEvent.DestroyRuntime]
    ∧ (CookVoxelDataImpl Settings bSave W RunTasks).Result = some []
    ∧ (CookVoxelDataImpl Settings bSave W RunTasks).queued = [] := by
  unfold FCookCall.queued CookVoxelDataImpl
  simp only [hG, Bool.not_true, Bool.false_eq_true, if_false, hT, if_true]
  cases bSave <;> simp

/-- C9, the code at the failing input: for the bounds `[0,0,0]` to `[2^27,2^27,2^27]` the per-axis
counts are `2^22`, their product `2^66` exceeds `MAX_int32`, but the `int64` product is 0; no
"Depth too high" error is reported, the task data is built for 0 chunks and `2^66` units are
queued. -/
theorem depthTooHigh_missed_boundsDeep (bSave : Bool)
    (RunTasks : FVoxelCookingTaskData → List FIntVector → Option FVoxelCookingTaskData) :
    NumChunksPerAxis boundsDeep = { X := 4194304, Y := 4194304, Z := 4194304 }
    ∧ (4194304 : Int) * 4194304 * 4194304 > MAX_int32
    ∧ TotalNumChunks boundsDeep = 0
    ∧ ECookEvent.ErrorDepthTooHigh ∉ (CookVoxelDataImpl validSettings bSave boundsDeep RunTasks).Events
    ∧ ECookEvent.ConstructTaskData 0
        ∈ (CookVoxelDataImpl validSettings bSave boundsDeep RunTasks).Events
    ∧ (CookVoxelDataImpl validSettings bSave boundsDeep RunTasks).queued.length
        = 4194304 * (4194304 * 4194304) := by
  have hT : TotalNumChunks boundsDeep = 0 := by decide
  have hQ := queueTasks_aligned boundsDeep 4194304 4194304 4194304 (by decide) (by decide)
    (by decide) (by decide) (by decide) (by decide) (by decide) (by decide) (by decide)
  have hnot : ¬ TotalNumChunks boundsDeep > MAX_int32 := by rw [hT]; decide
  obtain ⟨hq, hE, hC⟩ := queued_of_tasks validSettings bSave boundsDeep RunTasks _ rfl hnot hQ
  refine ⟨by decide, by decide, hT, hE, ?_, ?_⟩
  · rw [hT] at hC
    exact hC
  · rw [hq, gridTasks_length, axisPositions_length, axisPositions_length, axisPositions_length]

/-! ## Lemmas on interleaved ChunkDone calls -/

theorem lookup_set {α : Type} (l : List α) (i : Nat) (a0 a : α) (h : l[i]? = some a0) (j : Nat)
    (c : α) : (l.set i a)[j]? = some c ↔ (j = i ∧ c = a) ∨ (j ≠ i ∧ l[j]? = some c) := by
  have hi : i < l.length := (List.getElem?_eq_some.mp h).1
  rw [List.getElem?_set]
  by_cases hij : i = j
  · subst hij
    simp [hi, eq_comm]
  · have hji : j ≠ i := fun e => hij e.symm
    simp [hij, hji]

theorem countP_set_lookup {α : Type} (p : α → Bool) (l : List α) (i : Nat) (a0 a : α)
    (h : l[i]? = some a0) :
    List.countP p (l.set i a)
      = (List.countP p l - if p a0 = true then 1 else 0) + if p a = true then 1 else 0 := by
  obtain ⟨hi, he⟩ := List.getElem?_eq_some.mp h
  rw [List.countP_set p l i a hi, he]

theorem countP_lt_of_lookup {α : Type} (p : α → Bool) (l : List α) (i : Nat) (a0 : α)
    (h : l[i]? = some a0) (hp : p a0 = false) : List.countP p l < l.length := by
  rw [List.countP_eq_length_filter, List.length_filter_lt_length_iff_exists]
  exact ⟨a0, List.getElem?_mem h, by simp [hp]⟩

theorem countP_pos_of_lookup {α : Type} (p : α → Bool) (l : List α) (i : Nat) (a0 : α)
    (h : l[i]? = some a0) (hp : p a0 = true) : 0 < List.countP p l := by
  rw [List.countP_pos_iff]
  exact ⟨a0, List.getElem?_mem h, hp⟩

theorem stored_started (c : FChunkDoneCall) (h : c.stored = true) : c.started = true := by
  unfold FChunkDoneCall.stored at h
  unfold FChunkDoneCall.started
  cases hp : c.Position <;> simp [hp] at h ⊢

theorem runInvariant_start (N : Nat) (Blobs : List (List Nat)) (hB : Blobs.length = N) :
    RunInvariant N (FCookingRun.start N Blobs) := by
  have hall : ∀ (i : Nat) (c : FChunkDoneCall),
      (FCookingRun.start N Blobs).Calls[i]? = some c → c.started = false := by
    intro i c hc
    have := List.getElem?_mem hc
    simp only [FCookingRun.start, List.mem_map] at this
    obtain ⟨d, _, rfl⟩ := this
    rfl
  refine
    { running := rfl
      calls := by simp [FCookingRun.start, hB]
      chunks := by simp [FCookingRun.start, FVoxelCookingTaskData.construct]
      counter := ?_
      ticket := ?_
      distinct := ?_
      storesNodup := by simp [FCookingRun.start]
      storesLength := by
        have : List.countP FChunkDoneCall.stored (FCookingRun.start N Blobs).Calls = 0 := by
          rw [List.countP_eq_zero]
          intro c hc
          obtain ⟨i, hi⟩ := List.mem_iff_getElem?.mp hc
          intro hst
          have := stored_started c hst
          rw [hall i c hi] at this
          exact absurd this (by simp)
        rw [this]
        rfl
      storesFrom := by simp [FCookingRun.start]
      storesTo := ?_
      content := ?_ }
  · have : List.countP FChunkDoneCall.started (FCookingRun.start N Blobs).Calls = 0 := by
      rw [List.countP_eq_zero]
      intro c hc
      obtain ⟨i, hi⟩ := List.mem_iff_getElem?.mp hc
      simp [hall i c hi]
    rw [this]
    rfl
  · intro i c hc hs
    rw [hall i c hc] at hs
    exact absurd hs (by simp)
  · intro i j ci cj hi _ hs
    rw [hall i ci hi] at hs
    exact absurd hs (by simp)
  · intro i c hc hs
    have := stored_started c hs
    rw [hall i c hc] at this
    exact absurd this (by simp)
  · intro i c hc hs
    have := stored_started c hs
    rw [hall i c hc] at this
    exact absurd this (by simp)

theorem runInvariant_increment (N : Nat) (hN : (N : Int) ≤ MAX_int32) (Run : FCookingRun)
    (inv : RunInvariant N Run) (i : Nat) (Call : FChunkDoneCall) (hc : Run.Calls[i]? = some Call)
    (hp : Call.Position = .BeforeIncrement) :
    RunInvariant N
      { Run with
        TaskData := { Run.TaskData with
          NumChunksBuilt := toInt32 (Run.TaskData.NumChunksBuilt + 1) }
        Calls := Run.Calls.set i
          { Call with Position := .AfterIncrement
                      NumBuilt := toInt32 (Run.TaskData.NumChunksBuilt + 1) } } := by
  have hns : Call.started = false := by simp [FChunkDoneCall.started, hp]
  have hnst : Call.stored = false := by simp [FChunkDoneCall.stored, hp]
  have hlt := countP_lt_of_lookup FChunkDoneCall.started Run.Calls i Call hc hns
  rw [inv.calls] at hlt
  have hcnt := inv.counter
  unfold MAX_int32 at hN
  have hwrap : toInt32 (Run.TaskData.NumChunksBuilt + 1) = Run.TaskData.NumChunksBuilt + 1 := by
    apply toInt32_of_range <;> omega
  rw [hwrap]
  have look := lookup_set Run.Calls i Call
    { Call with Position := .AfterIncrement, NumBuilt := Run.TaskData.NumChunksBuilt + 1 } hc
  refine
    { running := inv.running
      calls := by simp [inv.calls]
      chunks := inv.chunks
      counter := ?_
      ticket := ?_
      distinct := ?_
      storesNodup := inv.storesNodup
      storesLength := by
        simp only
        rw [countP_set_lookup _ _ _ _ _ hc, hnst, inv.storesLength]
        simp [FChunkDoneCall.stored]
      storesFrom := ?_
      storesTo := ?_
      content := ?_ }
  · simp only
    rw [countP_set_lookup _ _ _ _ _ hc, hns, hcnt]
    simp [FChunkDoneCall.started]
  · intro j c hj hs
    simp only at hj ⊢
    rcases (look j c).mp hj with ⟨_, rfl⟩ | ⟨_, hold⟩
    · simp only
      omega
    · have := inv.ticket j c hold hs
      omega
  · intro j k cj ck hj hk hsj hsk he
    simp only at hj hk
    rcases (look j cj).mp hj with ⟨rfl, rfl⟩ | ⟨hji, holdj⟩
    · rcases (look k ck).mp hk with ⟨rfl, _⟩ | ⟨_, holdk⟩
      · rfl
      · have := inv.ticket k ck holdk hsk
        simp only at he
        omega
    · rcases (look k ck).mp hk with ⟨rfl, rfl⟩ | ⟨_, holdk⟩
      · have := inv.ticket j cj holdj hsj
        simp only at he
        omega
      · exact inv.distinct j k cj ck holdj holdk hsj hsk he
  · intro s hs
    obtain ⟨j, c, hj, hst, he⟩ := inv.storesFrom s hs
    have hji : j ≠ i := by
      intro e
      subst e
      rw [hc] at hj
      cases hj
      rw [hnst] at hst
      exact absurd hst (by simp)
    exact ⟨j, c, (look j c).mpr (Or.inr ⟨hji, hj⟩), hst, he⟩
  · intro j c hj hst
    simp only at hj ⊢
    rcases (look j c).mp hj with ⟨_, rfl⟩ | ⟨_, hold⟩
    · simp [FChunkDoneCall.stored] at hst
    · exact inv.storesTo j c hold hst
  · intro j c hj hst
    simp only at hj ⊢
    rcases (look j c).mp hj with ⟨_, rfl⟩ | ⟨_, hold⟩
    · simp [FChunkDoneCall.stored] at hst
    · exact inv.content j c hold hst

theorem runInvariant_store (N : Nat) (Run : FCookingRun)
    (inv : RunInvariant N Run) (i : Nat) (Call : FChunkDoneCall) (hc : Run.Calls[i]? = some Call)
    (hp : Call.Position = .AfterIncrement) :
    storeChunk Run.TaskData.Chunks (Call.NumBuilt - 1) Call.Data
        = some (Run.TaskData.Chunks.set (Call.NumBuilt - 1).toNat Call.Data)
    ∧ RunInvariant N
      { Run with
        TaskData := { Run.TaskData with
          Chunks := Run.TaskData.Chunks.set (Call.NumBuilt - 1).toNat Call.Data }
        Calls := Run.Calls.set i { Call with Position := .AfterStore }
        Stores := Run.Stores ++ [Call.NumBuilt - 1] } := by
  have hs : Call.started = true := by simp [FChunkDoneCall.started, hp]
  have hnst : Call.stored = false := by simp [FChunkDoneCall.stored, hp]
  have htick := inv.ticket i Call hc hs
  have hle : List.countP FChunkDoneCall.started Run.Calls ≤ N := by
    rw [← inv.calls]
    exact List.countP_le_length _
  have hcnt := inv.counter
  have hpos := countP_pos_of_lookup FChunkDoneCall.started Run.Calls i Call hc hs
  have look := lookup_set Run.Calls i Call { Call with Position := .AfterStore } hc
  have hidx : (Call.NumBuilt - 1).toNat < Run.TaskData.Chunks.length := by
    rw [inv.chunks]
    omega
  have hstore : storeChunk Run.TaskData.Chunks (Call.NumBuilt - 1) Call.Data
      = some (Run.TaskData.Chunks.set (Call.NumBuilt - 1).toNat Call.Data) := by
    unfold storeChunk
    rw [if_pos ⟨by omega, by omega⟩]
  have hfresh : Call.NumBuilt - 1 ∉ Run.Stores := by
    intro hmem
    obtain ⟨j, c, hj, hst, he⟩ := inv.storesFrom _ hmem
    have hji := inv.distinct i j Call c hc hj hs (stored_started c hst) (by omega)
    subst hji
    rw [hc] at hj
    cases hj
    rw [hnst] at hst
    exact absurd hst (by simp)
  refine ⟨hstore, ?_⟩
  refine
    { running := inv.running
      calls := by simp [inv.calls]
      chunks := by simp [inv.chunks]
      counter := ?_
      ticket := ?_
      distinct := ?_
      storesNodup := ?_
      storesLength := by
        simp only
        rw [countP_set_lookup _ _ _ _ _ hc, hnst, List.length_append, inv.storesLength]
        simp [FChunkDoneCall.stored]
      storesFrom := ?_
      storesTo := ?_
      content := ?_ }
  · simp only
    rw [countP_set_lookup _ _ _ _ _ hc, hs, hcnt]
    simp only [FChunkDoneCall.started, if_true]
    have : (EChunkDonePosition.AfterStore != EChunkDonePosition.BeforeIncrement) = true := by
      decide
    rw [if_pos this]
    omega
  · intro j c hj hsj
    simp only at hj ⊢
    rcases (look j c).mp hj with ⟨_, rfl⟩ | ⟨_, hold⟩
    · exact htick
    · exact inv.ticket j c hold hsj
  · intro j k cj ck hj hk hsj hsk he
    simp only at hj hk
    rcases (look j cj).mp hj with ⟨rfl, rfl⟩ | ⟨hji, holdj⟩
    · rcases (look k ck).mp hk with ⟨rfl, _⟩ | ⟨_, holdk⟩
      · rfl
      · exact inv.distinct j k Call ck hc holdk hs hsk he
    · rcases (look k ck).mp hk with ⟨rfl, rfl⟩ | ⟨_, holdk⟩
      · exact inv.distinct j k cj Call holdj hc hsj hs he
      · exact inv.distinct j k cj ck holdj holdk hsj hsk he
  · simp only
    rw [List.nodup_append]
    refine ⟨inv.storesNodup, by simp, ?_⟩
    intro x hx hx2
    rw [List.mem_singleton] at hx2
    subst hx2
    exact hfresh hx
  · intro s hmem
    simp only [List.mem_append, List.mem_singleton] at hmem
    rcases hmem with hmem | rfl
    · obtain ⟨j, c, hj, hst, he⟩ := inv.storesFrom s hmem
      have hji : j ≠ i := by
        intro e
        subst e
        rw [hc] at hj
        cases hj
        rw [hnst] at hst
        exact absurd hst (by simp)
      exact ⟨j, c, (look j c).mpr (Or.inr ⟨hji, hj⟩), hst, he⟩
    · exact ⟨i, { Call with Position := .AfterStore }, (look i _).mpr (Or.inl ⟨rfl, rfl⟩),
        by simp [FChunkDoneCall.stored], rfl⟩
  · intro j c hj hst
    simp only at hj ⊢
    rcases (look j c).mp hj with ⟨_, rfl⟩ | ⟨_, hold⟩
    · simp
    · exact List.mem_append_left _ (inv.storesTo j c hold hst)
  · intro j c hj hst
    simp only at hj ⊢
    rcases (look j c).mp hj with ⟨_, rfl⟩ | ⟨hji, hold⟩
    · simp only
      rw [List.getElem?_set_self hidx]
    · have hne : c.NumBuilt ≠ Call.NumBuilt := by
        intro e
        exact hji (inv.distinct j i c Call hold hc (stored_started c hst) hs e)
      have htc := inv.ticket j c hold (stored_started c hst)
      have hne2 : (Call.NumBuilt - 1).toNat ≠ (c.NumBuilt - 1).toNat := by omega
      rw [List.getElem?_set_ne hne2]
      exact inv.content j c hold hst

theorem runInvariant_return (N : Nat) (Run : FCookingRun)
    (inv : RunInvariant N Run) (i : Nat) (Call : FChunkDoneCall) (hc : Run.Calls[i]? = some Call)
    (hp : Call.Position = .AfterStore) (Triggers : Nat) :
    RunInvariant N
      { Run with
        TaskData := { Run.TaskData with DoneEventTriggers := Triggers }
        Calls := Run.Calls.set i { Call with Position := .Returned } } := by
  have hs : Call.started = true := by simp [FChunkDoneCall.started, hp]
  have hst0 : Call.stored = true := by simp [FChunkDoneCall.stored, hp]
  have hcnt := inv.counter
  have hpos := countP_pos_of_lookup FChunkDoneCall.started Run.Calls i Call hc hs
  have look := lookup_set Run.Calls i Call { Call with Position := .Returned } hc
  refine
    { running := inv.running
      calls := by simp [inv.calls]
      chunks := inv.chunks
      counter := ?_
      ticket := ?_
      distinct := ?_
      storesNodup := inv.storesNodup
      storesLength := by
        have hpos2 := countP_pos_of_lookup FChunkDoneCall.stored Run.Calls i Call hc hst0
        simp only
        rw [countP_set_lookup _ _ _ _ _ hc, hst0, inv.storesLength]
        simp only [FChunkDoneCall.stored, if_true]
        have : (EChunkDonePosition.Returned == EChunkDonePosition.AfterStore
            || EChunkDonePosition.Returned == EChunkDonePosition.Returned) = true := by decide
        rw [if_pos this]
        omega
      storesFrom := ?_
      storesTo := ?_
      content := ?_ }
  · simp only
    rw [countP_set_lookup _ _ _ _ _ hc, hs, hcnt]
    simp only [FChunkDoneCall.started, if_true]
    have : (EChunkDonePosition.Returned != EChunkDonePosition.BeforeIncrement) = true := by
      decide
    rw [if_pos this]
    omega
  · intro j c hj hsj
    simp only at hj ⊢
    rcases (look j c).mp hj with ⟨_, rfl⟩ | ⟨_, hold⟩
    · exact inv.ticket i Call hc hs
    · exact inv.ticket j c hold hsj
  · intro j k cj ck hj hk hsj hsk he
    simp only at hj hk
    rcases (look j cj).mp hj with ⟨rfl, rfl⟩ | ⟨hji, holdj⟩
    · rcases (look k ck).mp hk with ⟨rfl, _⟩ | ⟨_, holdk⟩
      · rfl
      · exact inv.distinct j k Call ck hc holdk hs hsk he
    · rcases (look k ck).mp hk with ⟨rfl, rfl⟩ | ⟨_, holdk⟩
      · exact inv.distinct j k cj Call holdj hc hsj hs he
      · exact inv.distinct j k cj ck holdj holdk hsj hsk he
  · intro s hmem
    obtain ⟨j, c, hj, hst, he⟩ := inv.storesFrom s hmem
    by_cases hji : j = i
    · subst hji
      rw [hc] at hj
      cases hj
      exact ⟨j, { Call with Position := .Returned }, (look j _).mpr (Or.inl ⟨rfl, rfl⟩),
        by simp [FChunkDoneCall.stored], he⟩
    · exact ⟨j, c, (look j c).mpr (Or.inr ⟨hji, hj⟩), hst, he⟩
  · intro j c hj hst
    simp only at hj ⊢
    rcases (look j c).mp hj with ⟨_, rfl⟩ | ⟨_, hold⟩
    · exact inv.storesTo i Call hc hst0
    · exact inv.storesTo j c hold hst
  · intro j c hj hst
    simp only at hj ⊢
    rcases (look j c).mp hj with ⟨_, rfl⟩ | ⟨_, hold⟩
    · exact inv.content i Call hc hst0
    · exact inv.content j c hold hst

theorem runInvariant_step (N : Nat) (hN : (N : Int) ≤ MAX_int32) (Run : FCookingRun)
    (inv : RunInvariant N Run) (i : Nat) : RunInvariant N (ChunkDoneStep Run i) := by
  unfold ChunkDoneStep
  rw [inv.running]
  simp only [Bool.false_eq_true, if_false]
  cases hc : Run.Calls[i]? with
  | none => exact inv
  | some Call =>
    simp only
    cases hp : Call.Position with
    | BeforeIncrement => exact runInvariant_increment N hN Run inv i Call hc hp
    | AfterIncrement =>
      simp only
      rw [(runInvariant_store N Run inv i Call hc hp).1]
      exact (runInvariant_store N Run inv i Call hc hp).2
    | AfterStore => exact runInvariant_return N Run inv i Call hc hp _
    | Returned => exact inv

theorem runInvariant_schedule (N : Nat) (hN : (N : Int) ≤ MAX_int32) (Schedule : List Nat)
    (Run : FCookingRun) (inv : RunInvariant N Run) : RunInvariant N (runSchedule Run Schedule) := by
  induction Schedule generalizing Run with
  | nil => exact inv
  | cons i rest ih => exact ih _ (runInvariant_step N hN Run inv i)

theorem ChunkDoneStep_calls_length (Run : FCookingRun) (i : Nat) :
    (ChunkDoneStep Run i).Calls.length = Run.Calls.length := by
  unfold ChunkDoneStep
  split
  · rfl
  · cases hc : Run.Calls[i]? with
    | none => rfl
    | some Call =>
      simp only
      cases hp : Call.Position
      · simp
      · simp only
        split <;> simp
      · simp
      · simp

theorem ChunkDoneStep_other (Run : FCookingRun) (i j : Nat) (hji : j ≠ i) :
    (ChunkDoneStep Run i).Calls[j]? = Run.Calls[j]? := by
  have hij : ¬ i = j := fun e => hji e.symm
  unfold ChunkDoneStep
  split
  · rfl
  · cases hc : Run.Calls[i]? with
    | none => rfl
    | some Call =>
      simp only
      cases hp : Call.Position
      · simp [List.getElem?_set, hij]
      · simp only
        split <;> simp [List.getElem?_set, hij]
      · simp [List.getElem?_set, hij]
      · simp [List.getElem?_set, hij]

theorem ChunkDoneStep_returned (Run : FCookingRun) (i : Nat) (c : FChunkDoneCall)
    (hc : Run.Calls[i]? = some c) (hp : c.Position = .Returned) : ChunkDoneStep Run i = Run := by
  unfold ChunkDoneStep
  split
  · rfl
  · rw [hc]
    simp only [hp]

theorem ChunkDoneStep_self (N : Nat) (Run : FCookingRun) (inv : RunInvariant N Run) (i : Nat)
    (c : FChunkDoneCall) (hc : Run.Calls[i]? = some c) :
    ∃ d, (ChunkDoneStep Run i).Calls[i]? = some d ∧ d.Position =
      (match c.Position with
        | .BeforeIncrement => .AfterIncrement
        | .AfterIncrement => .AfterStore
        | .AfterStore => .Returned
        | .Returned => .Returned) := by
  have hi : i < Run.Calls.length := (List.getElem?_eq_some.mp hc).1
  unfold ChunkDoneStep
  rw [inv.running]
  simp only [Bool.false_eq_true, if_false]
  rw [hc]
  simp only
  cases hp : c.Position
  · exact ⟨_, List.getElem?_set_self hi, rfl⟩
  · simp only
    rw [(runInvariant_store N Run inv i c hc hp).1]
    exact ⟨_, List.getElem?_set_self hi, rfl⟩
  · exact ⟨_, List.getElem?_set_self hi, rfl⟩
  · exact ⟨c, hc, hp⟩

theorem returned_stays (Run : FCookingRun) (i j : Nat)
    (h : ∃ c, Run.Calls[j]? = some c ∧ c.Position = .Returned) :
    ∃ c, (ChunkDoneStep Run i).Calls[j]? = some c ∧ c.Position = .Returned := by
  obtain ⟨c, hc, hp⟩ := h
  by_cases hji : j = i
  · subst hji
    rw [ChunkDoneStep_returned Run j c hc hp]
    exact ⟨c, hc, hp⟩
  · rw [ChunkDoneStep_other Run i j hji]
    exact ⟨c, hc, hp⟩

theorem three_steps_return (N : Nat) (hN : (N : Int) ≤ MAX_int32) (Run : FCookingRun)
    (inv : RunInvariant N Run) (j : Nat) (hj : j < Run.Calls.length) :
    ∃ c, (ChunkDoneStep (ChunkDoneStep (ChunkDoneStep Run j) j) j).Calls[j]? = some c
      ∧ c.Position = .Returned := by
  have hc0 : Run.Calls[j]? = some (Run.Calls.get ⟨j, hj⟩) := List.getElem?_eq_getElem hj
  have inv1 := runInvariant_step N hN Run inv j
  have inv2 := runInvariant_step N hN _ inv1 j
  obtain ⟨c1, h1, p1⟩ := ChunkDoneStep_self N Run inv j _ hc0
  obtain ⟨c2, h2, p2⟩ := ChunkDoneStep_self N _ inv1 j c1 h1
  obtain ⟨c3, h3, p3⟩ := ChunkDoneStep_self N _ inv2 j c2 h2
  refine ⟨c3, h3, ?_⟩
  rw [p3, p2, p1]
  cases (Run.Calls.get ⟨j, hj⟩).Position <;> rfl

theorem runSchedule_calls_length (Schedule : List Nat) (Run : FCookingRun) :
    (runSchedule Run Schedule).Calls.length = Run.Calls.length := by
  induction Schedule generalizing Run with
  | nil => rfl
  | cons i rest ih =>
    unfold runSchedule at ih ⊢
    rw [List.foldl_cons, ih, ChunkDoneStep_calls_length]

theorem runSchedule_returned_stays (Schedule : List Nat) (Run : FCookingRun) (j : Nat)
    (h : ∃ c, Run.Calls[j]? = some c ∧ c.Position = .Returned) :
    ∃ c, (runSchedule Run Schedule).Calls[j]? = some c ∧ c.Position = .Returned := by
  induction Schedule generalizing Run with
  | nil => exact h
  | cons i rest ih =>
    unfold runSchedule at ih ⊢
    rw [List.foldl_cons]
    exact ih _ (returned_stays Run i j h)

theorem runSchedule_each_thrice (N : Nat) (hN : (N : Int) ≤ MAX_int32) (Indices : List Nat)
    (Run : FCookingRun) (inv : RunInvariant N Run) (j : Nat)
    (hj : j ∈ Indices) (hlt : j < Run.Calls.length) :
    ∃ c, (runSchedule Run (Indices.flatMap fun i => [i, i, i])).Calls[j]? = some c
      ∧ c.Position = .Returned := by
  induction Indices generalizing Run with
  | nil => simp at hj
  | cons i rest ih =>
    have hrun : runSchedule Run ((i :: rest).flatMap fun i => [i, i, i])
        = runSchedule (ChunkDoneStep (ChunkDoneStep (ChunkDoneStep Run i) i) i)
            (rest.flatMap fun i => [i, i, i]) := by
      simp [runSchedule]
    rw [hrun]
    have inv3 := runInvariant_step N hN _ (runInvariant_step N hN _
      (runInvariant_step N hN Run inv i) i) i
    rcases List.mem_cons.mp hj with rfl | hj
    · exact runSchedule_returned_stays _ _ j (three_steps_return N hN Run inv j hlt)
    · exact ih _ inv3 hj (by simp only [ChunkDoneStep_calls_length]; exact hlt)

theorem sequentialSchedule_completes (N : Nat) (hN : (N : Int) ≤ MAX_int32)
    (Blobs : List (List Nat)) (hB : Blobs.length = N) :
    ∀ c ∈ (runSchedule (FCookingRun.start N Blobs) (sequentialSchedule Blobs.length)).Calls,
      c.Position = .Returned ∧ c.stored = true := by
  intro c hc
  obtain ⟨j, hj⟩ := List.mem_iff_getElem?.mp hc
  have hlt : j < (runSchedule (FCookingRun.start N Blobs)
      (sequentialSchedule Blobs.length)).Calls.length := (List.getElem?_eq_some.mp hj).1
  rw [runSchedule_calls_length] at hlt
  have hlt2 : j < Blobs.length := by simpa [FCookingRun.start] using hlt
  obtain ⟨d, hd, hp⟩ := runSchedule_each_thrice N hN (List.range Blobs.length)
    (FCookingRun.start N Blobs) (runInvariant_start N Blobs hB) j (List.mem_range.mpr hlt2) hlt
  unfold sequentialSchedule at hj
  rw [hj] at hd
  cases hd
  exact ⟨hp, by simp [FChunkDoneCall.stored, hp]⟩

/-! ## Completion slots (ChunkDone) -/

/-- C10: in a cook run with `N` chunks (`N` an `int32`) and `N` `ChunkDone` calls, each made of an
atomic increment, a store at the index `NumBuilt - 1` and the comparison with the total, under
every interleaving of the calls: every store goes to an index in `[0, N)`, no two stores go to the
same index, the chunk at the index of a call that has stored holds the blob of that call, and
once all calls have stored, every index below `N` has been stored to exactly once; the schedule
that runs the calls one after the other brings all calls to that point. -/
theorem chunkDone_slots_written_once (N : Nat) (hN : (N : Int) ≤ MAX_int32)
    (Blobs : List (List Nat)) (hB : Blobs.length = N) (Schedule : List Nat) :
    (∀ s ∈ (runSchedule (FCookingRun.start N Blobs) Schedule).Stores, 0 ≤ s ∧ s < (N : Int))
    ∧ (runSchedule (FCookingRun.start N Blobs) Schedule).Stores.Nodup
    ∧ (∀ c ∈ (runSchedule (FCookingRun.start N Blobs) Schedule).Calls, c.stored = true →
        (runSchedule (FCookingRun.start N Blobs) Schedule).TaskData.Chunks[(c.NumBuilt - 1).toNat]?
          = some c.Data)
    ∧ ((∀ c ∈ (runSchedule (FCookingRun.start N Blobs) Schedule).Calls, c.stored = true) →
        (runSchedule (FCookingRun.start N Blobs) Schedule).Stores.length = N
        ∧ ∀ k : Nat, k < N →
            (runSchedule (FCookingRun.start N Blobs) Schedule).Stores.count (k : Int) = 1)
    ∧ (∀ c ∈ (runSchedule (FCookingRun.start N Blobs) (sequentialSchedule N)).Calls,
        c.stored = true) := by
  have inv := runInvariant_schedule N hN Schedule _ (runInvariant_start N Blobs hB)
  have hrange : ∀ s ∈ (runSchedule (FCookingRun.start N Blobs) Schedule).Stores,
      0 ≤ s ∧ s < (N : Int) := by
    intro s hs
    obtain ⟨i, c, hc, hst, rfl⟩ := inv.storesFrom s hs
    have ht := inv.ticket i c hc (stored_started c hst)
    have hle : List.countP FChunkDoneCall.started
        (runSchedule (FCookingRun.start N Blobs) Schedule).Calls
        ≤ (runSchedule (FCookingRun.start N Blobs) Schedule).Calls.length :=
      List.countP_le_length _
    rw [inv.calls] at hle
    have hcnt := inv.counter
    omega
  refine ⟨hrange, inv.storesNodup, ?_, ?_, ?_⟩
  · intro c hc hst
    obtain ⟨i, hi⟩ := List.mem_iff_getElem?.mp hc
    exact inv.content i c hi hst
  rotate_left
  · intro c hc
    have hseq := sequentialSchedule_completes N hN Blobs hB c
    rw [hB] at hseq
    exact (hseq hc).2
  · intro hall
    have hlen : (runSchedule (FCookingRun.start N Blobs) Schedule).Stores.length = N := by
      have hcount := List.countP_eq_length.mpr hall
      rw [inv.calls] at hcount
      rw [inv.storesLength, hcount]
    refine ⟨hlen, ?_⟩
    intro k hk
    have hR : ((List.range N).map Int.ofNat).Nodup :=
      (List.nodup_range N).map (fun a b h => Int.ofNat.inj h)
    have hsub : (runSchedule (FCookingRun.start N Blobs) Schedule).Stores
        ⊆ (List.range N).map Int.ofNat := by
      intro s hs
      obtain ⟨h0, h1⟩ := hrange s hs
      rw [List.mem_map]
      exact ⟨s.toNat, List.mem_range.mpr (by omega), by simp [Int.toNat_of_nonneg h0]⟩
    have hperm := (List.subperm_of_subset inv.storesNodup hsub).perm_of_length_le
      (by simp [hlen])
    apply List.count_eq_one_of_mem inv.storesNodup
    rw [hperm.mem_iff, List.mem_map]
    exact ⟨k, List.mem_range.mpr hk, rfl⟩

/-- Witness for C10: three chunks under an interleaved schedule; the stores go to the indices 1,
0 and 2, and the chunks hold the blobs of the calls numbered 2, 0 and 1. -/
theorem chunkDone_slots_written_once_witness :
    (∀ c ∈ (runSchedule threeChunkRun interleavedSchedule).Calls, c.stored = true)
    ∧ (runSchedule threeChunkRun interleavedSchedule).Stores = [1, 0, 2]
    ∧ (runSchedule threeChunkRun interleavedSchedule).TaskData.Chunks = [[3], [1], [2]]
    ∧ ((runSchedule threeChunkRun interleavedSchedule).Stores.length = 3
        ∧ ∀ k : Nat, k < 3 →
            (runSchedule threeChunkRun interleavedSchedule).Stores.count (k : Int) = 1) :=
  ⟨by decide, by decide, by decide,
   (chunkDone_slots_written_once 3 (by decide) [[1], [2], [3]] rfl interleavedSchedule).2.2.2.1
     (by decide)⟩

/-! ## Further facts on the convex decomposition -/

/-- When the buffers hold at least 4 vertices in total, every vertex array handed to
`CreateConvex` holds at least 4 vertices. -/
theorem hulls_hold_four_vertices {F : FFloatMath} (self : FVoxelAsyncPhysicsCooker_PhysX)
    (h4 : 4 ≤ (self.Buffers.map FVoxelProcMeshBuffers.GetNumVertices).sum) :
    ∀ b ∈ convexCookInputs F self, 4 ≤ b.length := by
  intro b hb
  rcases convexCookInputs_cases self with h0 | ⟨R, hR, hin⟩
  · rw [h0] at hb
    simp at hb
  · obtain ⟨hne, hbig, _, _⟩ := mergedConvexElems_spec self R hR
    have hent := mergedConvexElems_entries self R hR
    rw [hin] at hb
    obtain ⟨c, hc, rfl⟩ := List.mem_map.mp hb
    rw [List.length_map]
    by_cases hlen : 1 < R.length
    · have := hbig hlen c hc
      unfold Threshold at this
      omega
    · cases R with
      | nil => exact absurd rfl hne
      | cons d rest =>
        cases rest with
        | nil =>
          simp only [List.mem_singleton] at hc
          subst hc
          simp only [totalEntries, List.map_cons, List.map_nil, List.sum_cons, List.sum_nil] at hent
          omega
        | cons e rest => simp at hlen

/-- With a single buffer every vertex array handed to `CreateConvex` holds at least 4 vertices:
the first statement of `CreateSimpleCollision` returns when the buffer has fewer. -/
theorem hulls_hold_four_vertices_single {F : FFloatMath} (self : FVoxelAsyncPhysicsCooker_PhysX)
    (Buffer : FVoxelProcMeshBuffers) (h1 : self.Buffers = [Buffer]) :
    ∀ b ∈ convexCookInputs F self, 4 ≤ b.length := by
  by_cases h4 : Buffer.GetNumVertices < 4
  · intro b hb
    have : convexCookInputs F self = [] := by
      unfold convexCookInputs returnsAtOnce
      rw [h1]
      simp [h4]
    rw [this] at hb
    simp at hb
  · apply hulls_hold_four_vertices
    rw [h1]
    simp only [List.map_cons, List.map_nil, List.sum_cons, List.sum_nil]
    omega

/-! ## Exit paths of CookVoxelDataImpl -/

theorem count_destroy_queueTask (Tasks : List FIntVector) :
    (Tasks.map ECookEvent.QueueTask).count ECookEvent.DestroyRuntime = 0 := by
  induction Tasks with
  | nil => rfl
  | cons t ts ih => simp [List.count_cons, ih]

theorem count_create_queueTask (Tasks : List FIntVector) :
    (Tasks.map ECookEvent.QueueTask).count ECookEvent.CreateRuntime = 0 := by
  induction Tasks with
  | nil => rfl
  | cons t ts ih => simp [List.count_cons, ih]

theorem getLast?_cons_append_four {α : Type} (x : α) (l : List α) (a b c d : α) :
    (x :: (l ++ [a, b, c, d])).getLast? = some d := by
  have : x :: (l ++ [a, b, c, d]) = (x :: l ++ [a, b, c]) ++ [d] := by simp
  rw [this, List.getLast?_append]
  simp

/-- C16: with an invalid generator `CookVoxelDataImpl` reports the error "Invalid generator" and
returns the empty result; the runtime is not created and no unit of work is queued. -/
theorem cook_invalid_generator (Settings : FVoxelCookingSettings) (bSave : Bool)
    (W : FVoxelIntBox)
    (RunTasks : FVoxelCookingTaskData → List FIntVector → Option FVoxelCookingTaskData)
    (h : Settings.GeneratorIsValid = false) :
    (CookVoxelDataImpl Settings bSave W RunTasks).Events = [ECookEvent.ErrorInvalidGenerator]
    ∧ (CookVoxelDataImpl Settings bSave W RunTasks).Result = some []
    ∧ ECookEvent.CreateRuntime ∉ (CookVoxelDataImpl Settings bSave W RunTasks).Events
    ∧ (CookVoxelDataImpl Settings bSave W RunTasks).queued = [] := by
  unfold FCookCall.queued CookVoxelDataImpl
  simp [h]

/-- Witness for C16: the invalid settings on the bounds `[0,0,0]` to `[512,512,512]`. -/
theorem cook_invalid_generator_witness :
    invalidSettings.GeneratorIsValid = false
    ∧ (CookVoxelDataImpl invalidSettings true bounds512 completingPool).Events
        = [ECookEvent.ErrorInvalidGenerator]
    ∧ (CookVoxelDataImpl invalidSettings true bounds512 completingPool).Result = some []
    ∧ ECookEvent.CreateRuntime
        ∉ (CookVoxelDataImpl invalidSettings true bounds512 completingPool).Events
    ∧ (CookVoxelDataImpl invalidSettings true bounds512 completingPool).queued = [] :=
  ⟨rfl, cook_invalid_generator invalidSettings true bounds512 completingPool rfl⟩

/-- C17: whenever a call of `CookVoxelDataImpl` that created the runtime returns, the runtime was
created once and `Destroy` was called exactly once, as the last action before the return; this
covers the return after the failed chunk-count test, where the result is empty, and the return
after the wait. -/
theorem runtime_destroyed_once (Settings : FVoxelCookingSettings) (bSave : Bool)
    (W : FVoxelIntBox)
    (RunTasks : FVoxelCookingTaskData → List FIntVector → Option FVoxelCookingTaskData)
    (Chunks : List (List Nat))
    (hRet : (CookVoxelDataImpl Settings bSave W RunTasks).Result = some Chunks)
    (hRun : ECookEvent.CreateRuntime ∈ (CookVoxelDataImpl Settings bSave W RunTasks).Events) :
    (CookVoxelDataImpl Settings bSave W RunTasks).Events.count ECookEvent.CreateRuntime = 1
    ∧ (CookVoxelDataImpl Settings bSave W RunTasks).Events.count ECookEvent.DestroyRuntime = 1
    ∧ (CookVoxelDataImpl Settings bSave W RunTasks).Events.getLast? = some ECookEvent.DestroyRuntime
    ∧ (TotalNumChunks W > MAX_int32 → Chunks = []
        ∧ ECookEvent.ErrorDepthTooHigh ∈ (CookVoxelDataImpl Settings bSave W RunTasks).Events) := by
  unfold CookVoxelDataImpl at hRet hRun ⊢
  cases hG : Settings.GeneratorIsValid with
  | false => simp [hG] at hRun
  | true =>
    clear hRun
    simp only [hG, Bool.not_true, Bool.false_eq_true, if_false] at hRet ⊢
    by_cases hT : TotalNumChunks W > MAX_int32
    · simp only [hT, if_true] at hRet ⊢
      cases bSave <;> simp_all [List.count_cons]
    · simp only [hT, if_false] at hRet ⊢
      cases hQ : queueTasks W with
      | none => simp [hQ] at hRet
      | some Tasks =>
        simp only [hQ] at hRet ⊢
        cases hR : RunTasks (FVoxelCookingTaskData.construct (toInt32 (TotalNumChunks W))) Tasks with
        | none => simp [hR] at hRet
        | some Final =>
          simp only [hR] at hRet ⊢
          split at hRet
          · rename_i hC
            simp only [hC, if_true]
            cases bSave <;>
              simp [List.count_append, List.count_cons, count_destroy_queueTask,
                count_create_queueTask, getLast?_cons_append_four]
          · simp at hRet

/-- Witness for C17: the return after the failed chunk-count test (bounds with `2^48` chunks) and
the return after the wait (one chunk, a pool that completes). -/
theorem runtime_destroyed_once_witness :
    ((CookVoxelDataImpl validSettings true boundsWide completingPool).Result = some []
      ∧ (CookVoxelDataImpl validSettings true boundsWide completingPool).Events
          = [.CreateRuntime, .LoadFromSave, .ErrorDepthTooHigh, .DestroyRuntime]
      ∧ (CookVoxelDataImpl validSettings true boundsWide completingPool).Events.count
          ECookEvent.DestroyRuntime = 1)
    ∧ ((CookVoxelDataImpl validSettings false bounds32 completingPool).Result = some [[7]]
      ∧ (CookVoxelDataImpl validSettings false bounds32 completingPool).Events
          = [.CreateRuntime, .ConstructTaskData 1, .QueueTask ⟨0, 0, 0⟩, .WaitDoneEvent,
             .RemoveEmptyChunks, .DestructTaskData, .DestroyRuntime]
      ∧ (CookVoxelDataImpl validSettings false bounds32 completingPool).Events.count
          ECookEvent.DestroyRuntime = 1) :=
  ⟨⟨by decide, by decide,
    (runtime_destroyed_once validSettings true boundsWide completingPool [] (by decide)
      (by decide)).2.1⟩,
   ⟨by decide, by decide,
    (runtime_destroyed_once validSettings false bounds32 completingPool [[7]] (by decide)
      (by decide)).2.1⟩⟩

/-! ## Cook flags -/

/-- C15: an execution of `DoThreadedWork` whose geometry has a number of indices divisible by 3
(the code checks this) calls `ChunkDone` exactly once: with the empty blob and without a call of
`CookTriMesh` when the renderer returns zero indices; otherwise after one call of `CookTriMesh`,
with the empty blob when that call fails and with the bytes it wrote when it succeeds. -/
theorem doThreadedWork_calls_chunkDone_once (Renderer : IVoxelRenderer)
    (PhysXCooking : IPhysXCooking) (CookingSettings : FVoxelCookingSettings)
    (ChunkPosition : FIntVector) (TaskData : FVoxelCookingTaskData)
    (hIndices : (Renderer.CreateGeometry_AnyThread 0 ChunkPosition).1.length % 3 = 0) :
    ∃ Run Buffer,
      DoThreadedWork Renderer PhysXCooking CookingSettings ChunkPosition TaskData = some Run
      ∧ Run.ChunkDoneCalls = [Buffer]
      ∧ Run.TaskData = ChunkDone TaskData Buffer
      ∧ ((Renderer.CreateGeometry_AnyThread 0 ChunkPosition).1.length = 0 →
          Buffer = [] ∧ Run.CookTriMeshCalls = [])
      ∧ ((Renderer.CreateGeometry_AnyThread 0 ChunkPosition).1.length > 0 →
          Run.CookTriMeshCalls =
            [(taskCookFlags CookingSettings,
              (Renderer.CreateGeometry_AnyThread 0 ChunkPosition).2.map
                (toGlobalSpace ChunkPosition CookingSettings.VoxelSize),
              memcpyTriIndices (Renderer.CreateGeometry_AnyThread 0 ChunkPosition).1)]
          ∧ ((PhysXCooking.CookTriMesh (taskCookFlags CookingSettings)
                ((Renderer.CreateGeometry_AnyThread 0 ChunkPosition).2.map
                  (toGlobalSpace ChunkPosition CookingSettings.VoxelSize))
                (memcpyTriIndices (Renderer.CreateGeometry_AnyThread 0 ChunkPosition).1)
                [] true).1 = false → Buffer = [])
          ∧ ((PhysXCooking.CookTriMesh (taskCookFlags CookingSettings)
                ((Renderer.CreateGeometry_AnyThread 0 ChunkPosition).2.map
                  (toGlobalSpace ChunkPosition CookingSettings.VoxelSize))
                (memcpyTriIndices (Renderer.CreateGeometry_AnyThread 0 ChunkPosition).1)
                [] true).1 = true →
              Buffer = (PhysXCooking.CookTriMesh (taskCookFlags CookingSettings)
                ((Renderer.CreateGeometry_AnyThread 0 ChunkPosition).2.map
                  (toGlobalSpace ChunkPosition CookingSettings.VoxelSize))
                (memcpyTriIndices (Renderer.CreateGeometry_AnyThread 0 ChunkPosition).1)
                [] true).2)) := by
  unfold DoThreadedWork
  simp only []
  by_cases h0 : (Renderer.CreateGeometry_AnyThread 0 ChunkPosition).1.length > 0
  · rw [if_pos h0, if_pos hIndices]
    refine ⟨_, _, rfl, rfl, rfl, ?_, ?_⟩
    · intro h; omega
    · intro _
      refine ⟨rfl, ?_, ?_⟩
      · intro h; simp [h]
      · intro h; simp [h]
  · rw [if_neg h0]
    refine ⟨_, _, rfl, rfl, rfl, ?_, ?_⟩
    · intro _; exact ⟨rfl, rfl⟩
    · intro h; exact absurd h h0

/-- Witness for C15: one triangle with a backend that fails after writing three bytes (the blob is
empty), the same triangle with a backend that succeeds (the blob is the cooked bytes), and a
renderer without geometry (the blob is empty, no backend call). -/
theorem doThreadedWork_calls_chunkDone_once_witness :
    (triangleRenderer.CreateGeometry_AnyThread 0 ⟨0, 0, 0⟩).1.length % 3 = 0
    ∧ (DoThreadedWork triangleRenderer failingCooking validSettings ⟨0, 0, 0⟩
          (FVoxelCookingTaskData.construct 1)).map (fun Run => Run.ChunkDoneCalls) = some [[]]
    ∧ (DoThreadedWork triangleRenderer inflatingCooking validSettings ⟨0, 0, 0⟩
          (FVoxelCookingTaskData.construct 1)).map (fun Run => Run.ChunkDoneCalls) = some [[3, 1]]
    ∧ (DoThreadedWork emptyRenderer failingCooking validSettings ⟨0, 0, 0⟩
          (FVoxelCookingTaskData.construct 1)).map
            (fun Run => (Run.ChunkDoneCalls, Run.CookTriMeshCalls)) = some ([[]], []) := by
  refine ⟨by decide, ?_, ?_, ?_⟩
  · obtain ⟨Run, Buffer, hRun, hCalls, _, _, hCook⟩ :=
      doThreadedWork_calls_chunkDone_once triangleRenderer failingCooking validSettings ⟨0, 0, 0⟩
        (FVoxelCookingTaskData.construct 1) (by decide)
    rw [hRun, Option.map_some', hCalls, (hCook (by decide)).2.1 rfl]
  · obtain ⟨Run, Buffer, hRun, hCalls, _, _, hCook⟩ :=
      doThreadedWork_calls_chunkDone_once triangleRenderer inflatingCooking validSettings ⟨0, 0, 0⟩
        (FVoxelCookingTaskData.construct 1) (by decide)
    rw [hRun, Option.map_some', hCalls, (hCook (by decide)).2.2 rfl]
    rfl
  · obtain ⟨Run, Buffer, hRun, hCalls, _, hEmpty, _⟩ :=
      doThreadedWork_calls_chunkDone_once emptyRenderer failingCooking validSettings ⟨0, 0, 0⟩
        (FVoxelCookingTaskData.construct 1) (by decide)
    rw [hRun, Option.map_some', hCalls, (hEmpty rfl).1, (hEmpty rfl).2]

/-! ## Finalize -/

/-- C12: `Finalize` returns false exactly when the error counter is greater than zero; in that
case the simple-collision output, the memory-usage output and the body setup are as before the
call (no triangle mesh is handed over); when the counter is zero it returns true, the
simple-collision output is the accumulated simple-collision data, the triangle-mesh memory usage
is the accumulated usage, and the accumulated triangle meshes are handed to the body setup. -/
theorem finalize_fails_iff_errors (self : FVoxelAsyncPhysicsCooker_PhysX) (BodySetup : UBodySetup)
    (OutSimpleCollisionData : Option FVoxelSimpleCollisionData)
    (OutMemoryUsage : FVoxelProceduralMeshComponentMemoryUsage) :
    ((Finalize self BodySetup OutSimpleCollisionData OutMemoryUsage).Return = false
        ↔ self.ErrorCounter > 0)
    ∧ (self.ErrorCounter > 0 →
        (Finalize self BodySetup OutSimpleCollisionData OutMemoryUsage).OutSimpleCollisionData
            = OutSimpleCollisionData
        ∧ (Finalize self BodySetup OutSimpleCollisionData OutMemoryUsage).OutMemoryUsage
            = OutMemoryUsage
        ∧ (Finalize self BodySetup OutSimpleCollisionData OutMemoryUsage).BodySetup = BodySetup)
    ∧ (self.ErrorCounter = 0 →
        (Finalize self BodySetup OutSimpleCollisionData OutMemoryUsage).Return = true
        ∧ (Finalize self BodySetup OutSimpleCollisionData OutMemoryUsage).OutSimpleCollisionData
            = self.CookResult.SimpleCollisionData
        ∧ (Finalize self BodySetup OutSimpleCollisionData OutMemoryUsage).OutMemoryUsage.TriangleMeshes
            = self.CookResult.TriangleMeshesMemoryUsage
        ∧ (Finalize self BodySetup OutSimpleCollisionData
            OutMemoryUsage).BodySetup.FinishedTriMeshes
            = BodySetup.FinishedTriMeshes ++ [self.CookResult.TriangleMeshes]) := by
  unfold Finalize
  by_cases h : self.ErrorCounter > 0
  · rw [if_pos h]
    refine ⟨⟨fun _ => h, fun _ => rfl⟩, fun _ => ⟨rfl, rfl, rfl⟩, ?_⟩
    intro h0; omega
  · rw [if_neg h]
    refine ⟨⟨fun h1 => ?_, fun h1 => absurd h1 h⟩, fun h1 => absurd h1 h,
      fun _ => ⟨rfl, rfl, rfl, rfl⟩⟩
    simp at h1

/-- Witness for C12: a cooker with error counter 1 and a null triangle mesh leaves the outputs
unchanged; a cooker with error counter 0 hands over its data. -/
theorem finalize_fails_iff_errors_witness :
    (failedCooker.ErrorCounter > 0
      ∧ (Finalize failedCooker { FinishedTriMeshes := [] } none { TriangleMeshes := 5 }).Return
          = false
      ∧ (Finalize failedCooker { FinishedTriMeshes := [] } none
          { TriangleMeshes := 5 }).OutSimpleCollisionData = none
      ∧ (Finalize failedCooker { FinishedTriMeshes := [] } none
          { TriangleMeshes := 5 }).OutMemoryUsage = { TriangleMeshes := 5 }
      ∧ (Finalize failedCooker { FinishedTriMeshes := [] } none
          { TriangleMeshes := 5 }).BodySetup = { FinishedTriMeshes := [] })
    ∧ (cookedCooker.ErrorCounter = 0
      ∧ (Finalize cookedCooker { FinishedTriMeshes := [] } none { TriangleMeshes := 5 }).Return
          = true
      ∧ (Finalize cookedCooker { FinishedTriMeshes := [] } none
          { TriangleMeshes := 5 }).OutMemoryUsage.TriangleMeshes = 64
      ∧ (Finalize cookedCooker { FinishedTriMeshes := [] } none
          { TriangleMeshes := 5 }).BodySetup.FinishedTriMeshes
          = [[some { Handle := 1, AllocatedSize := 64 }]]) :=
  ⟨⟨by decide,
    (finalize_fails_iff_errors failedCooker { FinishedTriMeshes := [] } none
      { TriangleMeshes := 5 }).1.2 (by decide),
    (finalize_fails_iff_errors failedCooker { FinishedTriMeshes := [] } none
      { TriangleMeshes := 5 }).2.1 (by decide)⟩,
   ⟨rfl,
    ((finalize_fails_iff_errors cookedCooker { FinishedTriMeshes := [] } none
      { TriangleMeshes := 5 }).2.2 rfl).1,
    ((finalize_fails_iff_errors cookedCooker { FinishedTriMeshes := [] } none
      { TriangleMeshes := 5 }).2.2 rfl).2.2.1,
    ((finalize_fails_iff_errors cookedCooker { FinishedTriMeshes := [] } none
      { TriangleMeshes := 5 }).2.2 rfl).2.2.2⟩⟩

/-! ## The error counter of CookMesh -/

theorem forwardFrom_length (rest : List (List FVector)) (cur : List FVector) :
    (forwardFrom cur rest).length = rest.length + 1 := by
  induction rest generalizing cur with
  | nil => simp [forwardFrom]
  | cons next rest ih =>
    unfold forwardFrom
    split <;> simp [ih]

theorem mergeForward_length (L : List (List FVector)) : (mergeForward L).length = L.length := by
  cases L with
  | nil => simp [mergeForward_nil]
  | cons cur rest => rw [mergeForward_cons, forwardFrom_length]; simp

theorem mergeBackwardStep_length_le (M : List (List FVector)) :
    (mergeBackwardStep M).length ≤ M.length := by
  unfold mergeBackwardStep
  simp

theorem mergeBackwardLoop_length_le (Fuel : Nat) (M : List (List FVector)) :
    (mergeBackwardLoop Fuel M).length ≤ M.length := by
  induction Fuel generalizing M with
  | zero => simp [mergeBackwardLoop]
  | succ n ih =>
    unfold mergeBackwardLoop
    split
    · exact le_trans (ih _) (mergeBackwardStep_length_le M)
    · exact le_refl _

/-- At most `64^3` hulls remain after hull merging. -/
theorem mergedConvexElems_length_le {F : FFloatMath} (self : FVoxelAsyncPhysicsCooker_PhysX)
    (R : List (List FVector)) (h : mergedConvexElems F self = some R) : R.length ≤ 262144 := by
  obtain ⟨_, hR⟩ := mergedConvexElems_eq self R h
  have hS : (gridSize F (verticesBox self.Buffers) self.LOD self.NumConvexHullsPerAxis).GetMax
      ≤ 64 := by
    by_contra hc
    unfold mergedConvexElems at h
    simp only [hc, not_false_eq_true, if_true] at h
    cases h
  obtain ⟨gX, gY, gZ⟩ := gridSize_pos (verticesBox self.Buffers) self.LOD self.NumConvexHullsPerAxis
  generalize gridSize F (verticesBox self.Buffers) self.LOD self.NumConvexHullsPerAxis = Size
    at hR hS gX gY gZ
  rw [hR]
  unfold mergeBackward
  refine le_trans (mergeBackwardLoop_length_le _ _) ?_
  unfold removeEmpty
  refine le_trans (List.length_filter_le _ _) ?_
  rw [mergeForward_length, assignVertices_length, List.length_replicate]
  unfold FIntVector.GetMax at hS
  have hX : Size.X ≤ 64 := le_trans (le_trans (le_max_left _ _) (le_max_left _ _)) hS
  have hY : Size.Y ≤ 64 := le_trans (le_trans (le_max_right _ _) (le_max_left _ _)) hS
  have hZ : Size.Z ≤ 64 := le_trans (le_max_right _ _) hS
  have hXY : Size.X * Size.Y ≤ 64 * 64 := mul_le_mul hX hY (by omega) (by omega)
  have hXYZ : Size.X * Size.Y * Size.Z ≤ 64 * 64 * 64 :=
    mul_le_mul hXY hZ (by omega) (by omega)
  omega

theorem cookConvexElems_counter (Cooking : IPhysXCooking) (CookFlags : EPhysXMeshCookFlags)
    (Elems : List FKConvexElem) (ErrorCounter : Int) (ConvexMeshes : List (Option PxConvexMesh))
    (h0 : 0 ≤ ErrorCounter) (h1 : ErrorCounter + Elems.length ≤ MAX_int32) :
    (cookConvexElems Cooking CookFlags Elems (ErrorCounter, ConvexMeshes)).1
      = ErrorCounter + (Elems.countP fun Element =>
          decide ((Cooking.CreateConvex CookFlags Element.VertexData).1
            = EPhysXCookingResult.Failed) : Nat) := by
  induction Elems generalizing ErrorCounter ConvexMeshes with
  | nil => simp [cookConvexElems]
  | cons Element Rest ih =>
    unfold MAX_int32 at h1 ih
    simp only [List.length_cons, Nat.cast_add, Nat.cast_one] at h1
    unfold cookConvexElems
    simp only []
    cases hR : (Cooking.CreateConvex CookFlags Element.VertexData).1 with
    | Failed =>
      simp only [List.countP_cons, hR, decide_True, if_true]
      rw [toInt32_of_range (by omega) (by omega), ih _ _ (by omega) (by omega)]
      push_cast
      omega
    | SucceededWithInflation =>
      simp only [List.countP_cons, hR]
      rw [ih _ _ h0 (by omega)]
      simp
    | Succeeded =>
      simp only [List.countP_cons, hR]
      rw [ih _ _ h0 (by omega)]
      simp

theorem cookConvexElems_meshes (Cooking : IPhysXCooking) (CookFlags : EPhysXMeshCookFlags)
    (Elems : List FKConvexElem) (ErrorCounter : Int) (ConvexMeshes : List (Option PxConvexMesh)) :
    (cookConvexElems Cooking CookFlags Elems (ErrorCounter, ConvexMeshes)).2
      = ConvexMeshes ++ Elems.map fun Element =>
          (Cooking.CreateConvex CookFlags Element.VertexData).2 := by
  induction Elems generalizing ErrorCounter ConvexMeshes with
  | nil => simp [cookConvexElems]
  | cons Element Rest ih =>
    unfold cookConvexElems
    simp only []
    rw [ih]
    simp

theorem createSimpleCollision_frame {F : FFloatMath} (Cooking : IPhysXCooking)
    (self : FVoxelAsyncPhysicsCooker_PhysX) :
    (CreateSimpleCollision F Cooking self).Buffers = self.Buffers
    ∧ (CreateSimpleCollision F Cooking self).bCleanCollisionMesh = self.bCleanCollisionMesh
    ∧ (CreateSimpleCollision F Cooking self).CollisionTraceFlag = self.CollisionTraceFlag := by
  unfold CreateSimpleCollision
  simp only []
  split
  · exact ⟨rfl, rfl, rfl⟩
  · split
    · exact ⟨rfl, rfl, rfl⟩
    · split <;> exact ⟨rfl, rfl, rfl⟩

theorem createSimpleCollision_steps_frame {F : FFloatMath} (Cooking : IPhysXCooking)
    (self : FVoxelAsyncPhysicsCooker_PhysX) (Steps : List ECookerStep) :
    (CreateSimpleCollision F Cooking { self with Steps := Steps }).ErrorCounter
        = (CreateSimpleCollision F Cooking self).ErrorCounter
    ∧ (CreateSimpleCollision F Cooking { self with Steps := Steps }).CookResult
        = (CreateSimpleCollision F Cooking self).CookResult
    ∧ (CreateSimpleCollision F Cooking { self with Steps := Steps }).Buffers
        = (CreateSimpleCollision F Cooking self).Buffers
    ∧ (CreateSimpleCollision F Cooking { self with Steps := Steps }).bCleanCollisionMesh
        = (CreateSimpleCollision F Cooking self).bCleanCollisionMesh
    ∧ (CreateSimpleCollision F Cooking { self with Steps := Steps }).CollisionTraceFlag
        = (CreateSimpleCollision F Cooking self).CollisionTraceFlag := by
  have e1 : returnsAtOnce { self with Steps := Steps } = returnsAtOnce self := rfl
  have e2 : mergedConvexElems F { self with Steps := Steps } = mergedConvexElems F self := rfl
  unfold CreateSimpleCollision
  simp only [e1, e2]
  split
  · exact ⟨rfl, rfl, rfl, rfl, rfl⟩
  · split
    · exact ⟨rfl, rfl, rfl, rfl, rfl⟩
    · split <;> exact ⟨rfl, rfl, rfl, rfl, rfl⟩

theorem createSimpleCollision_steps {F : FFloatMath} (Cooking : IPhysXCooking)
    (self : FVoxelAsyncPhysicsCooker_PhysX) :
    (CreateSimpleCollision F Cooking self).Steps
      = self.Steps ++ (convexCookInputs F self).map fun VertexData =>
          ECookerStep.BackendCreateConvex (GetCookFlags self) VertexData := by
  unfold CreateSimpleCollision convexCookInputs
  simp only []
  split
  · simp
  · split
    · simp
    · split
      · simp
      · simp [UpdateElemBox, Function.comp_def]

theorem cookMesh_counter_eq {F : FFloatMath} (Cooking : IPhysXCooking)
    (self : FVoxelAsyncPhysicsCooker_PhysX) :
    (CookMesh F Cooking self).ErrorCounter
      = (if (if self.CollisionTraceFlag ≠ ECollisionTraceFlag.CTF_UseComplexAsSimple then
              CreateSimpleCollision F Cooking self else self).CollisionTraceFlag
            ≠ ECollisionTraceFlag.CTF_UseSimpleAsComplex then
          CreateTriMesh Cooking
            (if self.CollisionTraceFlag ≠ ECollisionTraceFlag.CTF_UseComplexAsSimple then
              CreateSimpleCollision F Cooking self else self)
        else (if self.CollisionTraceFlag ≠ ECollisionTraceFlag.CTF_UseComplexAsSimple then
              CreateSimpleCollision F Cooking self else self)).ErrorCounter := by
  obtain ⟨hE, _, hB, hC, hT⟩ := @createSimpleCollision_steps_frame F Cooking self
    (self.Steps ++ [ECookerStep.CreateSimpleCollision])
  unfold CookMesh
  simp only []
  by_cases h1 : self.CollisionTraceFlag ≠ ECollisionTraceFlag.CTF_UseComplexAsSimple
  · simp only [if_pos h1, hT]
    split
    · unfold CreateTriMesh GetCookFlags
      simp only [hE, hB, hC]
    · exact hE
  · simp only [if_neg h1]
    split <;> rfl

theorem createSimpleCollision_result {F : FFloatMath} (Cooking : IPhysXCooking)
    (self : FVoxelAsyncPhysicsCooker_PhysX) (h : reachesHullCooking F self = true) :
    ∃ Data, (CreateSimpleCollision F Cooking self).CookResult.SimpleCollisionData = some Data
      ∧ Data.ConvexElems.map (fun Element => Element.VertexData) = convexCookInputs F self
      ∧ (cookConvexElems Cooking (GetCookFlags self) Data.ConvexElems (self.ErrorCounter, []))
          = ((CreateSimpleCollision F Cooking self).ErrorCounter, Data.ConvexMeshes) := by
  unfold reachesHullCooking at h
  simp only [Bool.and_eq_true, Bool.not_eq_true'] at h
  obtain ⟨⟨h0, h1⟩, h2⟩ := h
  obtain ⟨R, hR⟩ := Option.isSome_iff_exists.mp h2
  rw [convexCookInputs_of_some self R h0 h1 hR]
  unfold CreateSimpleCollision
  simp only [h0, h1, hR, Bool.false_eq_true, if_false]
  refine ⟨_, rfl, ?_, rfl⟩
  simp [UpdateElemBox, Function.comp_def]

theorem createSimpleCollision_counter {F : FFloatMath} (Cooking : IPhysXCooking)
    (self : FVoxelAsyncPhysicsCooker_PhysX) (h0 : 0 ≤ self.ErrorCounter)
    (h1 : self.ErrorCounter + 262144 ≤ MAX_int32) :
    (CreateSimpleCollision F Cooking self).ErrorCounter
      = self.ErrorCounter + ((convexCookInputs F self).countP fun VertexData =>
          decide ((Cooking.CreateConvex (GetCookFlags self) VertexData).1
            = EPhysXCookingResult.Failed) : Nat) := by
  by_cases h : reachesHullCooking F self = true
  · obtain ⟨Data, _, hIn, hC⟩ := createSimpleCollision_result Cooking self h
    have hlen : Data.ConvexElems.length ≤ 262144 := by
      have hl : Data.ConvexElems.length = (convexCookInputs F self).length := by
        rw [← hIn, List.length_map]
      rcases convexCookInputs_cases self with hnil | ⟨R, hR, hRm⟩
      · rw [hl, hnil]; simp
      · rw [hl, hRm, List.length_map]
        exact mergedConvexElems_length_le self R hR
    have hcnt := cookConvexElems_counter Cooking (GetCookFlags self) Data.ConvexElems
      self.ErrorCounter [] h0 (by unfold MAX_int32 at h1 ⊢; omega)
    rw [hC] at hcnt
    simp only [] at hcnt
    rw [hcnt, ← hIn, List.countP_map]
    rfl
  · have hin : convexCookInputs F self = [] := by
      unfold reachesHullCooking at h
      unfold convexCookInputs
      cases h0 : returnsAtOnce self
      · cases h1 : self.bSimpleCubicCollision
        · cases h2 : mergedConvexElems F self
          · simp
          · simp [h0, h1, h2] at h
        · simp
      · simp
    have hc : (CreateSimpleCollision F Cooking self).ErrorCounter = self.ErrorCounter := by
      unfold reachesHullCooking at h
      unfold CreateSimpleCollision
      cases h0 : returnsAtOnce self
      · cases h1 : self.bSimpleCubicCollision
        · cases h2 : mergedConvexElems F self
          · simp
          · simp [h0, h1, h2] at h
        · simp
      · simp
    rw [hc, hin]
    simp

theorem finalize_returns (self : FVoxelAsyncPhysicsCooker_PhysX) (BodySetup : UBodySetup)
    (OutSimpleCollisionData : Option FVoxelSimpleCollisionData)
    (OutMemoryUsage : FVoxelProceduralMeshComponentMemoryUsage) :
    ((Finalize self BodySetup OutSimpleCollisionData OutMemoryUsage).Return = true)
      = (self.ErrorCounter ≤ 0) := by
  unfold Finalize
  by_cases h : self.ErrorCounter > 0
  · rw [if_pos h]
    simp
    omega
  · rw [if_neg h]
    simp
    omega

/-- C13: for a cooker whose error counter is 0, the error counter after `CookMesh` is the number
of `CreateConvex` calls that returned `Failed` plus one if the `CreateTriMesh` call reported
failure; calls that return `SucceededWithInflation` or `Succeeded` do not count, so with them
alone the counter stays 0; `Finalize` after `CookMesh` returns true exactly when no `CreateConvex`
call returned `Failed` and the `CreateTriMesh` call did not fail. -/
theorem cookMesh_error_counter (F : FFloatMath) (Cooking : IPhysXCooking) (self : FVoxelAsyncPhysicsCooker_PhysX)
    (BodySetup : UBodySetup) (OutSimpleCollisionData : Option FVoxelSimpleCollisionData)
    (OutMemoryUsage : FVoxelProceduralMeshComponentMemoryUsage)
    (hFresh : self.ErrorCounter = 0) :
    (CookMesh F Cooking self).ErrorCounter
      = (failedConvexCooks F Cooking self : Int) + (if triMeshCookFailed Cooking self then 1 else 0)
    ∧ ((∀ VertexData ∈ convexCookInputs F self,
          (Cooking.CreateConvex (GetCookFlags self) VertexData).1
            ≠ EPhysXCookingResult.Failed) →
        triMeshCookFailed Cooking self = false → (CookMesh F Cooking self).ErrorCounter = 0)
    ∧ ((Finalize (CookMesh F Cooking self) BodySetup OutSimpleCollisionData OutMemoryUsage).Return
          = true
        ↔ failedConvexCooks F Cooking self = 0 ∧ triMeshCookFailed Cooking self = false) := by
  have hSimple : (if self.CollisionTraceFlag ≠ ECollisionTraceFlag.CTF_UseComplexAsSimple then
        CreateSimpleCollision F Cooking self else self).ErrorCounter
      = (failedConvexCooks F Cooking self : Int) := by
    unfold failedConvexCooks
    split
    · rw [createSimpleCollision_counter Cooking self (by omega) (by unfold MAX_int32; omega),
        hFresh]
      simp
    · simp [hFresh]
  have hFrame : (if self.CollisionTraceFlag ≠ ECollisionTraceFlag.CTF_UseComplexAsSimple then
        CreateSimpleCollision F Cooking self else self).Buffers = self.Buffers
      ∧ (if self.CollisionTraceFlag ≠ ECollisionTraceFlag.CTF_UseComplexAsSimple then
        CreateSimpleCollision F Cooking self else self).bCleanCollisionMesh
          = self.bCleanCollisionMesh
      ∧ (if self.CollisionTraceFlag ≠ ECollisionTraceFlag.CTF_UseComplexAsSimple then
        CreateSimpleCollision F Cooking self else self).CollisionTraceFlag
          = self.CollisionTraceFlag := by
    split
    · exact createSimpleCollision_frame Cooking self
    · exact ⟨rfl, rfl, rfl⟩
  have hBound : failedConvexCooks F Cooking self ≤ 262144 := by
    unfold failedConvexCooks
    split
    · refine le_trans (List.countP_le_length _) ?_
      rcases convexCookInputs_cases self with hnil | ⟨R, hR, hRm⟩
      · rw [hnil]; simp
      · rw [hRm, List.length_map]
        exact mergedConvexElems_length_le self R hR
    · omega
  have hCounter : (CookMesh F Cooking self).ErrorCounter
      = (failedConvexCooks F Cooking self : Int)
        + (if triMeshCookFailed Cooking self then 1 else 0) := by
    rw [cookMesh_counter_eq]
    generalize (if self.CollisionTraceFlag ≠ ECollisionTraceFlag.CTF_UseComplexAsSimple then
        CreateSimpleCollision F Cooking self else self) = mid at hSimple hFrame
    obtain ⟨hB, hC, hT⟩ := hFrame
    have hFlags : GetCookFlags mid = GetCookFlags self := by
      unfold GetCookFlags
      rw [hC]
    unfold triMeshCookFailed
    rw [hT]
    by_cases hFlag : self.CollisionTraceFlag ≠ ECollisionTraceFlag.CTF_UseSimpleAsComplex
    · rw [if_pos hFlag]
      unfold CreateTriMesh
      simp only [hFlags, hB, hSimple, hFlag, not_false_eq_true, decide_True, Bool.true_and]
      cases (Cooking.CreateTriMesh (GetCookFlags self) (copyDataFromBuffers self.Buffers).Vertices
        (copyDataFromBuffers self.Buffers).Indices
        (copyDataFromBuffers self.Buffers).MaterialIndices true).1
      · simp only [Bool.not_false, if_true]
        rw [toInt32_of_range (by omega) (by omega)]
        simp [hFlag]
      · simp
    · rw [if_neg hFlag]
      simp [hFlag, hSimple]
  refine ⟨hCounter, ?_, ?_⟩
  · intro hConvex hTri
    rw [hCounter, hTri]
    have : failedConvexCooks F Cooking self = 0 := by
      unfold failedConvexCooks
      split
      · rw [List.countP_eq_zero]
        intro V hV
        simpa using hConvex V hV
      · rfl
    simp [this]
  · have hRet := (finalize_returns (CookMesh F Cooking self) BodySetup OutSimpleCollisionData
      OutMemoryUsage)
    rw [hRet, hCounter]
    cases triMeshCookFailed Cooking self
    · simp
    · simp

/-- Witness for C13: the cube with the backend whose calls all fail ends with error counter 2 and
`Finalize` returns false; with the backend whose convex cooks succeed with inflation the counter
stays 0 and `Finalize` returns true. -/
theorem cookMesh_error_counter_witness :
    (cubeCooker.ErrorCounter = 0
      ∧ failedConvexCooks exactMath failingCooking cubeCooker = 1
      ∧ triMeshCookFailed failingCooking cubeCooker = true
      ∧ (CookMesh exactMath failingCooking cubeCooker).ErrorCounter = 2
      ∧ ¬ (Finalize (CookMesh exactMath failingCooking cubeCooker) { FinishedTriMeshes := [] } none
            { TriangleMeshes := 0 }).Return = true)
    ∧ (cubeCooker.ErrorCounter = 0
      ∧ (convexCookInputs exactMath cubeCooker).length = 1
      ∧ (CookMesh exactMath inflatingCooking cubeCooker).ErrorCounter = 0
      ∧ (Finalize (CookMesh exactMath inflatingCooking cubeCooker) { FinishedTriMeshes := [] } none
            { TriangleMeshes := 0 }).Return = true) := by
  have hFailed : failedConvexCooks exactMath failingCooking cubeCooker = 1 := by decide!
  have hTri : triMeshCookFailed failingCooking cubeCooker = true := by decide!
  have hNone : failedConvexCooks exactMath inflatingCooking cubeCooker = 0 := by decide!
  have hTriOk : triMeshCookFailed inflatingCooking cubeCooker = false := by decide!
  obtain ⟨hC, _, hF⟩ := cookMesh_error_counter exactMath failingCooking cubeCooker
    { FinishedTriMeshes := [] } none { TriangleMeshes := 0 } rfl
  obtain ⟨hC2, _, hF2⟩ := cookMesh_error_counter exactMath inflatingCooking cubeCooker
    { FinishedTriMeshes := [] } none { TriangleMeshes := 0 } rfl
  refine ⟨⟨rfl, hFailed, hTri, ?_, ?_⟩, ⟨rfl, by decide!, ?_, ?_⟩⟩
  · rw [hC, hFailed, hTri]; rfl
  · rw [hF, hFailed]; simp
  · rw [hC2, hNone, hTriOk]; rfl
  · rw [hF2]; exact ⟨hNone, hTriOk⟩

/-! ## Failed hulls in the result of CreateSimpleCollision -/

/-- Counterexample to C14: for the cube and a backend whose convex cook returns `Failed` with a
null mesh, the convex-mesh list of the result has one entry, the null mesh, although no hull was
cooked without failure. -/
theorem failed_hull_kept_cubeCooker :
    (convexCookInputs exactMath cubeCooker).length = 1
    ∧ ((convexCookInputs exactMath cubeCooker).countP fun VertexData =>
        decide ((failingCooking.CreateConvex (GetCookFlags cubeCooker) VertexData).1
          ≠ EPhysXCookingResult.Failed)) = 0
    ∧ ((CreateSimpleCollision exactMath failingCooking cubeCooker).CookResult.SimpleCollisionData).map
        (fun Data => Data.ConvexMeshes) = some [none]
    ∧ ¬ FailedHullsOmitted exactMath failingCooking cubeCooker := by
  have hCount : ((convexCookInputs exactMath cubeCooker).countP fun VertexData =>
      decide ((failingCooking.CreateConvex (GetCookFlags cubeCooker) VertexData).1
        ≠ EPhysXCookingResult.Failed)) = 0 := by decide!
  have hMeshes : ((CreateSimpleCollision exactMath failingCooking cubeCooker).CookResult.SimpleCollisionData).map
      (fun Data => Data.ConvexMeshes) = some [none] := by decide!
  refine ⟨by decide!, hCount, hMeshes, ?_⟩
  intro hOmitted
  cases hData : (CreateSimpleCollision exactMath failingCooking cubeCooker).CookResult.SimpleCollisionData with
  | none => rw [hData] at hMeshes; cases hMeshes
  | some Data =>
    have hLen := hOmitted Data hData
    rw [hData, Option.map_some', Option.some.injEq] at hMeshes
    rw [hMeshes, hCount] at hLen
    cases hLen

/-- C14 (amended): when `CreateSimpleCollision` reaches hull cooking, the convex-mesh list of the
result holds, for every hull that remains after merging and in their order, the mesh pointer that
`CreateConvex` returned for it, whatever the cook result, `Failed` included; so the list has as
many entries as there are hulls in the result. With an error counter that starts at 0, the number
of `Failed` cooks is the error counter afterwards. -/
theorem convexMeshes_one_per_hull (F : FFloatMath) (Cooking : IPhysXCooking)
    (self : FVoxelAsyncPhysicsCooker_PhysX) (h : reachesHullCooking F self = true) :
    ∃ Data, (CreateSimpleCollision F Cooking self).CookResult.SimpleCollisionData = some Data
      ∧ Data.ConvexElems.map (fun Element => Element.VertexData) = convexCookInputs F self
      ∧ Data.ConvexMeshes = (convexCookInputs F self).map (fun VertexData =>
          (Cooking.CreateConvex (GetCookFlags self) VertexData).2)
      ∧ Data.ConvexMeshes.length = Data.ConvexElems.length
      ∧ (self.ErrorCounter = 0 →
          (CreateSimpleCollision F Cooking self).ErrorCounter
            = ((convexCookInputs F self).countP fun VertexData =>
                decide ((Cooking.CreateConvex (GetCookFlags self) VertexData).1
                  = EPhysXCookingResult.Failed) : Nat)) := by
  obtain ⟨Data, hData, hIn, hC⟩ := createSimpleCollision_result Cooking self h
  have hM := cookConvexElems_meshes Cooking (GetCookFlags self) Data.ConvexElems
    self.ErrorCounter []
  rw [hC] at hM
  simp only [List.nil_append] at hM
  have hMeshes : Data.ConvexMeshes = (convexCookInputs F self).map (fun VertexData =>
      (Cooking.CreateConvex (GetCookFlags self) VertexData).2) := by
    rw [hM, ← hIn, List.map_map]
    rfl
  refine ⟨Data, hData, hIn, hMeshes, ?_, ?_⟩
  · rw [hM, List.length_map]
  · intro h0
    rw [createSimpleCollision_counter Cooking self (by omega) (by unfold MAX_int32; omega), h0]
    simp

/-- Witness for C14: the cube with the failing backend. -/
theorem convexMeshes_one_per_hull_witness :
    reachesHullCooking exactMath cubeCooker = true
    ∧ ∃ Data, (CreateSimpleCollision exactMath failingCooking cubeCooker).CookResult.SimpleCollisionData
          = some Data
        ∧ Data.ConvexMeshes.length = Data.ConvexElems.length
        ∧ Data.ConvexMeshes = (convexCookInputs exactMath cubeCooker).map (fun VertexData =>
            (failingCooking.CreateConvex (GetCookFlags cubeCooker) VertexData).2) := by
  refine ⟨by decide!, ?_⟩
  obtain ⟨Data, h1, _, h3, h4, _⟩ := convexMeshes_one_per_hull exactMath failingCooking cubeCooker (by decide!)
  exact ⟨Data, h1, h4, h3⟩

/-! ## The completion counter and the done event -/

theorem triggerInvariant_start (N : Nat) (Blobs : List (List Nat)) :
    TriggerInvariant N (FCookingRun.start N Blobs) := by
  refine ⟨rfl, ?_⟩
  have : List.countP (FChunkDoneCall.triggered N) (FCookingRun.start N Blobs).Calls = 0 := by
    rw [List.countP_eq_zero]
    intro c hc
    unfold FCookingRun.start at hc
    simp only [List.mem_map] at hc
    obtain ⟨_, _, rfl⟩ := hc
    simp [FChunkDoneCall.triggered]
  rw [this]
  rfl

theorem triggerInvariant_step (N : Nat) (Run : FCookingRun) (inv : TriggerInvariant N Run)
    (i : Nat) : TriggerInvariant N (ChunkDoneStep Run i) := by
  obtain ⟨hTotal, hTrig⟩ := inv
  unfold ChunkDoneStep
  split
  · exact ⟨hTotal, hTrig⟩
  · cases hc : Run.Calls[i]? with
    | none => exact ⟨hTotal, hTrig⟩
    | some Call =>
      simp only
      cases hp : Call.Position with
      | BeforeIncrement =>
        refine ⟨hTotal, ?_⟩
        simp only
        rw [countP_set_lookup _ _ _ _ _ hc, hTrig]
        simp [FChunkDoneCall.triggered, hp]
      | AfterIncrement =>
        simp only
        split
        · exact ⟨hTotal, hTrig⟩
        · refine ⟨hTotal, ?_⟩
          simp only
          rw [countP_set_lookup _ _ _ _ _ hc, hTrig]
          simp [FChunkDoneCall.triggered, hp]
      | AfterStore =>
        refine ⟨hTotal, ?_⟩
        simp only
        rw [countP_set_lookup _ _ _ _ _ hc, hTrig, hTotal]
        simp only [FChunkDoneCall.triggered, hp]
        by_cases hN : Call.NumBuilt = (N : Int) <;> simp [hN]
      | Returned => exact ⟨hTotal, hTrig⟩

theorem triggerInvariant_schedule (N : Nat) (Schedule : List Nat) (Run : FCookingRun)
    (inv : TriggerInvariant N Run) : TriggerInvariant N (runSchedule Run Schedule) := by
  induction Schedule generalizing Run with
  | nil => exact inv
  | cons i rest ih => exact ih _ (triggerInvariant_step N Run inv i)

theorem countP_le_one_of_unique {α : Type} (p : α → Bool) (l : List α)
    (h : ∀ (i j : Nat) (a b : α), l[i]? = some a → l[j]? = some b → p a = true → p b = true →
      i = j) : List.countP p l ≤ 1 := by
  induction l with
  | nil => simp
  | cons a t ih =>
    have ht : List.countP p t ≤ 1 := by
      apply ih
      intro i j x y hx hy px py
      have := h (i + 1) (j + 1) x y (by simpa using hx) (by simpa using hy) px py
      omega
    by_cases pa : p a = true
    · have h0 : List.countP p t = 0 := by
        rw [List.countP_eq_zero]
        intro b hb pb
        obtain ⟨j, hj⟩ := List.mem_iff_getElem?.mp hb
        have := h 0 (j + 1) a b (by simp) (by simpa using hj) pa pb
        omega
      rw [List.countP_cons_of_pos _ _ pa, h0]
    · rw [List.countP_cons_of_neg _ _ pa]
      exact ht

theorem stores_complete (N : Nat) (Run : FCookingRun) (inv : RunInvariant N Run)
    (hall : ∀ c ∈ Run.Calls, c.stored = true) (k : Nat) (hk : k < N) :
    (k : Int) ∈ Run.Stores := by
  have hrange : ∀ s ∈ Run.Stores, 0 ≤ s ∧ s < (N : Int) := by
    intro s hs
    obtain ⟨i, c, hc, hst, rfl⟩ := inv.storesFrom s hs
    have ht := inv.ticket i c hc (stored_started c hst)
    have hle : List.countP FChunkDoneCall.started Run.Calls ≤ Run.Calls.length :=
      List.countP_le_length _
    rw [inv.calls] at hle
    have hcnt := inv.counter
    omega
  have hlen : Run.Stores.length = N := by
    have hcount := List.countP_eq_length.mpr hall
    rw [inv.calls] at hcount
    rw [inv.storesLength, hcount]
  have hsub : Run.Stores ⊆ (List.range N).map Int.ofNat := by
    intro s hs
    obtain ⟨h0, h1⟩ := hrange s hs
    rw [List.mem_map]
    exact ⟨s.toNat, List.mem_range.mpr (by omega), by simp [Int.toNat_of_nonneg h0]⟩
  have hperm := (List.subperm_of_subset inv.storesNodup hsub).perm_of_length_le
    (by simp [hlen])
  rw [hperm.mem_iff, List.mem_map]
  exact ⟨k, List.mem_range.mpr hk, rfl⟩

theorem ChunkDoneStep_counter (N : Nat) (hN : (N : Int) ≤ MAX_int32) (Run : FCookingRun)
    (inv : RunInvariant N Run) (i : Nat) :
    (ChunkDoneStep Run i).TaskData.NumChunksBuilt
      = Run.TaskData.NumChunksBuilt
        + (if (Run.Calls[i]?).map (fun Call => Call.Position)
              = some EChunkDonePosition.BeforeIncrement then 1 else 0) := by
  unfold ChunkDoneStep
  rw [inv.running]
  simp only [Bool.false_eq_true, if_false]
  cases hc : Run.Calls[i]? with
  | none => simp
  | some Call =>
    simp only [Option.map_some', Option.some.injEq]
    cases hp : Call.Position with
    | BeforeIncrement =>
      simp only [if_true]
      have hlt := countP_lt_of_lookup FChunkDoneCall.started Run.Calls i Call hc
        (by simp [FChunkDoneCall.started, hp])
      rw [inv.calls] at hlt
      have hcnt := inv.counter
      unfold MAX_int32 at hN
      exact toInt32_of_range (by omega) (by omega)
    | AfterIncrement =>
      simp only
      rw [(runInvariant_store N Run inv i Call hc hp).1]
      simp
    | AfterStore => simp
    | Returned => simp

/-- C11: in a cook run with `N >= 1` chunks (`N` an `int32`) and `N` `ChunkDone` calls, under
every interleaving of the calls: the counter starts at 0; at every moment it is the number of
calls that have done their increment, a step of a call increases it by one exactly when the step
is that call's increment, and it never exceeds `N`; `DoneEvent` has been triggered as many times
as there are returned calls whose increment gave `N`, which is at most once; whenever it has been
triggered the counter is `N`, the total held by the task data; once all calls have returned it has
been triggered exactly once and the counter is `N`; the schedule that runs the calls one after the
other brings all calls to their return. -/
theorem chunkDone_counter_and_done_event (N : Nat) (hN1 : 1 ≤ N) (hN : (N : Int) ≤ MAX_int32)
    (Blobs : List (List Nat)) (hB : Blobs.length = N) (Schedule : List Nat) :
    (FCookingRun.start N Blobs).TaskData.NumChunksBuilt = 0
    ∧ (runSchedule (FCookingRun.start N Blobs) Schedule).TaskData.NumChunksBuilt
        = ((runSchedule (FCookingRun.start N Blobs) Schedule).Calls.countP
            FChunkDoneCall.started : Nat)
    ∧ (runSchedule (FCookingRun.start N Blobs) Schedule).TaskData.NumChunksBuilt ≤ N
    ∧ (∀ i : Nat,
        (ChunkDoneStep (runSchedule (FCookingRun.start N Blobs) Schedule) i).TaskData.NumChunksBuilt
          = (runSchedule (FCookingRun.start N Blobs) Schedule).TaskData.NumChunksBuilt
            + (if ((runSchedule (FCookingRun.start N Blobs) Schedule).Calls[i]?).map
                  (fun Call => Call.Position) = some EChunkDonePosition.BeforeIncrement
               then 1 else 0))
    ∧ (runSchedule (FCookingRun.start N Blobs) Schedule).TaskData.DoneEventTriggers
        = (runSchedule (FCookingRun.start N Blobs) Schedule).Calls.countP
            (FChunkDoneCall.triggered N)
    ∧ (runSchedule (FCookingRun.start N Blobs) Schedule).TaskData.DoneEventTriggers ≤ 1
    ∧ (1 ≤ (runSchedule (FCookingRun.start N Blobs) Schedule).TaskData.DoneEventTriggers →
        (runSchedule (FCookingRun.start N Blobs) Schedule).TaskData.NumChunksBuilt = N
        ∧ (runSchedule (FCookingRun.start N Blobs) Schedule).TaskData.NumChunksBuilt
            = (runSchedule (FCookingRun.start N Blobs) Schedule).TaskData.NumChunksToBuild)
    ∧ ((∀ c ∈ (runSchedule (FCookingRun.start N Blobs) Schedule).Calls,
          c.Position = EChunkDonePosition.Returned) →
        (runSchedule (FCookingRun.start N Blobs) Schedule).TaskData.DoneEventTriggers = 1
        ∧ (runSchedule (FCookingRun.start N Blobs) Schedule).TaskData.NumChunksBuilt = N)
    ∧ (∀ c ∈ (runSchedule (FCookingRun.start N Blobs) (sequentialSchedule N)).Calls,
        c.Position = EChunkDonePosition.Returned) := by
  have inv := runInvariant_schedule N hN Schedule _ (runInvariant_start N Blobs hB)
  obtain ⟨hTotal, hTrig⟩ := triggerInvariant_schedule N Schedule _
    (triggerInvariant_start N Blobs)
  generalize runSchedule (FCookingRun.start N Blobs) Schedule = Run at inv hTotal hTrig ⊢
  have hle : List.countP FChunkDoneCall.started Run.Calls ≤ N := by
    have : List.countP FChunkDoneCall.started Run.Calls ≤ Run.Calls.length :=
      List.countP_le_length _
    rw [inv.calls] at this
    exact this
  have hcnt := inv.counter
  have hLeN : Run.TaskData.NumChunksBuilt ≤ (N : Int) := by omega
  have hOnce : List.countP (FChunkDoneCall.triggered N) Run.Calls ≤ 1 := by
    apply countP_le_one_of_unique
    intro i j a b ha hb pa pb
    unfold FChunkDoneCall.triggered at pa pb
    simp only [Bool.and_eq_true, beq_iff_eq, decide_eq_true_eq] at pa pb
    exact inv.distinct i j a b ha hb (by simp [FChunkDoneCall.started, pa.1])
      (by simp [FChunkDoneCall.started, pb.1]) (by rw [pa.2, pb.2])
  have hFull : 1 ≤ Run.TaskData.DoneEventTriggers → Run.TaskData.NumChunksBuilt = (N : Int) := by
    intro h1
    rw [hTrig] at h1
    obtain ⟨c, hc, pc⟩ := List.countP_pos_iff.mp h1
    unfold FChunkDoneCall.triggered at pc
    simp only [Bool.and_eq_true, beq_iff_eq, decide_eq_true_eq] at pc
    obtain ⟨i, hi⟩ := List.mem_iff_getElem?.mp hc
    have := inv.ticket i c hi (by simp [FChunkDoneCall.started, pc.1])
    omega
  refine ⟨rfl, hcnt, hLeN, fun i => ChunkDoneStep_counter N hN Run inv i, hTrig,
    by rw [hTrig]; exact hOnce, fun h1 => ⟨hFull h1, by rw [hFull h1, hTotal]⟩, ?_, ?_⟩
  · intro hall
    have hstored : ∀ c ∈ Run.Calls, c.stored = true := by
      intro c hc
      simp [FChunkDoneCall.stored, hall c hc]
    have hmem := stores_complete N Run inv hstored (N - 1) (by omega)
    obtain ⟨i, c, hc, _, he⟩ := inv.storesFrom _ hmem
    have hcN : c.NumBuilt = (N : Int) := by
      have : ((N - 1 : Nat) : Int) = (N : Int) - 1 := by omega
      omega
    have hpos : 0 < List.countP (FChunkDoneCall.triggered N) Run.Calls := by
      rw [List.countP_pos_iff]
      refine ⟨c, List.getElem?_mem hc, ?_⟩
      simp [FChunkDoneCall.triggered, hall c (List.getElem?_mem hc), hcN]
    have h1 : Run.TaskData.DoneEventTriggers = 1 := by omega
    exact ⟨h1, hFull (by omega)⟩
  · intro c hc
    have hseq := sequentialSchedule_completes N hN Blobs hB c
    rw [hB] at hseq
    exact (hseq hc).1

/-- Witness for C11: three chunks under an interleaved schedule; the call numbered 1 gets
`NumBuilt = 3` and triggers the event. -/
theorem chunkDone_counter_and_done_event_witness :
    (∀ c ∈ (runSchedule threeChunkRun interleavedSchedule).Calls,
        c.Position = EChunkDonePosition.Returned)
    ∧ (runSchedule threeChunkRun interleavedSchedule).Calls.map (fun Call => Call.NumBuilt)
        = [2, 3, 1]
    ∧ (runSchedule threeChunkRun [2, 0, 0, 1, 2, 1, 0]).TaskData.DoneEventTriggers = 0
    ∧ ((runSchedule threeChunkRun interleavedSchedule).TaskData.DoneEventTriggers = 1
        ∧ (runSchedule threeChunkRun interleavedSchedule).TaskData.NumChunksBuilt = 3) :=
  ⟨by decide, by decide, by decide,
   (chunkDone_counter_and_done_event 3 (by decide) (by decide) [[1], [2], [3]] rfl
     interleavedSchedule).2.2.2.2.2.2.2.1 (by decide)⟩

/-! ## The compression round trip -/

/-! ## Lemmas on the compression chunks -/

theorem divideCeil64_spec (N M : Int) (hN : 0 < N) (hM : 0 < M) :
    0 < DivideCeil64 N M ∧ (DivideCeil64 N M - 1) * M < N ∧ N ≤ DivideCeil64 N M * M := by
  unfold DivideCeil64
  have h1 : (N + M - 1) / M * M ≤ N + M - 1 := Int.ediv_mul_le _ (by omega)
  have h2 : N + M - 1 < ((N + M - 1) / M + 1) * M := Int.lt_ediv_add_one_mul_self _ hM
  have h3 : ((N + M - 1) / M + 1) * M = (N + M - 1) / M * M + M := by ring
  have h4 : ((N + M - 1) / M - 1) * M = (N + M - 1) / M * M - M := by ring
  refine ⟨?_, by omega, by omega⟩
  by_contra hc
  have : (N + M - 1) / M * M ≤ 0 := by
    have : (N + M - 1) / M ≤ 0 := by omega
    exact Int.mul_nonpos_of_nonpos_of_nonneg this (by omega)
  omega

/-- The first `k` chunks of `M` bytes are the first `k * M` bytes. -/
theorem flatMap_slices (M : Nat) (Data : List Nat) (k : Nat) :
    (List.range k).flatMap (fun i => (Data.drop (i * M)).take M) = Data.take (k * M) := by
  induction k with
  | zero => simp
  | succ k ih =>
    rw [List.range_succ, List.flatMap_append, ih]
    simp only [List.flatMap_cons, List.flatMap_nil, List.append_nil]
    rw [Nat.succ_mul, List.take_add]

theorem range_split (K k : Nat) (hk : k < K) :
    List.range K = List.range k ++ k :: List.range' (k + 1) (K - k - 1) := by
  obtain ⟨d, rfl⟩ : ∃ d, K = k + 1 + d := ⟨K - k - 1, by omega⟩
  have hd : k + 1 + d - k - 1 = d := by omega
  rw [hd, List.range_eq_range', List.range_eq_range']
  have e1 := List.range'_append_1 0 k (1 + d)
  have e2 := List.range'_append_1 k 1 d
  rw [show 1 + d + k = k + 1 + d by omega] at e1
  rw [← e1, Nat.zero_add, show 1 + d = d + 1 by omega, ← e2]
  simp

theorem toUInt64_of_range {x : Int} (h0 : 0 ≤ x) (h1 : x < 18446744073709551616) :
    toUInt64 x = x := by
  unfold toUInt64; omega

theorem toUInt32_of_range {x : Int} (h0 : 0 ≤ x) (h1 : x < 4294967296) : toUInt32 x = x := by
  unfold toUInt32; omega

theorem chunkBytes_length (M : Nat) (Data : List Nat) (i : Nat) :
    (chunkBytes M Data i).length = min M (Data.length - i * M) := by
  unfold chunkBytes
  simp

theorem chunkSource_estimatedChunk (Z : FZlib) (M : Nat) (Data : List Nat) (i : Nat) :
    chunkSource Data (estimatedChunk Z M Data i) = chunkBytes M Data i := by
  unfold chunkSource estimatedChunk
  simp only [Int.toNat_ofNat]
  unfold chunkBytes
  apply List.ext_getElem?
  intro j
  simp only [List.getElem?_take, List.length_take, List.length_drop]
  by_cases hj : j < M
  · by_cases hj2 : j < Data.length - i * M
    · simp [hj, hj2]
    · have : (List.drop (i * M) Data)[j]? = none := by
        rw [List.getElem?_eq_none_iff]
        simp
        omega
      simp [this]
  · have : ¬ j < min M (Data.length - i * M) := by omega
    simp [hj, this]

theorem compressionChunks_eq (C : FCompressionConstants) (Z : FZlib) (Data : List Nat)
    (M K : Nat) (hM : C.MaxChunkSize = M)
    (hK : DivideCeil64 Data.length C.MaxChunkSize = K) (hK31 : (K : Int) ≤ MAX_int32)
    (hlt : (K - 1) * M < Data.length) (hN64 : (Data.length : Int) ≤ 9223372036854775807) :
    compressionChunks C Z Data = (List.range K).map (estimatedChunk Z M Data) := by
  unfold compressionChunks fillChunks estimateChunks
  rw [hK, toInt32_of_range (by omega) (by unfold MAX_int32 at hK31; omega), Int.toNat_ofNat,
    List.map_map]
  apply List.map_congr_left
  intro i hi
  have hiK : i < K := List.mem_range.mp hi
  have hle : i * M ≤ (K - 1) * M := Nat.mul_le_mul_right M (by omega)
  have hlen := chunkBytes_length M Data i
  have hc : ((i * M : Nat) : Int) < (Data.length : Int) := by
    exact_mod_cast lt_of_le_of_lt hle hlt
  have hp : (0 : Int) ≤ ((i * M : Nat) : Int) := Int.ofNat_nonneg _
  have h1 : toInt64 ((i : Int) * C.MaxChunkSize) = ((i * M : Nat) : Int) := by
    rw [hM, ← Nat.cast_mul, toInt64_of_range (by omega) (by omega)]
  have h2 : toInt64 ((Data.length : Int) - ((i * M : Nat) : Int))
      = (Data.length : Int) - ((i * M : Nat) : Int) := by
    rw [toInt64_of_range (by omega) (by omega)]
  have h3 : min C.MaxChunkSize ((Data.length : Int) - ((i * M : Nat) : Int))
      = ((chunkBytes M Data i).length : Int) := by
    rw [hlen, hM]
    simp only [min_def]
    split_ifs <;> omega
  simp only [Function.comp_apply, estimatedChunk]
  rw [h1, h2, h3, toUInt64_of_range (by omega) (by omega), Int.toNat_ofNat]

theorem chunkOutput_spec (Z : FZlib) (hZ : Z.Inverts) (Level : Int) (hL0 : -1 ≤ Level)
    (hL1 : Level ≤ 9) (Source : List Nat) :
    Z.compress2 (Z.compressBound Source.length) Source Level = some (chunkOutput Z Level Source)
    ∧ (chunkOutput Z Level Source).length ≤ Z.compressBound Source.length
    ∧ Z.uncompress Source.length (chunkOutput Z Level Source) = some Source := by
  obtain ⟨Out, h1, h2, h3⟩ := hZ Source Level _ hL0 hL1 (le_refl _)
  unfold chunkOutput
  rw [h1]
  exact ⟨rfl, h2, h3⟩

theorem compressChunks_indices (Z : FZlib) (hZ : Z.Inverts) (Level : Int) (hL0 : -1 ≤ Level)
    (hL1 : Level ≤ 9) (M : Nat) (Data : List Nat) (Is : List Nat) (Acc : List Nat)
    (Sizes : List Int) :
    compressChunks Z Level Data (Is.map (estimatedChunk Z M Data)) (Acc, Sizes)
      = some (Acc ++ Is.flatMap (fun i => chunkOutput Z Level (chunkBytes M Data i)),
          Sizes ++ Is.map (fun i =>
            toUInt32 ((chunkOutput Z Level (chunkBytes M Data i)).length : Int))) := by
  induction Is generalizing Acc Sizes with
  | nil => simp [compressChunks]
  | cons i Rest ih =>
    rw [List.map_cons]
    unfold compressChunks
    rw [chunkSource_estimatedChunk]
    have hcap : (estimatedChunk Z M Data i).CompressedSize.toNat
        = Z.compressBound (chunkBytes M Data i).length := by
      simp [estimatedChunk]
    rw [hcap, (chunkOutput_spec Z hZ Level hL0 hL1 (chunkBytes M Data i)).1]
    simp only
    rw [ih]
    simp

theorem flatMap_range_succ_length {α : Type} (f : Nat → List α) (k : Nat) :
    ((List.range (k + 1)).flatMap f).length = ((List.range k).flatMap f).length + (f k).length := by
  rw [List.range_succ, List.flatMap_append]
  simp

theorem flatMap_range_split {α : Type} (f : Nat → List α) (K k : Nat) (hk : k < K) :
    (List.range K).flatMap f
      = (List.range k).flatMap f ++ (f k ++ (List.range' (k + 1) (K - k - 1)).flatMap f) := by
  rw [range_split K k hk, List.flatMap_append, List.flatMap_cons]

theorem decompressChunks_range (C : FCompressionConstants) (Z : FZlib) (hZ : Z.Inverts)
    (Level : Int) (hL0 : -1 ≤ Level) (hL1 : Level ≤ 9) (M K : Nat) (Data : List Nat)
    (Header : FHeader) (Bytes : List Nat) (hM : C.MaxChunkSize = M)
    (hBytes : Bytes = (List.range K).flatMap
      (fun i => chunkOutput Z Level (chunkBytes M Data i)))
    (hSizes : Header.ChunksCompressedSize = (List.range K).map (fun i =>
      toUInt32 ((chunkOutput Z Level (chunkBytes M Data i)).length : Int)))
    (hCS : Header.CompressedSize = Bytes.length) (hUS : Header.UncompressedSize = Data.length)
    (hSmall : Bytes.length < 4294967296) (hlt : (K - 1) * M < Data.length)
    (hN64 : (Data.length : Int) ≤ 9223372036854775807) :
    ∀ (m k : Nat), k + m = K → ∀ Acc : List Nat,
      decompressChunks C Z Header Bytes (List.range' k m)
        ((((List.range k).flatMap
            (fun i => chunkOutput Z Level (chunkBytes M Data i))).length : Int),
         (((List.range k).flatMap (chunkBytes M Data)).length : Int), Acc)
      = some ((Bytes.length : Int), (((List.range K).flatMap (chunkBytes M Data)).length : Int),
          Acc ++ (List.range' k m).flatMap (chunkBytes M Data)) := by
  intro m
  induction m with
  | zero =>
    intro k hk Acc
    have : k = K := by omega
    subst this
    simp [decompressChunks, hBytes]
  | succ m ih =>
    intro k hk Acc
    have hkK : k < K := by omega
    rw [List.range'_succ]
    unfold decompressChunks
    have hsplit := flatMap_range_split
      (fun i => chunkOutput Z Level (chunkBytes M Data i)) K k hkK
    have hlenB : Bytes.length
        = ((List.range k).flatMap (fun i => chunkOutput Z Level (chunkBytes M Data i))).length
          + ((chunkOutput Z Level (chunkBytes M Data k)).length
            + ((List.range' (k + 1) (K - k - 1)).flatMap
                (fun i => chunkOutput Z Level (chunkBytes M Data i))).length) := by
      rw [hBytes, hsplit]
      simp only [List.length_append]
    have hsize : Header.ChunksCompressedSize.getD k 0
        = ((chunkOutput Z Level (chunkBytes M Data k)).length : Int) := by
      rw [hSizes, List.getD_eq_getElem?_getD, List.getElem?_map, List.getElem?_range hkK]
      simp only [Option.map_some', Option.getD_some]
      exact toUInt32_of_range (by omega) (by omega)
    have hsrc : (Bytes.drop (((List.range k).flatMap
          (fun i => chunkOutput Z Level (chunkBytes M Data i))).length)).take
            (chunkOutput Z Level (chunkBytes M Data k)).length
        = chunkOutput Z Level (chunkBytes M Data k) := by
      rw [hBytes, hsplit, List.drop_left, List.take_left]
    have hTU : ((List.range k).flatMap (chunkBytes M Data)).length = k * M := by
      have := flatMap_slices M Data k
      unfold chunkBytes
      rw [this, List.length_take]
      have : k * M ≤ (K - 1) * M := Nat.mul_le_mul_right M (by omega)
      omega
    have hcap : toUInt64 (min C.MaxChunkSize (Header.UncompressedSize
          - (((List.range k).flatMap (chunkBytes M Data)).length : Int)))
        = ((chunkBytes M Data k).length : Int) := by
      have hle : k * M ≤ (K - 1) * M := Nat.mul_le_mul_right M (by omega)
      rw [hM, hUS, hTU, chunkBytes_length]
      have : min (M : Int) ((Data.length : Int) - ((k * M : Nat) : Int))
          = ((min M (Data.length - k * M) : Nat) : Int) := by
        simp only [min_def]
        split_ifs <;> omega
      rw [this]
      have hmin : ((min M (Data.length - k * M) : Nat) : Int) ≤ (Data.length : Int) := by
        exact_mod_cast le_trans (Nat.min_le_right _ _) (Nat.sub_le _ _)
      exact toUInt64_of_range (Int.ofNat_nonneg _) (by omega)
    simp only [hsize, hcap, Int.toNat_ofNat, hsrc, hCS]
    rw [if_neg (by omega), (chunkOutput_spec Z hZ Level hL0 hL1 (chunkBytes M Data k)).2.2]
    simp only
    have e1 : (((List.range k).flatMap
          (fun i => chunkOutput Z Level (chunkBytes M Data i))).length : Int)
        + ((chunkOutput Z Level (chunkBytes M Data k)).length : Int)
        = (((List.range (k + 1)).flatMap
          (fun i => chunkOutput Z Level (chunkBytes M Data i))).length : Int) := by
      rw [flatMap_range_succ_length]
      push_cast
      rfl
    have e2 : (((List.range k).flatMap (chunkBytes M Data)).length : Int)
        + ((chunkBytes M Data k).length : Int)
        = (((List.range (k + 1)).flatMap (chunkBytes M Data)).length : Int) := by
      rw [flatMap_range_succ_length]
      push_cast
      rfl
    rw [e1, e2, ih (k + 1) (by omega)]
    simp

theorem getCompressionLevel_range (C : FCompressionConstants) (Default InLevel : Int) :
    -1 ≤ GetCompressionLevel C Default InLevel ∧ GetCompressionLevel C Default InLevel ≤ 9 := by
  unfold GetCompressionLevel Clamp
  simp only
  split_ifs <;> omega

theorem flatMap_output_le_bound (Z : FZlib) (hZ : Z.Inverts) (Level : Int) (hL0 : -1 ≤ Level)
    (hL1 : Level ≤ 9) (M : Nat) (Data : List Nat) (Is : List Nat) :
    ((Is.flatMap (fun i => chunkOutput Z Level (chunkBytes M Data i))).length : Int)
      ≤ ((Is.map (estimatedChunk Z M Data)).map fun Chunk => Chunk.CompressedSize).sum := by
  induction Is with
  | nil => simp
  | cons i Rest ih =>
    have h := (chunkOutput_spec Z hZ Level hL0 hL1 (chunkBytes M Data i)).2.1
    simp only [List.flatMap_cons, List.length_append, List.map_cons, List.sum_cons, Nat.cast_add]
    have : (estimatedChunk Z M Data i).CompressedSize
        = ((Z.compressBound (chunkBytes M Data i).length : Nat) : Int) := rfl
    rw [this]
    omega

theorem estimatedChunks_last (Z : FZlib) (M : Nat) (Data : List Nat) (j : Nat)
    (hlt : j * M < Data.length) (hle : Data.length ≤ (j + 1) * M) :
    ((List.range (j + 1)).map (estimatedChunk Z M Data)).getLast?.map
      (fun Chunk => Chunk.Start + Chunk.Size) = some (Data.length : Int) := by
  rw [List.range_succ, List.map_append, List.map_singleton, List.getLast?_append]
  simp only [List.getLast?_singleton, Option.or_some, Option.map_some', Option.some.injEq]
  unfold estimatedChunk
  simp only
  rw [chunkBytes_length]
  rw [Nat.succ_mul] at hle
  have : min M (Data.length - j * M) = Data.length - j * M := by omega
  rw [this]
  omega

/-- The archive that `CompressData` writes for `Data` when no check fails. -/
theorem compressData_eq (C : FCompressionConstants) (Z : FZlib) (hZ : Z.Inverts)
    (Default InLevel : Int) (Data : List Nat) (Out0 : FArchiveBytes) (M K : Nat)
    (hM : C.MaxChunkSize = M) (hK : DivideCeil64 Data.length C.MaxChunkSize = K)
    (hK0 : 0 < K) (hKMax : (K : Int) < C.MaxNumChunks) (hMax : C.MaxNumChunks ≤ MAX_int32)
    (hlt : (K - 1) * M < Data.length) (hle : Data.length ≤ K * M)
    (hN64 : (Data.length : Int) ≤ 9223372036854775807) :
    CompressData C Z Default Data Out0 InLevel
      = if toUInt64 (((List.range K).flatMap (fun i =>
              chunkOutput Z (GetCompressionLevel C Default InLevel) (chunkBytes M Data i))).length
              : Int) < toUInt64 (MAX_int32 - C.sizeofFHeader) then
          some
            { Header := some
                { LegacyFlag := -1
                  Magic := C.Magic
                  CompressedSize := (((List.range K).flatMap (fun i =>
                    chunkOutput Z (GetCompressionLevel C Default InLevel)
                      (chunkBytes M Data i))).length : Int)
                  UncompressedSize := Data.length
                  NumChunks := K
                  ChunksCompressedSize := (List.range K).map (fun i =>
                    toUInt32 ((chunkOutput Z (GetCompressionLevel C Default InLevel)
                      (chunkBytes M Data i)).length : Int)) }
              Bytes := (List.range K).flatMap (fun i =>
                chunkOutput Z (GetCompressionLevel C Default InLevel) (chunkBytes M Data i)) }
        else none := by
  obtain ⟨hL0, hL1⟩ := getCompressionLevel_range C Default InLevel
  have hN0 : ¬ ((Data.length : Int) = 0) := by
    intro h0
    have : Data.length = 0 := by exact_mod_cast h0
    rw [this] at hlt
    omega
  have hChunks := compressionChunks_eq C Z Data M K hM hK (by omega) hlt hN64
  have hKpos : (0 : Int) < (K : Int) := by exact_mod_cast hK0
  have hKlow : (-2147483648 : Int) ≤ (K : Int) := by omega
  have hKnonneg : (0 : Int) ≤ (K : Int) := by omega
  have hKhigh : (K : Int) ≤ 2147483647 := by
    unfold MAX_int32 at hMax
    omega
  have hKhigh2 : (K : Int) < 4294967296 := by omega
  have hK32 : toInt32 (K : Int) = K := toInt32_of_range hKlow hKhigh
  have hKu : toUInt32 (K : Int) = K := toUInt32_of_range hKnonneg hKhigh2
  have hLast : ((List.range K).map (estimatedChunk Z M Data)).getLast?.map
      (fun Chunk => Chunk.Start + Chunk.Size) = some (Data.length : Int) := by
    obtain ⟨j, hj⟩ : ∃ j, K = j + 1 := ⟨K - 1, (Nat.succ_pred_eq_of_pos hK0).symm⟩
    have hlt2 : j * M < Data.length := by
      have h1 : K - 1 = j := by rw [hj]; rfl
      rw [h1] at hlt
      exact hlt
    have hle2 : Data.length ≤ (j + 1) * M := by
      rw [hj] at hle
      exact hle
    rw [hj]
    exact estimatedChunks_last Z M Data j hlt2 hle2
  unfold CompressData
  simp only [hN0, if_false, hK, hK32, hChunks, hLast, not_true_eq_false]
  rw [if_neg (by push_neg; exact ⟨hKpos, hKMax⟩)]
  rw [compressChunks_indices Z hZ _ hL0 hL1]
  simp only [List.nil_append, hKu]
  rw [if_neg (by
    push_neg
    exact flatMap_output_le_bound Z hZ _ hL0 hL1 M Data (List.range K))]
  split_ifs <;> rfl

/-- The facts on the chunk count of a non-empty array within the chunk limit. -/
theorem chunkCount_spec (C : FCompressionConstants) (hC : C.WellFormed) (Data : List Nat)
    (hData : Data ≠ [])
    (hLimit : DivideCeil64 Data.length C.MaxChunkSize < C.MaxNumChunks) :
    ∃ M K : Nat, C.MaxChunkSize = M ∧ DivideCeil64 Data.length C.MaxChunkSize = K
      ∧ 0 < K ∧ (K : Int) < C.MaxNumChunks ∧ (K - 1) * M < Data.length ∧ Data.length ≤ K * M
      ∧ (Data.length : Int) ≤ 9223372036854775807 := by
  obtain ⟨hM0, hMax, h64, _, _⟩ := hC
  have hN : (0 : Int) < Data.length := by
    have : 0 < Data.length := List.length_pos.mpr hData
    exact_mod_cast this
  obtain ⟨hK0, hKlt, hKle⟩ := divideCeil64_spec Data.length C.MaxChunkSize hN hM0
  obtain ⟨M, hM⟩ : ∃ M : Nat, C.MaxChunkSize = M := ⟨C.MaxChunkSize.toNat, by omega⟩
  obtain ⟨K, hK⟩ : ∃ K : Nat, DivideCeil64 Data.length C.MaxChunkSize = K :=
    ⟨(DivideCeil64 Data.length C.MaxChunkSize).toNat, by omega⟩
  rw [hK] at hLimit
  rw [hK, hM] at hKlt hKle
  have hK0n : 0 < K := by omega
  refine ⟨M, K, hM, hK, hK0n, hLimit, ?_, ?_, ?_⟩
  · have : (((K - 1) * M : Nat) : Int) < (Data.length : Int) := by
      rw [Nat.cast_mul, Nat.cast_sub (by omega)]
      exact_mod_cast hKlt
    exact_mod_cast this
  · exact_mod_cast hKle
  · have h1 : (K : Int) * C.MaxChunkSize ≤ C.MaxNumChunks * C.MaxChunkSize :=
      Int.mul_le_mul_of_nonneg_right (by omega) (by omega)
    rw [hM] at h1 h64
    have h2 : (C.MaxNumChunks : Int) * (M : Int) = (M : Int) * C.MaxNumChunks := by ring
    omega

theorem decompressData_archive (C : FCompressionConstants) (hC : C.WellFormed) (Z : FZlib)
    (hZ : Z.Inverts) (Level : Int) (hL0 : -1 ≤ Level) (hL1 : Level ≤ 9) (Data : List Nat)
    (M K : Nat) (hM : C.MaxChunkSize = M) (hKMax : (K : Int) < C.MaxNumChunks)
    (hlt : (K - 1) * M < Data.length) (hle : Data.length ≤ K * M)
    (hN64 : (Data.length : Int) ≤ 9223372036854775807)
    (hSmall : ((List.range K).flatMap
      (fun i => chunkOutput Z Level (chunkBytes M Data i))).length < 4294967296) :
    DecompressData C Z
      { Header := some
          { LegacyFlag := -1
            Magic := C.Magic
            CompressedSize := (((List.range K).flatMap (fun i =>
              chunkOutput Z Level (chunkBytes M Data i))).length : Int)
            UncompressedSize := Data.length
            NumChunks := K
            ChunksCompressedSize := (List.range K).map (fun i =>
              toUInt32 ((chunkOutput Z Level (chunkBytes M Data i)).length : Int)) }
        Bytes := (List.range K).flatMap (fun i =>
          chunkOutput Z Level (chunkBytes M Data i)) }
      = some (true, Data) := by
  obtain ⟨_, _, _, hS0, _⟩ := hC
  have hloop := decompressChunks_range C Z hZ Level hL0 hL1 M K Data
    { LegacyFlag := -1
      Magic := C.Magic
      CompressedSize := (((List.range K).flatMap (fun i =>
        chunkOutput Z Level (chunkBytes M Data i))).length : Int)
      UncompressedSize := Data.length
      NumChunks := K
      ChunksCompressedSize := (List.range K).map (fun i =>
        toUInt32 ((chunkOutput Z Level (chunkBytes M Data i)).length : Int)) }
    ((List.range K).flatMap (fun i => chunkOutput Z Level (chunkBytes M Data i)))
    hM rfl rfl rfl rfl hSmall hlt hN64 K 0 (by omega) []
  have hall : (List.range K).flatMap (chunkBytes M Data) = Data := by
    have := flatMap_slices M Data K
    unfold chunkBytes
    rw [this, List.take_of_length_le hle]
  simp only [List.range_zero, List.flatMap_nil, List.length_nil, Nat.cast_zero, List.nil_append,
    ← List.range_eq_range', hall] at hloop
  unfold DecompressData FArchiveBytes.Num
  simp only [Int.toNat_ofNat, hloop]
  rw [if_neg (by omega)]
  simp only [if_true]
  rw [if_neg (by omega), if_neg (by simp), if_neg (by omega), if_neg (by omega)]
  simp

theorem storedZlib_inverts : storedZlib.Inverts := by
  intro Source Level Capacity _ _ hCap
  have hCap2 : Source.length ≤ Capacity := hCap
  refine ⟨Source, ?_, hCap2, ?_⟩
  · simp [storedZlib, hCap2]
  · simp [storedZlib]

theorem chunkOutput_storedZlib (Level : Int) (Source : List Nat) :
    chunkOutput storedZlib Level Source = Source := by
  simp [chunkOutput, storedZlib]

/-- With the storing codec and the wide constants, `CompressData` stops at the check of the total
compressed size for every array of `2^31` bytes. -/
theorem compressData_wide_stops (Default InLevel : Int) (Data : List Nat)
    (Out0 : FArchiveBytes) (hlen : Data.length = 2147483648) :
    CompressData wideConstants storedZlib Default Data Out0 InLevel = none := by
  have hK : DivideCeil64 (Data.length : Int) wideConstants.MaxChunkSize = ((4 : Nat) : Int) := by
    rw [hlen]
    decide
  have h := compressData_eq wideConstants storedZlib storedZlib_inverts Default InLevel Data Out0
    536870912 4 rfl hK (by decide) (by decide) (by decide) (by rw [hlen]; decide)
    (by rw [hlen]) (by rw [hlen]; decide)
  have hP : (List.range 4).flatMap (fun i =>
      chunkOutput storedZlib (GetCompressionLevel wideConstants Default InLevel)
        (chunkBytes 536870912 Data i)) = Data := by
    simp only [chunkOutput_storedZlib]
    have := flatMap_slices 536870912 Data 4
    unfold chunkBytes
    rw [this, List.take_of_length_le (by rw [hlen])]
  rw [hP, hlen] at h
  rw [h]
  rfl

/-- C20 (amended): for every byte array within the chunk limit whose compressed chunks total
fewer than `MAX_int32 - sizeof(FHeader)` bytes, with a zlib that keeps its contract, `CompressData`
returns and `DecompressData` applied to its output gives back the array, byte for byte, and
returns true when the array is not empty. -/
theorem compress_decompress_round_trip (C : FCompressionConstants) (hC : C.WellFormed)
    (Z : FZlib) (hZ : Z.Inverts) (Default InLevel : Int) (Data : List Nat)
    (Out0 : FArchiveBytes)
    (hLimit : DivideCeil64 Data.length C.MaxChunkSize < C.MaxNumChunks)
    (hTotal : ∀ P, compressChunks Z (GetCompressionLevel C Default InLevel) Data
        (compressionChunks C Z Data) ([], []) = some P →
      (P.1.length : Int) < MAX_int32 - C.sizeofFHeader) :
    ∃ Archive, CompressData C Z Default Data Out0 InLevel = some Archive
      ∧ DecompressData C Z Archive = some (decide (Data ≠ []), Data) := by
  by_cases hData : Data = []
  · subst hData
    refine ⟨FArchiveBytes.Empty, ?_, ?_⟩
    · simp [CompressData]
    · simp [DecompressData, FArchiveBytes.Num, FArchiveBytes.Empty]
  · obtain ⟨M, K, hM, hK, hK0, hKMax, hlt, hle, hN64⟩ := chunkCount_spec C hC Data hData hLimit
    obtain ⟨hL0, hL1⟩ := getCompressionLevel_range C Default InLevel
    have hC2 := hC
    obtain ⟨_, hMax, _, hS0, hS1⟩ := hC2
    have hChunks := compressionChunks_eq C Z Data M K hM hK (by omega) hlt hN64
    have hP := hTotal _ (by
      rw [hChunks]
      exact compressChunks_indices Z hZ _ hL0 hL1 M Data (List.range K) [] [])
    simp only [List.nil_append] at hP
    have hEq := compressData_eq C Z hZ Default InLevel Data Out0 M K hM hK hK0 hKMax hMax hlt hle
      hN64
    unfold MAX_int32 at hP hS1
    rw [if_pos (by
      rw [toUInt64_of_range (by omega) (by omega), toUInt64_of_range (by unfold MAX_int32; omega)
        (by unfold MAX_int32; omega)]
      unfold MAX_int32
      exact hP)] at hEq
    refine ⟨_, hEq, ?_⟩
    rw [decompressData_archive C hC Z hZ _ hL0 hL1 Data M K hM hKMax hlt hle hN64 (by omega)]
    simp [hData]

/-- Counterexample to C20: with chunks of `2^29` bytes, fewer than 32 chunks and a codec that
stores the bytes as they are (it keeps the contract of zlib), the array of `2^31` zero bytes is
within the chunk limit (4 chunks), and `CompressData` stops at the check
`TotalCompressedSize < MAX_int32 - sizeof(FHeader)`: there is no output to decompress. -/
theorem roundTrip_fails_wideConstants :
    wideConstants.WellFormed ∧ storedZlib.Inverts
    ∧ DivideCeil64 ((List.replicate 2147483648 (0 : Nat)).length : Int)
        wideConstants.MaxChunkSize = 4
    ∧ CompressData wideConstants storedZlib 6 (List.replicate 2147483648 0) FArchiveBytes.Empty 6
        = none
    ∧ ¬ RoundTripWithinChunkLimit wideConstants storedZlib := by
  have hK : DivideCeil64 ((List.replicate 2147483648 (0 : Nat)).length : Int)
      wideConstants.MaxChunkSize = 4 := by
    rw [List.length_replicate]
    decide
  have hStop := compressData_wide_stops 6 6 (List.replicate 2147483648 0) FArchiveBytes.Empty
    (List.length_replicate _ _)
  refine ⟨⟨by decide, by decide, by decide, by decide, by decide⟩, storedZlib_inverts, hK,
    hStop, ?_⟩
  intro hRound
  obtain ⟨Archive, hArchive, _⟩ := hRound 6 6 (List.replicate 2147483648 0) FArchiveBytes.Empty
    (by rw [hK]; decide)
  rw [hStop] at hArchive
  cases hArchive

/-- Witness for C20: ten bytes in chunks of 4 bytes with the storing codec, and the empty
array. -/
theorem compress_decompress_round_trip_witness :
    smallConstants.WellFormed ∧ storedZlib.Inverts
    ∧ DivideCeil64 (([1, 2, 3, 4, 5, 6, 7, 8, 9, 10] : List Nat).length : Int)
        smallConstants.MaxChunkSize < smallConstants.MaxNumChunks
    ∧ (compressionChunks smallConstants storedZlib [1, 2, 3, 4, 5, 6, 7, 8, 9, 10]).map
        (fun Chunk => (Chunk.Start, Chunk.Size)) = [(0, 4), (4, 4), (8, 2)]
    ∧ (∃ Archive, CompressData smallConstants storedZlib 6 [1, 2, 3, 4, 5, 6, 7, 8, 9, 10]
          FArchiveBytes.Empty (-2) = some Archive
        ∧ DecompressData smallConstants storedZlib Archive
          = some (decide (([1, 2, 3, 4, 5, 6, 7, 8, 9, 10] : List Nat) ≠ []),
              [1, 2, 3, 4, 5, 6, 7, 8, 9, 10]))
    ∧ (∃ Archive, CompressData smallConstants storedZlib 6 [] FArchiveBytes.Empty (-2)
          = some Archive
        ∧ DecompressData smallConstants storedZlib Archive
          = some (decide (([] : List Nat) ≠ []), [])) := by
  have hC : smallConstants.WellFormed := ⟨by decide, by decide, by decide, by decide, by decide⟩
  refine ⟨hC, storedZlib_inverts, by decide, by decide, ?_, ?_⟩
  · apply compress_decompress_round_trip smallConstants hC storedZlib storedZlib_inverts 6 (-2)
      [1, 2, 3, 4, 5, 6, 7, 8, 9, 10] FArchiveBytes.Empty (by decide)
    intro P hP
    have hE : compressChunks storedZlib (GetCompressionLevel smallConstants 6 (-2))
        [1, 2, 3, 4, 5, 6, 7, 8, 9, 10]
        (compressionChunks smallConstants storedZlib [1, 2, 3, 4, 5, 6, 7, 8, 9, 10]) ([], [])
        = some ([1, 2, 3, 4, 5, 6, 7, 8, 9, 10], [4, 4, 2]) := by decide
    rw [hE] at hP
    cases hP
    decide
  · apply compress_decompress_round_trip smallConstants hC storedZlib storedZlib_inverts 6 (-2)
      [] FArchiveBytes.Empty (by decide)
    intro P hP
    have hE : compressChunks storedZlib (GetCompressionLevel smallConstants 6 (-2)) []
        (compressionChunks smallConstants storedZlib []) ([], []) = some ([], []) := by decide
    rw [hE] at hP
    cases hP
    decide

/-! ## The phases of CookMesh -/

/-- C30: the steps recorded by `CookMesh` are, in this order: when the flag is not
`CTF_UseComplexAsSimple`, the call of `CreateSimpleCollision` followed by its `CreateConvex` calls
of the backend, one per hull; then, when the flag is not `CTF_UseSimpleAsComplex`, the call of
`CreateTriMesh` followed by its one `CreateTriMesh` call of the backend. So
`CreateSimpleCollision` is called exactly when the flag is not `CTF_UseComplexAsSimple`,
`CreateTriMesh` exactly when it is not `CTF_UseSimpleAsComplex`, for `CTF_UseDefault` and
`CTF_UseSimpleAndComplex` both are called and every step of the simple collision stands before
the call of `CreateTriMesh`, and no flag skips both. -/
theorem cookMesh_phases (F : FFloatMath) (Cooking : IPhysXCooking)
    (self : FVoxelAsyncPhysicsCooker_PhysX) :
    (CookMesh F Cooking self).Steps
      = self.Steps
        ++ (if self.CollisionTraceFlag ≠ ECollisionTraceFlag.CTF_UseComplexAsSimple then
              ECookerStep.CreateSimpleCollision
                :: (convexCookInputs F self).map fun VertexData =>
                    ECookerStep.BackendCreateConvex (GetCookFlags self) VertexData
            else [])
        ++ (if self.CollisionTraceFlag ≠ ECollisionTraceFlag.CTF_UseSimpleAsComplex then
              [ECookerStep.CreateTriMesh,
                ECookerStep.BackendCreateTriMesh (GetCookFlags self)
                  (copyDataFromBuffers self.Buffers).Vertices
                  (copyDataFromBuffers self.Buffers).Indices
                  (copyDataFromBuffers self.Buffers).MaterialIndices true]
            else [])
    ∧ (ECookerStep.CreateSimpleCollision ∈ (CookMesh F Cooking self).Steps.drop self.Steps.length
        ↔ self.CollisionTraceFlag ≠ ECollisionTraceFlag.CTF_UseComplexAsSimple)
    ∧ (ECookerStep.CreateTriMesh ∈ (CookMesh F Cooking self).Steps.drop self.Steps.length
        ↔ self.CollisionTraceFlag ≠ ECollisionTraceFlag.CTF_UseSimpleAsComplex)
    ∧ (self.CollisionTraceFlag ≠ ECollisionTraceFlag.CTF_UseComplexAsSimple →
        self.CollisionTraceFlag ≠ ECollisionTraceFlag.CTF_UseSimpleAsComplex →
        (CookMesh F Cooking self).Steps.drop self.Steps.length
          = (ECookerStep.CreateSimpleCollision
              :: (convexCookInputs F self).map fun VertexData =>
                  ECookerStep.BackendCreateConvex (GetCookFlags self) VertexData)
            ++ [ECookerStep.CreateTriMesh,
                ECookerStep.BackendCreateTriMesh (GetCookFlags self)
                  (copyDataFromBuffers self.Buffers).Vertices
                  (copyDataFromBuffers self.Buffers).Indices
                  (copyDataFromBuffers self.Buffers).MaterialIndices true])
    ∧ (CookMesh F Cooking self).Steps.drop self.Steps.length ≠ [] := by
  have hSteps : (CookMesh F Cooking self).Steps
      = self.Steps
        ++ (if self.CollisionTraceFlag ≠ ECollisionTraceFlag.CTF_UseComplexAsSimple then
              ECookerStep.CreateSimpleCollision
                :: (convexCookInputs F self).map fun VertexData =>
                    ECookerStep.BackendCreateConvex (GetCookFlags self) VertexData
            else [])
        ++ (if self.CollisionTraceFlag ≠ ECollisionTraceFlag.CTF_UseSimpleAsComplex then
              [ECookerStep.CreateTriMesh,
                ECookerStep.BackendCreateTriMesh (GetCookFlags self)
                  (copyDataFromBuffers self.Buffers).Vertices
                  (copyDataFromBuffers self.Buffers).Indices
                  (copyDataFromBuffers self.Buffers).MaterialIndices true]
            else []) := by
    obtain ⟨hB, hC, hT⟩ := @createSimpleCollision_frame F Cooking
      { self with Steps := self.Steps ++ [ECookerStep.CreateSimpleCollision] }
    have hS := @createSimpleCollision_steps F Cooking
      { self with Steps := self.Steps ++ [ECookerStep.CreateSimpleCollision] }
    have eIn : convexCookInputs F
        { self with Steps := self.Steps ++ [ECookerStep.CreateSimpleCollision] }
        = convexCookInputs F self := rfl
    have eFl : GetCookFlags { self with Steps := self.Steps ++ [ECookerStep.CreateSimpleCollision] }
        = GetCookFlags self := rfl
    rw [eIn, eFl] at hS
    simp only at hB hC hT hS
    unfold CookMesh
    simp only []
    by_cases h1 : self.CollisionTraceFlag ≠ ECollisionTraceFlag.CTF_UseComplexAsSimple
    · simp only [if_pos h1, hT]
      by_cases h2 : self.CollisionTraceFlag ≠ ECollisionTraceFlag.CTF_UseSimpleAsComplex
      · simp only [if_pos h2]
        unfold CreateTriMesh GetCookFlags
        simp only [hS, hB, hC, List.append_assoc, List.singleton_append, List.cons_append,
          List.nil_append]
        rfl
      · simp only [if_neg h2, hS, List.append_nil, List.append_assoc, List.singleton_append]
    · simp only [if_neg h1, List.append_nil]
      by_cases h2 : self.CollisionTraceFlag ≠ ECollisionTraceFlag.CTF_UseSimpleAsComplex
      · simp only [if_pos h2]
        unfold CreateTriMesh
        simp only [List.append_assoc, List.singleton_append]
        rfl
      · simp only [if_neg h2, List.append_nil]
  have hDrop : (CookMesh F Cooking self).Steps.drop self.Steps.length
      = (if self.CollisionTraceFlag ≠ ECollisionTraceFlag.CTF_UseComplexAsSimple then
              ECookerStep.CreateSimpleCollision
                :: (convexCookInputs F self).map fun VertexData =>
                    ECookerStep.BackendCreateConvex (GetCookFlags self) VertexData
            else [])
        ++ (if self.CollisionTraceFlag ≠ ECollisionTraceFlag.CTF_UseSimpleAsComplex then
              [ECookerStep.CreateTriMesh,
                ECookerStep.BackendCreateTriMesh (GetCookFlags self)
                  (copyDataFromBuffers self.Buffers).Vertices
                  (copyDataFromBuffers self.Buffers).Indices
                  (copyDataFromBuffers self.Buffers).MaterialIndices true]
            else []) := by
    rw [hSteps, List.append_assoc, List.drop_left]
  refine ⟨hSteps, ?_, ?_, ?_, ?_⟩
  · rw [hDrop]
    by_cases h1 : self.CollisionTraceFlag ≠ ECollisionTraceFlag.CTF_UseComplexAsSimple
    · simp [h1]
    · by_cases h2 : self.CollisionTraceFlag ≠ ECollisionTraceFlag.CTF_UseSimpleAsComplex
      · simp [h1, h2]
      · simp [h1, h2]
  · rw [hDrop]
    by_cases h2 : self.CollisionTraceFlag ≠ ECollisionTraceFlag.CTF_UseSimpleAsComplex
    · simp [h2]
    · by_cases h1 : self.CollisionTraceFlag ≠ ECollisionTraceFlag.CTF_UseComplexAsSimple
      · simp [h1, h2]
      · simp [h1, h2]
  · intro h1 h2
    rw [hDrop, if_pos h1, if_pos h2]
  · rw [hDrop]
    by_cases h1 : self.CollisionTraceFlag ≠ ECollisionTraceFlag.CTF_UseComplexAsSimple
    · simp [h1]
    · have h2 : self.CollisionTraceFlag ≠ ECollisionTraceFlag.CTF_UseSimpleAsComplex := by
        intro h
        apply h1
        rw [h]
        decide
      simp [h2]

/-! ## The guards of CreateSimpleCollision -/

/-- C24: when the input is one buffer with fewer than 4 vertices, `CreateSimpleCollision` returns
the cooker as it was, in cubic mode and in convex mode: the simple-collision data is not created
(no box, no hull), no `CreateConvex` call is made and the error counter is unchanged. -/
theorem createSimpleCollision_returns_at_once (F : FFloatMath) (Cooking : IPhysXCooking)
    (self : FVoxelAsyncPhysicsCooker_PhysX) (Buffer : FVoxelProcMeshBuffers)
    (hOne : self.Buffers = [Buffer]) (hFew : Buffer.GetNumVertices < 4) :
    CreateSimpleCollision F Cooking self = self
    ∧ (CreateSimpleCollision F Cooking self).CookResult.SimpleCollisionData
        = self.CookResult.SimpleCollisionData
    ∧ (CreateSimpleCollision F Cooking self).ErrorCounter = self.ErrorCounter
    ∧ convexCookInputs F self = [] := by
  have h : returnsAtOnce self = true := by
    unfold returnsAtOnce
    rw [hOne]
    simp [hFew]
  have hS : CreateSimpleCollision F Cooking self = self := by
    unfold CreateSimpleCollision
    simp [h]
  refine ⟨hS, by rw [hS], by rw [hS], ?_⟩
  unfold convexCookInputs
  simp [h]

/-- Witness for C24: one buffer with three vertices and one collision cube, in cubic mode and in
convex mode. -/
theorem createSimpleCollision_returns_at_once_witness :
    (smallCubicCooker.bSimpleCubicCollision = true
      ∧ (smallCubicCooker.Buffers.map fun Buffer => Buffer.CollisionCubes.length) = [1]
      ∧ (CreateSimpleCollision exactMath failingCooking smallCubicCooker).CookResult.SimpleCollisionData
          = none
      ∧ (CreateSimpleCollision exactMath failingCooking smallCubicCooker).ErrorCounter = 0)
    ∧ ((CreateSimpleCollision exactMath failingCooking
          { smallCubicCooker with bSimpleCubicCollision := false }).CookResult.SimpleCollisionData
          = none
      ∧ convexCookInputs exactMath { smallCubicCooker with bSimpleCubicCollision := false } = []) :=
  ⟨⟨rfl, rfl,
    (createSimpleCollision_returns_at_once exactMath failingCooking smallCubicCooker _ rfl
      (by decide)).2.1,
    (createSimpleCollision_returns_at_once exactMath failingCooking smallCubicCooker _ rfl
      (by decide)).2.2.1⟩,
   ⟨(createSimpleCollision_returns_at_once exactMath failingCooking
      { smallCubicCooker with bSimpleCubicCollision := false } _ rfl (by decide)).2.1,
    (createSimpleCollision_returns_at_once exactMath failingCooking
      { smallCubicCooker with bSimpleCubicCollision := false } _ rfl (by decide)).2.2.2⟩⟩

/-- C22: the bucket grid of the convex decomposition has at least 1 cell on every axis; when an
axis needs more than 64 cells the convex branch returns at its guard: no bucket and no hull is in
the result, no `CreateConvex` call is made and the error counter is unchanged; whenever the branch
goes on to fill buckets, the grid has at most 64 cells on every axis. -/
theorem grid_between_one_and_64 (F : FFloatMath) (Cooking : IPhysXCooking)
    (self : FVoxelAsyncPhysicsCooker_PhysX) :
    (1 ≤ (gridSize F (verticesBox self.Buffers) self.LOD self.NumConvexHullsPerAxis).X
      ∧ 1 ≤ (gridSize F (verticesBox self.Buffers) self.LOD self.NumConvexHullsPerAxis).Y
      ∧ 1 ≤ (gridSize F (verticesBox self.Buffers) self.LOD self.NumConvexHullsPerAxis).Z)
    ∧ (¬ (gridSize F (verticesBox self.Buffers) self.LOD self.NumConvexHullsPerAxis).GetMax ≤ 64 →
        mergedConvexElems F self = none
        ∧ convexCookInputs F self = []
        ∧ (CreateSimpleCollision F Cooking self).ErrorCounter = self.ErrorCounter
        ∧ (returnsAtOnce self = false → self.bSimpleCubicCollision = false →
            (CreateSimpleCollision F Cooking self).CookResult.SimpleCollisionData
              = some { Bounds := FBox.ForceInit, BoxElems := [], ConvexElems := [],
                       ConvexMeshes := [] }))
    ∧ (∀ R, mergedConvexElems F self = some R →
        (gridSize F (verticesBox self.Buffers) self.LOD self.NumConvexHullsPerAxis).X ≤ 64
        ∧ (gridSize F (verticesBox self.Buffers) self.LOD self.NumConvexHullsPerAxis).Y ≤ 64
        ∧ (gridSize F (verticesBox self.Buffers) self.LOD self.NumConvexHullsPerAxis).Z ≤ 64) := by
  refine ⟨gridSize_pos _ _ _, ?_, ?_⟩
  · intro hBig
    have hNone : mergedConvexElems F self = none := by
      unfold mergedConvexElems
      simp only [hBig, not_false_eq_true, if_true]
    have hIn : convexCookInputs F self = [] := by
      unfold convexCookInputs
      rw [hNone]
      simp
    refine ⟨hNone, hIn, ?_, ?_⟩
    · unfold CreateSimpleCollision
      rw [hNone]
      simp only []
      split
      · rfl
      · split <;> rfl
    · intro h0 h1
      unfold CreateSimpleCollision
      rw [hNone]
      simp [h0, h1]
  · intro R hR
    have hS : (gridSize F (verticesBox self.Buffers) self.LOD self.NumConvexHullsPerAxis).GetMax
        ≤ 64 := by
      by_contra hc
      unfold mergedConvexElems at hR
      simp only [hc, not_false_eq_true, if_true] at hR
      cases hR
    unfold FIntVector.GetMax at hS
    exact ⟨le_trans (le_trans (le_max_left _ _) (le_max_left _ _)) hS,
      le_trans (le_trans (le_max_right _ _) (le_max_left _ _)) hS,
      le_trans (le_max_right _ _) hS⟩

/-- Witness for C22: four vertices spanning 2080 units with chunks of 32 need 65 cells along X,
and the branch returns with an empty result; the unit cube gets a grid of one cell. -/
theorem grid_between_one_and_64_witness :
    ((gridSize exactMath (verticesBox longCooker.Buffers) longCooker.LOD
        longCooker.NumConvexHullsPerAxis) = ⟨65, 1, 1⟩
      ∧ mergedConvexElems exactMath longCooker = none ∧ convexCookInputs exactMath longCooker = []
      ∧ (CreateSimpleCollision exactMath failingCooking longCooker).ErrorCounter = 0)
    ∧ ((gridSize exactMath (verticesBox cubeCooker.Buffers) cubeCooker.LOD
        cubeCooker.NumConvexHullsPerAxis) = ⟨1, 1, 1⟩
      ∧ (mergedConvexElems exactMath cubeCooker).isSome = true) := by
  have hLong : ¬ (gridSize exactMath (verticesBox longCooker.Buffers) longCooker.LOD
      longCooker.NumConvexHullsPerAxis).GetMax ≤ 64 := by decide!
  obtain ⟨h1, h2, h3, _⟩ := (grid_between_one_and_64 exactMath failingCooking longCooker).2.1 hLong
  exact ⟨⟨by decide!, h1, h2, h3⟩, ⟨by decide!, by decide!⟩⟩

theorem cubes_foldl_boxes (LocalToRoot : FTransform) (Cubes : List FBox)
    (State : FBox × List FKBoxElem) :
    (Cubes.foldl (fun State Cube =>
        ((State.1.addBox (LocalToRoot.TransformBox Cube),
          State.2 ++ [{ Center := (LocalToRoot.TransformBox Cube).GetCenter,
                        X := (LocalToRoot.TransformBox Cube).GetExtent.X * 2,
                        Y := (LocalToRoot.TransformBox Cube).GetExtent.Y * 2,
                        Z := (LocalToRoot.TransformBox Cube).GetExtent.Z * 2 }]) :
          FBox × List FKBoxElem)) State).2
      = State.2 ++ Cubes.map fun Cube =>
          { Center := (LocalToRoot.TransformBox Cube).GetCenter,
            X := (LocalToRoot.TransformBox Cube).GetExtent.X * 2,
            Y := (LocalToRoot.TransformBox Cube).GetExtent.Y * 2,
            Z := (LocalToRoot.TransformBox Cube).GetExtent.Z * 2 } := by
  induction Cubes generalizing State with
  | nil => simp
  | cons Cube Rest ih =>
    rw [List.foldl_cons, ih]
    simp

theorem cubicBoxElems_boxes (LocalToRoot : FTransform) (Buffers : List FVoxelProcMeshBuffers) :
    (cubicBoxElems LocalToRoot Buffers).2
      = (Buffers.flatMap fun Buffer => Buffer.CollisionCubes).map fun Cube =>
          { Center := (LocalToRoot.TransformBox Cube).GetCenter,
            X := (LocalToRoot.TransformBox Cube).GetExtent.X * 2,
            Y := (LocalToRoot.TransformBox Cube).GetExtent.Y * 2,
            Z := (LocalToRoot.TransformBox Cube).GetExtent.Z * 2 } := by
  unfold cubicBoxElems
  have hGen : ∀ (Bs : List FVoxelProcMeshBuffers) (State : FBox × List FKBoxElem),
      (Bs.foldl (fun State Buffer =>
        Buffer.CollisionCubes.foldl (fun State Cube =>
          ((State.1.addBox (LocalToRoot.TransformBox Cube),
            State.2 ++ [{ Center := (LocalToRoot.TransformBox Cube).GetCenter,
                          X := (LocalToRoot.TransformBox Cube).GetExtent.X * 2,
                          Y := (LocalToRoot.TransformBox Cube).GetExtent.Y * 2,
                          Z := (LocalToRoot.TransformBox Cube).GetExtent.Z * 2 }]) :
            FBox × List FKBoxElem)) State) State).2
        = State.2 ++ (Bs.flatMap fun Buffer => Buffer.CollisionCubes).map fun Cube =>
            { Center := (LocalToRoot.TransformBox Cube).GetCenter,
              X := (LocalToRoot.TransformBox Cube).GetExtent.X * 2,
              Y := (LocalToRoot.TransformBox Cube).GetExtent.Y * 2,
              Z := (LocalToRoot.TransformBox Cube).GetExtent.Z * 2 } := by
    intro Bs
    induction Bs with
    | nil => simp
    | cons B Rest ih =>
      intro State
      rw [List.foldl_cons, ih, cubes_foldl_boxes]
      simp
  have := hGen Buffers (FBox.ForceInit, [])
  simpa using this

/-- Counterexample to C25: in cubic mode, one buffer with three vertices and one collision cube
gives no box: `CreateSimpleCollision` returns at its first statement and creates no
simple-collision data. -/
theorem no_box_smallCubicCooker :
    smallCubicCooker.bSimpleCubicCollision = true
    ∧ (smallCubicCooker.Buffers.map fun Buffer => Buffer.CollisionCubes.length) = [1]
    ∧ (CreateSimpleCollision exactMath failingCooking smallCubicCooker).CookResult.SimpleCollisionData
        = none
    ∧ ¬ OneBoxPerCube exactMath failingCooking smallCubicCooker := by
  have hNone : (CreateSimpleCollision exactMath failingCooking
      smallCubicCooker).CookResult.SimpleCollisionData = none := by decide!
  refine ⟨rfl, rfl, hNone, ?_⟩
  rintro ⟨Data, hData, _⟩
  rw [hNone] at hData
  cases hData

/-- C25 (amended): in cubic mode, unless the input is one buffer with fewer than 4 vertices,
`CreateSimpleCollision` emits one box per collision cube of the buffers, in buffer order and then
cube order: the box of a cube has the centre of the transformed cube and, on each axis, twice its
extent; the number of boxes is the total number of cubes; the result has no convex element and no
convex mesh, no `CreateConvex` call is made and the error counter is unchanged. -/
theorem cubic_one_box_per_cube (F : FFloatMath) (Cooking : IPhysXCooking)
    (self : FVoxelAsyncPhysicsCooker_PhysX) (hCubic : self.bSimpleCubicCollision = true)
    (hGo : returnsAtOnce self = false) :
    ∃ Data, (CreateSimpleCollision F Cooking self).CookResult.SimpleCollisionData = some Data
      ∧ Data.BoxElems = (self.Buffers.flatMap fun Buffer => Buffer.CollisionCubes).map
          (fun Cube =>
            { Center := (self.LocalToRoot.TransformBox Cube).GetCenter,
              X := (self.LocalToRoot.TransformBox Cube).GetExtent.X * 2,
              Y := (self.LocalToRoot.TransformBox Cube).GetExtent.Y * 2,
              Z := (self.LocalToRoot.TransformBox Cube).GetExtent.Z * 2 })
      ∧ Data.BoxElems.length
          = (self.Buffers.map fun Buffer => Buffer.CollisionCubes.length).sum
      ∧ Data.ConvexElems = [] ∧ Data.ConvexMeshes = []
      ∧ convexCookInputs F self = []
      ∧ (CreateSimpleCollision F Cooking self).ErrorCounter = self.ErrorCounter := by
  have hBoxes := cubicBoxElems_boxes self.LocalToRoot self.Buffers
  have hIn : convexCookInputs F self = [] := by
    unfold convexCookInputs
    simp [hGo, hCubic]
  have hLen : ∀ Bs : List FVoxelProcMeshBuffers,
      (Bs.flatMap fun Buffer => Buffer.CollisionCubes).length
        = (Bs.map fun Buffer => Buffer.CollisionCubes.length).sum := by
    intro Bs
    induction Bs with
    | nil => rfl
    | cons B Rest ih => simp [ih]
  unfold CreateSimpleCollision
  simp only [hGo, hCubic, Bool.false_eq_true, if_false, if_true]
  refine ⟨_, rfl, hBoxes, ?_, rfl, rfl, hIn, trivial⟩
  simp only []
  rw [hBoxes, List.length_map, hLen]

/-- Witness for C25: two buffers with two cubes and one cube give three boxes. -/
theorem cubic_one_box_per_cube_witness :
    cubicCooker.bSimpleCubicCollision = true ∧ returnsAtOnce cubicCooker = false
    ∧ ∃ Data, (CreateSimpleCollision exactMath failingCooking cubicCooker).CookResult.SimpleCollisionData
          = some Data
        ∧ Data.BoxElems.length = 3 ∧ Data.ConvexElems = [] := by
  obtain ⟨Data, h1, _, h3, h4, _⟩ :=
    cubic_one_box_per_cube exactMath failingCooking cubicCooker rfl (by decide)
  exact ⟨rfl, by decide, Data, h1, by rw [h3]; rfl, h4⟩

/-! ## The zero-bucket guard -/

theorem assignVertices_no_vertex {F : FFloatMath} (Box : FBox) (Size : FIntVector) (LOD : Nat) (N : Int)
    (Buffers : List FVoxelProcMeshBuffers) (E : List (List FVector))
    (h : ∀ B ∈ Buffers, B.PositionVertexBuffer = []) :
    assignVertices F Box Size LOD N Buffers E = E := by
  unfold assignVertices
  induction Buffers generalizing E with
  | nil => rfl
  | cons B Rest ih =>
    rw [List.foldl_cons, h B (List.mem_cons_self _ _)]
    exact ih E (fun B0 hB0 => h B0 (List.mem_cons_of_mem _ hB0))

theorem removeEmpty_eq_nil_iff (L : List (List FVector)) :
    removeEmpty L = [] ↔ ∀ b ∈ L, ∀ v : FVector, v ∉ b := by
  unfold removeEmpty
  rw [List.filter_eq_nil_iff]
  constructor
  · intro h b hb v hv
    have := h b hb
    cases b with
    | nil => simp at hv
    | cons x xs => simp at this
  · intro h b hb
    cases b with
    | nil => simp
    | cons x xs => exact absurd (List.mem_cons_self x xs) (h _ hb x)

/-- C27: in the convex decomposition with a grid of at most 64 cells per axis, no bucket remains
after the forward merge and the removal of the empty buckets exactly when no buffer holds a
vertex, and exactly then the branch returns at the guard `ConvexElems.Num() > 0`; when a buffer
holds a vertex and the function has entered the convex branch, hull cooking is reached and at
least one hull is handed to `CreateConvex`. -/
theorem zero_buckets_iff_no_vertex (F : FFloatMath) (self : FVoxelAsyncPhysicsCooker_PhysX)
    (hGrid : (gridSize F (verticesBox self.Buffers) self.LOD self.NumConvexHullsPerAxis).GetMax
      ≤ 64) :
    (removeEmpty (mergeForward (assignVertices F (verticesBox self.Buffers)
        (gridSize F (verticesBox self.Buffers) self.LOD self.NumConvexHullsPerAxis) self.LOD
        self.NumConvexHullsPerAxis self.Buffers
        (List.replicate ((gridSize F (verticesBox self.Buffers) self.LOD
            self.NumConvexHullsPerAxis).X
          * (gridSize F (verticesBox self.Buffers) self.LOD self.NumConvexHullsPerAxis).Y
          * (gridSize F (verticesBox self.Buffers) self.LOD self.NumConvexHullsPerAxis).Z).toNat
          []))) = []
      ↔ ∀ B ∈ self.Buffers, B.PositionVertexBuffer = [])
    ∧ (mergedConvexElems F self = none ↔ ∀ B ∈ self.Buffers, B.PositionVertexBuffer = [])
    ∧ ((∃ B ∈ self.Buffers, B.PositionVertexBuffer ≠ []) → returnsAtOnce self = false →
        self.bSimpleCubicCollision = false →
        reachesHullCooking F self = true ∧ convexCookInputs F self ≠ []) := by
  obtain ⟨gX, gY, gZ⟩ := gridSize_pos (verticesBox self.Buffers) self.LOD self.NumConvexHullsPerAxis
  have hZero : removeEmpty (mergeForward (assignVertices F (verticesBox self.Buffers)
        (gridSize F (verticesBox self.Buffers) self.LOD self.NumConvexHullsPerAxis) self.LOD
        self.NumConvexHullsPerAxis self.Buffers
        (List.replicate ((gridSize F (verticesBox self.Buffers) self.LOD
            self.NumConvexHullsPerAxis).X
          * (gridSize F (verticesBox self.Buffers) self.LOD self.NumConvexHullsPerAxis).Y
          * (gridSize F (verticesBox self.Buffers) self.LOD self.NumConvexHullsPerAxis).Z).toNat
          []))) = []
      ↔ ∀ B ∈ self.Buffers, B.PositionVertexBuffer = [] := by
    rw [removeEmpty_eq_nil_iff]
    constructor
    · intro h B hB
      cases hV : B.PositionVertexBuffer with
      | nil => rfl
      | cons v vs =>
        exfalso
        obtain ⟨b, hb, hvb⟩ := assignVertices_covers (verticesBox self.Buffers)
          (gridSize F (verticesBox self.Buffers) self.LOD self.NumConvexHullsPerAxis) self.LOD
          self.NumConvexHullsPerAxis gX gY gZ self.Buffers
          (List.replicate ((gridSize F (verticesBox self.Buffers) self.LOD
              self.NumConvexHullsPerAxis).X
            * (gridSize F (verticesBox self.Buffers) self.LOD self.NumConvexHullsPerAxis).Y
            * (gridSize F (verticesBox self.Buffers) self.LOD self.NumConvexHullsPerAxis).Z).toNat
            []) (by simp) B hB v (by rw [hV]; exact List.mem_cons_self _ _)
        obtain ⟨c, hc, hvc⟩ := (mergeForward_mem _ v).mpr ⟨b, hb, hvb⟩
        exact h c hc v hvc
    · intro h b hb v hv
      obtain ⟨c, hc, hvc⟩ := (mergeForward_mem _ v).mp ⟨b, hb, hv⟩
      rw [assignVertices_no_vertex _ _ _ _ _ _ h] at hc
      rw [List.eq_of_mem_replicate hc] at hvc
      simp at hvc
  have hNone : mergedConvexElems F self = none ↔ ∀ B ∈ self.Buffers, B.PositionVertexBuffer = [] := by
    rw [← hZero]
    unfold mergedConvexElems
    simp only [hGrid, not_true_eq_false, if_false]
    constructor
    · intro h
      by_contra hne
      rw [if_neg (by
        intro hlen
        apply hlen
        exact List.length_pos.mpr hne)] at h
      cases h
    · intro h
      rw [h]
      simp
  refine ⟨hZero, hNone, ?_⟩
  rintro ⟨B, hB, hV⟩ h0 h1
  cases hM : mergedConvexElems F self with
  | none => exact absurd ((hNone.mp hM) B hB) hV
  | some R =>
    obtain ⟨hne, _⟩ := mergedConvexElems_spec self R hM
    refine ⟨by simp [reachesHullCooking, h0, h1, hM], ?_⟩
    rw [convexCookInputs_of_some self R h0 h1 hM]
    simpa using hne

/-- Witness for C27: the unit cube reaches hull cooking with one hull; a cooker whose two buffers
hold no vertex returns at the zero-bucket guard. -/
theorem zero_buckets_iff_no_vertex_witness :
    ((gridSize exactMath (verticesBox cubeCooker.Buffers) cubeCooker.LOD
        cubeCooker.NumConvexHullsPerAxis).GetMax ≤ 64
      ∧ reachesHullCooking exactMath cubeCooker = true ∧ convexCookInputs exactMath cubeCooker ≠ [])
    ∧ mergedConvexElems exactMath { cubeCooker with Buffers := [emptyBuffer, emptyBuffer] } = none := by
  have h1 := (zero_buckets_iff_no_vertex exactMath cubeCooker (by decide!)).2.2
    ⟨cubeBuffer, by decide, by decide⟩ (by decide) rfl
  have h2 := (zero_buckets_iff_no_vertex exactMath { cubeCooker with Buffers := [emptyBuffer, emptyBuffer] }
    (by decide!)).2.1.mpr (by
      intro B hB
      simp only [List.mem_cons, List.mem_singleton, List.not_mem_nil, or_false, or_self] at hB
      rw [hB]
      rfl)
  exact ⟨⟨by decide!, h1⟩, h2⟩

/-! ## The chunks of CompressData -/

theorem divideCeil64_eq_ceil (N M : Int) (hN : 0 < N) (hM : 0 < M) :
    DivideCeil64 N M = ⌈(N : ℚ) / (M : ℚ)⌉ := by
  obtain ⟨_, hlt, hle⟩ := divideCeil64_spec N M hN hM
  symm
  rw [Int.ceil_eq_iff]
  have hMq : (0 : ℚ) < (M : ℚ) := by exact_mod_cast hM
  constructor
  · rw [lt_div_iff₀ hMq]
    have : (((DivideCeil64 N M - 1) * M : Int) : ℚ) < ((N : Int) : ℚ) := by exact_mod_cast hlt
    push_cast at this
    exact this
  · rw [div_le_iff₀ hMq]
    have : ((N : Int) : ℚ) ≤ (((DivideCeil64 N M) * M : Int) : ℚ) := by exact_mod_cast hle
    push_cast at this
    exact this

theorem fillChunks_eq (C : FCompressionConstants) (N M K : Nat) (hM : C.MaxChunkSize = M)
    (hlt : (K - 1) * M < N) (hN64 : (N : Int) ≤ 9223372036854775807) :
    fillChunks C N K = (List.range K).map (filledChunk M N) := by
  unfold fillChunks
  rw [Int.toNat_ofNat]
  apply List.map_congr_left
  intro i hi
  have hiK : i < K := List.mem_range.mp hi
  have hle : i * M ≤ (K - 1) * M := Nat.mul_le_mul_right M (by omega)
  have hc : ((i * M : Nat) : Int) < (N : Int) := by
    exact_mod_cast lt_of_le_of_lt hle hlt
  have hp : (0 : Int) ≤ ((i * M : Nat) : Int) := Int.ofNat_nonneg _
  have h1 : toInt64 ((i : Int) * C.MaxChunkSize) = ((i * M : Nat) : Int) := by
    rw [hM, ← Nat.cast_mul, toInt64_of_range (by omega) (by omega)]
  have h2 : toInt64 ((N : Int) - ((i * M : Nat) : Int)) = (N : Int) - ((i * M : Nat) : Int) := by
    rw [toInt64_of_range (by omega) (by omega)]
  have h3 : min C.MaxChunkSize ((N : Int) - ((i * M : Nat) : Int))
      = ((min M (N - i * M) : Nat) : Int) := by
    rw [hM]
    simp only [min_def]
    split_ifs <;> omega
  unfold filledChunk
  rw [h1, h2, h3]

/-- C29: for every uncompressed length `N > 0` whose chunk count `ceil(N / MaxChunkSize)` is below
`MaxNumChunks`, the loop "Fill chunks" of `CompressData` makes that many chunks; chunk number `i`
starts at `i * MaxChunkSize` and has size `min(MaxChunkSize, N - i * MaxChunkSize)`, which lies
between 1 and `MaxChunkSize`; the first chunk starts at 0, every chunk starts where the one before
it ends, the last chunk ends at `N` (the code's check holds), and the sizes sum to `N`. -/
theorem compressData_chunks (C : FCompressionConstants) (hC : C.WellFormed) (N : Nat)
    (hN : 0 < N) (hLimit : DivideCeil64 N C.MaxChunkSize < C.MaxNumChunks) :
    DivideCeil64 N C.MaxChunkSize = ⌈((N : Int) : ℚ) / (C.MaxChunkSize : ℚ)⌉
    ∧ toInt32 (DivideCeil64 N C.MaxChunkSize) = DivideCeil64 N C.MaxChunkSize
    ∧ ((fillChunks C N (toInt32 (DivideCeil64 N C.MaxChunkSize))).length : Int)
        = DivideCeil64 N C.MaxChunkSize
    ∧ (∀ (i : Nat) (Chunk : FChunk),
        (fillChunks C N (toInt32 (DivideCeil64 N C.MaxChunkSize)))[i]? = some Chunk →
        Chunk.Start = i * C.MaxChunkSize
        ∧ Chunk.Size = min C.MaxChunkSize (N - i * C.MaxChunkSize)
        ∧ 1 ≤ Chunk.Size ∧ Chunk.Size ≤ C.MaxChunkSize)
    ∧ ((fillChunks C N (toInt32 (DivideCeil64 N C.MaxChunkSize))).head?.map
        fun Chunk => Chunk.Start) = some 0
    ∧ (∀ (i : Nat) (Chunk Next : FChunk),
        (fillChunks C N (toInt32 (DivideCeil64 N C.MaxChunkSize)))[i]? = some Chunk →
        (fillChunks C N (toInt32 (DivideCeil64 N C.MaxChunkSize)))[i + 1]? = some Next →
        Next.Start = Chunk.Start + Chunk.Size)
    ∧ ((fillChunks C N (toInt32 (DivideCeil64 N C.MaxChunkSize))).getLast?.map
        fun Chunk => Chunk.Start + Chunk.Size) = some (N : Int)
    ∧ ((fillChunks C N (toInt32 (DivideCeil64 N C.MaxChunkSize))).map
        fun Chunk => Chunk.Size).sum = (N : Int) := by
  have hData : List.replicate N (0 : Nat) ≠ [] := by
    intro h
    have := congrArg List.length h
    simp at this
    omega
  have hLimit2 : DivideCeil64 ((List.replicate N (0 : Nat)).length : Int) C.MaxChunkSize
      < C.MaxNumChunks := by
    rw [List.length_replicate]
    exact hLimit
  obtain ⟨M, K, hM, hK, hK0, hKMax, hlt, hle, hN64⟩ :=
    chunkCount_spec C hC (List.replicate N 0) hData hLimit2
  rw [List.length_replicate] at hK hlt hle hN64
  obtain ⟨hM0, hMax, _, _, _⟩ := hC
  have hM0n : 0 < M := by
    rw [hM] at hM0
    exact_mod_cast hM0
  have hKlow : (-2147483648 : Int) ≤ (K : Int) := by omega
  have hKhigh : (K : Int) ≤ 2147483647 := by
    unfold MAX_int32 at hMax
    omega
  have hCeil := divideCeil64_eq_ceil (N : Int) C.MaxChunkSize (by exact_mod_cast hN) hM0
  clear hMax hKMax hLimit hLimit2
  rw [hK, hM] at hCeil
  rw [hK]
  have hK32 : toInt32 (K : Int) = K := toInt32_of_range hKlow hKhigh
  rw [hK32, fillChunks_eq C N M K hM hlt hN64, hM]
  clear hK32 hKlow hKhigh hK
  have hLook : ∀ (i : Nat) (Chunk : FChunk),
      ((List.range K).map (filledChunk M N))[i]? = some Chunk →
      i < K ∧ Chunk = filledChunk M N i := by
    intro i Chunk h
    rw [List.getElem?_map] at h
    by_cases hi : i < K
    · rw [List.getElem?_range hi] at h
      simp only [Option.map_some', Option.some.injEq] at h
      exact ⟨hi, h.symm⟩
    · rw [List.getElem?_eq_none (by simpa using hi)] at h
      simp at h
  have hStart : ∀ i : Nat, (filledChunk M N i).Start = ((i * M : Nat) : Int) := fun _ => rfl
  have hSize : ∀ i : Nat, (filledChunk M N i).Size = ((min M (N - i * M) : Nat) : Int) :=
    fun _ => rfl
  have hBelow : ∀ i : Nat, i < K → i * M < N := by
    intro i hi
    exact lt_of_le_of_lt (Nat.mul_le_mul_right M (by omega)) hlt
  refine ⟨hCeil, rfl, by simp, ?_, ?_, ?_, ?_, ?_⟩
  · intro i Chunk h
    obtain ⟨hi, rfl⟩ := hLook i Chunk h
    have hb := hBelow i hi
    have h3 : min (M : Int) ((N : Int) - (i : Int) * (M : Int))
        = ((min M (N - i * M) : Nat) : Int) := by
      have hcast : ((i * M : Nat) : Int) = (i : Int) * (M : Int) := by push_cast; rfl
      rw [← hcast]
      simp only [min_def]
      split_ifs <;> omega
    rw [hStart, hSize]
    refine ⟨by push_cast; rfl, h3.symm, ?_, ?_⟩
    · have : 1 ≤ min M (N - i * M) := by
        rw [Nat.le_min]
        exact ⟨hM0n, by omega⟩
      exact_mod_cast this
    · have : min M (N - i * M) ≤ M := Nat.min_le_left _ _
      exact_mod_cast this
  · obtain ⟨j, rfl⟩ : ∃ j, K = j + 1 := ⟨K - 1, (Nat.succ_pred_eq_of_pos hK0).symm⟩
    rw [List.range_succ_eq_map]
    simp [hStart]
  · intro i Chunk Next h1 h2
    obtain ⟨hi, rfl⟩ := hLook i Chunk h1
    obtain ⟨hi1, rfl⟩ := hLook (i + 1) Next h2
    have hb := hBelow (i + 1) hi1
    rw [Nat.succ_mul] at hb
    have : min M (N - i * M) = M := by
      rw [Nat.min_eq_left]
      omega
    rw [hStart, hStart, hSize, this]
    push_cast
    ring
  · obtain ⟨j, rfl⟩ : ∃ j, K = j + 1 := ⟨K - 1, (Nat.succ_pred_eq_of_pos hK0).symm⟩
    rw [List.range_succ, List.map_append, List.map_singleton, List.getLast?_append]
    simp only [List.getLast?_singleton, Option.or_some, Option.map_some', Option.some.injEq]
    have h1 : j + 1 - 1 = j := rfl
    rw [h1] at hlt
    rw [Nat.succ_mul] at hle
    have : min M (N - j * M) = N - j * M := by
      rw [Nat.min_eq_right]
      omega
    rw [hStart, hSize, this]
    omega
  · rw [List.map_map]
    have hSum : ∀ k : Nat, k ≤ K →
        ((List.range k).map ((fun Chunk : FChunk => Chunk.Size) ∘ filledChunk M N)).sum = ((min (k * M) N : Nat) : Int) := by
      intro k
      induction k with
      | zero => simp
      | succ k ih =>
        intro hk
        rw [List.range_succ, List.map_append, List.sum_append, ih (by omega)]
        simp only [List.map_singleton, List.sum_singleton, Function.comp_apply]
        have hb := hBelow k (by omega)
        rw [Nat.succ_mul]
        have e1 : min (k * M) N = k * M := by
          rw [Nat.min_eq_left]
          omega
        rw [e1, hSize]
        by_cases hc : M ≤ N - k * M
        · rw [Nat.min_eq_left hc, Nat.min_eq_left (by omega)]
          push_cast
          rfl
        · have e2 : min M (N - k * M) = N - k * M := Nat.min_eq_right (by omega)
          have e3 : min (k * M + M) N = N := Nat.min_eq_right (by omega)
          rw [e2, e3]
          omega
    rw [hSum K (le_refl _), Nat.min_eq_right hle]

/-- Witness for C29: ten bytes in chunks of 4 bytes give the chunks `(0, 4)`, `(4, 4)` and
`(8, 2)`. -/
theorem compressData_chunks_witness :
    smallConstants.WellFormed ∧ 0 < 10
    ∧ DivideCeil64 ((10 : Nat) : Int) smallConstants.MaxChunkSize < smallConstants.MaxNumChunks
    ∧ (fillChunks smallConstants ((10 : Nat) : Int)
        (toInt32 (DivideCeil64 ((10 : Nat) : Int) smallConstants.MaxChunkSize))).map
        (fun Chunk => (Chunk.Start, Chunk.Size)) = [(0, 4), (4, 4), (8, 2)]
    ∧ ((fillChunks smallConstants ((10 : Nat) : Int)
        (toInt32 (DivideCeil64 ((10 : Nat) : Int) smallConstants.MaxChunkSize))).map
        fun Chunk => Chunk.Size).sum = ((10 : Nat) : Int) :=
  ⟨⟨by decide, by decide, by decide, by decide, by decide⟩, by decide, by decide, by decide,
   (compressData_chunks smallConstants
      ⟨by decide, by decide, by decide, by decide, by decide⟩ 10 (by decide)
      (by decide)).2.2.2.2.2.2.2⟩

/-! ## The reserved capacity of CreateTriMesh -/

theorem reserve_foldl_vertices (Rest : List FVoxelProcMeshBuffers) (Acc : Int) (h0 : 0 ≤ Acc)
    (hFit : Acc + (((Rest.map FVoxelProcMeshBuffers.GetNumVertices).sum : Nat) : Int)
      ≤ 2147483647) :
    Rest.foldl (fun NumVertices Buffer => toInt32 (NumVertices + Buffer.GetNumVertices)) Acc
      = Acc + (((Rest.map FVoxelProcMeshBuffers.GetNumVertices).sum : Nat) : Int) := by
  induction Rest generalizing Acc with
  | nil => simp
  | cons B Rest ih =>
    simp only [List.map_cons, List.sum_cons, Nat.cast_add] at hFit
    have hn : (0 : Int) ≤ (B.GetNumVertices : Int) := Int.ofNat_nonneg _
    have hs : (0 : Int) ≤ (((Rest.map FVoxelProcMeshBuffers.GetNumVertices).sum : Nat) : Int) :=
      Int.ofNat_nonneg _
    have hstep : toInt32 (Acc + (B.GetNumVertices : Int)) = Acc + (B.GetNumVertices : Int) :=
      toInt32_of_range (by omega) (by omega)
    rw [List.foldl_cons, hstep, ih _ (by omega) (by omega)]
    simp only [List.map_cons, List.sum_cons, Nat.cast_add]
    omega

theorem reserve_foldl_indices (Rest : List FVoxelProcMeshBuffers) (Acc : Int) (h0 : 0 ≤ Acc)
    (hFit : Acc + (((Rest.map FVoxelProcMeshBuffers.GetNumIndices).sum : Nat) : Int)
      ≤ 2147483647) :
    Rest.foldl (fun NumIndices Buffer => toInt32 (NumIndices + Buffer.GetNumIndices)) Acc
      = Acc + (((Rest.map FVoxelProcMeshBuffers.GetNumIndices).sum : Nat) : Int) := by
  induction Rest generalizing Acc with
  | nil => simp
  | cons B Rest ih =>
    simp only [List.map_cons, List.sum_cons, Nat.cast_add] at hFit
    have hn : (0 : Int) ≤ (B.GetNumIndices : Int) := Int.ofNat_nonneg _
    have hs : (0 : Int) ≤ (((Rest.map FVoxelProcMeshBuffers.GetNumIndices).sum : Nat) : Int) :=
      Int.ofNat_nonneg _
    have hstep : toInt32 (Acc + (B.GetNumIndices : Int)) = Acc + (B.GetNumIndices : Int) :=
      toInt32_of_range (by omega) (by omega)
    rw [List.foldl_cons, hstep, ih _ (by omega) (by omega)]
    simp only [List.map_cons, List.sum_cons, Nat.cast_add]
    omega

theorem copyLoop_capacity (Rest : List FVoxelProcMeshBuffers) (k : Nat) (A : FTriMeshArrays)
    (hC : A.ChecksHeld = true)
    (hV : A.Vertices.length + (Rest.map FVoxelProcMeshBuffers.GetNumVertices).sum
      ≤ A.VerticesMax)
    (hI : A.Indices.length + (Rest.map FVoxelProcMeshBuffers.NumTriangles).sum ≤ A.IndicesMax)
    (hT : A.MaterialIndices.length + (Rest.map FVoxelProcMeshBuffers.NumTriangles).sum
      ≤ A.MaterialIndicesMax) :
    (copyLoop Rest k A).ChecksHeld = true
    ∧ (copyLoop Rest k A).VerticesMax = A.VerticesMax
    ∧ (copyLoop Rest k A).IndicesMax = A.IndicesMax
    ∧ (copyLoop Rest k A).MaterialIndicesMax = A.MaterialIndicesMax := by
  induction Rest generalizing k A with
  | nil => exact ⟨hC, rfl, rfl, rfl⟩
  | cons B Rest ih =>
    simp only [List.map_cons, List.sum_cons] at hV hI hT
    have hBV : B.PositionVertexBuffer.length = B.GetNumVertices := rfl
    have hBT : B.IndexBuffer.GetNumIndices / 3 = B.NumTriangles := rfl
    have hv : (copyBuffer A k B).Vertices.length = A.Vertices.length + B.GetNumVertices := by
      simp [copyBuffer, FVoxelProcMeshBuffers.GetNumVertices]
    have hi : (copyBuffer A k B).Indices.length = A.Indices.length + B.NumTriangles := by
      simp [copyBuffer, copyTriangles, FVoxelProcMeshBuffers.NumTriangles]
    have ht : (copyBuffer A k B).MaterialIndices.length
        = A.MaterialIndices.length + B.NumTriangles := by
      simp [copyBuffer, FVoxelProcMeshBuffers.NumTriangles]
    have hvm : (copyBuffer A k B).VerticesMax = A.VerticesMax := by
      simp only [copyBuffer, List.length_append, hBV]
      omega
    have him : (copyBuffer A k B).IndicesMax = A.IndicesMax := by
      simp only [copyBuffer, hBT]
      omega
    have htm : (copyBuffer A k B).MaterialIndicesMax = A.MaterialIndicesMax := by
      simp only [copyBuffer, hBT]
      omega
    have hc : (copyBuffer A k B).ChecksHeld = true := by
      simp only [copyBuffer, hC, hBV, hBT, Bool.true_and, Bool.and_eq_true, decide_eq_true_eq]
      exact ⟨⟨by omega, by omega⟩, by omega⟩
    have := ih (k + 1) (copyBuffer A k B) hc (by rw [hv, hvm]; omega) (by rw [hi, him]; omega)
      (by rw [ht, htm]; omega)
    rw [hvm, him, htm] at this
    exact this
theorem copyLoop_vertices_length (Rest : List FVoxelProcMeshBuffers) (k : Nat)
    (A : FTriMeshArrays) :
    (copyLoop Rest k A).Vertices.length
      = A.Vertices.length + (Rest.map FVoxelProcMeshBuffers.GetNumVertices).sum := by
  induction Rest generalizing k A with
  | nil => simp [copyLoop]
  | cons B Rest ih =>
    simp only [copyLoop, ih, List.map_cons, List.sum_cons]
    simp only [copyBuffer, List.length_append, FVoxelProcMeshBuffers.GetNumVertices]
    omega

theorem numTriangles_sum_le (Rest : List FVoxelProcMeshBuffers) :
    (Rest.map FVoxelProcMeshBuffers.NumTriangles).sum
      ≤ (Rest.map FVoxelProcMeshBuffers.GetNumIndices).sum := by
  induction Rest with
  | nil => simp
  | cons B Rest ih =>
    simp only [List.map_cons, List.sum_cons]
    have : B.NumTriangles ≤ B.GetNumIndices := Nat.div_le_self _ _
    omega

theorem reserveArrays_vertices (Buffers : List FVoxelProcMeshBuffers)
    (hV : (Buffers.map FVoxelProcMeshBuffers.GetNumVertices).sum ≤ 2147483647) :
    (reserveArrays Buffers).VerticesMax
      = (Buffers.map FVoxelProcMeshBuffers.GetNumVertices).sum := by
  have h := reserve_foldl_vertices Buffers 0 (le_refl 0) (by omega)
  show (reserveNumVertices Buffers).toNat = _
  unfold reserveNumVertices
  rw [h, zero_add]
  exact Int.toNat_natCast _

theorem reserveArrays_indices (Buffers : List FVoxelProcMeshBuffers)
    (hI : (Buffers.map FVoxelProcMeshBuffers.GetNumIndices).sum ≤ 2147483647) :
    (reserveArrays Buffers).IndicesMax
        = (Buffers.map FVoxelProcMeshBuffers.GetNumIndices).sum
    ∧ (reserveArrays Buffers).MaterialIndicesMax
        = (Buffers.map FVoxelProcMeshBuffers.GetNumIndices).sum := by
  have h := reserve_foldl_indices Buffers 0 (le_refl 0) (by omega)
  have h2 : (reserveNumIndices Buffers).toNat
      = (Buffers.map FVoxelProcMeshBuffers.GetNumIndices).sum := by
    unfold reserveNumIndices
    rw [h, zero_add]
    exact Int.toNat_natCast _
  exact ⟨h2, h2⟩

theorem reserveNumVertices_single (Buffer : FVoxelProcMeshBuffers) :
    reserveNumVertices [Buffer] = toInt32 (0 + (Buffer.GetNumVertices : Int)) := by
  unfold reserveNumVertices
  rw [List.foldl_cons, List.foldl_nil]

theorem reserveArrays_verticesMax (Buffers : List FVoxelProcMeshBuffers) :
    (reserveArrays Buffers).VerticesMax = (reserveNumVertices Buffers).toNat := by
  unfold reserveArrays
  with_reducible rfl

theorem single_buffer_check_fails (Buffer : FVoxelProcMeshBuffers)
    (h : (toInt32 (0 + (Buffer.GetNumVertices : Int))).toNat < Buffer.GetNumVertices) :
    ¬ CapacityChecksHold [Buffer] := by
  have hMax : (reserveArrays [Buffer]).VerticesMax
      = (toInt32 (0 + (Buffer.GetNumVertices : Int))).toNat := by
    rw [reserveArrays_verticesMax, reserveNumVertices_single]
  have hLen : (reserveArrays [Buffer]).Vertices.length = 0 := by
    unfold reserveArrays
    simp only [List.length_nil]
  have hB : Buffer.PositionVertexBuffer.length = Buffer.GetNumVertices := by
    unfold FVoxelProcMeshBuffers.GetNumVertices
    with_reducible rfl
  unfold CapacityChecksHold copyDataFromBuffers
  rw [copyLoop, copyLoop]
  intro hC
  have h1 : Buffer.PositionVertexBuffer.length
      ≤ (reserveArrays [Buffer]).VerticesMax - (reserveArrays [Buffer]).Vertices.length := by
    unfold copyBuffer at hC
    simp only [Bool.and_eq_true, decide_eq_true_eq] at hC
    exact hC.1.1.2
  rw [hMax, hLen, hB] at h1
  exact absurd (Nat.lt_of_le_of_lt h1 (Nat.lt_of_le_of_lt (Nat.sub_le _ _) h)) (lt_irrefl _)

theorem hugeBuffer_numVertices : hugeBuffer.GetNumVertices = 2147483648 := by
  unfold hugeBuffer FVoxelProcMeshBuffers.GetNumVertices
  exact List.length_replicate _ _

/-- C28, counterexample: for the single buffer `hugeBuffer` of `2^31` vertices the `int32` sum
`NumVertices` wraps to `-2^31`, nothing is reserved, and the first `check` on the slack of the
vertex array fails. -/
theorem capacity_exceeded_hugeBuffer :
    reserveNumVertices [hugeBuffer] = -2147483648
    ∧ (reserveArrays [hugeBuffer]).VerticesMax = 0
    ∧ ¬ CapacityChecksHold [hugeBuffer] := by
  have hT : toInt32 (0 + ((2147483648 : Nat) : Int)) = -2147483648 := by
    unfold toInt32
    omega
  have hR : reserveNumVertices [hugeBuffer] = -2147483648 := by
    rw [reserveNumVertices_single, hugeBuffer_numVertices, hT]
  refine ⟨hR, ?_, ?_⟩
  · rw [reserveArrays_verticesMax, hR]
    exact Int.toNat_neg_nat 2147483648
  · apply single_buffer_check_fails
    rw [hugeBuffer_numVertices, hT]
    exact Nat.lt_of_le_of_lt (Nat.le_of_eq (Int.toNat_neg_nat 2147483648)) (Nat.succ_pos _)
/-- C28, amended: when the total vertex count and the total index count of the buffers fit in an
`int32`, every `check` of the copy holds, and at the start of every buffer `i` the checks so far
held, the capacities are the reserved ones, the three capacity checks of buffer `i` hold, and the
triangle and tag arrays have equal length. -/
theorem reserved_capacity_suffices (Buffers : List FVoxelProcMeshBuffers)
    (hV : (Buffers.map FVoxelProcMeshBuffers.GetNumVertices).sum ≤ 2147483647)
    (hI : (Buffers.map FVoxelProcMeshBuffers.GetNumIndices).sum ≤ 2147483647) :
    CapacityChecksHold Buffers
    ∧ ∀ (i : Nat) (h : i < Buffers.length),
        (copyLoop (Buffers.take i) 0 (reserveArrays Buffers)).ChecksHeld = true
        ∧ (copyLoop (Buffers.take i) 0 (reserveArrays Buffers)).VerticesMax
            = (Buffers.map FVoxelProcMeshBuffers.GetNumVertices).sum
        ∧ (copyLoop (Buffers.take i) 0 (reserveArrays Buffers)).IndicesMax
            = (Buffers.map FVoxelProcMeshBuffers.GetNumIndices).sum
        ∧ (copyLoop (Buffers.take i) 0 (reserveArrays Buffers)).MaterialIndicesMax
            = (Buffers.map FVoxelProcMeshBuffers.GetNumIndices).sum
        ∧ (Buffers.get ⟨i, h⟩).GetNumVertices
            ≤ (copyLoop (Buffers.take i) 0 (reserveArrays Buffers)).VerticesMax
              - (copyLoop (Buffers.take i) 0 (reserveArrays Buffers)).Vertices.length
        ∧ (Buffers.get ⟨i, h⟩).NumTriangles
            ≤ (copyLoop (Buffers.take i) 0 (reserveArrays Buffers)).IndicesMax
              - (copyLoop (Buffers.take i) 0 (reserveArrays Buffers)).Indices.length
        ∧ (Buffers.get ⟨i, h⟩).NumTriangles
            ≤ (copyLoop (Buffers.take i) 0 (reserveArrays Buffers)).MaterialIndicesMax
              - (copyLoop (Buffers.take i) 0 (reserveArrays Buffers)).MaterialIndices.length
        ∧ (copyLoop (Buffers.take i) 0 (reserveArrays Buffers)).Indices.length
            = (copyLoop (Buffers.take i) 0 (reserveArrays Buffers)).MaterialIndices.length := by
  have hVm := reserveArrays_vertices Buffers hV
  obtain ⟨hIm, hTm⟩ := reserveArrays_indices Buffers hI
  have hTri := numTriangles_sum_le Buffers
  have hV0 : (reserveArrays Buffers).Vertices.length = 0 := rfl
  have hI0 : (reserveArrays Buffers).Indices.length = 0 := rfl
  have hT0 : (reserveArrays Buffers).MaterialIndices.length = 0 := rfl
  refine ⟨?_, ?_⟩
  · exact (copyLoop_capacity Buffers 0 (reserveArrays Buffers) rfl
      (by rw [hV0, hVm]; omega) (by rw [hI0, hIm]; omega) (by rw [hT0, hTm]; omega)).1
  · intro i h
    have hSplit : Buffers.take i ++ Buffers.get ⟨i, h⟩ :: Buffers.drop (i + 1) = Buffers := by
      rw [List.get_eq_getElem, ← List.drop_eq_getElem_cons h, List.take_append_drop]
    have hSumV : (Buffers.map FVoxelProcMeshBuffers.GetNumVertices).sum
        = ((Buffers.take i).map FVoxelProcMeshBuffers.GetNumVertices).sum
          + ((Buffers.get ⟨i, h⟩).GetNumVertices
            + ((Buffers.drop (i + 1)).map FVoxelProcMeshBuffers.GetNumVertices).sum) := by
      conv_lhs => rw [← hSplit]
      simp only [List.map_append, List.sum_append, List.map_cons, List.sum_cons]
    have hSumT : (Buffers.map FVoxelProcMeshBuffers.NumTriangles).sum
        = ((Buffers.take i).map FVoxelProcMeshBuffers.NumTriangles).sum
          + ((Buffers.get ⟨i, h⟩).NumTriangles
            + ((Buffers.drop (i + 1)).map FVoxelProcMeshBuffers.NumTriangles).sum) := by
      conv_lhs => rw [← hSplit]
      simp only [List.map_append, List.sum_append, List.map_cons, List.sum_cons]
    obtain ⟨hc, hvm, him, htm⟩ := copyLoop_capacity (Buffers.take i) 0 (reserveArrays Buffers) rfl
      (by rw [hV0, hVm]; omega) (by rw [hI0, hIm]; omega) (by rw [hT0, hTm]; omega)
    have hvl := copyLoop_vertices_length (Buffers.take i) 0 (reserveArrays Buffers)
    have hil := copyLoop_indices_length (Buffers.take i) 0 (reserveArrays Buffers)
    have htl := copyLoop_material_length (Buffers.take i) 0 (reserveArrays Buffers)
    have hTake : trianglesBefore (Buffers.take i) (Buffers.take i).length
        = ((Buffers.take i).map FVoxelProcMeshBuffers.NumTriangles).sum := by
      unfold trianglesBefore
      rw [List.take_length]
    rw [hTake] at hil htl
    rw [hV0] at hvl
    rw [hI0] at hil
    rw [hT0] at htl
    rw [hvm, him, htm, hvl, hil, htl, hVm, hIm, hTm]
    clear hvm him htm hvl hil htl hVm hIm hTm hV0 hI0 hT0 hTake hSplit
    refine ⟨hc, rfl, rfl, rfl, ?_, ?_, ?_, rfl⟩ <;> omega

theorem reserved_capacity_suffices_witness :
    (([cubeBuffer, triangleBuffer].map FVoxelProcMeshBuffers.GetNumVertices).sum ≤ 2147483647
      ∧ ([cubeBuffer, triangleBuffer].map FVoxelProcMeshBuffers.GetNumIndices).sum ≤ 2147483647)
    ∧ CapacityChecksHold [cubeBuffer, triangleBuffer]
    ∧ triangleBuffer.GetNumVertices
        ≤ (copyLoop [cubeBuffer] 0 (reserveArrays [cubeBuffer, triangleBuffer])).VerticesMax
          - (copyLoop [cubeBuffer] 0 (reserveArrays [cubeBuffer, triangleBuffer])).Vertices.length
    ∧ triangleBuffer.NumTriangles
        ≤ (copyLoop [cubeBuffer] 0 (reserveArrays [cubeBuffer, triangleBuffer])).IndicesMax
          - (copyLoop [cubeBuffer] 0 (reserveArrays [cubeBuffer, triangleBuffer])).Indices.length :=
  ⟨⟨by decide, by decide⟩,
    (reserved_capacity_suffices [cubeBuffer, triangleBuffer] (by decide) (by decide)).1,
    ((reserved_capacity_suffices [cubeBuffer, triangleBuffer] (by decide) (by decide)).2 1
      (by decide)).2.2.2.2.1,
    ((reserved_capacity_suffices [cubeBuffer, triangleBuffer] (by decide) (by decide)).2 1
      (by decide)).2.2.2.2.2.1⟩

/-! ## A cook run without chunks -/

theorem Clamp_mono (x y M : Int) (hM : 0 ≤ M) (h : x ≤ y) : Clamp x 0 M ≤ Clamp y 0 M := by
  unfold Clamp
  split <;> split <;> (try split) <;> (try split) <;> omega

theorem monotone_or_antitone_comp {α β γ : Type} [Preorder α] [Preorder β] [Preorder γ]
    (g : β → γ) (f : α → β) (hg : Monotone g ∨ Antitone g) (hf : Monotone f ∨ Antitone f) :
    Monotone (fun x => g (f x)) ∨ Antitone (fun x => g (f x)) := by
  rcases hg with hg | hg <;> rcases hf with hf | hf
  · exact Or.inl (hg.comp hf)
  · exact Or.inr (hg.comp_antitone hf)
  · exact Or.inr (hg.comp_monotone hf)
  · exact Or.inl (hg.comp hf)

theorem axisPosition_between (F : FFloatMath) (hF : F.Ordered) (v s m c n : ℚ) (S : Int)
    (hS : 1 ≤ S)
    (h : Clamp (F.FloorToInt (F.mul (F.div (F.sub (F.add v (F.mul (F.ofInt 1) s)) m) c) n))
          0 (S - 1)
       = Clamp (F.FloorToInt (F.mul (F.div (F.sub (F.add v (F.mul (F.ofInt (-1)) s)) m) c) n))
          0 (S - 1)) :
    Clamp (F.FloorToInt (F.mul (F.div (F.sub (F.add v (F.mul (F.ofInt 1) s)) m) c) n))
          0 (S - 1)
      = Clamp (F.FloorToInt (F.mul (F.div (F.sub (F.add v (F.mul (F.ofInt 0) s)) m) c) n))
          0 (S - 1) := by
  have hM : (0 : Int) ≤ S - 1 := by omega
  have hClamp : Monotone (fun x : Int => Clamp x 0 (S - 1)) := fun x y hxy =>
    Clamp_mono x y (S - 1) hM hxy
  have h1 : Monotone (fun t => F.mul t s) ∨ Antitone (fun t => F.mul t s) := hF.mul s
  have h2 := monotone_or_antitone_comp (fun x => F.add v x) (fun t => F.mul t s)
    (Or.inl (hF.add v)) h1
  have h3 := monotone_or_antitone_comp (fun x => F.sub x m) _ (Or.inl (hF.sub m)) h2
  have h4 := monotone_or_antitone_comp (fun x => F.div x c) _ (hF.div c) h3
  have h5 := monotone_or_antitone_comp (fun x => F.mul x n) _ (hF.mul n) h4
  have h6 := monotone_or_antitone_comp F.FloorToInt _ (Or.inl hF.FloorToInt) h5
  have h7 := monotone_or_antitone_comp (fun x : Int => Clamp x 0 (S - 1)) _ (Or.inl hClamp) h6
  have o1 : F.ofInt (-1) ≤ F.ofInt 0 := hF.ofInt (by decide)
  have o2 : F.ofInt 0 ≤ F.ofInt 1 := hF.ofInt (by decide)
  rcases h7 with hm | ha
  · have a1 := hm o1
    have a2 := hm o2
    simp only at a1 a2
    omega
  · have a1 := ha o1
    have a2 := ha o2
    simp only at a1 a2
    omega

theorem bucketIndex_inj (Size P Q : FIntVector) (hX : 1 ≤ Size.X) (hY : 1 ≤ Size.Y)
    (pX : 0 ≤ P.X ∧ P.X ≤ Size.X - 1) (pY : 0 ≤ P.Y ∧ P.Y ≤ Size.Y - 1)
    (qX : 0 ≤ Q.X ∧ Q.X ≤ Size.X - 1) (qY : 0 ≤ Q.Y ∧ Q.Y ≤ Size.Y - 1)
    (h : bucketIndex Size P = bucketIndex Size Q) : P = Q := by
  unfold bucketIndex at h
  have eP : P.X + Size.X * P.Y + Size.X * Size.Y * P.Z
      = P.X + Size.X * (P.Y + Size.Y * P.Z) := by ring
  have eQ : Q.X + Size.X * Q.Y + Size.X * Size.Y * Q.Z
      = Q.X + Size.X * (Q.Y + Size.Y * Q.Z) := by ring
  rw [eP, eQ] at h
  have hx : P.X = Q.X := by
    have := congrArg (fun t => t % Size.X) h
    simp only [Int.add_mul_emod_self_left] at this
    rw [Int.emod_eq_of_lt pX.1 (by omega), Int.emod_eq_of_lt qX.1 (by omega)] at this
    exact this
  rw [hx] at h
  have h2 : P.Y + Size.Y * P.Z = Q.Y + Size.Y * Q.Z := by
    have := add_left_cancel h
    exact mul_left_cancel₀ (by omega) this
  have hy : P.Y = Q.Y := by
    have := congrArg (fun t => t % Size.Y) h2
    simp only [Int.add_mul_emod_self_left] at this
    rw [Int.emod_eq_of_lt pY.1 (by omega), Int.emod_eq_of_lt qY.1 (by omega)] at this
    exact this
  rw [hy] at h2
  have hz : P.Z = Q.Z := by
    have := add_left_cancel h2
    exact mul_left_cancel₀ (by omega) this
  cases P
  cases Q
  simp only at hx hy hz
  rw [hx, hy, hz]

theorem copyBucket_inj (F : FFloatMath) (Box : FBox) (Size : FIntVector) (LOD : Nat) (N : Int)
    (V : FVector) (hX : 1 ≤ Size.X) (hY : 1 ≤ Size.Y) (hZ : 1 ≤ Size.Z)
    (o1 o2 : Int × Int × Int)
    (h : copyBucket F Box Size LOD N V o1 = copyBucket F Box Size LOD N V o2) :
    bucketPosition F Box Size LOD N V o1.1 o1.2.1 o1.2.2
      = bucketPosition F Box Size LOD N V o2.1 o2.2.1 o2.2.2 := by
  unfold copyBucket at h
  have r1 := bucketIndex_range Size (bucketPosition F Box Size LOD N V o1.1 o1.2.1 o1.2.2) hX hY
    (Clamp_range _ _ hX) (Clamp_range _ _ hY) (Clamp_range _ _ hZ)
  have r2 := bucketIndex_range Size (bucketPosition F Box Size LOD N V o2.1 o2.2.1 o2.2.2) hX hY
    (Clamp_range _ _ hX) (Clamp_range _ _ hY) (Clamp_range _ _ hZ)
  apply bucketIndex_inj Size _ _ hX hY (Clamp_range _ _ hX) (Clamp_range _ _ hY)
    (Clamp_range _ _ hX) (Clamp_range _ _ hY)
  omega

theorem copyBucket_lt (F : FFloatMath) (Box : FBox) (Size : FIntVector) (LOD : Nat) (N : Int)
    (V : FVector) (hX : 1 ≤ Size.X) (hY : 1 ≤ Size.Y) (hZ : 1 ≤ Size.Z) (o : Int × Int × Int) :
    copyBucket F Box Size LOD N V o < (Size.X * Size.Y * Size.Z).toNat :=
  bucketPosition_index_lt Box Size LOD N V o.1 o.2.1 o.2.2 hX hY hZ

theorem neighbor_copies_distinct (pX pY pZ : Int → Int)
    (bX : pX 1 = pX (-1) → pX 1 = pX 0) (bY : pY 1 = pY (-1) → pY 1 = pY 0)
    (bZ : pZ 1 = pZ (-1) → pZ 1 = pZ 0) (o1 o2 : Int × Int × Int)
    (h1 : o1 ∈ neighborOffsets) (h2 : o2 ∈ neighborOffsets)
    (hne : (⟨pX o1.1, pY o1.2.1, pZ o1.2.2⟩ : FIntVector) ≠ ⟨pX 0, pY 0, pZ 0⟩)
    (heq : (⟨pX o1.1, pY o1.2.1, pZ o1.2.2⟩ : FIntVector) = ⟨pX o2.1, pY o2.2.1, pZ o2.2.2⟩) :
    o1 = o2 := by
  simp only [neighborOffsets, List.mem_cons, List.mem_singleton, List.not_mem_nil, or_false]
    at h1 h2
  simp only [ne_eq, FIntVector.mk.injEq] at hne heq
  rcases h1 with rfl | rfl | rfl | rfl | rfl | rfl <;>
    rcases h2 with rfl | rfl | rfl | rfl | rfl | rfl <;>
    first
    | rfl
    | (exfalso
       simp only [and_true, true_and] at hne heq
       omega)

theorem bucketPosition_split (F : FFloatMath) (Box : FBox) (Size : FIntVector) (LOD : Nat) (N : Int) (V : FVector)
    (ox oy oz : Int) :
    bucketPosition F Box Size LOD N V ox oy oz
      = ⟨(bucketPosition F Box Size LOD N V ox 0 0).X, (bucketPosition F Box Size LOD N V 0 oy 0).Y,
          (bucketPosition F Box Size LOD N V 0 0 oz).Z⟩ := rfl

theorem neighbor_positions_distinct (F : FFloatMath) (hF : F.Ordered) (Box : FBox) (Size : FIntVector) (LOD : Nat) (N : Int)
    (V : FVector) (hX : 1 ≤ Size.X) (hY : 1 ≤ Size.Y) (hZ : 1 ≤ Size.Z)
    (o1 o2 : Int × Int × Int) (h1 : o1 ∈ neighborOffsets) (h2 : o2 ∈ neighborOffsets)
    (hne : bucketPosition F Box Size LOD N V o1.1 o1.2.1 o1.2.2
      ≠ bucketPosition F Box Size LOD N V 0 0 0)
    (heq : bucketPosition F Box Size LOD N V o1.1 o1.2.1 o1.2.2
      = bucketPosition F Box Size LOD N V o2.1 o2.2.1 o2.2.2) : o1 = o2 := by
  rw [bucketPosition_split F Box Size LOD N V o1.1, bucketPosition_split F Box Size LOD N V 0 0 0]
    at hne
  rw [bucketPosition_split F Box Size LOD N V o1.1, bucketPosition_split F Box Size LOD N V o2.1]
    at heq
  exact neighbor_copies_distinct
    (fun o => (bucketPosition F Box Size LOD N V o 0 0).X)
    (fun o => (bucketPosition F Box Size LOD N V 0 o 0).Y)
    (fun o => (bucketPosition F Box Size LOD N V 0 0 o).Z)
    (axisPosition_between F hF _ _ _ _ _ _ hX) (axisPosition_between F hF _ _ _ _ _ _ hY)
    (axisPosition_between F hF _ _ _ _ _ _ hZ) o1 o2 h1 h2 hne heq

theorem addToBucket_getD (E : List (List FVector)) (i : Nat) (V : FVector) (hi : i < E.length)
    (k : Nat) :
    (addToBucket E i V).getD k [] = E.getD k [] ++ if k = i then [V] else [] := by
  induction E generalizing i k with
  | nil => simp at hi
  | cons b E ih =>
    cases i with
    | zero =>
      cases k with
      | zero => simp [addToBucket]
      | succ k => simp [addToBucket]
    | succ i =>
      cases k with
      | zero => simp [addToBucket]
      | succ k =>
        have := ih i (by simpa using hi) k
        simpa [addToBucket] using this

theorem foldl_addToBucket_length (l : List Nat) (E : List (List FVector)) (V : FVector) :
    (l.foldl (fun Elems i => addToBucket Elems i V) E).length = E.length := by
  induction l generalizing E with
  | nil => rfl
  | cons i l ih => rw [List.foldl_cons, ih, addToBucket_length]

theorem foldl_addToBucket_getD (l : List Nat) (E : List (List FVector)) (V : FVector)
    (hl : ∀ i ∈ l, i < E.length) (k : Nat) :
    (l.foldl (fun Elems i => addToBucket Elems i V) E).getD k []
      = E.getD k [] ++ List.replicate (l.count k) V := by
  induction l generalizing E with
  | nil => simp
  | cons i l ih =>
    rw [List.foldl_cons, ih _ (by
      intro j hj
      rw [addToBucket_length]
      exact hl j (List.mem_cons_of_mem _ hj)),
      addToBucket_getD E i V (hl i (List.mem_cons_self _ _)) k, List.count_cons]
    by_cases hk : k = i
    · subst hk
      simp [List.replicate_succ', List.replicate_add]
      rw [← List.replicate_succ, List.replicate_succ']
    · have hik : ¬ i = k := fun e => hk e.symm
      simp [hk, hik]

theorem foldl_addToBucket_entries (l : List Nat) (E : List (List FVector)) (V : FVector)
    (hl : ∀ i ∈ l, i < E.length) :
    totalEntries (l.foldl (fun Elems i => addToBucket Elems i V) E)
      = totalEntries E + l.length := by
  induction l generalizing E with
  | nil => simp
  | cons i l ih =>
    rw [List.foldl_cons, ih _ (by
      intro j hj
      rw [addToBucket_length]
      exact hl j (List.mem_cons_of_mem _ hj)),
      addToBucket_entries E i V (hl i (List.mem_cons_self _ _)), List.length_cons]
    omega

theorem Lambda_main (F : FFloatMath) (Box : FBox) (Size : FIntVector) (LOD : Nat) (N : Int) (V : FVector)
    (E : List (List FVector)) (M : FIntVector) :
    Lambda F Box Size LOD N V (E, M) 0 0 0
      = (addToBucket E (copyBucket F Box Size LOD N V (0, 0, 0)) V,
          bucketPosition F Box Size LOD N V 0 0 0) := by
  unfold Lambda copyBucket
  simp only [and_self, if_true]

theorem Lambda_copies (F : FFloatMath) (Box : FBox) (Size : FIntVector) (LOD : Nat) (N : Int) (V : FVector)
    (Offsets : List (Int × Int × Int))
    (hnz : ∀ o ∈ Offsets, ¬ (o.1 = 0 ∧ o.2.1 = 0 ∧ o.2.2 = 0))
    (E : List (List FVector)) (M : FIntVector) :
    Offsets.foldl (fun State o => Lambda F Box Size LOD N V State o.1 o.2.1 o.2.2) (E, M)
      = (((Offsets.filter fun o =>
            decide (bucketPosition F Box Size LOD N V o.1 o.2.1 o.2.2 ≠ M)).map
            (copyBucket F Box Size LOD N V)).foldl (fun Elems i => addToBucket Elems i V) E,
          M) := by
  induction Offsets generalizing E with
  | nil => rfl
  | cons o Rest ih =>
    have hStep : Lambda F Box Size LOD N V (E, M) o.1 o.2.1 o.2.2
        = (if bucketPosition F Box Size LOD N V o.1 o.2.1 o.2.2 = M then E
            else addToBucket E (copyBucket F Box Size LOD N V o) V, M) := by
      unfold Lambda copyBucket
      simp only
      rw [if_neg (hnz o (List.mem_cons_self _ _))]
      split <;> rfl
    rw [List.foldl_cons, hStep, ih (fun p hp => hnz p (List.mem_cons_of_mem _ hp))]
    by_cases hp : bucketPosition F Box Size LOD N V o.1 o.2.1 o.2.2 = M
    · rw [if_pos hp, List.filter_cons_of_neg (by simp [hp])]
    · rw [if_neg hp, List.filter_cons_of_pos (by simp [hp]), List.map_cons, List.foldl_cons]


theorem assignVertex_written (F : FFloatMath) (Box : FBox) (Size : FIntVector) (LOD : Nat) (N : Int)
    (E : List (List FVector)) (V : FVector) :
    assignVertex F Box Size LOD N E V
      = (writtenBuckets F Box Size LOD N V).foldl (fun Elems i => addToBucket Elems i V) E := by
  have h : assignVertex F Box Size LOD N E V
      = (neighborOffsets.foldl (fun State o => Lambda F Box Size LOD N V State o.1 o.2.1 o.2.2)
          (Lambda F Box Size LOD N V (E, ⟨0, 0, 0⟩) 0 0 0)).1 := rfl
  rw [h, Lambda_main, Lambda_copies F Box Size LOD N V neighborOffsets (by decide)]
  rfl

theorem writtenBuckets_nodup (F : FFloatMath) (hF : F.Ordered) (Box : FBox) (Size : FIntVector) (LOD : Nat) (N : Int)
    (V : FVector) (hX : 1 ≤ Size.X) (hY : 1 ≤ Size.Y) (hZ : 1 ≤ Size.Z) :
    (writtenBuckets F Box Size LOD N V).Nodup := by
  unfold writtenBuckets
  rw [List.nodup_cons]
  constructor
  · intro hmem
    obtain ⟨o, ho, he⟩ := List.mem_map.mp hmem
    have hne := (List.mem_filter.mp ho).2
    simp only [ne_eq, decide_eq_true_eq] at hne
    exact hne (copyBucket_inj F Box Size LOD N V hX hY hZ o (0, 0, 0) he)
  · apply List.Nodup.map_on
    · intro x hx y hy hxy
      have hx1 := List.mem_filter.mp hx
      have hy1 := List.mem_filter.mp hy
      have hne := hx1.2
      simp only [ne_eq, decide_eq_true_eq] at hne
      exact neighbor_positions_distinct F hF Box Size LOD N V hX hY hZ x y hx1.1 hy1.1 hne
        (copyBucket_inj F Box Size LOD N V hX hY hZ x y hxy)
    · exact List.Nodup.filter _ (by decide)

theorem mem_writtenBuckets (F : FFloatMath) (Box : FBox) (Size : FIntVector) (LOD : Nat) (N : Int)
    (V : FVector) (k : Nat) :
    k ∈ writtenBuckets F Box Size LOD N V ↔ k ∈ vertexBuckets F Box Size LOD N V := by
  unfold writtenBuckets vertexBuckets
  rw [List.map_cons, List.mem_cons, List.mem_cons, List.mem_map, List.mem_map]
  constructor
  · rintro (h | ⟨o, ho, he⟩)
    · exact Or.inl h
    · exact Or.inr ⟨o, (List.mem_filter.mp ho).1, he⟩
  · rintro (h | ⟨o, ho, he⟩)
    · exact Or.inl h
    · by_cases hp : bucketPosition F Box Size LOD N V o.1 o.2.1 o.2.2
          = bucketPosition F Box Size LOD N V 0 0 0
      · left
        rw [← he]
        unfold copyBucket
        rw [hp]
      · right
        exact ⟨o, List.mem_filter.mpr ⟨ho, by simp [hp]⟩, he⟩

theorem writtenBuckets_lt (F : FFloatMath) (Box : FBox) (Size : FIntVector) (LOD : Nat) (N : Int)
    (V : FVector) (hX : 1 ≤ Size.X) (hY : 1 ≤ Size.Y) (hZ : 1 ≤ Size.Z) :
    ∀ i ∈ writtenBuckets F Box Size LOD N V, i < (Size.X * Size.Y * Size.Z).toNat := by
  intro i hi
  rw [mem_writtenBuckets] at hi
  unfold vertexBuckets at hi
  obtain ⟨o, _, rfl⟩ := List.mem_map.mp hi
  exact copyBucket_lt F Box Size LOD N V hX hY hZ o

theorem writtenBuckets_length (F : FFloatMath) (Box : FBox) (Size : FIntVector) (LOD : Nat) (N : Int)
    (V : FVector) :
    1 ≤ (writtenBuckets F Box Size LOD N V).length ∧ (writtenBuckets F Box Size LOD N V).length ≤ 7 := by
  unfold writtenBuckets
  rw [List.length_cons, List.length_map]
  have h := List.length_filter_le (fun Offset : Int × Int × Int =>
      decide (bucketPosition F Box Size LOD N V Offset.1 Offset.2.1 Offset.2.2
        ≠ bucketPosition F Box Size LOD N V 0 0 0)) neighborOffsets
  have h6 : neighborOffsets.length = 6 := rfl
  omega

theorem writtenBuckets_dedup (F : FFloatMath) (hF : F.Ordered) (Box : FBox) (Size : FIntVector) (LOD : Nat) (N : Int)
    (V : FVector) (hX : 1 ≤ Size.X) (hY : 1 ≤ Size.Y) (hZ : 1 ≤ Size.Z) :
    (writtenBuckets F Box Size LOD N V).length = (vertexBuckets F Box Size LOD N V).dedup.length := by
  apply List.Perm.length_eq
  rw [List.perm_ext_iff_of_nodup (writtenBuckets_nodup F hF Box Size LOD N V hX hY hZ)
    (List.nodup_dedup _)]
  intro k
  rw [mem_writtenBuckets, List.mem_dedup]

theorem assignVertex_getD (F : FFloatMath) (hF : F.Ordered) (Box : FBox) (Size : FIntVector) (LOD : Nat) (N : Int)
    (hX : 1 ≤ Size.X) (hY : 1 ≤ Size.Y) (hZ : 1 ≤ Size.Z)
    (E : List (List FVector)) (hE : E.length = (Size.X * Size.Y * Size.Z).toNat)
    (V : FVector) (k : Nat) :
    (assignVertex F Box Size LOD N E V).getD k []
      = E.getD k [] ++ if k ∈ vertexBuckets F Box Size LOD N V then [V] else [] := by
  rw [assignVertex_written, foldl_addToBucket_getD _ _ _ (by
    rw [hE]
    exact writtenBuckets_lt F Box Size LOD N V hX hY hZ)]
  by_cases hk : k ∈ vertexBuckets F Box Size LOD N V
  · rw [List.count_eq_one_of_mem (writtenBuckets_nodup F hF Box Size LOD N V hX hY hZ)
      ((mem_writtenBuckets F Box Size LOD N V k).mpr hk), if_pos hk]
    rfl
  · rw [List.count_eq_zero_of_not_mem
      (fun h => hk ((mem_writtenBuckets F Box Size LOD N V k).mp h)), if_neg hk]
    rfl

theorem foldl_assignVertex_getD (F : FFloatMath) (hF : F.Ordered) (Box : FBox) (Size : FIntVector) (LOD : Nat) (N : Int)
    (hX : 1 ≤ Size.X) (hY : 1 ≤ Size.Y) (hZ : 1 ≤ Size.Z)
    (vs : List FVector) (E : List (List FVector))
    (hE : E.length = (Size.X * Size.Y * Size.Z).toNat) (k : Nat) :
    (vs.foldl (assignVertex F Box Size LOD N) E).getD k []
      = E.getD k [] ++ vs.filter fun V => decide (k ∈ vertexBuckets F Box Size LOD N V) := by
  induction vs generalizing E with
  | nil => simp
  | cons V vs ih =>
    rw [List.foldl_cons, ih _ (by rw [assignVertex_length, hE]),
      assignVertex_getD F hF Box Size LOD N hX hY hZ E hE V k]
    by_cases hk : k ∈ vertexBuckets F Box Size LOD N V
    · rw [if_pos hk, List.filter_cons_of_pos (by simp [hk])]
      simp
    · rw [if_neg hk, List.filter_cons_of_neg (by simp [hk])]
      simp

theorem assignVertices_getD (F : FFloatMath) (hF : F.Ordered) (Box : FBox) (Size : FIntVector) (LOD : Nat) (N : Int)
    (hX : 1 ≤ Size.X) (hY : 1 ≤ Size.Y) (hZ : 1 ≤ Size.Z)
    (Buffers : List FVoxelProcMeshBuffers) (E : List (List FVector))
    (hE : E.length = (Size.X * Size.Y * Size.Z).toNat) (k : Nat) :
    (assignVertices F Box Size LOD N Buffers E).getD k []
      = E.getD k [] ++ (Buffers.flatMap fun Buffer => Buffer.PositionVertexBuffer).filter
          fun V => decide (k ∈ vertexBuckets F Box Size LOD N V) := by
  induction Buffers generalizing E with
  | nil => simp [assignVertices]
  | cons B0 Bs ih =>
    have hstep : assignVertices F Box Size LOD N (B0 :: Bs) E
        = assignVertices F Box Size LOD N Bs
            (B0.PositionVertexBuffer.foldl (assignVertex F Box Size LOD N) E) := by
      simp [assignVertices]
    rw [hstep, ih _ (by rw [foldl_assignVertex_length, hE]),
      foldl_assignVertex_getD F hF Box Size LOD N hX hY hZ _ E hE k, List.flatMap_cons,
      List.filter_append, List.append_assoc]

theorem replicate_nil_getD (n k : Nat) :
    (List.replicate n ([] : List FVector)).getD k [] = [] := by
  rw [List.getD_eq_getElem?_getD, List.getElem?_replicate]
  split <;> rfl

theorem writtenBuckets_count_main (F : FFloatMath) (Box : FBox) (Size : FIntVector) (LOD : Nat)
    (N : Int) (V : FVector) (hX : 1 ≤ Size.X) (hY : 1 ≤ Size.Y) (hZ : 1 ≤ Size.Z) :
    (writtenBuckets F Box Size LOD N V).count (copyBucket F Box Size LOD N V (0, 0, 0)) = 1 := by
  unfold writtenBuckets
  rw [List.count_cons_self, List.count_eq_zero_of_not_mem]
  intro hmem
  obtain ⟨o, ho, he⟩ := List.mem_map.mp hmem
  have hne := (List.mem_filter.mp ho).2
  simp only [ne_eq, decide_eq_true_eq] at hne
  exact hne (copyBucket_inj F Box Size LOD N V hX hY hZ o (0, 0, 0) he)

theorem exactMath_ordered : exactMath.Ordered where
  ofInt := fun a b h => by
    show ((a : Int) : ℚ) ≤ (b : ℚ)
    exact_mod_cast h
  add := fun A a b h => by
    show A + a ≤ A + b
    linarith
  sub := fun B a b h => by
    show a - B ≤ b - B
    linarith
  mul := fun B => by
    rcases le_total 0 B with hB | hB
    · exact Or.inl fun a b h => mul_le_mul_of_nonneg_right h hB
    · exact Or.inr fun a b h => mul_le_mul_of_nonpos_right h hB
  div := fun B => by
    rcases le_total 0 B with hB | hB
    · exact Or.inl fun a b h => div_le_div_of_nonneg_right h hB
    · exact Or.inr fun a b h => div_le_div_of_nonpos_of_le hB h
  FloorToInt := fun a b h => Int.floor_le_floor h

/-! ## The buckets of one vertex (C21) -/

/-- C21: past the guard `Size.GetMax() <= 64`, `filledConvexElems` is the `ConvexElems` that hull
merging starts from, and the seven calls of `Lambda` for one input vertex add the vertex at the
indices `cookerWritten`, in call order: first the primary bucket, then the bucket of every copy
whose position differs from `MainPosition`. For every float arithmetic: the primary bucket
occurs exactly once among these indices, the indices are valid and are exactly the buckets the
vertex and its six copies fall into, there are between 1 and 7 of them, and one pass of the vertex
loop adds that many entries, appending to bucket `k` one entry per occurrence of `k` among the
indices. When the float operations are ordered, the indices are pairwise different, so one pass
appends the vertex once to each bucket the vertex or one of its copies falls into and leaves
every other bucket unchanged; and when hull merging starts bucket `k` holds, in input order, the
input vertices one of whose seven positions falls into `k`, each as often as it occurs in the
input. -/
theorem vertex_once_per_bucket (F : FFloatMath) (self : FVoxelAsyncPhysicsCooker_PhysX)
    (hGrid : (gridSize F (verticesBox self.Buffers) self.LOD self.NumConvexHullsPerAxis).GetMax
      ≤ 64)
    (Vertex : FVector) (k : Nat) :
    (mergedConvexElems F self
      = if ¬ (removeEmpty (mergeForward (filledConvexElems F self))).length > 0 then none
        else some (mergeBackward (removeEmpty (mergeForward (filledConvexElems F self)))))
    ∧ (∀ E : List (List FVector),
        assignVertex F (verticesBox self.Buffers)
            (gridSize F (verticesBox self.Buffers) self.LOD self.NumConvexHullsPerAxis) self.LOD
            self.NumConvexHullsPerAxis E Vertex
          = (cookerWritten F self Vertex).foldl (fun Elems i => addToBucket Elems i Vertex) E)
    ∧ (cookerWritten F self Vertex).head? = (cookerBuckets F self Vertex).head?
    ∧ (cookerWritten F self Vertex).count ((cookerBuckets F self Vertex).headD 0) = 1
    ∧ (∀ b : Nat, b ∈ cookerWritten F self Vertex ↔ b ∈ cookerBuckets F self Vertex)
    ∧ (∀ b ∈ cookerWritten F self Vertex, b < (filledConvexElems F self).length)
    ∧ 1 ≤ (cookerWritten F self Vertex).length
    ∧ (cookerWritten F self Vertex).length ≤ 7
    ∧ (∀ E : List (List FVector), E.length = (filledConvexElems F self).length →
        (assignVertex F (verticesBox self.Buffers)
            (gridSize F (verticesBox self.Buffers) self.LOD self.NumConvexHullsPerAxis) self.LOD
            self.NumConvexHullsPerAxis E Vertex).getD k []
          = E.getD k [] ++ List.replicate ((cookerWritten F self Vertex).count k) Vertex)
    ∧ (∀ E : List (List FVector), E.length = (filledConvexElems F self).length →
        totalEntries (assignVertex F (verticesBox self.Buffers)
            (gridSize F (verticesBox self.Buffers) self.LOD self.NumConvexHullsPerAxis) self.LOD
            self.NumConvexHullsPerAxis E Vertex)
          = totalEntries E + (cookerWritten F self Vertex).length)
    ∧ (F.Ordered →
        (cookerWritten F self Vertex).Nodup
        ∧ (cookerWritten F self Vertex).length = (cookerBuckets F self Vertex).dedup.length
        ∧ (∀ E : List (List FVector), E.length = (filledConvexElems F self).length →
            (assignVertex F (verticesBox self.Buffers)
                (gridSize F (verticesBox self.Buffers) self.LOD self.NumConvexHullsPerAxis)
                self.LOD self.NumConvexHullsPerAxis E Vertex).getD k []
              = E.getD k [] ++ if k ∈ cookerBuckets F self Vertex then [Vertex] else [])
        ∧ (filledConvexElems F self).getD k []
            = (self.Buffers.flatMap fun Buffer => Buffer.PositionVertexBuffer).filter
                (fun V => decide (k ∈ cookerBuckets F self V))
        ∧ ((filledConvexElems F self).getD k []).count Vertex
            = if k ∈ cookerBuckets F self Vertex then
                (self.Buffers.flatMap fun Buffer => Buffer.PositionVertexBuffer).count Vertex
              else 0) := by
  obtain ⟨gX, gY, gZ⟩ :=
    @gridSize_pos F (verticesBox self.Buffers) self.LOD self.NumConvexHullsPerAxis
  have hMerged : mergedConvexElems F self
      = if ¬ (removeEmpty (mergeForward (filledConvexElems F self))).length > 0 then none
        else some (mergeBackward (removeEmpty (mergeForward (filledConvexElems F self)))) := by
    show (if ¬ (gridSize F (verticesBox self.Buffers) self.LOD self.NumConvexHullsPerAxis).GetMax
        ≤ 64 then none else _) = _
    rw [if_neg (not_not.mpr hGrid)]
    rfl
  have hLen : (filledConvexElems F self).length
      = ((gridSize F (verticesBox self.Buffers) self.LOD self.NumConvexHullsPerAxis).X
        * (gridSize F (verticesBox self.Buffers) self.LOD self.NumConvexHullsPerAxis).Y
        * (gridSize F (verticesBox self.Buffers) self.LOD self.NumConvexHullsPerAxis).Z).toNat := by
    unfold filledConvexElems
    rw [assignVertices_length, List.length_replicate]
  have hLt : ∀ b ∈ cookerWritten F self Vertex, b < (filledConvexElems F self).length := by
    rw [hLen]
    exact writtenBuckets_lt F _ _ _ _ Vertex gX gY gZ
  refine ⟨hMerged, fun E => assignVertex_written F _ _ _ _ E Vertex, rfl,
    writtenBuckets_count_main F _ _ _ _ Vertex gX gY gZ,
    fun b => mem_writtenBuckets F _ _ _ _ Vertex b, hLt,
    (writtenBuckets_length F _ _ _ _ Vertex).1, (writtenBuckets_length F _ _ _ _ Vertex).2,
    ?_, ?_, ?_⟩
  · intro E hE
    rw [assignVertex_written]
    exact foldl_addToBucket_getD _ E Vertex (by rw [hE]; exact hLt) k
  · intro E hE
    rw [assignVertex_written]
    exact foldl_addToBucket_entries _ E Vertex (by rw [hE]; exact hLt)
  · intro hF
    have hFilled : (filledConvexElems F self).getD k []
        = (self.Buffers.flatMap fun Buffer => Buffer.PositionVertexBuffer).filter
            fun V => decide (k ∈ cookerBuckets F self V) := by
      unfold filledConvexElems
      rw [assignVertices_getD F hF _ _ _ _ gX gY gZ _ _ (List.length_replicate _ _) k,
        replicate_nil_getD, List.nil_append]
      rfl
    refine ⟨writtenBuckets_nodup F hF _ _ _ _ Vertex gX gY gZ,
      writtenBuckets_dedup F hF _ _ _ _ Vertex gX gY gZ, ?_, hFilled, ?_⟩
    · intro E hE
      exact assignVertex_getD F hF _ _ _ _ gX gY gZ E (by rw [hE, hLen]) Vertex k
    · rw [hFilled]
      by_cases hk : k ∈ cookerBuckets F self Vertex
      · rw [if_pos hk]
        exact List.count_filter (decide_eq_true hk)
      · rw [if_neg hk]
        apply List.count_eq_zero_of_not_mem
        intro hm
        exact hk (of_decide_eq_true (List.mem_filter.mp hm).2)

/-- Witness for C21: in the grid of two cells along X the vertex `(31.5, 0, 0)` lies in cell 0 and
its copy moved by `+1` along X in cell 1; it is written to the buckets 0 and 1, once each, and
bucket 1 holds the vertices `(64, 0, 0)` and `(31.5, 0, 0)` when hull merging starts. -/
theorem vertex_once_per_bucket_witness :
    (gridSize exactMath (verticesBox borderCooker.Buffers) borderCooker.LOD
        borderCooker.NumConvexHullsPerAxis).GetMax ≤ 64
    ∧ exactMath.Ordered
    ∧ cookerBuckets exactMath borderCooker ⟨63 / 2, 0, 0⟩ = [0, 1, 0, 0, 0, 0, 0]
    ∧ cookerWritten exactMath borderCooker ⟨63 / 2, 0, 0⟩ = [0, 1]
    ∧ (cookerWritten exactMath borderCooker ⟨63 / 2, 0, 0⟩).Nodup
    ∧ (filledConvexElems exactMath borderCooker).getD 1 []
        = (borderCooker.Buffers.flatMap fun Buffer => Buffer.PositionVertexBuffer).filter
            (fun V => decide (1 ∈ cookerBuckets exactMath borderCooker V))
    ∧ filledConvexElems exactMath borderCooker
        = [[⟨0, 0, 0⟩, ⟨63 / 2, 0, 0⟩, ⟨0, 1, 1⟩], [⟨64, 0, 0⟩, ⟨63 / 2, 0, 0⟩]]
    ∧ mergedConvexElems exactMath borderCooker
        = some [[⟨64, 0, 0⟩, ⟨63 / 2, 0, 0⟩, ⟨0, 0, 0⟩, ⟨63 / 2, 0, 0⟩, ⟨0, 1, 1⟩]] :=
  ⟨by decide!, exactMath_ordered, by decide!, by decide!,
    ((vertex_once_per_bucket exactMath borderCooker (by decide!) ⟨63 / 2, 0, 0⟩
      1).2.2.2.2.2.2.2.2.2.2 exactMath_ordered).1,
    ((vertex_once_per_bucket exactMath borderCooker (by decide!) ⟨63 / 2, 0, 0⟩
      1).2.2.2.2.2.2.2.2.2.2 exactMath_ordered).2.2.2.1,
    by decide!, by decide!⟩

end VoxelPlugin
